import Mathlib

/-!
# mtCOJO / GSMR (`main/mtcojo.cpp`): a shallow embedding in exact arithmetic

Conventions of the embedding.

* `double` values are rationals (`ℚ`); every arithmetic operation is exact.
* `eigenVector` is a function `ℕ → ℚ`, `eigenMatrix` a function `ℕ → ℕ → ℚ`
  (coefficient access `m(i,j)` is `m i j`; Eigen does not check bounds, so a
  read outside the allocated shape yields whatever the function holds there).
* Loops `for (i = 0; i < n; i++)` are left folds over `List.range n`; an
  assignment `m(i,j) = v` is `setEntry m i j v`.
* Library routines that are not part of the repository sources (`sqrt`,
  `StatFunc::pchisq`, `StatFunc::chi_prob`, `StatFunc::ControlFDR_BH`, the
  genotype correlations) are fields of the structures `Numerics` and `GctaState`.
* `std::map<string, T>` is an association list with `List.lookup` for `find`;
  `LOGGER.e` (fatal) is an error of the `Except` monad.
-/

namespace Gcta

/-! ## Definitions -/

/-- Numeric library routines used by `mtcojo.cpp` whose code is outside the
repository, and the behaviour of double arithmetic where the rationals do not have it.

* `sqrt` from `<cmath>`, `StatFunc::pchisq(x, df)`, `StatFunc::chi_prob(df, x)` and
  `StatFunc::ControlFDR_BH`.
* `pchisq_inf`, `pchisq_nan`: what `StatFunc::pchisq(x, 1)` returns when `x` is `+inf`
  (a positive number divided by zero) and when `x` is NaN (zero divided by zero);
  `none` is a NaN, on which every comparison is false.
* `nan`: the rational that stands for a NaN stored in a matrix of doubles; nothing is
  known about it.
* `round`: the double that an arithmetic operation of `quantile` stores for its exact
  result (round to nearest).
* `ldlt_singular a b d u v`: the vector `b_coeff` that Eigen's
  `xt_x.ldlt().solve(xt_y)` returns for the singular matrix `xt_x = [[a, b], [b, d]]`
  and `xt_y = (u, v)`. -/
structure Numerics where
  sqrt : ℚ → ℚ
  pchisq : ℚ → ℚ → ℚ
  chi_prob : ℚ → ℚ → ℚ
  ControlFDR_BH : List ℚ → List ℚ
  pchisq_inf : Option ℚ
  pchisq_nan : Option ℚ
  nan : ℚ
  round : ℚ → ℚ
  ldlt_singular : ℚ → ℚ → ℚ → ℚ → ℚ → ℚ × ℚ

/-- Square root that is exact on squares of rationals
(`qsqrt (a/b) = ⌊√a⌋ / ⌊√b⌋`), used to evaluate the code on concrete inputs. -/
def qsqrt (q : ℚ) : ℚ := (Nat.sqrt q.num.toNat : ℚ) / (Nat.sqrt q.den : ℚ)

/-- A concrete instance of the numeric routines for evaluating examples:
`sqrt` is `qsqrt`, both chi-square tail routines are the decreasing stand-in
`x ↦ 1 / (1 + x)`, and the FDR adjustment leaves the p-values as they are. The tail
is `0` at `+inf` and NaN at NaN, the arithmetic of `quantile` is exact, and the
solve of a singular system returns the zero vector. -/
def exampleNumerics : Numerics where
  sqrt := qsqrt
  pchisq := fun x _ => 1 / (1 + x)
  chi_prob := fun _ x => 1 / (1 + x)
  ControlFDR_BH := fun ps => ps
  pchisq_inf := some 0
  pchisq_nan := none
  nan := 0
  round := fun q => q
  ldlt_singular := fun _ _ _ _ _ => (0, 0)

/-- The value of `StatFunc::pchisq(num / den, 1)` when `den` is 0: the quotient is
`+inf` for a positive `num` and NaN for `num = 0`. -/
def pchisq_nonfinite (nm : Numerics) (num : ℚ) : Option ℚ :=
  if num = 0 then nm.pchisq_nan else nm.pchisq_inf

/-- Assignment `m(i,j) = v` on a matrix. -/
def setEntry (m : ℕ → ℕ → ℚ) (i j : ℕ) (v : ℚ) : ℕ → ℕ → ℚ :=
  fun a b => if a = i ∧ b = j then v else m a b

/-- Assignment `v(i) = x` on a vector. -/
def setCoeff (v : ℕ → ℚ) (i : ℕ) (x : ℚ) : ℕ → ℚ :=
  fun a => if a = i then x else v a

/-- Body of the loop of `mtcojo_cond_single_covar` (mtcojo.cpp 1313-1317)
for SNP row `i`. When the standard error of column 1 is 0 the statistic of column 2 is
not finite and the entry is what `StatFunc::pchisq` returns there. -/
def mtcojo_cond_single_covar_row (nm : Numerics) (bzy bzy_se : ℕ → ℚ)
    (bzx bzx_se : ℕ → ℕ → ℚ) (bxy : ℚ) (ldsc_intercept : ℕ → ℕ → ℚ)
    (mtcojo_est : ℕ → ℕ → ℚ) (i : ℕ) : ℕ → ℕ → ℚ :=
  let est0 := setEntry mtcojo_est i 0 (bzy i - bzx i 0 * bxy)
  let var_bzx_buf := bxy * bxy * bzx_se i 0 * bzx_se i 0
  let cov_bzx_bzy := bxy * ldsc_intercept 0 i * bzx_se i 0 * bzy_se i
  let est1 := setEntry est0 i 1 (nm.sqrt (bzy_se i * bzy_se i + var_bzx_buf - 2 * cov_bzx_bzy))
  setEntry est1 i 2
    (if est1 i 1 = 0 then (pchisq_nonfinite nm (est1 i 0 * est1 i 0)).getD nm.nan
      else nm.pchisq (est1 i 0 * est1 i 0 / est1 i 1 / est1 i 1) 1)

/-- The function `mtcojo_cond_single_covar` (mtcojo.cpp 1307-1321): the
`nsnp × 3` matrix of conditioned effect, standard error and p-value. The
freshly allocated result matrix is taken to hold zeros. -/
def mtcojo_cond_single_covar (nm : Numerics) (bzy bzy_se : ℕ → ℚ)
    (bzx bzx_se : ℕ → ℕ → ℚ) (bxy : ℚ) (ldsc_intercept ldsc_slope : ℕ → ℕ → ℚ)
    (nsnp : ℕ) : ℕ → ℕ → ℚ :=
  (List.range nsnp).foldl
    (mtcojo_cond_single_covar_row nm bzy bzy_se bzx bzx_se bxy ldsc_intercept)
    (fun _ _ => 0)

/-- Vector given by a list of coefficients (zero outside the list). -/
def vecOf (l : List ℚ) : ℕ → ℚ := fun i => l.getD i 0

/-- Matrix given by its list of rows (zero outside the rows). -/
def matOf (rows : List (List ℚ)) : ℕ → ℕ → ℚ := fun i j => (rows.getD i []).getD j 0

/-- `MatrixXd::Identity`. -/
def identityMat : ℕ → ℕ → ℚ := fun a b => if a = b then 1 else 0

/-- `MatrixXd::Zero`. -/
def zeroMat : ℕ → ℕ → ℚ := fun _ _ => 0

/-- The leading `n × n` block of a matrix, as a Mathlib matrix. -/
def toMat (n : ℕ) (m : ℕ → ℕ → ℚ) : Matrix (Fin n) (Fin n) ℚ :=
  Matrix.of fun i j => m i.val j.val

/-- The first `n` coefficients of a vector. -/
def toVec (n : ℕ) (v : ℕ → ℚ) : Fin n → ℚ := fun i => v i.val

/-- A vector of size `n` as a function on all indices (zero past the end). -/
def ofVec {n : ℕ} (v : Fin n → ℚ) : ℕ → ℚ := fun i => if h : i < n then v ⟨i, h⟩ else 0

/-- Exact linear solve `A.ldlt().solve(b)` (Eigen is outside the repository):
Cramer's rule `det(A)⁻¹ · adj(A) · b`, which is the solution of `A x = b`
whenever `A` is invertible. -/
def ldlt_solve {n : ℕ} (A : Matrix (Fin n) (Fin n) ℚ) (b : Fin n → ℚ) : Fin n → ℚ :=
  (A.det)⁻¹ • (A.adjugate.mulVec b)

/-- Inner loop `for (j = 1; j < ncovar; j++)` of mtcojo.cpp 1332-1335 for a
fixed `i`: `r_mat(i,j) = r_mat(j,i) = ldsc_slope(i+1, j+1)` unless `i == j`. -/
def mtcojo_r_mat_inner (ldsc_slope : ℕ → ℕ → ℚ) (ncovar i : ℕ)
    (r_mat : ℕ → ℕ → ℚ) : ℕ → ℕ → ℚ :=
  (List.range' 1 (ncovar - 1)).foldl
    (fun r j => if i = j then r
      else setEntry (setEntry r j i (ldsc_slope (i + 1) (j + 1))) i j (ldsc_slope (i + 1) (j + 1)))
    r_mat

/-- The matrices `d_mat` and `r_mat` built at mtcojo.cpp 1328-1336. -/
def mtcojo_d_r_mat (nm : Numerics) (ldsc_slope : ℕ → ℕ → ℚ) (vp_trait : ℕ → ℚ)
    (ncovar : ℕ) : (ℕ → ℕ → ℚ) × (ℕ → ℕ → ℚ) :=
  (List.range ncovar).foldl
    (fun dr i =>
      (setEntry dr.1 i i (nm.sqrt (ldsc_slope (i + 1) (i + 1) * vp_trait (i + 1))),
       mtcojo_r_mat_inner ldsc_slope ncovar i dr.2))
    (zeroMat, identityMat)

/-- The joint effects `bjxy = d_mat.ldlt().solve(r_mat.ldlt().solve(d_mat*bxy))`
of mtcojo.cpp 1338. -/
def mtcojo_bjxy (nm : Numerics) (ldsc_slope : ℕ → ℕ → ℚ) (vp_trait bxy : ℕ → ℚ)
    (ncovar : ℕ) : ℕ → ℚ :=
  let dr := mtcojo_d_r_mat nm ldsc_slope vp_trait ncovar
  let d_mat := toMat ncovar dr.1
  let r_mat := toMat ncovar dr.2
  ofVec (ldlt_solve d_mat (ldlt_solve r_mat (d_mat.mulVec (toVec ncovar bxy))))

/-- The matrix `bzx_intercept` built at mtcojo.cpp 1342-1347. -/
def mtcojo_bzx_intercept (ldsc_intercept : ℕ → ℕ → ℚ) (ncovar : ℕ) : ℕ → ℕ → ℚ :=
  (List.range (ncovar - 1)).foldl
    (fun m i => (List.range' (i + 1) (ncovar - (i + 1))).foldl
      (fun m j => setEntry (setEntry m j i (ldsc_intercept (i + 1) (j + 1))) i j
        (ldsc_intercept (i + 1) (j + 1))) m)
    identityMat

/-- Inner loop over the covariates for SNP `i` (mtcojo.cpp 1351-1356): the
state is `(d_buf, bzx_se_buf, cov_bzx_bzy)`. -/
def mtcojo_multi_inner (bzy_se : ℕ → ℚ) (bzx bzx_se : ℕ → ℕ → ℚ) (bjxy : ℕ → ℚ)
    (ldsc_intercept : ℕ → ℕ → ℚ) (ncovar i : ℕ) (bzx_se_buf : ℕ → ℕ → ℚ) :
    ℚ × (ℕ → ℕ → ℚ) × ℚ :=
  (List.range ncovar).foldl
    (fun st j =>
      (st.1 + bzx i j * bjxy j,
       setEntry st.2.1 j j (bzx_se i j),
       st.2.2 + bzx_se i j * bzy_se i * bjxy j * ldsc_intercept 0 (j + 1)))
    (0, bzx_se_buf, 0)

/-- Body of the per-SNP loop of `mtcojo_cond_multiple_covars`
(mtcojo.cpp 1350-1361); the state is `(bzx_se_buf, mtcojo_est)`. When the standard
error of column 1 is 0 the statistic of column 2 is not finite and the entry is what
`StatFunc::pchisq` returns there. -/
def mtcojo_multi_row (nm : Numerics) (bzy bzy_se : ℕ → ℚ) (bzx bzx_se : ℕ → ℕ → ℚ)
    (bjxy : ℕ → ℚ) (ldsc_intercept bzx_intercept : ℕ → ℕ → ℚ) (ncovar : ℕ)
    (st : (ℕ → ℕ → ℚ) × (ℕ → ℕ → ℚ)) (i : ℕ) : (ℕ → ℕ → ℚ) × (ℕ → ℕ → ℚ) :=
  let inner := mtcojo_multi_inner bzy_se bzx bzx_se bjxy ldsc_intercept ncovar i st.1
  let d_buf := inner.1
  let bzx_se_buf := inner.2.1
  let cov_bzx_bzy := inner.2.2
  let b := toVec ncovar bjxy
  let var_bzx_buf :=
    Matrix.dotProduct
      (Matrix.vecMul (Matrix.vecMul (Matrix.vecMul b (toMat ncovar bzx_se_buf))
        (toMat ncovar bzx_intercept)) (toMat ncovar bzx_se_buf)) b
  let est0 := setEntry st.2 i 0 (bzy i - d_buf)
  let est1 := setEntry est0 i 1 (nm.sqrt (bzy_se i * bzy_se i + var_bzx_buf - 2 * cov_bzx_bzy))
  (bzx_se_buf, setEntry est1 i 2
    (if est1 i 1 = 0 then (pchisq_nonfinite nm (est1 i 0 * est1 i 0)).getD nm.nan
      else nm.pchisq (est1 i 0 * est1 i 0 / est1 i 1 / est1 i 1) 1))

/-- The function `mtcojo_cond_multiple_covars` (mtcojo.cpp 1323-1364). -/
def mtcojo_cond_multiple_covars (nm : Numerics) (bzy bzy_se : ℕ → ℚ)
    (bzx bzx_se : ℕ → ℕ → ℚ) (bxy : ℕ → ℚ) (ldsc_intercept ldsc_slope : ℕ → ℕ → ℚ)
    (vp_trait : ℕ → ℚ) (nsnp ncovar : ℕ) : ℕ → ℕ → ℚ :=
  let bjxy := mtcojo_bjxy nm ldsc_slope vp_trait bxy ncovar
  let bzx_intercept := mtcojo_bzx_intercept ldsc_intercept ncovar
  ((List.range nsnp).foldl
    (mtcojo_multi_row nm bzy bzy_se bzx bzx_se bjxy ldsc_intercept bzx_intercept ncovar)
    (zeroMat, zeroMat)).2

/-- Scenario 1 of the specification (two SNPs, one covariate): target
effects and standard errors, covariate effects and standard errors. -/
def scenario1_bzy : ℕ → ℚ := vecOf [1/10, -1/20]

/-- Target standard errors of scenario 1. -/
def scenario1_bzy_se : ℕ → ℚ := vecOf [1/100, 1/100]

/-- Covariate effects of scenario 1 (one column). -/
def scenario1_bzx : ℕ → ℕ → ℚ := matOf [[1/5], [1/10]]

/-- Covariate standard errors of scenario 1 (one column). -/
def scenario1_bzx_se : ℕ → ℕ → ℚ := matOf [[1/100], [1/100]]

/-- LDSC intercept matrix of scenario 1: cross-trait intercept `I[0][1] = 0`,
diagonal intercepts `1`. -/
def scenario1_intercept : ℕ → ℕ → ℚ := matOf [[1, 0], [0, 1]]

/-- Two-covariate example: LDSC slope matrix (`S[1][2] = S[2][1] = 1/2`). -/
def example2_slope : ℕ → ℕ → ℚ := matOf [[1, 0, 0], [0, 1, 1/2], [0, 1/2, 1]]

/-- Two-covariate example: symmetric LDSC intercept matrix. -/
def example2_intercept : ℕ → ℕ → ℚ := matOf [[1, 1/2, 1/5], [1/2, 1, 3/10], [1/5, 3/10, 1]]

/-- Two-covariate example: phenotypic variances. -/
def example2_vp : ℕ → ℚ := vecOf [1, 1, 1]

/-- Two-covariate example: GSMR estimates of the two covariates. -/
def example2_bxy : ℕ → ℚ := vecOf [1, 1/2]

/-- Two-covariate example: covariate effects of the single SNP. -/
def example2_bzx : ℕ → ℕ → ℚ := matOf [[1/5, 1/10]]

/-- Two-covariate example: covariate standard errors of the single SNP. -/
def example2_bzx_se : ℕ → ℕ → ℚ := matOf [[1/100, 1/100]]

/-- The members of the `gcta` object read by the GSMR code of `mtcojo.cpp`,
together with the quantities it obtains from routines outside the repository
sources.

* `_include`, `_keep`, `_snp_name`, `_snp_name_map`, `_chr`, `_bp`: the reference
  panel (included genotype columns, kept individuals, SNP names, name → column
  map, chromosome and base-pair position per column).
* `_meta_snp_name`, `_meta_remain_snp`, `_meta_snp_name_map`: the SNP registry of
  the summary data.
* `makex_r c j`: the correlation `x.dot(x_j) / sqrt(x.dot(x) * x_j.dot(x_j))` of the
  genotype vectors that `makex_eigenVector` returns for the positions `c` and `j`
  of `_include` (mtcojo.cpp 577, 596).
* `xmat_r a b`: the correlation `x_cov / (x_sd1 * x_sd2)` of the columns that
  `make_XMat_subset` returns for the positions `a` and `b` (mtcojo.cpp 720-724).
* `oob_read j`: what a read of `rm_mat_ID1[j]` returns when `j` is at or past the
  end of that vector (mtcojo.cpp 658).
* `wind_overflow`: the `int` that the conversion of `wind_size*1e3` yields when the
  product is outside the range of `int` (mtcojo.cpp 523). -/
structure GctaState where
  _include : List ℕ
  _keep : List ℕ
  _snp_name : ℕ → String
  _snp_name_map : List (String × ℕ)
  _chr : ℕ → ℤ
  _bp : ℕ → ℤ
  _meta_snp_name : ℕ → String
  _meta_remain_snp : List ℕ
  _meta_snp_name_map : List (String × ℕ)
  makex_r : ℕ → ℕ → ℚ
  xmat_r : ℕ → ℕ → ℚ
  oob_read : ℕ → ℤ
  wind_overflow : ℤ

/-- Insertion `m.insert(pair(k, v))` into a `std::map`: an existing key keeps its
value. -/
def mapInsert {β : Type} (m : List (String × β)) (k : String) (v : β) : List (String × β) :=
  if (m.lookup k).isSome then m else m ++ [(k, v)]

/-- Assignment `iter->second = v` for the entry of key `k`. -/
def mapSet {β : Type} (m : List (String × β)) (k : String) (v : β) : List (String × β) :=
  m.map fun kv => if kv.1 = k then (kv.1, v) else kv

/-- The order `operator<` of `std::pair<double,int>` (lexicographic), as the
non-strict relation used for sorting. -/
def pairLE (a b : ℚ × ℕ) : Prop := a.1 < b.1 ∨ (a.1 = b.1 ∧ a.2 ≤ b.2)

instance pairLE_decidable : DecidableRel pairLE := fun a b => by
  unfold pairLE
  exact inferInstance

/-- The list `snp_pvalbuf` of mtcojo.cpp 532-539: the `(p, index)` pairs of the
remaining SNPs that pass the mask and are in the reference panel, sorted. -/
def clumping_snp_pvalbuf (g : GctaState) (snp_pval : ℕ → ℚ) (snp_flag : ℕ → Bool) :
    List (ℚ × ℕ) :=
  List.insertionSort pairLE
    (g._meta_remain_snp.filterMap fun k =>
      if snp_flag k = true ∧ (g._snp_name_map.lookup (g._meta_snp_name k)).isSome = true
      then some (snp_pval k, k) else none)

/-- The map `clumped_snp` after the loop of mtcojo.cpp 543-549: one entry
`(name, false)` per candidate with `p < pval_thresh1`. -/
def clumping_init_map (g : GctaState) (snp_pvalbuf : List (ℚ × ℕ)) (pval_thresh1 : ℚ) :
    List (String × Bool) :=
  snp_pvalbuf.foldl
    (fun m pk => if pk.1 ≥ pval_thresh1 then m else mapInsert m (g._meta_snp_name pk.2) false)
    []

/-- One side of the window walk of mtcojo.cpp 568-584 (left) and 587-603 (right)
around the index SNP at genotype column `geno_indx`, position `center` of
`_include`; `js` lists the positions visited, nearest first. A neighbour on another
chromosome or outside the window ends the walk (`break`), a neighbour that is not
a candidate is skipped (`continue`), and a candidate with `r² ≥ r2_thresh` is marked
as clumped. -/
def clumping_walk (g : GctaState) (wind_size : ℤ) (r2_thresh : ℚ) (geno_indx center : ℕ) :
    List ℕ → List (String × Bool) → List (String × Bool)
  | [], clumped_snp => clumped_snp
  | j :: js, clumped_snp =>
    if g._chr geno_indx = g._chr (g._include.getD j 0)
        ∧ |g._bp geno_indx - g._bp (g._include.getD j 0)| < wind_size then
      match clumped_snp.lookup (g._snp_name (g._include.getD j 0)) with
      | none => clumping_walk g wind_size r2_thresh geno_indx center js clumped_snp
      | some _ =>
        if g.makex_r center j * g.makex_r center j ≥ r2_thresh then
          clumping_walk g wind_size r2_thresh geno_indx center js
            (mapSet clumped_snp (g._snp_name (g._include.getD j 0)) true)
        else clumping_walk g wind_size r2_thresh geno_indx center js clumped_snp
    else clumped_snp

/-- Body of the clumping loop of mtcojo.cpp 558-605 for the `i`-th entry of
`snp_pvalbuf`; the state is `(clumped_snp, indices_snp)`. -/
def clumping_step (g : GctaState) (snp_pvalbuf : List (ℚ × ℕ)) (wind_size : ℤ)
    (r2_thresh : ℚ) (st : List (String × Bool) × List String) (i : ℕ) :
    List (String × Bool) × List String :=
  let indx := (snp_pvalbuf.getD i (0, 0)).2
  let snpbuf := g._meta_snp_name indx
  let clumped_snp := mapInsert st.1 snpbuf false
  if (clumped_snp.lookup snpbuf).getD false = true then (clumped_snp, st.2)
  else
    let geno_indx := (g._snp_name_map.lookup snpbuf).getD 0
    let geno_indx_center := g._include.indexOf geno_indx
    let left := clumping_walk g wind_size r2_thresh geno_indx geno_indx_center
      (List.range geno_indx_center).reverse clumped_snp
    let right := clumping_walk g wind_size r2_thresh geno_indx geno_indx_center
      (List.range' (geno_indx_center + 1) (g._include.length - (geno_indx_center + 1))) left
    (right, st.2 ++ [snpbuf])

/-- The window of `clumping_meta` after `wind_size = wind_size*1e3` (mtcojo.cpp 523):
the `int` parameter in kb is multiplied by 1000 as a double and stored back into the
`int`; a product outside the range of `int` gives `g.wind_overflow`. -/
def clumping_window (g : GctaState) (wind_size : ℤ) : ℤ :=
  if -2147483648 ≤ wind_size * 1000 ∧ wind_size * 1000 ≤ 2147483647 then wind_size * 1000
  else g.wind_overflow

/-- The function `gcta::clumping_meta` (mtcojo.cpp 522-608): the names of the
index SNPs in the order in which they are elected. The parameter `wind_size` is an
`int` in kb and is first multiplied by 1000 (`clumping_window`). -/
def clumping_meta (g : GctaState) (snp_pval : ℕ → ℚ) (snp_flag : ℕ → Bool)
    (pval_thresh1 pval_thresh2 : ℚ) (wind_size : ℤ) (r2_thresh : ℚ) : List String :=
  let snp_pvalbuf := clumping_snp_pvalbuf g snp_pval snp_flag
  let clumped_snp := clumping_init_map g snp_pvalbuf pval_thresh1
  ((List.range clumped_snp.length).foldl
    (clumping_step g snp_pvalbuf (clumping_window g wind_size) r2_thresh) (clumped_snp, [])).2

/-- The pairs `(rm_mat_ID1[k], rm_mat_ID2[k])` collected by the double loop of
mtcojo.cpp 617-624: all `(i, j)` with `j < i < n` and `|r_mat(i,j)| > thresh`, row by
row. -/
def rm_cor_pairs (r_mat : ℕ → ℕ → ℚ) (thresh : ℚ) (n : ℕ) : List (ℕ × ℕ) :=
  (List.range n).foldl
    (fun acc i => (List.range i).foldl
      (fun acc j => if |r_mat i j| > thresh then acc ++ [(i, j)] else acc) acc)
    []

/-- The vector `rm_uni_ID` of mtcojo.cpp 629-632: the indices that occur in some
pair, sorted, without repetition. -/
def rm_cor_uni_ID (pairs : List (ℕ × ℕ)) : List ℕ :=
  List.destutter (fun a b => a ≠ b)
    (List.insertionSort (fun a b => a ≤ b) (pairs.map Prod.fst ++ pairs.map Prod.snd))

/-- The map `rm_uni_ID_count` of mtcojo.cpp 633-637: for each index of
`rm_uni_ID`, the number of pairs in which it occurs. -/
def rm_cor_uni_ID_count (pairs : List (ℕ × ℕ)) : List (ℕ × ℕ) :=
  (rm_cor_uni_ID pairs).map fun u =>
    (u, (pairs.map Prod.fst).count u + (pairs.map Prod.snd).count u)

/-- The swapping loop of mtcojo.cpp 640-650: in each pair the index with the
larger count is put first. -/
def rm_cor_swap (pairs : List (ℕ × ℕ)) : List (ℕ × ℕ) :=
  pairs.map fun p =>
    if ((rm_cor_uni_ID_count pairs).lookup p.1).getD 0
        < ((rm_cor_uni_ID_count pairs).lookup p.2).getD 0
    then (p.2, p.1) else p

/-- The scan of mtcojo.cpp 657-660 that fills `kept_ID`; `rd j` is the value
read as `rm_mat_ID1[j]`. The state is `(j, k, kept_ID)`. -/
def rm_cor_scan (rd : ℕ → ℤ) (n : ℕ) (kept_ID : List ℕ) : ℕ × ℕ × List ℕ :=
  (List.range n).foldl
    (fun st (i : ℕ) =>
      if (i : ℤ) = rd st.1 then (st.1 + 1, st.2.1, st.2.2)
      else (st.1, st.2.1 + 1, st.2.2.set st.2.1 i))
    (0, 0, kept_ID)

/-- The function `rm_cor_elements` (mtcojo.cpp 610-667) on an `n × n` matrix. A
read of `rm_mat_ID1[j]` with `j` at or past the end of the vector returns
`oob_read j`. -/
def rm_cor_elements (oob_read : ℕ → ℤ) (r_mat : ℕ → ℕ → ℚ) (n : ℕ) (nm : Numerics)
    (r2_thresh : ℚ) (r2_flag : Bool) : List ℕ :=
  let thresh := if r2_flag then nm.sqrt r2_thresh else r2_thresh
  let pairs := rm_cor_pairs r_mat thresh n
  if pairs.length > 0 then
    let rm_mat_ID1 := List.destutter (fun a b => a ≠ b)
      (List.insertionSort (fun a b => a ≤ b) ((rm_cor_swap pairs).map Prod.fst))
    (rm_cor_scan (fun j => if j < rm_mat_ID1.length then ((rm_mat_ID1.getD j 0 : ℕ) : ℤ)
        else oob_read j) n
      (List.replicate (n - rm_mat_ID1.length) 0)).2.2
  else List.range n

/-- The loop of `adjust_ld_r_fdr` (mtcojo.cpp 677-682) from position `i` on, over
the remaining entries of `ld_pval`; it stops at the first adjusted p-value below
the threshold. -/
def adjust_ld_r_fdr_loop (pval_buf : List ℚ) (m : ℕ) (thresh : ℚ) :
    List (ℚ × ℕ) → ℕ → (ℕ → ℕ → ℚ) → (ℕ → ℕ → ℚ)
  | [], _, ld_r_mat => ld_r_mat
  | pk :: rest, i, ld_r_mat =>
    if pval_buf.getD i 0 < thresh then ld_r_mat
    else adjust_ld_r_fdr_loop pval_buf m thresh rest (i + 1)
      (setEntry (setEntry ld_r_mat (pk.2 % m) (pk.2 / m) 0) (pk.2 / m) (pk.2 % m) 0)

/-- The function `adjust_ld_r_fdr` (mtcojo.cpp 669-683). -/
def adjust_ld_r_fdr (nm : Numerics) (ld_r_mat : ℕ → ℕ → ℚ) (ld_pval : List (ℚ × ℕ))
    (m : ℕ) (thresh : ℚ) : ℕ → ℕ → ℚ :=
  adjust_ld_r_fdr_loop (nm.ControlFDR_BH (ld_pval.map Prod.fst)) m thresh ld_pval 0 ld_r_mat

/-- Fatal conditions of a run (`LOGGER.e`), and the outcome of dereferencing
the end iterator of a map (`UndefinedBehaviour`). -/
inductive ErrorKind where
  | InsufficientSNPs
  | SingularCovariance
  | InvalidParameter
  | UndefinedBehaviour
  | FileNotFound
  | InvalidFormat
  | DuplicateSNP
  | SingularNormalEquations
  | InsufficientRelatedness
  deriving DecidableEq, Repr

/-- The function `quantile` (mtcojo.cpp 22-29) on a vector given as a list: linear
interpolation at position `prob * (size - 1)`. A probability outside `[0, 1]` is
fatal; the result for an empty vector (NaN in the source) is `none`. Every product,
difference and sum of the double expression is rounded by `nm.round`, because the
caller compares the result with the entries of the vector itself. -/
def quantile (nm : Numerics) (vals : List ℚ) (prob : ℚ) : Except ErrorKind (Option ℚ) :=
  if prob < 0 ∨ prob > 1 then .error .InvalidParameter
  else if vals.length = 0 then .ok none
  else
    let index : ℚ := nm.round (prob * ((vals.length : ℚ) - 1))
    let below : ℕ := (Int.floor index).toNat
    let above : ℕ := (Int.ceil index).toNat
    if below = above then .ok (some (vals.getD above 0))
    else .ok (some (nm.round
      (nm.round (nm.round ((above : ℚ) - index) * vals.getD below 0)
        + nm.round (nm.round (index - (below : ℚ)) * vals.getD above 0))))

/-- The lookup `_meta_snp_name_map.find(name)->second`. -/
def metaIndex (g : GctaState) (name : String) : ℕ :=
  (g._meta_snp_name_map.lookup name).getD 0

/-- The vector `snp_sn` of mtcojo.cpp 707-711: the position in `_include` of each
index SNP. -/
def gsmr_snp_sn (g : GctaState) (indices_snp : List String) : List ℕ :=
  indices_snp.map fun s => g._include.indexOf ((g._snp_name_map.lookup s).getD 0)

/-- The LD matrix `ld_r_mat` of mtcojo.cpp 718-726. -/
def gsmr_ld_r_mat (g : GctaState) (snp_sn : List ℕ) (n : ℕ) : ℕ → ℕ → ℚ :=
  (List.range (n - 1)).foldl
    (fun m i => (List.range' (i + 1) (n - (i + 1))).foldl
      (fun m j => setEntry (setEntry m j i (g.xmat_r (snp_sn.getD i 0) (snp_sn.getD j 0))) i j
        (g.xmat_r (snp_sn.getD i 0) (snp_sn.getD j 0))) m)
    identityMat

/-- The update of `indices_snp` at mtcojo.cpp 739: the first `n` entries become
the names of the kept SNPs, the rest of the vector is left as it is. -/
def gsmr_kept_names (indices_snp_buf : List String) (kept_ID : List ℕ) (n : ℕ) : List String :=
  (List.range n).map (fun i => indices_snp_buf.getD (kept_ID.getD i 0) "")
    ++ indices_snp_buf.drop n

/-- The vector `ld_pval` of mtcojo.cpp 745-753, sorted by decreasing p-value
(`stable_sort` with the comparison `a.first > b.first`). -/
def gsmr_ld_pval (nm : Numerics) (ld_r_mat : ℕ → ℕ → ℚ) (kept_ID : List ℕ) (n nindi : ℕ) :
    List (ℚ × ℕ) :=
  List.insertionSort (fun a b : ℚ × ℕ => a.1 ≥ b.1)
    ((List.range (n - 1)).foldl
      (fun acc i => (List.range' (i + 1) (n - (i + 1))).foldl
        (fun acc j => acc ++
          [(nm.chi_prob 1 (ld_r_mat (kept_ID.getD i 0) (kept_ID.getD j 0)
              * ld_r_mat (kept_ID.getD i 0) (kept_ID.getD j 0) * (nindi : ℚ)), i * n + j)]) acc)
      [])

/-- The value `v(iter->second)` for `iter = _meta_snp_name_map.find(indices_snp[i])`:
the entry of the per-SNP vector `v` that belongs to the `i`-th index SNP. -/
def indexVal (g : GctaState) (v : ℕ → ℚ) (indices_snp : List String) (i : ℕ) : ℚ :=
  v (metaIndex g (indices_snp.getD i ""))

/-- The vector `bxy` of mtcojo.cpp 757-761: `bxy(i) = bzy / bzx` of the `i`-th index
SNP. -/
def gsmr_bxy (g : GctaState) (bzx bzy : ℕ → ℚ) (indices_snp : List String) (n : ℕ) : ℕ → ℚ :=
  (List.range n).foldl
    (fun v i => setCoeff v i (indexVal g bzy indices_snp i / indexVal g bzx indices_snp i))
    (fun _ => 0)

/-- The vectors `zscore_inv1` (`bzx_se / bzx`) and `zscore_inv2` (`bzy_se / bzx`) of
mtcojo.cpp 763-769; `se` is `bzx_se` or `bzy_se`. -/
def gsmr_zscore_inv (g : GctaState) (bzx se : ℕ → ℚ) (indices_snp : List String) (n : ℕ) :
    ℕ → ℚ :=
  (List.range n).foldl
    (fun v i => setCoeff v i (indexVal g se indices_snp i / indexVal g bzx indices_snp i))
    (fun _ => 0)

/-- The matrix `cov_bxy` of mtcojo.cpp 764-778. -/
def gsmr_cov_bxy (ld_r_mat : ℕ → ℕ → ℚ) (kept_ID : List ℕ)
    (bxy zscore_inv1 zscore_inv2 : ℕ → ℚ) (n : ℕ) : ℕ → ℕ → ℚ :=
  (List.range n).foldl
    (fun m i => (List.range' i (n - i)).foldl
      (fun m j =>
        if i = j then
          setEntry m i j (zscore_inv2 i * zscore_inv2 j
            + zscore_inv1 i * zscore_inv1 j * bxy i * bxy j)
        else
          setEntry (setEntry m j i
            (ld_r_mat (kept_ID.getD i 0) (kept_ID.getD j 0) * zscore_inv2 i * zscore_inv2 j
              + ld_r_mat (kept_ID.getD i 0) (kept_ID.getD j 0) * zscore_inv1 i * zscore_inv1 j
                * bxy i * bxy j)) i j
            (ld_r_mat (kept_ID.getD i 0) (kept_ID.getD j 0) * zscore_inv2 i * zscore_inv2 j
              + ld_r_mat (kept_ID.getD i 0) (kept_ID.getD j 0) * zscore_inv1 i * zscore_inv1 j
                * bxy i * bxy j)) m)
    zeroMat

/-- The test `bxy(i) >= lower_bounder && bxy(i) <= upper_bounder` of
mtcojo.cpp 791; a missing bound (NaN) makes it false. -/
def heidi_in_band (lower_bounder upper_bounder : Option ℚ) (x : ℚ) : Bool :=
  match lower_bounder, upper_bounder with
  | some l, some u => decide (x ≥ l ∧ x ≤ u)
  | _, _ => false

/-- The pivot search of mtcojo.cpp 783-799; the state is
`(min_bzx_pval, top_indices_snp, heidi_ref_snp_id)`, initially `(1.0, "", [])`. -/
def heidi_pivot_loop (g : GctaState) (bzx_pval bxy : ℕ → ℚ) (indices_snp : List String)
    (n : ℕ) (lower_bounder upper_bounder : Option ℚ) : ℚ × String × List ℕ :=
  (List.range n).foldl
    (fun st i =>
      if heidi_in_band lower_bounder upper_bounder (bxy i) = true then
        if indexVal g bzx_pval indices_snp i < st.1 then
          (indexVal g bzx_pval indices_snp i, indices_snp.getD i "", st.2.2 ++ [i])
        else (st.1, st.2.1, st.2.2 ++ [i])
      else st)
    (1, "", [])

/-- The map `indices_snp_map` of mtcojo.cpp 805. -/
def heidi_indices_snp_map (indices_snp : List String) (n : ℕ) : List (String × ℕ) :=
  (List.range n).foldl (fun m i => mapInsert m (indices_snp.getD i "") i) []

/-- The value `pval_heidi` of the HEIDI test for the SNP at position `i` around the
pivot at position `indxbuf` (mtcojo.cpp 814-816). When `var_bxy_diff` is 0 the statistic
is not finite and the value is what `StatFunc::pchisq` returns there. -/
def heidi_pval (nm : Numerics) (bxy : ℕ → ℚ) (cov_bxy : ℕ → ℕ → ℚ) (indxbuf i : ℕ) :
    Option ℚ :=
  let bxy_diff := bxy i - bxy indxbuf
  let var_bxy_diff := cov_bxy indxbuf indxbuf + cov_bxy i i - 2 * cov_bxy indxbuf i
  if var_bxy_diff = 0 then pchisq_nonfinite nm (bxy_diff * bxy_diff)
  else some (nm.pchisq (bxy_diff * bxy_diff / var_bxy_diff) 1)

/-- The comparison `pval_heidi >= heidi_thresh` (mtcojo.cpp 817), false on a NaN. -/
def heidi_pass (pval_heidi : Option ℚ) (heidi_thresh : ℚ) : Bool :=
  match pval_heidi with
  | some p => decide (p ≥ heidi_thresh)
  | none => false

/-- The HEIDI test of mtcojo.cpp 808-820 around the pivot at position `indxbuf`:
the list `include_gsmr` of retained positions. -/
def heidi_test (nm : Numerics) (bxy : ℕ → ℚ) (cov_bxy : ℕ → ℕ → ℚ) (n indxbuf : ℕ)
    (heidi_thresh : ℚ) : List ℕ :=
  (List.range n).foldl
    (fun include_gsmr i =>
      if i = indxbuf then include_gsmr ++ [i]
      else if heidi_pass (heidi_pval nm bxy cov_bxy indxbuf i) heidi_thresh = true then
        include_gsmr ++ [i]
      else include_gsmr)
    []

/-- The sorted copy `bxy_sort` of the first `n` entries of `bxy`
(mtcojo.cpp 785-786). -/
def bxy_sort (bxy : ℕ → ℚ) (n : ℕ) : List ℚ :=
  List.insertionSort (fun a b : ℚ => a ≤ b) ((List.range n).map bxy)

/-- The HEIDI-outlier step of `gsmr_meta` (mtcojo.cpp 782-820): the band
`[quantile(sorted bxy, 0.4), quantile(sorted bxy, 0.6)]`, the pivot, the lookup of
the pivot name in `indices_snp_map` (a failed lookup is `UndefinedBehaviour`) and
the test; the result is `include_gsmr`. -/
def gsmr_heidi (nm : Numerics) (g : GctaState) (bzx_pval bxy : ℕ → ℚ) (cov_bxy : ℕ → ℕ → ℚ)
    (indices_snp : List String) (n : ℕ) (heidi_thresh : ℚ) : Except ErrorKind (List ℕ) :=
  match quantile nm (bxy_sort bxy n) (2/5), quantile nm (bxy_sort bxy n) (3/5) with
  | .ok lower_bounder, .ok upper_bounder =>
    let top_indices_snp :=
      (heidi_pivot_loop g bzx_pval bxy indices_snp n lower_bounder upper_bounder).2.1
    match (heidi_indices_snp_map indices_snp n).lookup top_indices_snp with
    | none => .error .UndefinedBehaviour
    | some indxbuf => .ok (heidi_test nm bxy cov_bxy n indxbuf heidi_thresh)
  | .error e, _ => .error e
  | _, .error e => .error e

/-- The vector `bxy_heidi` of mtcojo.cpp 831-832. -/
def gsmr_bxy_heidi (bxy : ℕ → ℚ) (include_gsmr : List ℕ) (n_snp_gsmr : ℕ) : ℕ → ℚ :=
  (List.range n_snp_gsmr).foldl
    (fun v i => setCoeff v i (bxy (include_gsmr.getD i 0))) (fun _ => 0)

/-- The matrix `cov_bxy_inv` of mtcojo.cpp 831-836 before it is inverted: the
rows and columns of `cov_bxy` of the retained SNPs. -/
def gsmr_cov_bxy_sub (cov_bxy : ℕ → ℕ → ℚ) (include_gsmr : List ℕ) (n_snp_gsmr : ℕ) :
    ℕ → ℕ → ℚ :=
  (List.range n_snp_gsmr).foldl
    (fun m i => (List.range' i (n_snp_gsmr - i)).foldl
      (fun m j =>
        setEntry (setEntry m j i (cov_bxy (include_gsmr.getD i 0) (include_gsmr.getD j 0))) i j
          (cov_bxy (include_gsmr.getD i 0) (include_gsmr.getD j 0))) m)
    zeroMat

/-- Exact matrix inverse `det(A)⁻¹ · adj(A)`, the result of
`comput_inverse_logdet_LU_mkl` on an invertible matrix. -/
def matInverse {n : ℕ} (A : Matrix (Fin n) (Fin n) ℚ) : Matrix (Fin n) (Fin n) ℚ :=
  (A.det)⁻¹ • A.adjugate

/-- The last part of `gsmr_meta` (mtcojo.cpp 822-852): the count check, the
inversion of the covariance matrix of the retained SNPs and the estimate
`rst = (bxy_gsmr, bxy_gsmr_se, bxy_gsmr_pval, n_snp_gsmr)`. -/
def gsmr_estimate (nm : Numerics) (bxy : ℕ → ℚ) (cov_bxy : ℕ → ℕ → ℚ)
    (include_gsmr : List ℕ) (nsnp_gsmr : ℤ) : Except ErrorKind (List ℚ) :=
  let n_snp_gsmr := include_gsmr.length
  if (n_snp_gsmr : ℤ) < nsnp_gsmr then .error .InsufficientSNPs
  else
    let bxy_heidi := toVec n_snp_gsmr (gsmr_bxy_heidi bxy include_gsmr n_snp_gsmr)
    let cov_bxy_sub := toMat n_snp_gsmr (gsmr_cov_bxy_sub cov_bxy include_gsmr n_snp_gsmr)
    if cov_bxy_sub.det = 0 then .error .SingularCovariance
    else
      let cov_bxy_inv := matInverse cov_bxy_sub
      if (n_snp_gsmr : ℤ) < nsnp_gsmr then .error .InsufficientSNPs
      else
        let vec_1 : Fin n_snp_gsmr → ℚ := fun _ => 1
        let bxy_gsmr_se := 1 / Matrix.dotProduct (Matrix.vecMul vec_1 cov_bxy_inv) vec_1
        let bxy_gsmr :=
          bxy_gsmr_se * Matrix.dotProduct (Matrix.vecMul vec_1 cov_bxy_inv) bxy_heidi
        let bxy_gsmr_pval := nm.pchisq (bxy_gsmr * bxy_gsmr / bxy_gsmr_se) 1
        .ok [bxy_gsmr, nm.sqrt bxy_gsmr_se, bxy_gsmr_pval, (n_snp_gsmr : ℚ)]

/-- The vector `kept_ID` of mtcojo.cpp 733-735: the result of `rm_cor_elements` on
the LD matrix of the clumped index SNPs `indices_snp_buf`. -/
def gsmr_kept_ID (nm : Numerics) (g : GctaState) (indices_snp_buf : List String)
    (r2_thresh : ℚ) : List ℕ :=
  rm_cor_elements g.oob_read
    (gsmr_ld_r_mat g (gsmr_snp_sn g indices_snp_buf) indices_snp_buf.length)
    indices_snp_buf.length nm r2_thresh true

/-- The vector `indices_snp` after the redundancy pruning (mtcojo.cpp 737-739). -/
def gsmr_indices_snp (nm : Numerics) (g : GctaState) (indices_snp_buf : List String)
    (r2_thresh : ℚ) : List String :=
  gsmr_kept_names indices_snp_buf (gsmr_kept_ID nm g indices_snp_buf r2_thresh)
    (gsmr_kept_ID nm g indices_snp_buf r2_thresh).length

/-- The LD matrix after `adjust_ld_r_fdr` (mtcojo.cpp 743-754). -/
def gsmr_ld_r_adj (nm : Numerics) (g : GctaState) (indices_snp_buf : List String)
    (r2_thresh ld_fdr_thresh : ℚ) : ℕ → ℕ → ℚ :=
  adjust_ld_r_fdr nm
    (gsmr_ld_r_mat g (gsmr_snp_sn g indices_snp_buf) indices_snp_buf.length)
    (gsmr_ld_pval nm
      (gsmr_ld_r_mat g (gsmr_snp_sn g indices_snp_buf) indices_snp_buf.length)
      (gsmr_kept_ID nm g indices_snp_buf r2_thresh)
      (gsmr_kept_ID nm g indices_snp_buf r2_thresh).length g._keep.length)
    (gsmr_kept_ID nm g indices_snp_buf r2_thresh).length ld_fdr_thresh

/-- The vector `bxy` of the pruned index SNPs (mtcojo.cpp 757-761). -/
def gsmr_index_bxy (nm : Numerics) (g : GctaState) (bzx bzy : ℕ → ℚ)
    (indices_snp_buf : List String) (r2_thresh : ℚ) : ℕ → ℚ :=
  gsmr_bxy g bzx bzy (gsmr_indices_snp nm g indices_snp_buf r2_thresh)
    (gsmr_kept_ID nm g indices_snp_buf r2_thresh).length

/-- The matrix `cov_bxy` of the pruned index SNPs (mtcojo.cpp 763-778). -/
def gsmr_index_cov_bxy (nm : Numerics) (g : GctaState) (bzx bzx_se bzy bzy_se : ℕ → ℚ)
    (indices_snp_buf : List String) (r2_thresh ld_fdr_thresh : ℚ) : ℕ → ℕ → ℚ :=
  gsmr_cov_bxy (gsmr_ld_r_adj nm g indices_snp_buf r2_thresh ld_fdr_thresh)
    (gsmr_kept_ID nm g indices_snp_buf r2_thresh)
    (gsmr_index_bxy nm g bzx bzy indices_snp_buf r2_thresh)
    (gsmr_zscore_inv g bzx bzx_se (gsmr_indices_snp nm g indices_snp_buf r2_thresh)
      (gsmr_kept_ID nm g indices_snp_buf r2_thresh).length)
    (gsmr_zscore_inv g bzx bzy_se (gsmr_indices_snp nm g indices_snp_buf r2_thresh)
      (gsmr_kept_ID nm g indices_snp_buf r2_thresh).length)
    (gsmr_kept_ID nm g indices_snp_buf r2_thresh).length

/-- The list `include_gsmr` of the SNPs retained by the HEIDI-outlier step
(mtcojo.cpp 782-820) on the pruned index SNPs. -/
def gsmr_include_gsmr (nm : Numerics) (g : GctaState) (bzx bzx_se bzx_pval bzy bzy_se : ℕ → ℚ)
    (indices_snp_buf : List String) (r2_thresh heidi_thresh ld_fdr_thresh : ℚ) :
    Except ErrorKind (List ℕ) :=
  gsmr_heidi nm g bzx_pval (gsmr_index_bxy nm g bzx bzy indices_snp_buf r2_thresh)
    (gsmr_index_cov_bxy nm g bzx bzx_se bzy bzy_se indices_snp_buf r2_thresh ld_fdr_thresh)
    (gsmr_indices_snp nm g indices_snp_buf r2_thresh)
    (gsmr_kept_ID nm g indices_snp_buf r2_thresh).length heidi_thresh

/-- The part of `gsmr_meta` after the clumping gate (mtcojo.cpp 702-852), for
the list `indices_snp_buf` of clumped index SNPs: pruning, the two count checks
of lines 742 and 780, the HEIDI-outlier step and the estimate. -/
def gsmr_after_clumping (nm : Numerics) (g : GctaState)
    (bzx bzx_se bzx_pval bzy bzy_se : ℕ → ℚ) (indices_snp_buf : List String)
    (r2_thresh heidi_thresh ld_fdr_thresh : ℚ) (nsnp_gsmr nsnp_heidi : ℤ) :
    Except ErrorKind (List ℚ) :=
  if ((gsmr_kept_ID nm g indices_snp_buf r2_thresh).length : ℤ) < nsnp_gsmr then
    .error .InsufficientSNPs
  else if ((gsmr_kept_ID nm g indices_snp_buf r2_thresh).length : ℤ) < nsnp_heidi then
    .error .InsufficientSNPs
  else
    match gsmr_include_gsmr nm g bzx bzx_se bzx_pval bzy bzy_se indices_snp_buf r2_thresh
        heidi_thresh ld_fdr_thresh with
    | .error e => .error e
    | .ok include_gsmr =>
      gsmr_estimate nm (gsmr_index_bxy nm g bzx bzy indices_snp_buf r2_thresh)
        (gsmr_index_cov_bxy nm g bzx bzx_se bzy bzy_se indices_snp_buf r2_thresh ld_fdr_thresh)
        include_gsmr nsnp_gsmr

/-- The function `gcta::gsmr_meta` (mtcojo.cpp 685-853). The result `none` is the
vector of four NaN returned at the two early gates. -/
def gsmr_meta (nm : Numerics) (g : GctaState) (bzx bzx_se bzx_pval bzy bzy_se : ℕ → ℚ)
    (snp_flag : ℕ → Bool) (pval_thresh1 pval_thresh2 : ℚ) (wind_size : ℤ)
    (r2_thresh gwas_thresh heidi_thresh ld_fdr_thresh : ℚ) (nsnp_gsmr nsnp_heidi : ℤ)
    (heidi_flag : Bool) : Except ErrorKind (Option (List ℚ)) :=
  if (g._include.length : ℤ) < nsnp_gsmr then .ok none
  else
    let indices_snp :=
      clumping_meta g bzx_pval snp_flag pval_thresh1 pval_thresh2 wind_size r2_thresh
    if (indices_snp.length : ℤ) < nsnp_gsmr then .ok none
    else
      match gsmr_after_clumping nm g bzx bzx_se bzx_pval bzy bzy_se indices_snp
          r2_thresh heidi_thresh ld_fdr_thresh nsnp_gsmr nsnp_heidi with
      | .error e => .error e
      | .ok rst => .ok (some rst)

/-- The GSMR analysis of covariate `i` in the driver `gcta::mtcojo`
(mtcojo.cpp 1394-1403): the call of `gsmr_meta` with the arguments in the order
written at line 1397 (`..., ld_fdr_thresh, nsnp_heidi, nsnp_gsmr, heidi_flag`), and the
fatal error when `gsmr_rst[3]` is NaN. The matrices `_meta_snp_b`, `_meta_snp_se`,
`_meta_snp_pval` and the flags `_snp_val_flag` are members of the `gcta` object. -/
def mtcojo_gsmr (nm : Numerics) (g : GctaState) (_meta_snp_b _meta_snp_se _meta_snp_pval : ℕ → ℕ → ℚ)
    (_snp_val_flag : ℕ → ℕ → Bool) (i : ℕ) (clump_thresh1 clump_thresh2 : ℚ)
    (clump_wind_size : ℤ) (clump_r2_thresh gwas_thresh heidi_thresh ld_fdr_thresh : ℚ)
    (nsnp_heidi nsnp_gsmr : ℤ) (heidi_flag : Bool) : Except ErrorKind (List ℚ) :=
  let snp_pair_flag : ℕ → Bool := fun j =>
    decide (((_snp_val_flag 0 j).toNat + (_snp_val_flag i j).toNat) / 2 ≠ 0)
  match gsmr_meta nm g (fun k => _meta_snp_b k i) (fun k => _meta_snp_se k i)
      (fun k => _meta_snp_pval k i) (fun k => _meta_snp_b k 0) (fun k => _meta_snp_se k 0)
      snp_pair_flag clump_thresh1 clump_thresh2 clump_wind_size clump_r2_thresh gwas_thresh
      heidi_thresh ld_fdr_thresh nsnp_heidi nsnp_gsmr heidi_flag with
  | .error e => .error e
  | .ok none => .error .InsufficientSNPs
  | .ok (some gsmr_rst) => .ok gsmr_rst

/-- Example reference panel and registry: three SNPs `s1`, `s2`, `s3` on three
different chromosomes, uncorrelated genotypes, 100 kept individuals. -/
def examplePanel : GctaState where
  _include := [0, 1, 2]
  _keep := List.range 100
  _snp_name := fun i => ["s1", "s2", "s3"].getD i ""
  _snp_name_map := [("s1", 0), ("s2", 1), ("s3", 2)]
  _chr := fun i => ([1, 2, 3] : List ℤ).getD i 0
  _bp := fun i => ([1000, 2000, 3000] : List ℤ).getD i 0
  _meta_snp_name := fun i => ["s1", "s2", "s3"].getD i ""
  _meta_remain_snp := [0, 1, 2]
  _meta_snp_name_map := [("s1", 0), ("s2", 1), ("s3", 2)]
  makex_r := fun a b => if a = b then 1 else 0
  xmat_r := fun a b => if a = b then 1 else 0
  oob_read := fun _ => -1
  wind_overflow := -2147483648

/-- Example exposure effects of the three SNPs. -/
def example_bzx : ℕ → ℚ := vecOf [1/10, 1/10, 1/10]

/-- Example exposure standard errors. -/
def example_bzx_se : ℕ → ℚ := vecOf [1/1000, 1/1000, 1/1000]

/-- Example exposure p-values. -/
def example_bzx_pval : ℕ → ℚ := vecOf [1/10000000000, 1/1000000000, 1/100000000]

/-- Example outcome effects: the per-SNP ratios are `bxy = (0.1, 0.11, 5)`. -/
def example_bzy : ℕ → ℚ := vecOf [1/100, 11/1000, 1/2]

/-- Example outcome standard errors. -/
def example_bzy_se : ℕ → ℚ := vecOf [1/1000, 1/1000, 1/1000]

/-- Specification of the quantile, used to state the band of the HEIDI pivot:
linear interpolation between the two neighbouring entries of the sorted vector at
position `pos = prob * (size - 1)`, that is
`vals[⌊pos⌋] + (pos - ⌊pos⌋) * (vals[⌊pos⌋ + 1] - vals[⌊pos⌋])`. -/
def linearInterpolation (vals : List ℚ) (prob : ℚ) : ℚ :=
  vals.getD (Int.floor (prob * ((vals.length : ℚ) - 1))).toNat 0
    + (prob * ((vals.length : ℚ) - 1) - (Int.floor (prob * ((vals.length : ℚ) - 1)) : ℚ))
      * (vals.getD ((Int.floor (prob * ((vals.length : ℚ) - 1))).toNat + 1) 0
          - vals.getD (Int.floor (prob * ((vals.length : ℚ) - 1))).toNat 0)

/-- Scenario 4 of the specification: registry of five index SNPs. -/
def scenario4Panel : GctaState where
  _include := [0, 1, 2, 3, 4]
  _keep := List.range 100
  _snp_name := fun i => ["s1", "s2", "s3", "s4", "s5"].getD i ""
  _snp_name_map := [("s1", 0), ("s2", 1), ("s3", 2), ("s4", 3), ("s5", 4)]
  _chr := fun i => ([1, 2, 3, 4, 5] : List ℤ).getD i 0
  _bp := fun i => ([1000, 2000, 3000, 4000, 5000] : List ℤ).getD i 0
  _meta_snp_name := fun i => ["s1", "s2", "s3", "s4", "s5"].getD i ""
  _meta_remain_snp := [0, 1, 2, 3, 4]
  _meta_snp_name_map := [("s1", 0), ("s2", 1), ("s3", 2), ("s4", 3), ("s5", 4)]
  makex_r := fun a b => if a = b then 1 else 0
  xmat_r := fun a b => if a = b then 1 else 0
  oob_read := fun _ => -1
  wind_overflow := -2147483648

/-- Scenario 4: the names of the five index SNPs. -/
def scenario4_names : List String := ["s1", "s2", "s3", "s4", "s5"]

/-- Scenario 4: per-SNP estimates `bxy = (0.10, 0.11, 0.12, 0.13, 5.00)`. -/
def scenario4_bxy : ℕ → ℚ := vecOf [1/10, 11/100, 3/25, 13/100, 5]

/-- Scenario 4 in another order: per-SNP estimates
`bxy = (0.12, 5.00, 0.10, 0.13, 0.11)`. -/
def scenario4u_bxy : ℕ → ℚ := vecOf [3/25, 5, 1/10, 13/100, 11/100]

/-- Scenario 4: exposure p-values of the five SNPs (the smallest ones belong to
SNPs outside the band). -/
def scenario4_bzx_pval : ℕ → ℚ :=
  vecOf [1/1000000000, 1/10000000000, 1/100000000, 1/100000000000, 1/1000000000000]

/-- Scenario 4: covariance matrix `0.01 * I`. -/
def scenario4_cov_bxy : ℕ → ℕ → ℚ := fun a b => if a = b then 1/100 else 0

/-- The covariance matrix `Σ` of the specification restricted to the retained
SNPs: `Σ_ij = cov_bxy(include_gsmr[i], include_gsmr[j])`. -/
def retainedCov (cov_bxy : ℕ → ℕ → ℚ) (include_gsmr : List ℕ) :
    Matrix (Fin include_gsmr.length) (Fin include_gsmr.length) ℚ :=
  Matrix.of fun i j => cov_bxy (include_gsmr.getD i.val 0) (include_gsmr.getD j.val 0)

/-- The vector `b` of the per-SNP estimates of the retained SNPs:
`b_i = bxy(include_gsmr[i])`. -/
def retainedBxy (bxy : ℕ → ℚ) (include_gsmr : List ℕ) : Fin include_gsmr.length → ℚ :=
  fun i => bxy (include_gsmr.getD i.val 0)

/-- Example summary data of the driver: effects of the target (column 0) and
of the covariate (column 1) for the three SNPs of `examplePanel`. -/
def example_meta_snp_b : ℕ → ℕ → ℚ := matOf [[1/100, 1/10], [11/1000, 1/10], [1/2, 1/10]]

/-- Example summary data of the driver: standard errors (target, covariate). -/
def example_meta_snp_se : ℕ → ℕ → ℚ :=
  matOf [[1/1000, 1/1000], [1/1000, 1/1000], [1/1000, 1/1000]]

/-- Example summary data of the driver: p-values (target, covariate). -/
def example_meta_snp_pval : ℕ → ℕ → ℚ :=
  matOf [[1/1000, 1/10000000000], [1/1000, 1/1000000000], [1/1000, 1/100000000]]

/-- An LD matrix of three SNPs in which only SNPs 0 and 1 are correlated
(`r = 9/10`). -/
def pair3_r_mat : ℕ → ℕ → ℚ := matOf [[1, 9/10, 0], [9/10, 1, 0], [0, 0, 1]]

/-- An LD matrix of four SNPs whose correlated pairs (`r = 9/10`) form the cycle
0 - 1 - 2 - 3 - 0; SNPs 0 and 2, and SNPs 1 and 3, are uncorrelated. -/
def cycle4_r_mat : ℕ → ℕ → ℚ :=
  matOf [[1, 9/10, 0, 9/10], [9/10, 1, 9/10, 0], [0, 9/10, 1, 9/10], [9/10, 0, 9/10, 1]]

/-- A clumping candidate of `clumping_meta`: a remaining SNP that passes the validity
mask, is found in the reference panel (mtcojo.cpp 532-537) and has a p-value below
`pval_thresh1` (mtcojo.cpp 546). -/
def clumping_candidate (g : GctaState) (snp_pval : ℕ → ℚ) (snp_flag : ℕ → Bool)
    (pval_thresh1 : ℚ) (k : ℕ) : Prop :=
  k ∈ g._meta_remain_snp ∧ snp_flag k = true ∧
    (g._snp_name_map.lookup (g._meta_snp_name k)).isSome = true ∧ snp_pval k < pval_thresh1

/-- The genotype column `geno_indx = iter->second` of the registry SNP `k`
(mtcojo.cpp 562-563). -/
def clumping_geno_indx (g : GctaState) (k : ℕ) : ℕ :=
  (g._snp_name_map.lookup (g._meta_snp_name k)).getD 0

/-- The position `geno_indx_center` of the registry SNP `k` in `_include`
(mtcojo.cpp 564). -/
def clumping_geno_indx_center (g : GctaState) (k : ℕ) : ℕ :=
  g._include.indexOf (clumping_geno_indx g k)

/-- Reference panel and registry of scenario 3 of the specification: three SNPs on
chromosome 1 within 100 kb, pairwise genotype correlation `19/20` (`r² = 0.9025`). -/
def scenario3Panel : GctaState where
  _include := [0, 1, 2]
  _keep := List.range 100
  _snp_name := fun i => ["s1", "s2", "s3"].getD i ""
  _snp_name_map := [("s1", 0), ("s2", 1), ("s3", 2)]
  _chr := fun _ => 1
  _bp := fun i => ([10000, 50000, 100000] : List ℤ).getD i 0
  _meta_snp_name := fun i => ["s1", "s2", "s3"].getD i ""
  _meta_remain_snp := [0, 1, 2]
  _meta_snp_name_map := [("s1", 0), ("s2", 1), ("s3", 2)]
  makex_r := fun a b => if a = b then 1 else 19/20
  xmat_r := fun a b => if a = b then 1 else 19/20
  oob_read := fun _ => -1
  wind_overflow := -2147483648

/-- The p-values of scenario 3: `(1e-10, 1e-9, 1e-8)`. -/
def scenario3_pval : ℕ → ℚ := vecOf [1/10000000000, 1/1000000000, 1/100000000]

/-- The arrays that `remove_bad_snps` updates through its reference parameters: the
alleles `snp_a1[j][s]`, `snp_a2[j][s]` and the matrices `snp_freq(s, j)`, `snp_b(s, j)`
of trait `j` and SNP `s`. The value `none` is NaN. -/
structure MetaArrays where
  snp_a1 : ℕ → ℕ → String
  snp_a2 : ℕ → ℕ → String
  snp_freq : ℕ → ℕ → Option ℚ
  snp_b : ℕ → ℕ → Option ℚ

/-- Alignment of the record of trait `j` at SNP `s` (mtcojo.cpp 367-369): the effect is
negated, the frequency is replaced by `1 - freq` and the two alleles are swapped. -/
def remove_bad_snps_flip (A : MetaArrays) (j s : ℕ) : MetaArrays where
  snp_a1 := fun j2 s2 => if j2 = j ∧ s2 = s then A.snp_a2 j s else A.snp_a1 j2 s2
  snp_a2 := fun j2 s2 => if j2 = j ∧ s2 = s then A.snp_a1 j s else A.snp_a2 j2 s2
  snp_freq := fun s2 j2 =>
    if s2 = s ∧ j2 = j then (A.snp_freq s j).map (fun f => 1 - f) else A.snp_freq s2 j2
  snp_b := fun s2 j2 =>
    if s2 = s ∧ j2 = j then (A.snp_b s j).map (fun b => -1 * b) else A.snp_b s2 j2

/-- A read `snp_remain[k]`; `remain_oob k` is what the read returns when `k` is at or
past the end of the vector. -/
def remain_read (snp_remain : List ℕ) (remain_oob : ℕ → ℕ) (k : ℕ) : ℕ :=
  if k < snp_remain.length then snp_remain.getD k 0 else remain_oob k

/-- The loop of mtcojo.cpp 343-349: the allele pair of the first trait whose flag is set
for SNP `s`, and nothing when there is none. -/
def remove_bad_snps_first_valid (snp_flag : ℕ → ℕ → Bool) (A : MetaArrays) (s : ℕ) :
    List ℕ → List String
  | [] => []
  | j :: js =>
    if snp_flag j s = true then [A.snp_a1 j s, A.snp_a2 j s]
    else remove_bad_snps_first_valid snp_flag A s js

/-- The value of `snpindx` after mtcojo.cpp 334-338: the panel index of the SNP name,
or `-9` when the name is not in the panel map. -/
def remove_bad_snps_snpindx (plink_snp_name_map : List (String × ℕ)) (name : String) : ℤ :=
  match plink_snp_name_map.lookup name with
  | some v => (v : ℤ)
  | none => -9

/-- The content of `allelebuf` after mtcojo.cpp 335-350, the reference allele pair of
SNP `s`: the panel alleles when `snpindx > 0`, else the pair of the first valid trait. -/
def remove_bad_snps_reference (snp_name : ℕ → String) (snp_flag : ℕ → ℕ → Bool)
    (A : MetaArrays) (plink_snp_name_map : List (String × ℕ))
    (snp_ref_a1 snp_ref_a2 : ℕ → String) (npheno s : ℕ) : List String :=
  if remove_bad_snps_snpindx plink_snp_name_map (snp_name s) > 0 then
    [snp_ref_a1 (remove_bad_snps_snpindx plink_snp_name_map (snp_name s)).toNat,
      snp_ref_a2 (remove_bad_snps_snpindx plink_snp_name_map (snp_name s)).toNat]
  else remove_bad_snps_first_valid snp_flag A s (List.range npheno)

/-- The trait loop of mtcojo.cpp 352-371 for SNP `s`, over the traits `js`; `row_b` is
the row `snp_remain[snp_remain[i]]` at which the effect is tested for NaN. The result is
`allelebuf`, the arrays and `iterFlag`; a missing value or a standard error below
`1e-6` ends the loop (`break`) with `iterFlag = false`. -/
def remove_bad_snps_traits (snp_flag : ℕ → ℕ → Bool) (snp_se snp_pval snp_n : ℕ → ℕ → Option ℚ)
    (s row_b : ℕ) : List ℕ → List String → MetaArrays → List String × MetaArrays × Bool
  | [], allelebuf, A => (allelebuf, A, true)
  | j :: js, allelebuf, A =>
    if snp_flag j s = false then
      remove_bad_snps_traits snp_flag snp_se snp_pval snp_n s row_b js allelebuf A
    else if (A.snp_b row_b j).isNone = true ∨ (snp_se s j).isNone = true
        ∨ (snp_pval s j).isNone = true ∨ (snp_n s j).isNone = true then
      (allelebuf ++ [A.snp_a1 j s, A.snp_a2 j s], A, false)
    else if (snp_se s j).getD 0 < 1/1000000 then
      (allelebuf ++ [A.snp_a1 j s, A.snp_a2 j s], A, false)
    else if (allelebuf ++ [A.snp_a1 j s, A.snp_a2 j s]).getD 0 "" ≠ A.snp_a1 j s then
      remove_bad_snps_traits snp_flag snp_se snp_pval snp_n s row_b js
        (allelebuf ++ [A.snp_a1 j s, A.snp_a2 j s]) (remove_bad_snps_flip A j s)
    else
      remove_bad_snps_traits snp_flag snp_se snp_pval snp_n s row_b js
        (allelebuf ++ [A.snp_a1 j s, A.snp_a2 j s]) A

/-- One round of the SNP loop of `remove_bad_snps` (mtcojo.cpp 333-381) on the state
`(arrays, badsnps)`, for position `i` of `snp_remain`. -/
def remove_bad_snps_step (snp_name : ℕ → String) (snp_remain : List ℕ) (remain_oob : ℕ → ℕ)
    (snp_flag : ℕ → ℕ → Bool) (snp_se snp_pval snp_n : ℕ → ℕ → Option ℚ)
    (plink_snp_name_map : List (String × ℕ)) (snp_ref_a1 snp_ref_a2 : ℕ → String)
    (npheno : ℕ) (st : MetaArrays × List String) (i : ℕ) : MetaArrays × List String :=
  let r := remove_bad_snps_traits snp_flag snp_se snp_pval snp_n (snp_remain.getD i 0)
    (remain_read snp_remain remain_oob (snp_remain.getD i 0)) (List.range npheno)
    (remove_bad_snps_reference snp_name snp_flag st.1 plink_snp_name_map snp_ref_a1 snp_ref_a2
      npheno (snp_remain.getD i 0)) st.1
  if (List.destutter (fun a b => a ≠ b)
        (List.insertionSort (fun a b => a ≤ b) r.1)).length ≠ 2 ∨ r.2.2 = false then
    (r.2.1, st.2 ++ [snp_name (snp_remain.getD i 0)])
  else (r.2.1, st.2)

/-- The function `gcta::remove_bad_snps` (mtcojo.cpp 317-396): the updated arrays and
the sorted list of bad SNP names. The `.badsnps` output file is not modelled. -/
def remove_bad_snps (snp_name : ℕ → String) (snp_remain : List ℕ) (remain_oob : ℕ → ℕ)
    (snp_flag : ℕ → ℕ → Bool) (A : MetaArrays) (snp_se snp_pval snp_n : ℕ → ℕ → Option ℚ)
    (plink_snp_name_map : List (String × ℕ)) (snp_ref_a1 snp_ref_a2 : ℕ → String)
    (ntarget ncovar : ℕ) : MetaArrays × List String :=
  (((List.range snp_remain.length).foldl
      (remove_bad_snps_step snp_name snp_remain remain_oob snp_flag snp_se snp_pval snp_n
        plink_snp_name_map snp_ref_a1 snp_ref_a2 (ntarget + ncovar)) (A, [])).1,
    List.insertionSort (fun a b => a ≤ b)
      ((List.range snp_remain.length).foldl
        (remove_bad_snps_step snp_name snp_remain remain_oob snp_flag snp_se snp_pval snp_n
          plink_snp_name_map snp_ref_a1 snp_ref_a2 (ntarget + ncovar)) (A, [])).2)

/-- A table of strings given by its rows; entries outside the rows are `""`. -/
def strMatOf (rows : List (List String)) : ℕ → ℕ → String :=
  fun i j => (rows.getD i []).getD j ""

/-- A table of numbers with NaN (`none`) given by its rows; entries outside the rows
are NaN. -/
def optMatOf (rows : List (List (Option ℚ))) : ℕ → ℕ → Option ℚ :=
  fun i j => (rows.getD i []).getD j none

/-- A table of flags given by its rows; entries outside the rows are `false`. -/
def flagMatOf (rows : List (List Bool)) : ℕ → ℕ → Bool :=
  fun i j => (rows.getD i []).getD j false

/-- Names of the SNPs of the harmonisation examples. -/
def harm_snp_name : ℕ → String := fun i => ["s1", "s2", "s3"].getD i ""

/-- Reference panel of the harmonisation examples: `s1` is the panel SNP of index 0 and
`s2` the panel SNP of index 1, both with the allele pair `(A, G)`. -/
def harm_plink_snp_name_map : List (String × ℕ) := [("s1", 0), ("s2", 1)]

/-- Panel effect alleles of the harmonisation examples. -/
def harm_ref_a1 : ℕ → String := fun i => ["A", "A"].getD i ""

/-- Panel other alleles of the harmonisation examples. -/
def harm_ref_a2 : ℕ → String := fun i => ["G", "G"].getD i ""

/-- One trait that reports both SNPs `s1` and `s2` with the alleles `(G, A)`, frequency
`0.3` and effect `0.2`: the orientation opposite to the panel. -/
def harm_flipped : MetaArrays where
  snp_a1 := strMatOf [["G", "G"]]
  snp_a2 := strMatOf [["A", "A"]]
  snp_freq := optMatOf [[some (3/10)], [some (3/10)]]
  snp_b := optMatOf [[some (1/5)], [some (1/5)]]

/-- One trait that reports both SNPs `s1` and `s2` with the alleles `(C, T)`, which do
not occur in the panel pair `(A, G)`. -/
def harm_mismatch : MetaArrays where
  snp_a1 := strMatOf [["C", "C"]]
  snp_a2 := strMatOf [["T", "T"]]
  snp_freq := optMatOf [[some (3/10)], [some (3/10)]]
  snp_b := optMatOf [[some (1/5)], [some (1/5)]]

/-- Standard errors `0.01` of two SNPs in one trait. -/
def harm_se : ℕ → ℕ → Option ℚ := optMatOf [[some (1/100)], [some (1/100)]]

/-- The p-values `0.5` of two SNPs in one trait. -/
def harm_pval : ℕ → ℕ → Option ℚ := optMatOf [[some (1/2)], [some (1/2)]]

/-- Sample sizes `1000` of two SNPs in one trait. -/
def harm_n : ℕ → ℕ → Option ℚ := optMatOf [[some 1000], [some 1000]]

/-- Three SNPs in one trait with the alleles `(A, G)`; the effect of the third SNP is
missing. -/
def harm_missing : MetaArrays where
  snp_a1 := strMatOf [["A", "A", "A"]]
  snp_a2 := strMatOf [["G", "G", "G"]]
  snp_freq := optMatOf [[some (3/10)], [some (3/10)], [some (3/10)]]
  snp_b := optMatOf [[some (1/5)], [some (1/5)], [none]]

/-- Three SNPs in two traits, all with the alleles `(A, G)`; the third SNP has no
record (and a NaN effect) in the second trait. -/
def harm_two_traits : MetaArrays where
  snp_a1 := strMatOf [["A", "A", "A"], ["A", "A", "A"]]
  snp_a2 := strMatOf [["G", "G", "G"], ["G", "G", "G"]]
  snp_freq := optMatOf [[some (3/10), some (3/10)], [some (3/10), some (3/10)],
    [some (3/10), none]]
  snp_b := optMatOf [[some (1/5), some (1/5)], [some (1/5), some (1/5)], [some (1/5), none]]

/-- Validity flags of `harm_two_traits`: every record is present except the one of the
third SNP in the second trait. -/
def harm_two_traits_flag : ℕ → ℕ → Bool :=
  flagMatOf [[true, true, true], [true, true, false]]

/-- Standard errors of `harm_two_traits`: the first SNP has a standard error below
`1e-6` in the first trait. -/
def harm_two_traits_se : ℕ → ℕ → Option ℚ :=
  optMatOf [[some (1/10000000), some (1/100)], [some (1/100), some (1/100)],
    [some (1/100), none]]

/-- The p-values and sample sizes of `harm_two_traits` (the same table serves for
both). -/
def harm_two_traits_val : ℕ → ℕ → Option ℚ :=
  optMatOf [[some (1/2), some (1/2)], [some (1/2), some (1/2)], [some (1/2), none]]

/-- Standard errors `0.01` of three SNPs in one trait. -/
def harm3_se : ℕ → ℕ → Option ℚ := optMatOf [[some (1/100)], [some (1/100)], [some (1/100)]]

/-- The p-values `0.5` of three SNPs in one trait. -/
def harm3_pval : ℕ → ℕ → Option ℚ := optMatOf [[some (1/2)], [some (1/2)], [some (1/2)]]

/-- Sample sizes `1000` of three SNPs in one trait. -/
def harm3_n : ℕ → ℕ → Option ℚ := optMatOf [[some 1000], [some 1000], [some 1000]]

/-- Text and statistics routines used by `read_single_metafile` whose code is outside
the repository: `atof` from `<cstdlib>` (`none` is a NaN result), `StrFunc::to_upper`
and `CommFunc::median`. -/
structure TextRoutines where
  atof : String → Option ℚ
  to_upper : String → String
  median : List (Option ℚ) → Option ℚ

/-- The vectors of one trait that `read_single_metafile` fills through its reference
parameters, indexed by the registry index of the SNP; `none` is NaN. -/
structure MetaColumns where
  snp_a1 : ℕ → String
  snp_a2 : ℕ → String
  snp_freq : ℕ → Option ℚ
  snp_b : ℕ → Option ℚ
  snp_se : ℕ → Option ℚ
  snp_pval : ℕ → Option ℚ
  snp_n : ℕ → Option ℚ
  snp_flag : ℕ → Bool

/-- Reading of one numeric field (mtcojo.cpp 288-302): the value and whether the field
is missing. The tokens `.`, `NA` and `NAN` are missing values and are stored as NaN;
every other token goes through `atof`. -/
def read_single_metafile_field (tx : TextRoutines) (valbuf : String) : Option ℚ × Bool :=
  if valbuf ≠ "." ∧ valbuf ≠ "NA" ∧ valbuf ≠ "NAN" then (tx.atof valbuf, false)
  else (none, true)

/-- The value `vp_buf` of mtcojo.cpp 306-307, with NaN as `none`. -/
def read_single_metafile_vp (freq b se n : Option ℚ) : Option ℚ :=
  match freq, b, se, n with
  | some f, some b, some se, some n =>
    some (2 * f * (1 - f) * b * b + 2 * f * (1 - f) * n * se * se)
  | _, _, _, _ => none

/-- The body of the reading loop for a data line whose SNP has the registry index
`snp_indx` (mtcojo.cpp 285-309), on the state `(vectors, vec_vp_buf)`. -/
def read_single_metafile_row (tx : TextRoutines) (st : MetaColumns × List (Option ℚ))
    (snp_indx : ℕ) (line_elements : List String) : MetaColumns × List (Option ℚ) :=
  let freq := read_single_metafile_field tx (line_elements.getD 3 "")
  let b := read_single_metafile_field tx (line_elements.getD 4 "")
  let se := read_single_metafile_field tx (line_elements.getD 5 "")
  let pval := read_single_metafile_field tx (line_elements.getD 6 "")
  let n := read_single_metafile_field tx (line_elements.getD 7 "")
  ({ snp_a1 := fun i => if i = snp_indx then tx.to_upper (line_elements.getD 1 "")
        else st.1.snp_a1 i
     snp_a2 := fun i => if i = snp_indx then tx.to_upper (line_elements.getD 2 "")
        else st.1.snp_a2 i
     snp_freq := fun i => if i = snp_indx then freq.1 else st.1.snp_freq i
     snp_b := fun i => if i = snp_indx then b.1 else st.1.snp_b i
     snp_se := fun i => if i = snp_indx then se.1 else st.1.snp_se i
     snp_pval := fun i => if i = snp_indx then pval.1 else st.1.snp_pval i
     snp_n := fun i => if i = snp_indx then n.1 else st.1.snp_n i
     snp_flag := fun i => if i = snp_indx then true else st.1.snp_flag i },
    if (freq.2 || b.2 || se.2 || pval.2 || n.2) = true then st.2
    else st.2 ++ [read_single_metafile_vp freq.1 b.1 se.1 n.1])

/-- The reading loop of `read_single_metafile` (mtcojo.cpp 272-310) over the remaining
lines, each given as the list of its whitespace-separated tokens; `line_number` is the
number of the first remaining line. A line that does not have 8 tokens is fatal, line 1
is the header, and a line whose SNP is not in `id_map` is skipped. -/
def read_single_metafile_loop (tx : TextRoutines) (id_map : List (String × ℕ)) :
    List (List String) → ℕ → MetaColumns × List (Option ℚ) →
      Except ErrorKind (MetaColumns × List (Option ℚ))
  | [], _, st => .ok st
  | line_elements :: rest, line_number, st =>
    if line_elements.length ≠ 8 then .error .InvalidFormat
    else if line_number = 1 then
      read_single_metafile_loop tx id_map rest (line_number + 1) st
    else
      match id_map.lookup (line_elements.getD 0 "") with
      | none => read_single_metafile_loop tx id_map rest (line_number + 1) st
      | some snp_indx =>
        read_single_metafile_loop tx id_map rest (line_number + 1)
          (read_single_metafile_row tx st snp_indx line_elements)

/-- The function `gcta::read_single_metafile` (mtcojo.cpp 261-315). The file is given
as the list of its lines, `none` when it cannot be opened; the result is the median
`median_vp` and the filled vectors. -/
def read_single_metafile (tx : TextRoutines) (metafile : Option (List (List String)))
    (id_map : List (String × ℕ)) (cols : MetaColumns) :
    Except ErrorKind (Option ℚ × MetaColumns) :=
  match metafile with
  | none => .error .FileNotFound
  | some lines =>
    match read_single_metafile_loop tx id_map lines 1 (cols, []) with
    | .error e => .error e
    | .ok st => .ok (if st.2.length > 0 then tx.median st.2 else some 0, st.1)

/-- Vectors of one trait before any file is read: empty alleles, NaN values and no
flag set. -/
def emptyColumns : MetaColumns where
  snp_a1 := fun _ => ""
  snp_a2 := fun _ => ""
  snp_freq := fun _ => none
  snp_b := fun _ => none
  snp_se := fun _ => none
  snp_pval := fun _ => none
  snp_n := fun _ => none
  snp_flag := fun _ => false

/-- A summary file with the header and one row for `s1` whose frequency is `NA`. -/
def example_metafile_missing : List (List String) :=
  [["SNP", "A1", "A2", "freq", "b", "se", "p", "N"],
   ["s1", "A", "G", "NA", "0.1", "0.01", "0.5", "1000"]]

/-- A concrete instance of the text routines for evaluating examples: `atof` knows the
tokens of the example files and returns `0` for every other token, `to_upper` leaves
the (upper-case) example alleles as they are, and the median of a list is taken to be
its first entry. -/
def exampleText : TextRoutines where
  atof := fun s =>
    some (([("0.1", 1/10), ("0.01", 1/100), ("0.5", 1/2), ("1000", 1000), ("0.3", 3/10),
      ("0.2", 1/5)] : List (String × ℚ)).lookup s |>.getD 0)
  to_upper := fun s => s
  median := fun l => l.headD none

/-- One trait that reports both SNPs `s1` and `s2` in the orientation of the panel:
alleles `(A, G)`, frequency `0.3`, effect `0.2`. -/
def harm_aligned : MetaArrays where
  snp_a1 := strMatOf [["A", "A"]]
  snp_a2 := strMatOf [["G", "G"]]
  snp_freq := optMatOf [[some (3/10)], [some (3/10)]]
  snp_b := optMatOf [[some (1/5)], [some (1/5)]]

/-- The records of `harm_aligned` given in the other orientation: alleles `(G, A)`,
frequency `1 - 0.3 = 0.7`, effect `-0.2`. -/
def harm_strand_flipped : MetaArrays where
  snp_a1 := strMatOf [["G", "G"]]
  snp_a2 := strMatOf [["A", "A"]]
  snp_freq := optMatOf [[some (7/10)], [some (7/10)]]
  snp_b := optMatOf [[some (-1/5)], [some (-1/5)]]

/-- The record of trait `j` at SNP `x` in the arrays: the two alleles, the frequency and
the effect. -/
def MetaArrays.record (A : MetaArrays) (j x : ℕ) : String × String × Option ℚ × Option ℚ :=
  (A.snp_a1 j x, A.snp_a2 j x, A.snp_freq x j, A.snp_b x j)

/-- A record in the other orientation: alleles swapped, frequency `1 - freq`, effect
negated, as the alignment of mtcojo.cpp 367-369 produces it. -/
def flip_record (r : String × String × Option ℚ × Option ℚ) :
    String × String × Option ℚ × Option ℚ :=
  (r.2.1, r.1, r.2.2.1.map (fun f => 1 - f), r.2.2.2.map (fun b => -1 * b))

/-- Two states of the arrays that hold the same records except possibly for trait `t` at
SNP `s`, where the records are equal or the second is the first in the other
orientation, with two different alleles. -/
def orient_rel (t s : ℕ) (A A2 : MetaArrays) : Prop :=
  (∀ j x, ¬ (j = t ∧ x = s) → A.record j x = A2.record j x) ∧
  (A.record t s = A2.record t s ∨
    (A2.record t s = flip_record (A.record t s) ∧ A.snp_a1 t s ≠ A.snp_a2 t s))

/-- Removal `m.erase(k)` of the key `k` from a `std::map`. -/
def mapErase {β : Type} (m : List (String × β)) (k : String) : List (String × β) :=
  m.filter fun kv => kv.1 ≠ k

/-- The SNP registry of `gcta`: the map `_meta_snp_name_map` from SNP name to index, the
name array `_meta_snp_name` and the vector `_meta_remain_snp` of retained indices, with
the vectors as lists so that their sizes are part of the state. -/
structure MetaRegistry where
  _meta_snp_name_map : List (String × ℕ)
  _meta_snp_name : List String
  _meta_remain_snp : List ℕ
  deriving DecidableEq, Repr

/-- The loop of `gcta::init_meta_snp_map` (mtcojo.cpp 128-133) over the remaining names,
from index `i` on, with the local `size` and the state `(_meta_snp_name_map,
_meta_remain_snp)`: a name whose insertion leaves the size of the map unchanged is
fatal. -/
def init_meta_snp_map_loop : List String → ℕ → ℕ → List (String × ℕ) → List ℕ →
    Except ErrorKind (List (String × ℕ) × List ℕ)
  | [], _, _, m, remain => .ok (m, remain)
  | name :: rest, i, size, m, remain =>
    let m2 := mapInsert m name i
    if size = m2.length then .error .DuplicateSNP
    else init_meta_snp_map_loop rest (i + 1) m2.length m2 (remain.set i i)

/-- The function `gcta::init_meta_snp_map` (mtcojo.cpp 123-136): the map and the remain
vector are cleared, the remain vector is resized to `nsnp` entries, the loop fills
both, and the name array becomes `snplist`. -/
def init_meta_snp_map (snplist : List String) : Except ErrorKind MetaRegistry :=
  match init_meta_snp_map_loop snplist 0 0 [] (List.replicate snplist.length 0) with
  | .error e => .error e
  | .ok st => .ok ⟨st.1, snplist, st.2⟩

/-- The loop of `gcta::update_meta_snp_map` (mtcojo.cpp 157-168) over the remaining
names, with the locals `i`, `j`, `size`, `snp_add_map` and the registry passed by
reference: a name repeated in `snplist` is fatal, a name already in the registry is
skipped, and a new name is inserted with index `j` and pushed onto both vectors. -/
def update_meta_snp_map_loop : List String → ℕ → ℕ → ℕ → List (String × ℕ) →
    MetaRegistry → Except ErrorKind MetaRegistry
  | [], _, _, _, _, R => .ok R
  | name :: rest, i, j, size, snp_add_map, R =>
    let add2 := mapInsert snp_add_map name i
    if size = add2.length then .error .DuplicateSNP
    else if (R._meta_snp_name_map.lookup name).isSome then
      update_meta_snp_map_loop rest (i + 1) j add2.length add2 R
    else
      update_meta_snp_map_loop rest (i + 1) (j + 1) add2.length add2
        ⟨mapInsert R._meta_snp_name_map name j, R._meta_snp_name ++ [name],
          R._meta_remain_snp ++ [j]⟩

/-- The function `gcta::update_meta_snp_map` (mtcojo.cpp 153-169); `j` starts at the
size of the map. -/
def update_meta_snp_map (snplist : List String) (R : MetaRegistry) :
    Except ErrorKind MetaRegistry :=
  update_meta_snp_map_loop snplist 0 R._meta_snp_name_map.length 0 [] R

/-- The function `gcta::update_meta_snp` (mtcojo.cpp 171-189): the new name array holds
the former names at the former remain indices (a read past the former array is given
as the empty string), the remain vector becomes `0 .. nsnp - 1`, and the map is
cleared and refilled by inserting `(snp_name[i], i)` for `i = 0 .. nsnp - 1`. -/
def update_meta_snp (R : MetaRegistry) : MetaRegistry :=
  let nsnp := R._meta_remain_snp.length
  let snp_name := R._meta_remain_snp.map fun r => R._meta_snp_name.getD r ""
  ⟨(List.range nsnp).foldl (fun m i => mapInsert m (snp_name.getD i "") i) [],
    snp_name, List.range nsnp⟩

/-- The function `update_mtcojo_snp_kp` (mtcojo.cpp 191-206) on the map and the remain
vector of a registry (the name array is not a parameter and stays as it is): the names
of `adjsnps` are erased from a copy of the map, the keys left in the copy are erased
from the map, and the remain vector becomes the sorted values of the map. -/
def update_mtcojo_snp_kp (adjsnps : List String) (R : MetaRegistry) : MetaRegistry :=
  let snp_id_map_buf := adjsnps.foldl mapErase R._meta_snp_name_map
  let snp_id_map := snp_id_map_buf.foldl (fun m kv => mapErase m kv.1) R._meta_snp_name_map
  ⟨snp_id_map, R._meta_snp_name, List.insertionSort (· ≤ ·) (snp_id_map.map Prod.snd)⟩

/-- The function `gcta::update_mtcojo_snp_rm` (mtcojo.cpp 208-220) on the map and the
remain vector of a registry (the name array is not a parameter and stays as it is): the
names of `adjsnps` are erased from the map, and the remain vector becomes the sorted
values of the map. -/
def update_mtcojo_snp_rm (adjsnps : List String) (R : MetaRegistry) : MetaRegistry :=
  let snp_id_map := adjsnps.foldl mapErase R._meta_snp_name_map
  ⟨snp_id_map, R._meta_snp_name, List.insertionSort (· ≤ ·) (snp_id_map.map Prod.snd)⟩

/-- The reading loop of `gcta::read_snp_metafile` (mtcojo.cpp 233-250) over the
remaining lines, each given as the list of its tokens, with the locals `line_number`
(of the line before), `pval_buf` (`none` is NaN) and `snplist`: a line that does not
have 8 tokens is fatal, line 1 is the header, and with a positive threshold only the
SNPs whose p-value is below it are listed. -/
def read_snp_metafile_loop (tx : TextRoutines) (thresh : ℚ) :
    List (List String) → ℕ → Option ℚ → List String → Except ErrorKind (List String)
  | [], _, _, snplist => .ok snplist
  | line_elements :: rest, line_number, pval_buf, snplist =>
    if line_elements.length ≠ 8 then .error .InvalidFormat
    else if line_number + 1 = 1 then
      read_snp_metafile_loop tx thresh rest (line_number + 1) pval_buf snplist
    else if thresh > 0 then
      let valbuf := line_elements.getD 6 ""
      let pval_buf2 :=
        if valbuf ≠ "." ∧ valbuf ≠ "NA" ∧ valbuf ≠ "NAN" then tx.atof valbuf else pval_buf
      if (match pval_buf2 with | some p => decide (p < thresh) | none => false) = true then
        read_snp_metafile_loop tx thresh rest (line_number + 1) pval_buf2
          (snplist ++ [line_elements.getD 0 ""])
      else read_snp_metafile_loop tx thresh rest (line_number + 1) pval_buf2 snplist
    else
      read_snp_metafile_loop tx thresh rest (line_number + 1) pval_buf
        (snplist ++ [line_elements.getD 0 ""])

/-- The function `gcta::read_snp_metafile` (mtcojo.cpp 222-254). The file is given as
the list of its lines, `none` when it cannot be opened. -/
def read_snp_metafile (tx : TextRoutines) (metafile : Option (List (List String)))
    (thresh : ℚ) : Except ErrorKind (List String) :=
  match metafile with
  | none => .error .FileNotFound
  | some lines => read_snp_metafile_loop tx thresh lines 0 (some 0) []

/-- The covariate loop of `gcta::read_mtcojofile` (mtcojo.cpp 430-436) over the
remaining covariate files, from index `i` on: the SNP names of each file are read with
threshold `-9`, the first file initialises the registry and every later file goes
through `update_meta_snp_map`. -/
def read_mtcojofile_covar_loop (tx : TextRoutines) :
    List (Option (List (List String))) → ℕ → MetaRegistry → Except ErrorKind MetaRegistry
  | [], _, R => .ok R
  | covar_pheno_file :: rest, i, R =>
    match read_snp_metafile tx covar_pheno_file (-9) with
    | .error e => .error e
    | .ok snplist =>
      match (if i = 0 then init_meta_snp_map snplist else update_meta_snp_map snplist R) with
      | .error e => .error e
      | .ok R2 => read_mtcojofile_covar_loop tx rest (i + 1) R2

/-- The invariant of the registry: the remain vector is sorted ascending, and its
entries and the values of the map are valid indices into the name array. -/
def registry_inv (R : MetaRegistry) : Prop :=
  R._meta_remain_snp.Sorted (· ≤ ·) ∧
  (∀ r ∈ R._meta_remain_snp, r < R._meta_snp_name.length) ∧
  (∀ kv ∈ R._meta_snp_name_map, kv.2 < R._meta_snp_name.length)

/-- The reading of the SNPs in `gcta::read_mtcojofile` (mtcojo.cpp 428-440): the
covariate loop on the registry, then the SNP names of the target file, read with
threshold `-9`, go through `update_id_map_kp`, a member of `gcta` whose code is outside
the repository sources and which is a parameter here. -/
def read_mtcojofile_snps (tx : TextRoutines)
    (update_id_map_kp : List String → MetaRegistry → MetaRegistry)
    (covar_pheno_file : List (Option (List (List String))))
    (target_pheno_file : Option (List (List String))) (R : MetaRegistry) :
    Except ErrorKind MetaRegistry :=
  match read_mtcojofile_covar_loop tx covar_pheno_file 0 R with
  | .error e => .error e
  | .ok R2 =>
    match read_snp_metafile tx target_pheno_file (-9) with
    | .error e => .error e
    | .ok snplist => .ok (update_id_map_kp snplist R2)

/-- A summary file with the header and the rows of the SNPs `s1` and `s2`. -/
def example_metafile_s1_s2 : List (List String) :=
  [["SNP", "A1", "A2", "freq", "b", "se", "p", "N"],
   ["s1", "A", "G", "0.3", "0.1", "0.01", "0.5", "1000"],
   ["s2", "A", "G", "0.3", "0.1", "0.01", "0.5", "1000"]]

/-- A summary file with the header and the rows of the SNPs `s2` and `s3`. -/
def example_metafile_s2_s3 : List (List String) :=
  [["SNP", "A1", "A2", "freq", "b", "se", "p", "N"],
   ["s2", "A", "G", "0.3", "0.1", "0.01", "0.5", "1000"],
   ["s3", "A", "G", "0.3", "0.1", "0.01", "0.5", "1000"]]

/-- The outputs of `read_metafile_list`: the name and the file of the target trait, and
the values pushed onto the vectors `covar_pheno`, `covar_pheno_file`, `popu_prev` and
`smpl_prev` (which `read_mtcojofile` passes empty); a NaN prevalence is `none`. -/
structure MetaList where
  target_pheno : String
  target_pheno_file : String
  covar_pheno : List String
  covar_pheno_file : List String
  popu_prev : List (Option ℚ)
  smpl_prev : List (Option ℚ)

/-- Reading of one prevalence token in `read_metafile_list` (mtcojo.cpp 73-84): the
token is upper-cased; `NA`, `NAN` and `.` leave the NaN; every other token goes through
`atof`, and a value below 0 or above 1 is fatal (both comparisons are false on a NaN). -/
def read_metafile_list_prev (tx : TextRoutines) (token : String) :
    Except ErrorKind (Option ℚ) :=
  let prevbuf := tx.to_upper token
  if prevbuf ≠ "NA" ∧ prevbuf ≠ "NAN" ∧ prevbuf ≠ "." then
    match tx.atof prevbuf with
    | some d_prev => if d_prev < 0 ∨ d_prev > 1 then .error .InvalidParameter
      else .ok (some d_prev)
    | none => .ok none
  else .ok none

/-- Reading of one line of the list in `read_metafile_list` (mtcojo.cpp 65-85 for the
target trait, 93-113 for a covariate): a line that has neither 2 nor 4 tokens is fatal;
the result is the name, the file, the sample prevalence and the population
prevalence. -/
def read_metafile_list_line (tx : TextRoutines) (line_elements : List String) :
    Except ErrorKind (String × String × Option ℚ × Option ℚ) :=
  if line_elements.length ≠ 2 ∧ line_elements.length ≠ 4 then .error .InvalidFormat
  else if line_elements.length = 4 then
    match read_metafile_list_prev tx (line_elements.getD 2 "") with
    | .error e => .error e
    | .ok d_prev1 =>
      match read_metafile_list_prev tx (line_elements.getD 3 "") with
      | .error e => .error e
      | .ok d_prev2 => .ok (line_elements.getD 0 "", line_elements.getD 1 "", d_prev1, d_prev2)
  else .ok (line_elements.getD 0 "", line_elements.getD 1 "", none, none)

/-- The loop of `read_metafile_list` over the covariate lines (mtcojo.cpp 89-118). -/
def read_metafile_list_loop (tx : TextRoutines) :
    List (List String) → MetaList → Except ErrorKind MetaList
  | [], ml => .ok ml
  | line_elements :: rest, ml =>
    match read_metafile_list_line tx line_elements with
    | .error e => .error e
    | .ok r =>
      read_metafile_list_loop tx rest
        { ml with
          covar_pheno := ml.covar_pheno ++ [r.1]
          covar_pheno_file := ml.covar_pheno_file ++ [r.2.1]
          smpl_prev := ml.smpl_prev ++ [r.2.2.1]
          popu_prev := ml.popu_prev ++ [r.2.2.2] }

/-- The function `read_metafile_list` (mtcojo.cpp 50-121). The file is given as the list
of its lines, each the list of its tokens, `none` when it cannot be opened; the first
line is the target trait (no token at all when the file is empty) and the other lines
are the covariates. -/
def read_metafile_list (tx : TextRoutines) (mtcojolist_file : Option (List (List String))) :
    Except ErrorKind MetaList :=
  match mtcojolist_file with
  | none => .error .FileNotFound
  | some lines =>
    match read_metafile_list_line tx (lines.headD []) with
    | .error e => .error e
    | .ok r =>
      read_metafile_list_loop tx (lines.drop 1)
        { target_pheno := r.1
          target_pheno_file := r.2.1
          covar_pheno := []
          covar_pheno_file := []
          smpl_prev := [r.2.2.1]
          popu_prev := [r.2.2.2] }

/-- The centred vector `AVec` of `FastFAM::HEreg` (FastFAM.cpp 176-180): every entry
minus the mean of the vector. -/
def HEreg_center (v : List ℚ) : List ℚ :=
  v.map fun a => a - v.sum / (v.length : ℚ)

/-- The value `A2v` of `FastFAM::HEreg` (FastFAM.cpp 182): the product of the centred
`AVec` with itself. -/
def HEreg_A2v (Aij : List ℚ) : ℚ :=
  ((HEreg_center Aij).map fun a => a * a).sum

/-- The value `hsq` of `FastFAM::HEreg` (FastFAM.cpp 187-188): `(1.0 / A2v) * AZ`, with
`AZ` the product of the centred vectors. -/
def HEreg_hsq (Zij Aij : List ℚ) : ℚ :=
  (1 / HEreg_A2v Aij) * (List.zipWith (fun a z => a * z) (HEreg_center Aij) (HEreg_center Zij)).sum

/-- The value `delta` of `FastFAM::HEreg` (FastFAM.cpp 190-192): the sum of the squared
residuals `ZVec - AVec * hsq` over `size - 2`. -/
def HEreg_delta (Zij Aij : List ℚ) : ℚ :=
  ((List.zipWith (fun z a => z - a * HEreg_hsq Zij Aij) (HEreg_center Zij)
      (HEreg_center Aij)).map fun r => r * r).sum
    / (((Zij.length : ℤ) - 2 : ℤ) : ℚ)

/-- The value `se` of `FastFAM::HEreg` (FastFAM.cpp 193). -/
def HEreg_se (nm : Numerics) (Zij Aij : List ℚ) : ℚ :=
  nm.sqrt (HEreg_delta Zij Aij / HEreg_A2v Aij)

/-- The value `p` of `FastFAM::HEreg` (FastFAM.cpp 195-197) when the statistic `z * z` is
finite. -/
def HEreg_p (nm : Numerics) (Zij Aij : List ℚ) : ℚ :=
  nm.pchisq ((HEreg_hsq Zij Aij / HEreg_se nm Zij Aij)
    * (HEreg_hsq Zij Aij / HEreg_se nm Zij Aij)) 1

/-- The function `FastFAM::HEreg` (FastFAM.cpp 171-203) on two vectors of the same size,
as its caller passes them. An `A2v` below `1e-6` is fatal (`can't solve the
regression`, the singular normal equation of the regression on one variable) and so is a
p-value above `0.05`; otherwise `hsq` is returned. The statistic is not finite when
`size - 2` is 0 or `se` is 0: `p_nonfinite` is the value of `StatFunc::pchisq` on such a
statistic, `none` for a NaN, on which the comparison is false. -/
def HEreg (nm : Numerics) (p_nonfinite : Option ℚ) (Zij Aij : List ℚ) : Except ErrorKind ℚ :=
  if HEreg_A2v Aij < 1 / 1000000 then .error .SingularNormalEquations
  else
    let p : Option ℚ :=
      if (Zij.length : ℤ) - 2 = 0 ∨ HEreg_se nm Zij Aij = 0 then p_nonfinite
      else some (HEreg_p nm Zij Aij)
    if (match p with
        | some p => decide (p > 1 / 20)
        | none => false) = true then .error .InsufficientRelatedness
    else .ok (HEreg_hsq Zij Aij)

/-- The function `update_weights_hsq` (mtcojo.cpp 963-978) on vectors of `n_ld_snp`
entries: `h` is clipped to `[0, 1]`, the LD scores to at least 1, and the weight of SNP
`i` is `1 / (2 w_ld(i) (intercept + h / M · n(i) ref_ld(i))²)`. The result is `none` when
a division by zero occurs; the source then goes on with infinite or NaN values, which
the model does not follow. -/
def update_weights_hsq (intercept h : ℚ) (ttl_mk_num : ℤ) (n_ld_snp : ℕ)
    (ref_ld w_ld n : List ℚ) : Option (List ℚ) :=
  let h1 := if h < 0 then 0 else h
  let h2 := if h1 > 1 then 1 else h1
  let ref_ld2 := fun i => if ref_ld.getD i 0 < 1 then 1 else ref_ld.getD i 0
  let w_ld2 := fun i => if w_ld.getD i 0 < 1 then 1 else w_ld.getD i 0
  let denominator := fun i => intercept + h2 / (ttl_mk_num : ℚ) * (n.getD i 0 * ref_ld2 i)
  let denominator2 := fun i => 2 * (w_ld2 i * (denominator i * denominator i))
  if ttl_mk_num = 0 ∨ ∃ i ∈ List.range n_ld_snp, denominator2 i = 0 then none
  else some ((List.range n_ld_snp).map fun i => 1 / denominator2 i)

/-- The function `compute_irls` (mtcojo.cpp 980-1016) on vectors of `n_ld_snp` entries,
with the two columns of `x` as `x0` and `x1`: the result is the new `intercept`, the new
`hsq` and the returned weights. The square roots of the weights are divided by their
sum, both columns and `y` are multiplied by them, and the regression is solved with the
intercept (the 2×2 system `xᵀx b = xᵀy`, whose `ldlt().solve` is given by the exact
solution when `xᵀx` is regular and by `nm.ldlt_singular` when it is singular) or
without (`xt_y / xt_x`). The source tests nothing: the result is `none` when the
estimate needs a division by zero (sum of the roots, mean of `n` or `xt_x` equal
to 0), and the weights are `none` when they do. -/
def compute_irls (nm : Numerics) (intercept hsq : ℚ) (x0 x1 y wt ref_ld w_ld n : List ℚ)
    (ttl_mk_num : ℤ) (n_ld_snp : ℕ) (intercept_flag x_flag : Bool) :
    Option (ℚ × ℚ × Option (List ℚ)) :=
  let wx := x0
  let wt_sum := ∑ i in Finset.range n_ld_snp, nm.sqrt (wt.getD i 0)
  let wt2 := fun i => nm.sqrt (wt.getD i 0) / wt_sum
  let xw0 := fun i => x0.getD i 0 * wt2 i
  let xw1 := fun i => x1.getD i 0 * wt2 i
  let yw := fun i => y.getD i 0 * wt2 i
  let n_mean := (∑ i in Finset.range n_ld_snp, n.getD i 0) / (n_ld_snp : ℚ)
  let est : Option (ℚ × ℚ) :=
    if wt_sum = 0 ∨ n_mean = 0 then none
    else if intercept_flag = true then
      let a := ∑ i in Finset.range n_ld_snp, xw0 i * xw0 i
      let b := ∑ i in Finset.range n_ld_snp, xw0 i * xw1 i
      let d := ∑ i in Finset.range n_ld_snp, xw1 i * xw1 i
      let u := ∑ i in Finset.range n_ld_snp, xw0 i * yw i
      let v := ∑ i in Finset.range n_ld_snp, xw1 i * yw i
      if a * d - b * b = 0 then
        some ((nm.ldlt_singular a b d u v).2,
          (nm.ldlt_singular a b d u v).1 * (ttl_mk_num : ℚ) / n_mean)
      else some ((a * v - b * u) / (a * d - b * b),
        (d * u - b * v) / (a * d - b * b) * (ttl_mk_num : ℚ) / n_mean)
    else
      let xt_x := ∑ i in Finset.range n_ld_snp, xw0 i * xw0 i
      let xt_y := ∑ i in Finset.range n_ld_snp, xw0 i * yw i
      if xt_x = 0 then none
      else some (intercept, xt_y / xt_x * (ttl_mk_num : ℚ) / n_mean)
  match est with
  | none => none
  | some e =>
    some (e.1, e.2, update_weights_hsq e.1 e.2 ttl_mk_num n_ld_snp
      (if x_flag = true then wx else ref_ld) w_ld n)

/-- The start of `est_hsq_trait_2_steps` (mtcojo.cpp 1046-1052): the prior `h_prior`,
the prior weights `wt_ttl` and the column `x.col(0) = ref_ld · n / mean(n)`. -/
def est_hsq_trait_2_steps_prior (chival n ref_ld w_ld : List ℚ) (n_ld_snp : ℕ)
    (ttl_mk_num : ℤ) : Option (ℚ × List ℚ × List ℚ) :=
  let denominator_mean :=
    (∑ i in Finset.range n_ld_snp, ref_ld.getD i 0 * n.getD i 0) / (n_ld_snp : ℚ)
  let chival_mean := (∑ i in Finset.range n_ld_snp, chival.getD i 0) / (n_ld_snp : ℚ)
  let n_mean := (∑ i in Finset.range n_ld_snp, n.getD i 0) / (n_ld_snp : ℚ)
  if denominator_mean = 0 ∨ n_mean = 0 then none
  else
    let h_prior := (chival_mean - 1) * (ttl_mk_num : ℚ) / denominator_mean
    match update_weights_hsq 1 h_prior ttl_mk_num n_ld_snp ref_ld w_ld n with
    | none => none
    | some wt_ttl =>
      some (h_prior, wt_ttl,
        (List.range n_ld_snp).map fun i => ref_ld.getD i 0 * n.getD i 0 / n_mean)

/-- Step 1 of `est_hsq_trait_2_steps` (mtcojo.cpp 1054-1079): three passes of
`compute_irls` with the intercept over the SNPs whose chi-square is below 30; the result
is `intercept_posterior` and `h_prior` after the third pass. -/
def est_hsq_trait_2_steps_step1 (nm : Numerics) (chival n ref_ld w_ld : List ℚ)
    (n_ld_snp : ℕ) (ttl_mk_num : ℤ) : Option (ℚ × ℚ) :=
  match est_hsq_trait_2_steps_prior chival n ref_ld w_ld n_ld_snp ttl_mk_num with
  | none => none
  | some (h_prior, wt_ttl, x0) =>
    let subset_indx := (List.range n_ld_snp).filter fun i => decide (chival.getD i 0 < 30)
    let n_subset_snp := subset_indx.length
    let subset_chi := subset_indx.map fun i => chival.getD i 0
    let subset_n := subset_indx.map fun i => n.getD i 0
    let subset_ref_ld := subset_indx.map fun i => ref_ld.getD i 0
    let subset_w_ld := subset_indx.map fun i => w_ld.getD i 0
    let subset_wt := subset_indx.map fun i => wt_ttl.getD i 0
    let subset_x0 := subset_indx.map fun i => x0.getD i 0
    let subset_x1 := subset_indx.map fun _ => (1 : ℚ)
    match compute_irls nm 1 h_prior subset_x0 subset_x1 subset_chi subset_wt subset_ref_ld
        subset_w_ld subset_n ttl_mk_num n_subset_snp true true with
    | some (intercept_prior1, h_prior1, some subset_wt1) =>
      match compute_irls nm intercept_prior1 h_prior1 subset_x0 subset_x1 subset_chi
          subset_wt1 subset_ref_ld subset_w_ld subset_n ttl_mk_num n_subset_snp true true with
      | some (_, h_prior2, some subset_wt2) =>
        match compute_irls nm 0 h_prior2 subset_x0 subset_x1 subset_chi subset_wt2
            subset_ref_ld subset_w_ld subset_n ttl_mk_num n_subset_snp true true with
        | some (intercept_posterior, h_prior3, _) => some (intercept_posterior, h_prior3)
        | none => none
      | _ => none
    | _ => none

/-- The first two passes of step 2 of `est_hsq_trait_2_steps` (mtcojo.cpp 1081-1084):
the intercept of step 1 is subtracted from the chi-squares of all SNPs and
`compute_irls` runs twice without intercept, from the prior weights; the result is
`intercept_posterior`, `h_prior` and the weights `wt_ttl` that enter the last pass. -/
def est_hsq_trait_2_steps_before_last (nm : Numerics) (chival n ref_ld w_ld : List ℚ)
    (n_ld_snp : ℕ) (ttl_mk_num : ℤ) : Option (ℚ × ℚ × List ℚ) :=
  match est_hsq_trait_2_steps_prior chival n ref_ld w_ld n_ld_snp ttl_mk_num,
    est_hsq_trait_2_steps_step1 nm chival n ref_ld w_ld n_ld_snp ttl_mk_num with
  | some (_, wt_ttl, x0), some (intercept_posterior, h_prior) =>
    let x1 := (List.range n_ld_snp).map fun _ => (1 : ℚ)
    let chival2 := (List.range n_ld_snp).map fun i => chival.getD i 0 - intercept_posterior
    match compute_irls nm intercept_posterior h_prior x0 x1 chival2 wt_ttl ref_ld w_ld n
        ttl_mk_num n_ld_snp false false with
    | some (_, h_prior1, some wt_ttl1) =>
      match compute_irls nm intercept_posterior h_prior1 x0 x1 chival2 wt_ttl1 ref_ld w_ld n
          ttl_mk_num n_ld_snp false false with
      | some (_, h_prior2, some wt_ttl2) => some (intercept_posterior, h_prior2, wt_ttl2)
      | _ => none
    | _ => none
  | _, _ => none

/-- The function `est_hsq_trait_2_steps` (mtcojo.cpp 1040-1093): after step 1 and the
first two passes of step 2, the last pass of `compute_irls` without intercept gives
`h_posterior`; the result is `(ldsc_est[0], ldsc_est[1])`, the intercept of step 1 and
`h_posterior`. The weights that the last pass returns are not used. -/
def est_hsq_trait_2_steps (nm : Numerics) (chival n ref_ld w_ld : List ℚ)
    (n_ld_snp : ℕ) (ttl_mk_num : ℤ) : Option (ℚ × ℚ) :=
  match est_hsq_trait_2_steps_prior chival n ref_ld w_ld n_ld_snp ttl_mk_num,
    est_hsq_trait_2_steps_before_last nm chival n ref_ld w_ld n_ld_snp ttl_mk_num with
  | some (_, _, x0), some (intercept_posterior, _, wt_ttl) =>
    let x1 := (List.range n_ld_snp).map fun _ => (1 : ℚ)
    let chival2 := (List.range n_ld_snp).map fun i => chival.getD i 0 - intercept_posterior
    match compute_irls nm intercept_posterior 0 x0 x1 chival2 wt_ttl ref_ld w_ld n
        ttl_mk_num n_ld_snp false false with
    | some (_, h_posterior, _) => some (intercept_posterior, h_posterior)
    | none => none
  | _, _ => none

/-- The round of the SNP loop in the variant of `remove_bad_snps` that the specification
intends: as `remove_bad_snps_step`, with the effect tested for NaN at the row
`snp_remain[i]` of the SNP. -/
def remove_bad_snps_step_intended (snp_name : ℕ → String) (snp_remain : List ℕ)
    (snp_flag : ℕ → ℕ → Bool) (snp_se snp_pval snp_n : ℕ → ℕ → Option ℚ)
    (plink_snp_name_map : List (String × ℕ)) (snp_ref_a1 snp_ref_a2 : ℕ → String)
    (npheno : ℕ) (st : MetaArrays × List String) (i : ℕ) : MetaArrays × List String :=
  let r := remove_bad_snps_traits snp_flag snp_se snp_pval snp_n (snp_remain.getD i 0)
    (snp_remain.getD i 0) (List.range npheno)
    (remove_bad_snps_reference snp_name snp_flag st.1 plink_snp_name_map snp_ref_a1 snp_ref_a2
      npheno (snp_remain.getD i 0)) st.1
  if (List.destutter (fun a b => a ≠ b)
        (List.insertionSort (fun a b => a ≤ b) r.1)).length ≠ 2 ∨ r.2.2 = false then
    (r.2.1, st.2 ++ [snp_name (snp_remain.getD i 0)])
  else (r.2.1, st.2)

/-- The variant of `remove_bad_snps` that the specification intends, in which the
missing-effect check reads `snp_b(snp_remain[i], j)`: the updated arrays and the sorted
list of bad SNP names. -/
def remove_bad_snps_intended (snp_name : ℕ → String) (snp_remain : List ℕ)
    (snp_flag : ℕ → ℕ → Bool) (A : MetaArrays) (snp_se snp_pval snp_n : ℕ → ℕ → Option ℚ)
    (plink_snp_name_map : List (String × ℕ)) (snp_ref_a1 snp_ref_a2 : ℕ → String)
    (ntarget ncovar : ℕ) : MetaArrays × List String :=
  (((List.range snp_remain.length).foldl
      (remove_bad_snps_step_intended snp_name snp_remain snp_flag snp_se snp_pval snp_n
        plink_snp_name_map snp_ref_a1 snp_ref_a2 (ntarget + ncovar)) (A, [])).1,
    List.insertionSort (fun a b => a ≤ b)
      ((List.range snp_remain.length).foldl
        (remove_bad_snps_step_intended snp_name snp_remain snp_flag snp_se snp_pval snp_n
          plink_snp_name_map snp_ref_a1 snp_ref_a2 (ntarget + ncovar)) (A, [])).2)

/-- Example reference panel with a redundant pair: the three SNPs of `examplePanel`, on
three chromosomes, with the genotype correlations `r(s1, s2) = 0.9` and
`r(s1, s3) = r(s2, s3) = 0.1`. -/
def redundantPanel : GctaState where
  _include := [0, 1, 2]
  _keep := List.range 100
  _snp_name := fun i => ["s1", "s2", "s3"].getD i ""
  _snp_name_map := [("s1", 0), ("s2", 1), ("s3", 2)]
  _chr := fun i => ([1, 2, 3] : List ℤ).getD i 0
  _bp := fun i => ([1000, 2000, 3000] : List ℤ).getD i 0
  _meta_snp_name := fun i => ["s1", "s2", "s3"].getD i ""
  _meta_remain_snp := [0, 1, 2]
  _meta_snp_name_map := [("s1", 0), ("s2", 1), ("s3", 2)]
  makex_r := matOf [[1, 9/10, 1/10], [9/10, 1, 1/10], [1/10, 1/10, 1]]
  xmat_r := matOf [[1, 9/10, 1/10], [9/10, 1, 1/10], [1/10, 1/10, 1]]
  oob_read := fun _ => -1
  wind_overflow := -2147483648

/-- The library routine `std::binary_search` on a range sorted by `<`: whether the range
holds the value. -/
def binary_search (sorted : List String) (value : String) : Bool :=
  decide (value ∈ sorted)

/-- The function `Pheno::set_keep` (Pheno.cpp 281-305): the new content of `keeps`.
`indi_marks` is sorted (`std::sort`, which also reorders the caller's vector), `pIN`
collects the positions in `marks` of the marks found in it, and `keeps` loses the entries
that are not in `pIN` (`isKeep`) or that are in `pIN` (otherwise); `std::remove_if`
keeps the order of the entries that stay. -/
def set_keep (indi_marks marks : List String) (keeps : List ℕ) (isKeep : Bool) : List ℕ :=
  let sorted := List.insertionSort (fun a b => a ≤ b) indi_marks
  let pIN := (marks.foldl
    (fun (st : List ℕ × ℕ) item_mark =>
      (if binary_search sorted item_mark = true then st.1 ++ [st.2] else st.1, st.2 + 1))
    ([], 0)).1
  if isKeep = true then keeps.filter fun key => !(decide (key ∉ pIN))
  else keeps.filter fun key => !(decide (key ∈ pIN))

/-- The library algorithm `std::set_difference` on two ranges: the merge loop that
copies an element of the first range when it is smaller than the current element of the
second, advances the second range when its element is smaller, advances both on equal
elements, and copies the rest of the first range when the second is exhausted. -/
def set_difference : List ℕ → List ℕ → List ℕ
  | [], _ => []
  | a :: as, [] => a :: as
  | a :: as, b :: bs =>
    if a < b then a :: set_difference as (b :: bs)
    else if b < a then set_difference (a :: as) bs
    else set_difference as bs
termination_by l1 l2 => l1.length + l2.length

/-- The function `Pheno::reinit_rm` (Pheno.cpp 341-351): the new content of `rms`,
`std::set_difference` of the indices `0 .. total_sample_number - 1` and `keeps`, and
nothing when the two vectors have the same size. -/
def reinit_rm (keeps : List ℕ) (total_sample_number : ℕ) : List ℕ :=
  if total_sample_number = keeps.length then []
  else set_difference (List.range total_sample_number) keeps

/-- The byte `mask_item` chosen by the `switch` of `Pheno::init_mask_block`
(Pheno.cpp 434-451): all bits set but the two of field `index % 4`. -/
def mask_item (index : ℕ) : ℕ :=
  match index % 4 with
  | 0 => 0b11111100
  | 1 => 0b11110011
  | 2 => 0b11001111
  | _ => 0b00111111

/-- The byte `mask_add_item` chosen by the `switch` of `Pheno::init_mask_block`: the
value `01` in field `index % 4`. -/
def mask_add_item (index : ℕ) : ℕ :=
  match index % 4 with
  | 0 => 0b00000001
  | 1 => 0b00000100
  | 2 => 0b00010000
  | _ => 0b01000000

/-- The function `Pheno::init_mask_block` (Pheno.cpp 425-461): the maps `mask_block` and
`mask_add_block` from byte position to `uint8_t`, built from `index_rm`. A byte position
met before has its mask and-ed with the new item and its addend increased by the new
item (`uint8_t` arithmetic); a new byte position is inserted with the two items. -/
def init_mask_block (index_rm : List ℕ) : List (ℕ × ℕ) × List (ℕ × ℕ) :=
  index_rm.foldl
    (fun st index =>
      let byte_pos := index / 4
      match st.1.lookup byte_pos with
      | some _ =>
        (st.1.map fun kv => if kv.1 = byte_pos then (kv.1, kv.2 &&& mask_item index) else kv,
         st.2.map fun kv =>
          if kv.1 = byte_pos then (kv.1, (kv.2 + mask_add_item index) % 256) else kv)
      | none =>
        (st.1 ++ [(byte_pos, mask_item index)], st.2 ++ [(byte_pos, mask_add_item index)]))
    ([], [])

/-- The function `Pheno::mask_geno_keep` (Pheno.cpp 463-476) on the memory `geno` of
bytes addressed from `geno_1block`: in each of the `num_blocks` blocks of `num_bytes`
bytes, every byte position of `mask_block` is and-ed with its mask and increased by its
addend (`uint8_t` arithmetic). -/
def mask_geno_keep (mask_block mask_add_block : List (ℕ × ℕ)) (num_bytes : ℕ)
    (geno : ℕ → ℕ) (num_blocks : ℕ) : ℕ → ℕ :=
  if mask_block.length = 0 then geno
  else
    (List.range num_blocks).foldl
      (fun g cur_block =>
        mask_block.foldl
          (fun g item => fun a =>
            if a = cur_block * num_bytes + item.1 then
              ((g (cur_block * num_bytes + item.1) &&& item.2)
                + (mask_add_block.lookup item.1).getD 0) % 256
            else g a)
          g)
      geno

/-- The result arrays `beta`, `se` and `p` of `FastFAM`, by raw marker index; `none` is a
slot that holds no finite number. -/
structure FamArrays where
  beta : ℕ → Option ℚ
  se : ℕ → Option ℚ
  p : ℕ → Option ℚ

/-- The row vector `xMat.transpose() * V_inverse` of `FastFAM::reg_thread`. -/
def reg_xMat_V (V_inverse : ℕ → ℕ → ℚ) (num_indi : ℕ) (xMat : ℕ → ℚ) (j : ℕ) : ℚ :=
  ∑ i in Finset.range num_indi, xMat i * V_inverse i j

/-- The product `(xMat_V * v)(0, 0)` of `FastFAM::reg_thread`. -/
def reg_xMat_V_dot (V_inverse : ℕ → ℕ → ℚ) (num_indi : ℕ) (xMat v : ℕ → ℚ) : ℚ :=
  ∑ j in Finset.range num_indi, reg_xMat_V V_inverse num_indi xMat j * v j

/-- The value `temp_beta` of one round of `FastFAM::reg_thread` (FastFAM.cpp 340-343):
`xMat_V_x * xMat_V_p` with `xMat_V_x = 1.0 / (xMat_V * xMat)(0, 0)`, not finite when the
divisor is zero. -/
def reg_temp_beta (V_inverse : ℕ → ℕ → ℚ) (phenoVec : ℕ → ℚ) (num_indi : ℕ)
    (xMat : ℕ → ℚ) : Option ℚ :=
  if reg_xMat_V_dot V_inverse num_indi xMat xMat = 0 then none
  else
    let xMat_V_x := 1 / reg_xMat_V_dot V_inverse num_indi xMat xMat
    let xMat_V_p := reg_xMat_V_dot V_inverse num_indi xMat phenoVec
    some (xMat_V_x * xMat_V_p)

/-- The value `temp_se = sqrt(xMat_V_x)` of one round of `FastFAM::reg_thread`
(FastFAM.cpp 344), not a number when `xMat_V_x` is not finite or negative. -/
def reg_temp_se (nm : Numerics) (V_inverse : ℕ → ℕ → ℚ) (num_indi : ℕ)
    (xMat : ℕ → ℚ) : Option ℚ :=
  if reg_xMat_V_dot V_inverse num_indi xMat xMat = 0 then none
  else
    let xMat_V_x := 1 / reg_xMat_V_dot V_inverse num_indi xMat xMat
    if xMat_V_x < 0 then none else some (nm.sqrt xMat_V_x)

/-- The value `StatFunc::pchisq(temp_z * temp_z, 1)` of one round of
`FastFAM::reg_thread` (FastFAM.cpp 345-352) with `temp_z = temp_beta / temp_se`; `none`
when `temp_z` is not a finite number. -/
def reg_temp_p (nm : Numerics) (V_inverse : ℕ → ℕ → ℚ) (phenoVec : ℕ → ℚ) (num_indi : ℕ)
    (xMat : ℕ → ℚ) : Option ℚ :=
  match reg_temp_beta V_inverse phenoVec num_indi xMat,
    reg_temp_se nm V_inverse num_indi xMat with
  | some temp_beta, some temp_se =>
    if temp_se = 0 then none
    else
      let temp_z := temp_beta / temp_se
      some (nm.pchisq (temp_z * temp_z) 1)
  | _, _ => none

/-- One round of the loop of `FastFAM::reg_thread` (FastFAM.cpp 336-352): the three
statistics of the marker vector `makeMarkerX cur_marker` (the vector that
`geno->makeMarkerX` writes for marker `cur_marker` of the buffer) are stored at
`num_finished_marker + cur_marker`. -/
def reg_thread_round (nm : Numerics) (makeMarkerX : ℕ → ℕ → ℚ) (V_inverse : ℕ → ℕ → ℚ)
    (phenoVec : ℕ → ℚ) (num_indi num_finished_marker : ℕ) (st : FamArrays)
    (cur_marker : ℕ) : FamArrays :=
  let xMat := makeMarkerX cur_marker
  let cur_raw_marker := num_finished_marker + cur_marker
  { beta := fun m =>
      if m = cur_raw_marker then reg_temp_beta V_inverse phenoVec num_indi xMat
      else st.beta m
    se := fun m =>
      if m = cur_raw_marker then reg_temp_se nm V_inverse num_indi xMat else st.se m
    p := fun m =>
      if m = cur_raw_marker then reg_temp_p nm V_inverse phenoVec num_indi xMat
      else st.p m }

/-- The function `FastFAM::reg_thread` (FastFAM.cpp 330-357) on the result arrays: one
round for each `cur_marker` from `from_marker` up to `to_marker - 1`. -/
def reg_thread (nm : Numerics) (makeMarkerX : ℕ → ℕ → ℚ) (V_inverse : ℕ → ℕ → ℚ)
    (phenoVec : ℕ → ℚ) (num_indi num_finished_marker : ℕ) (st : FamArrays)
    (from_marker to_marker : ℕ) : FamArrays :=
  (List.range' from_marker (to_marker - from_marker)).foldl
    (reg_thread_round nm makeMarkerX V_inverse phenoVec num_indi num_finished_marker) st

/-- The marker ranges `(from_marker, to_marker)` of the calls of `reg_thread` made by
`FastFAM::calculate_fam` (FastFAM.cpp 311-320) for `thread_count` pool threads
(`THREADS.getThreadCount()`): one job per pool thread, then the call of the driver. -/
def calculate_fam_ranges (thread_count num_marker : ℕ) : List (ℕ × ℕ) :=
  let num_thread := thread_count + 1
  let num_marker_part := (num_marker + num_thread - 1) / num_thread
  (List.range (num_thread - 1)).map
      (fun index => (index * num_marker_part, (index + 1) * num_marker_part))
    ++ [((num_thread - 1) * num_marker_part, num_marker)]

/-- The values of `cur_marker` met by the loop of `reg_thread` for one range. -/
def reg_thread_markers (range : ℕ × ℕ) : List ℕ :=
  List.range' range.1 (range.2 - range.1)

/-- The values of `cur_marker` met by all the calls of `reg_thread` of one call of
`calculate_fam`, job after job. -/
def calculate_fam_markers (thread_count num_marker : ℕ) : List ℕ :=
  (calculate_fam_ranges thread_count num_marker).flatMap reg_thread_markers

/-- The function `FastFAM::calculate_fam` (FastFAM.cpp 311-328) on the result arrays and
`num_finished_marker`, with the jobs run one after the other in the order in which they
are handed out. -/
def calculate_fam (nm : Numerics) (makeMarkerX : ℕ → ℕ → ℚ) (V_inverse : ℕ → ℕ → ℚ)
    (phenoVec : ℕ → ℚ) (num_indi thread_count : ℕ) (st : FamArrays × ℕ)
    (num_marker : ℕ) : FamArrays × ℕ :=
  ((calculate_fam_ranges thread_count num_marker).foldl
      (fun arrays range =>
        reg_thread nm makeMarkerX V_inverse phenoVec num_indi st.2 arrays range.1 range.2)
      st.1,
    st.2 + num_marker)

/-- Result arrays with no slot written. -/
def emptyFamArrays : FamArrays where
  beta := fun _ => none
  se := fun _ => none
  p := fun _ => none

/-- The assignment `map_index[k] = v` on a `std::map<uint32_t, uint32_t>`: the value of
an existing key is replaced, a new key is inserted. -/
def map_index_assign (m : List (ℕ × ℕ)) (k v : ℕ) : List (ℕ × ℕ) :=
  match m.lookup k with
  | some _ => m.map fun kv => if kv.1 = k then (kv.1, v) else kv
  | none => m ++ [(k, v)]

/-- The map `map_index` of `FastFAM::readFAM` (FastFAM.cpp 237-240): each entry of
`ordered_fam_index` is sent to its position. -/
def readFAM_map_index (ordered_fam_index : List ℕ) : List (ℕ × ℕ) :=
  (List.range ordered_fam_index.length).foldl
    (fun m index => map_index_assign m (ordered_fam_index.getD index 0) index) []

/-- One line `(id1, id2, value)` of the `.grm.sp` file in the loop of `FastFAM::readFAM`
(FastFAM.cpp 245-268), on the parallel vectors `id1`, `id2` and `grm` kept as one list of
triples: when both ids are keys of `map_index` the remapped entry is pushed, and its
mirror as well when the two remapped ids differ. -/
def readFAM_line (map_index : List (ℕ × ℕ)) (acc : List (ℕ × ℕ × ℚ)) (line : ℕ × ℕ × ℚ) :
    List (ℕ × ℕ × ℚ) :=
  match map_index.lookup line.1, map_index.lookup line.2.1 with
  | some tmp_id1, some tmp_id2 =>
    if tmp_id1 ≠ tmp_id2 then
      acc ++ [(tmp_id1, tmp_id2, line.2.2), (tmp_id2, tmp_id1, line.2.2)]
    else acc ++ [(tmp_id1, tmp_id2, line.2.2)]
  | _, _ => acc

/-- The function `FastFAM::readFAM` (FastFAM.cpp 206-286): the entries
`(row, column, value)` stored in `fam`, in the order of insertion, and the new
`remain_index`. `fam_index` and `remain_index` are the vectors that
`vector_commonIndex` returns, `sort_indexes` and `sort_indexes2` are the one-vector and
two-vector forms of the routine `sort_indexes` (both routines are outside the analysed
files), and `pair_list` is the parsed content of the `.grm.sp` file, `none` when it
cannot be opened. The counts `num_elements` only reserve space and are left out. -/
def readFAM (sort_indexes : List ℕ → List ℕ) (sort_indexes2 : List ℕ → List ℕ → List ℕ)
    (fam_index remain_index : List ℕ) (pair_list : Option (List (ℕ × ℕ × ℚ))) :
    Except ErrorKind (List (ℕ × ℕ × ℚ) × List ℕ) :=
  let index_list_order := sort_indexes fam_index
  let ordered_fam_index := index_list_order.map fun pos => fam_index.getD pos 0
  let ordered_remain_index := index_list_order.map fun pos => remain_index.getD pos 0
  match pair_list with
  | none => .error .FileNotFound
  | some lines =>
    let map_index := readFAM_map_index ordered_fam_index
    let entries := lines.foldl (readFAM_line map_index) []
    let sorted_index :=
      sort_indexes2 (entries.map fun e => e.2.1) (entries.map fun e => e.1)
    .ok (sorted_index.map fun index => entries.getD index (0, 0, 0), ordered_remain_index)

/-- A sort of the positions of a vector by their values, used to evaluate `readFAM` on
concrete inputs. -/
def example_sort_indexes (v : List ℕ) : List ℕ :=
  List.insertionSort (fun a b => v.getD a 0 ≤ v.getD b 0) (List.range v.length)

/-- A sort of the positions of two vectors by the value in the first and then in the
second, used to evaluate `readFAM` on concrete inputs. -/
def example_sort_indexes2 (v1 v2 : List ℕ) : List ℕ :=
  List.insertionSort
    (fun a b => v1.getD a 0 < v1.getD b 0 ∨
      (v1.getD a 0 = v1.getD b 0 ∧ v2.getD a 0 ≤ v2.getD b 0))
    (List.range v1.length)

/-- The function `update_weights_gcov` (mtcojo.cpp 1096-1116) on vectors of `n_ld_snp`
entries: `h1` and `h2` are clipped to `[0, 1]`, `gcov` to `[-1, 1]`, the LD scores to at
least 1, and the weight of SNP `i` is `1 / (w_ld(i) (d1 d2 + d3²))`. The result is `none`
when a division by zero occurs. -/
def update_weights_gcov (intercept1 h1 intercept2 h2 intercept_gcov gcov : ℚ)
    (ttl_mk_num : ℤ) (n_ld_snp : ℕ) (ref_ld w_ld n1 n2 n_gcov : List ℚ) :
    Option (List ℚ) :=
  let h1a := if h1 < 0 then 0 else h1
  let h1b := if h1a > 1 then 1 else h1a
  let h2a := if h2 < 0 then 0 else h2
  let h2b := if h2a > 1 then 1 else h2a
  let gcova := if gcov < -1 then -1 else gcov
  let gcovb := if gcova > 1 then 1 else gcova
  let ref_ld2 := fun i => if ref_ld.getD i 0 < 1 then 1 else ref_ld.getD i 0
  let w_ld2 := fun i => if w_ld.getD i 0 < 1 then 1 else w_ld.getD i 0
  let d1 := fun i => n1.getD i 0 * h1b * ref_ld2 i / (ttl_mk_num : ℚ) + intercept1
  let d2 := fun i => n2.getD i 0 * h2b * ref_ld2 i / (ttl_mk_num : ℚ) + intercept2
  let d3 := fun i => n_gcov.getD i 0 * gcovb * ref_ld2 i / (ttl_mk_num : ℚ) + intercept_gcov
  let denominator := fun i => w_ld2 i * (d1 i * d2 i + d3 i * d3 i)
  if ttl_mk_num = 0 ∨ ∃ i ∈ List.range n_ld_snp, denominator i = 0 then none
  else some ((List.range n_ld_snp).map fun i => 1 / denominator i)

/-- The function `compute_irls_gcov` (mtcojo.cpp 1118-1153) on vectors of `n_ld_snp`
entries, with the two columns of `x` as `x0` and `x1`: the result is the new
`intercept_gcov`, the new `gcov` and the returned weights. The regression is the one of
`compute_irls`, with the mean of `n_gcov`; with `x_flag` the weights are computed from
the weighted column `x.col(0)`. The source tests nothing: the solve of a singular
`xᵀx` is `nm.ldlt_singular`, the result is `none` when the estimate needs a division
by zero, and the weights are `none` when they do. -/
def compute_irls_gcov (nm : Numerics) (intercept_gcov gcov : ℚ)
    (x0 x1 y wt ref_ld w_ld n_gcov : List ℚ) (intercept1 hsq1 : ℚ) (n1 : List ℚ)
    (intercept2 hsq2 : ℚ) (n2 : List ℚ) (ttl_mk_num : ℤ) (n_ld_snp : ℕ)
    (intercept_flag x_flag : Bool) : Option (ℚ × ℚ × Option (List ℚ)) :=
  let wt_sum := ∑ i in Finset.range n_ld_snp, nm.sqrt (wt.getD i 0)
  let wt2 := fun i => nm.sqrt (wt.getD i 0) / wt_sum
  let xw0 := fun i => x0.getD i 0 * wt2 i
  let xw1 := fun i => x1.getD i 0 * wt2 i
  let yw := fun i => y.getD i 0 * wt2 i
  let n_mean := (∑ i in Finset.range n_ld_snp, n_gcov.getD i 0) / (n_ld_snp : ℚ)
  let est : Option (ℚ × ℚ) :=
    if wt_sum = 0 ∨ n_mean = 0 then none
    else if intercept_flag = true then
      let a := ∑ i in Finset.range n_ld_snp, xw0 i * xw0 i
      let b := ∑ i in Finset.range n_ld_snp, xw0 i * xw1 i
      let d := ∑ i in Finset.range n_ld_snp, xw1 i * xw1 i
      let u := ∑ i in Finset.range n_ld_snp, xw0 i * yw i
      let v := ∑ i in Finset.range n_ld_snp, xw1 i * yw i
      if a * d - b * b = 0 then
        some ((nm.ldlt_singular a b d u v).2,
          (nm.ldlt_singular a b d u v).1 * (ttl_mk_num : ℚ) / n_mean)
      else some ((a * v - b * u) / (a * d - b * b),
        (d * u - b * v) / (a * d - b * b) * (ttl_mk_num : ℚ) / n_mean)
    else
      let xt_x := ∑ i in Finset.range n_ld_snp, xw0 i * xw0 i
      let xt_y := ∑ i in Finset.range n_ld_snp, xw0 i * yw i
      if xt_x = 0 then none
      else some (intercept_gcov, xt_y / xt_x * (ttl_mk_num : ℚ) / n_mean)
  match est with
  | none => none
  | some e =>
    some (e.1, e.2, update_weights_gcov intercept1 hsq1 intercept2 hsq2 e.1 e.2 ttl_mk_num
      n_ld_snp (if x_flag = true then (List.range n_ld_snp).map xw0 else ref_ld) w_ld
      n1 n2 n_gcov)

/-- The entries of `wt` after `wt = wt.cwiseSqrt(); wt = wt/wt.sum();` in `compute_irls`
and `compute_irls_gcov`. -/
def irls_wt (nm : Numerics) (wt : List ℚ) (n_ld_snp i : ℕ) : ℚ :=
  nm.sqrt (wt.getD i 0) / ∑ k in Finset.range n_ld_snp, nm.sqrt (wt.getD k 0)

/-- The scalar `xt_x` of the solve without intercept: the sum of the squares of the
weighted column `x.col(0)`. -/
def irls_xt_x (nm : Numerics) (x0 wt : List ℚ) (n_ld_snp : ℕ) : ℚ :=
  ∑ i in Finset.range n_ld_snp,
    (x0.getD i 0 * irls_wt nm wt n_ld_snp i) * (x0.getD i 0 * irls_wt nm wt n_ld_snp i)

/-- The determinant of the 2×2 matrix `xt_x = xᵀx` of the solve with intercept. -/
def irls_det (nm : Numerics) (x0 x1 wt : List ℚ) (n_ld_snp : ℕ) : ℚ :=
  (∑ i in Finset.range n_ld_snp,
      (x0.getD i 0 * irls_wt nm wt n_ld_snp i) * (x0.getD i 0 * irls_wt nm wt n_ld_snp i))
    * (∑ i in Finset.range n_ld_snp,
      (x1.getD i 0 * irls_wt nm wt n_ld_snp i) * (x1.getD i 0 * irls_wt nm wt n_ld_snp i))
    - (∑ i in Finset.range n_ld_snp,
      (x0.getD i 0 * irls_wt nm wt n_ld_snp i) * (x1.getD i 0 * irls_wt nm wt n_ld_snp i))
    * (∑ i in Finset.range n_ld_snp,
      (x0.getD i 0 * irls_wt nm wt n_ld_snp i) * (x1.getD i 0 * irls_wt nm wt n_ld_snp i))

/-! ## Theorems -/

/-- A loop over `0 .. n-1` whose step `i` only changes row `i`, and whose
row `i` depends on the earlier content of row `i` only, leaves in row `a < n`
what step `a` writes there. -/
theorem foldl_range_row (f : (ℕ → ℕ → ℚ) → ℕ → ℕ → ℕ → ℚ)
    (hother : ∀ m i a b, a ≠ i → f m i a b = m a b)
    (hrow : ∀ m m2 i, (∀ b, m i b = m2 i b) → ∀ b, f m i i b = f m2 i i b)
    (init : ℕ → ℕ → ℚ) (n a : ℕ) :
    ∀ b, (List.range n).foldl f init a b = if a < n then f init a a b else init a b := by
  induction n with
  | zero => simp
  | succ n ih =>
    intro b
    rw [List.range_succ, List.foldl_append]
    simp only [List.foldl_cons, List.foldl_nil]
    by_cases han : a = n
    · subst han
      have hprev : ∀ c, (List.range a).foldl f init a c = init a c := by
        intro c
        rw [ih c]
        simp
      rw [hrow _ init a hprev b]
      simp
    · rw [hother _ _ _ _ han, ih]
      by_cases h1 : a < n
      · simp [h1, Nat.lt_succ_of_lt h1]
      · have : ¬ a < n + 1 := by omega
        simp [h1, this]

theorem single_covar_row_other (nm : Numerics) (bzy bzy_se : ℕ → ℚ)
    (bzx bzx_se : ℕ → ℕ → ℚ) (bxy : ℚ) (ldsc_intercept : ℕ → ℕ → ℚ)
    (m : ℕ → ℕ → ℚ) (i a b : ℕ) (h : a ≠ i) :
    mtcojo_cond_single_covar_row nm bzy bzy_se bzx bzx_se bxy ldsc_intercept m i a b = m a b := by
  simp [mtcojo_cond_single_covar_row, setEntry, h]

theorem single_covar_row_self (nm : Numerics) (bzy bzy_se : ℕ → ℚ)
    (bzx bzx_se : ℕ → ℕ → ℚ) (bxy : ℚ) (ldsc_intercept : ℕ → ℕ → ℚ)
    (m m2 : ℕ → ℕ → ℚ) (i : ℕ) (hm : ∀ b, m i b = m2 i b) (b : ℕ) :
    mtcojo_cond_single_covar_row nm bzy bzy_se bzx bzx_se bxy ldsc_intercept m i i b
      = mtcojo_cond_single_covar_row nm bzy bzy_se bzx bzx_se bxy ldsc_intercept m2 i i b := by
  simp only [mtcojo_cond_single_covar_row, setEntry]
  by_cases h2 : b = 2
  · simp [h2]
  · by_cases h1 : b = 1
    · simp [h1]
    · by_cases h0 : b = 0
      · simp [h0]
      · simp [h0, h1, h2, hm b]

/-- Row `i < nsnp` of the result of `mtcojo_cond_single_covar` is what the
loop body writes for SNP `i`. -/
theorem single_covar_entry (nm : Numerics) (bzy bzy_se : ℕ → ℚ)
    (bzx bzx_se : ℕ → ℕ → ℚ) (bxy : ℚ) (ldsc_intercept ldsc_slope : ℕ → ℕ → ℚ)
    (nsnp i b : ℕ) (hi : i < nsnp) :
    mtcojo_cond_single_covar nm bzy bzy_se bzx bzx_se bxy ldsc_intercept ldsc_slope nsnp i b
      = mtcojo_cond_single_covar_row nm bzy bzy_se bzx bzx_se bxy ldsc_intercept
          (fun _ _ => 0) i i b := by
  unfold mtcojo_cond_single_covar
  rw [foldl_range_row _ (single_covar_row_other nm bzy bzy_se bzx bzx_se bxy ldsc_intercept)
    (single_covar_row_self nm bzy bzy_se bzx bzx_se bxy ldsc_intercept)]
  simp [hi]

/-- C1: for every SNP row `i < nsnp`, the first column of the result of
`mtcojo_cond_single_covar` is the conditioned effect `bzy_i - bzx_i * bxy`. -/
theorem C1_single_covar_bC (nm : Numerics) (bzy bzy_se : ℕ → ℚ)
    (bzx bzx_se : ℕ → ℕ → ℚ) (bxy : ℚ) (ldsc_intercept ldsc_slope : ℕ → ℕ → ℚ)
    (nsnp i : ℕ) (hi : i < nsnp) :
    mtcojo_cond_single_covar nm bzy bzy_se bzx bzx_se bxy ldsc_intercept ldsc_slope nsnp i 0
      = bzy i - bzx i 0 * bxy := by
  rw [single_covar_entry nm bzy bzy_se bzx bzx_se bxy ldsc_intercept ldsc_slope nsnp i 0 hi]
  simp [mtcojo_cond_single_covar_row, setEntry]

/-- Witness for C1 on scenario 1 of the specification: with `bxy = 0.5` the
conditioned effects are `0.10 - 0.20 * 0.5 = 0` for the first SNP and
`-0.05 - 0.10 * 0.5 = -0.10` for the second. -/
theorem C1_single_covar_bC_witness :
    ((0 : ℕ) < 2 ∧
      mtcojo_cond_single_covar exampleNumerics scenario1_bzy scenario1_bzy_se scenario1_bzx
        scenario1_bzx_se (1/2) scenario1_intercept zeroMat 2 0 0 = 0) ∧
    ((1 : ℕ) < 2 ∧
      mtcojo_cond_single_covar exampleNumerics scenario1_bzy scenario1_bzy_se scenario1_bzx
        scenario1_bzx_se (1/2) scenario1_intercept zeroMat 2 1 0 = -1/10) := by
  refine ⟨⟨by decide, ?_⟩, ⟨by decide, ?_⟩⟩
  · rw [C1_single_covar_bC exampleNumerics scenario1_bzy scenario1_bzy_se scenario1_bzx
      scenario1_bzx_se (1/2) scenario1_intercept zeroMat 2 0 (by decide)]
    norm_num [scenario1_bzy, scenario1_bzx, vecOf, matOf]
  · rw [C1_single_covar_bC exampleNumerics scenario1_bzy scenario1_bzy_se scenario1_bzx
      scenario1_bzx_se (1/2) scenario1_intercept zeroMat 2 1 (by decide)]
    norm_num [scenario1_bzy, scenario1_bzx, vecOf, matOf]

/-- The standard error that `mtcojo_cond_single_covar` writes for SNP row
`i < nsnp`: the covariance term uses the intercept entry `ldsc_intercept(0, i)`,
indexed by the SNP row. -/
theorem single_covar_bC_se (nm : Numerics) (bzy bzy_se : ℕ → ℚ)
    (bzx bzx_se : ℕ → ℕ → ℚ) (bxy : ℚ) (ldsc_intercept ldsc_slope : ℕ → ℕ → ℚ)
    (nsnp i : ℕ) (hi : i < nsnp) :
    mtcojo_cond_single_covar nm bzy bzy_se bzx bzx_se bxy ldsc_intercept ldsc_slope nsnp i 1
      = nm.sqrt (bzy_se i ^ 2 + bxy ^ 2 * bzx_se i 0 ^ 2
          - 2 * bxy * ldsc_intercept 0 i * bzx_se i 0 * bzy_se i) := by
  rw [single_covar_entry nm bzy bzy_se bzx bzx_se bxy ldsc_intercept ldsc_slope nsnp i 1 hi]
  have h12 : ¬ ((1 : ℕ) = 2) := by decide
  have h10 : ¬ ((1 : ℕ) = 0) := by decide
  simp only [mtcojo_cond_single_covar_row, setEntry, h12, h10, and_false, and_self,
    if_true, if_false]
  congr 1
  ring

/-- C2 (the code at the failing input): on scenario 1 of the specification
with diagonal LDSC intercepts `1` and cross-trait intercept `I[0][1] = 0`, the
standard error written for the first SNP is `sqrt(0.000025)` (the radicand is
formed with `I[0][0] = 1`), whereas the radicand of the specified formula with
`I[0][1]` is `0.000125`; with the exact square root the code returns `0.005`.
For the second SNP the code does use `I[0][1]`. -/
theorem C2_single_covar_bC_se_first_row :
    (∀ nm : Numerics,
      mtcojo_cond_single_covar nm scenario1_bzy scenario1_bzy_se scenario1_bzx
        scenario1_bzx_se (1/2) scenario1_intercept zeroMat 2 0 1 = nm.sqrt (1/40000)) ∧
    scenario1_bzy_se 0 ^ 2 + (1/2 : ℚ) ^ 2 * scenario1_bzx_se 0 0 ^ 2
      - 2 * (1/2) * scenario1_intercept 0 1 * scenario1_bzx_se 0 0 * scenario1_bzy_se 0
      = 1/8000 ∧
    mtcojo_cond_single_covar exampleNumerics scenario1_bzy scenario1_bzy_se scenario1_bzx
        scenario1_bzx_se (1/2) scenario1_intercept zeroMat 2 0 1 = 1/200 ∧
    (∀ nm : Numerics,
      mtcojo_cond_single_covar nm scenario1_bzy scenario1_bzy_se scenario1_bzx
        scenario1_bzx_se (1/2) scenario1_intercept zeroMat 2 1 1 = nm.sqrt (1/8000)) := by
  refine ⟨?_, ?_, ?_, ?_⟩
  · intro nm
    rw [single_covar_bC_se nm _ _ _ _ _ _ _ 2 0 (by decide)]
    norm_num [scenario1_bzy_se, scenario1_bzx_se, scenario1_intercept, vecOf, matOf]
  · norm_num [scenario1_bzy_se, scenario1_bzx_se, scenario1_intercept, vecOf, matOf]
  · rw [single_covar_bC_se exampleNumerics _ _ _ _ _ _ _ 2 0 (by decide)]
    norm_num [scenario1_bzy_se, scenario1_bzx_se, scenario1_intercept, vecOf, matOf,
      exampleNumerics, qsqrt]
  · intro nm
    rw [single_covar_bC_se nm _ _ _ _ _ _ _ 2 1 (by decide)]
    norm_num [scenario1_bzy_se, scenario1_bzx_se, scenario1_intercept, vecOf, matOf]

theorem ldlt_solve_spec {n : ℕ} (A : Matrix (Fin n) (Fin n) ℚ) (b : Fin n → ℚ)
    (h : A.det ≠ 0) : A.mulVec (ldlt_solve A b) = b := by
  unfold ldlt_solve
  rw [Matrix.mulVec_smul, Matrix.mulVec_mulVec, Matrix.mul_adjugate, Matrix.smul_mulVec_assoc,
    Matrix.one_mulVec, smul_smul, inv_mul_cancel₀ h, one_smul]

theorem foldl_pair {α β γ : Type} (f : α → γ → α) (g : β → γ → β) (l : List γ) :
    ∀ (a : α) (b : β),
      l.foldl (fun (st : α × β) i => (f st.1 i, g st.2 i)) (a, b) = (l.foldl f a, l.foldl g b) := by
  induction l with
  | nil => intro a b; rfl
  | cons x xs ih => intro a b; simp only [List.foldl_cons]; exact ih _ _

theorem foldl_diag (g : ℕ → ℚ) (init : ℕ → ℕ → ℚ) (n a b : ℕ) :
    (List.range n).foldl (fun m i => setEntry m i i (g i)) init a b
      = if a = b ∧ a < n then g a else init a b := by
  induction n with
  | zero => simp
  | succ n ih =>
    rw [List.range_succ, List.foldl_append]
    simp only [List.foldl_cons, List.foldl_nil, setEntry]
    rw [ih]
    by_cases h1 : a = n
    · by_cases h2 : b = n
      · subst h1; subst h2; simp
      · subst h1
        have : ¬ a = b := fun h => h2 h.symm
        simp [h2, this]
    · by_cases hab : a = b
      · subst hab
        by_cases h3 : a < n
        · simp [h1, h3, Nat.lt_succ_of_lt h3]
        · have : ¬ a < n + 1 := by omega
          simp [h1, h3, this]
      · simp [h1, hab]

theorem d_mat_entry (nm : Numerics) (ldsc_slope : ℕ → ℕ → ℚ) (vp_trait : ℕ → ℚ)
    (ncovar a b : ℕ) :
    (mtcojo_d_r_mat nm ldsc_slope vp_trait ncovar).1 a b
      = if a = b ∧ a < ncovar then nm.sqrt (ldsc_slope (a + 1) (a + 1) * vp_trait (a + 1))
        else 0 := by
  unfold mtcojo_d_r_mat
  rw [foldl_pair (fun d i => setEntry d i i (nm.sqrt (ldsc_slope (i + 1) (i + 1) * vp_trait (i + 1))))
    (fun r i => mtcojo_r_mat_inner ldsc_slope ncovar i r)]
  simp only []
  rw [foldl_diag (fun i => nm.sqrt (ldsc_slope (i + 1) (i + 1) * vp_trait (i + 1)))]
  simp [zeroMat]

theorem d_mat_diagonal (nm : Numerics) (ldsc_slope : ℕ → ℕ → ℚ) (vp_trait : ℕ → ℚ)
    (ncovar : ℕ) :
    toMat ncovar (mtcojo_d_r_mat nm ldsc_slope vp_trait ncovar).1
      = Matrix.diagonal
          (fun i : Fin ncovar => nm.sqrt (ldsc_slope (i.val + 1) (i.val + 1) * vp_trait (i.val + 1))) := by
  ext i j
  simp only [toMat, Matrix.of_apply, d_mat_entry, Matrix.diagonal_apply]
  by_cases h : i = j
  · subst h; simp
  · have : ¬ i.val = j.val := fun h2 => h (Fin.ext h2)
    simp [h, this]

theorem toVec_ofVec {n : ℕ} (v : Fin n → ℚ) : toVec n (ofVec v) = v := by
  funext i
  simp [toVec, ofVec]

theorem d_mat_det_ne_zero (nm : Numerics) (ldsc_slope : ℕ → ℕ → ℚ) (vp_trait : ℕ → ℚ)
    (ncovar : ℕ)
    (hD : ∀ i, i < ncovar → 0 < nm.sqrt (ldsc_slope (i + 1) (i + 1) * vp_trait (i + 1))) :
    (toMat ncovar (mtcojo_d_r_mat nm ldsc_slope vp_trait ncovar).1).det ≠ 0 := by
  rw [d_mat_diagonal, Matrix.det_diagonal]
  apply Finset.prod_ne_zero_iff.mpr
  intro i _
  exact ne_of_gt (hD i.val i.isLt)

/-- The joint effects computed at mtcojo.cpp 1338 solve `R * D * bjxy = D * bxy`
when `D` and `R` are invertible. -/
theorem bjxy_solves_RD (nm : Numerics) (ldsc_slope : ℕ → ℕ → ℚ) (vp_trait bxy : ℕ → ℚ)
    (ncovar : ℕ)
    (hdet : (toMat ncovar (mtcojo_d_r_mat nm ldsc_slope vp_trait ncovar).1).det ≠ 0)
    (hR : (toMat ncovar (mtcojo_d_r_mat nm ldsc_slope vp_trait ncovar).2).det ≠ 0) :
    (toMat ncovar (mtcojo_d_r_mat nm ldsc_slope vp_trait ncovar).2
        * toMat ncovar (mtcojo_d_r_mat nm ldsc_slope vp_trait ncovar).1).mulVec
        (toVec ncovar (mtcojo_bjxy nm ldsc_slope vp_trait bxy ncovar))
      = (toMat ncovar (mtcojo_d_r_mat nm ldsc_slope vp_trait ncovar).1).mulVec
          (toVec ncovar bxy) := by
  unfold mtcojo_bjxy
  simp only []
  rw [toVec_ofVec, ← Matrix.mulVec_mulVec, ldlt_solve_spec _ _ hdet, ldlt_solve_spec _ _ hR]

/-- The same joint effects satisfy `D * R * D * bjxy = D * D * bxy`. -/
theorem bjxy_solves_DRD (nm : Numerics) (ldsc_slope : ℕ → ℕ → ℚ) (vp_trait bxy : ℕ → ℚ)
    (ncovar : ℕ)
    (hdet : (toMat ncovar (mtcojo_d_r_mat nm ldsc_slope vp_trait ncovar).1).det ≠ 0)
    (hR : (toMat ncovar (mtcojo_d_r_mat nm ldsc_slope vp_trait ncovar).2).det ≠ 0) :
    (toMat ncovar (mtcojo_d_r_mat nm ldsc_slope vp_trait ncovar).1
        * toMat ncovar (mtcojo_d_r_mat nm ldsc_slope vp_trait ncovar).2
        * toMat ncovar (mtcojo_d_r_mat nm ldsc_slope vp_trait ncovar).1).mulVec
        (toVec ncovar (mtcojo_bjxy nm ldsc_slope vp_trait bxy ncovar))
      = (toMat ncovar (mtcojo_d_r_mat nm ldsc_slope vp_trait ncovar).1
          * toMat ncovar (mtcojo_d_r_mat nm ldsc_slope vp_trait ncovar).1).mulVec
          (toVec ncovar bxy) := by
  rw [Matrix.mul_assoc, ← Matrix.mulVec_mulVec,
    bjxy_solves_RD nm ldsc_slope vp_trait bxy ncovar hdet hR, Matrix.mulVec_mulVec]

theorem example_one_covar_hD :
    ∀ i, i < 1 → 0 < exampleNumerics.sqrt (matOf [[1/4, 0], [0, 1/4]] (i + 1) (i + 1)
        * vecOf [1, 1] (i + 1) ) := by
  intro i hi
  have : i = 0 := by omega
  subst this
  norm_num [exampleNumerics, qsqrt, matOf, vecOf]

theorem example_one_covar_hR :
    (toMat 1 (mtcojo_d_r_mat exampleNumerics (matOf [[1/4, 0], [0, 1/4]])
      (vecOf [1, 1]) 1).2).det ≠ 0 := by
  simp [Matrix.det_fin_one, toMat, mtcojo_d_r_mat, mtcojo_r_mat_inner, identityMat,
    List.range_succ]

/-- C3 (amended): with `D = diag(sqrt(S[i+1][i+1] * vp[i+1]))` of positive
diagonal and the matrix `R` built by the function invertible, the joint-effect
vector `bjxy` computed by `mtcojo_cond_multiple_covars` satisfies
`R * D * bjxy = D * bxy`, that is `D * R * D * bjxy = D * D * bxy`. -/
theorem C3_bjxy_solves (nm : Numerics) (ldsc_slope : ℕ → ℕ → ℚ) (vp_trait bxy : ℕ → ℚ)
    (ncovar : ℕ)
    (hD : ∀ i, i < ncovar → 0 < nm.sqrt (ldsc_slope (i + 1) (i + 1) * vp_trait (i + 1)))
    (hR : (toMat ncovar (mtcojo_d_r_mat nm ldsc_slope vp_trait ncovar).2).det ≠ 0) :
    toMat ncovar (mtcojo_d_r_mat nm ldsc_slope vp_trait ncovar).1
        = Matrix.diagonal (fun i : Fin ncovar =>
            nm.sqrt (ldsc_slope (i.val + 1) (i.val + 1) * vp_trait (i.val + 1))) ∧
    (toMat ncovar (mtcojo_d_r_mat nm ldsc_slope vp_trait ncovar).2
        * toMat ncovar (mtcojo_d_r_mat nm ldsc_slope vp_trait ncovar).1).mulVec
        (toVec ncovar (mtcojo_bjxy nm ldsc_slope vp_trait bxy ncovar))
      = (toMat ncovar (mtcojo_d_r_mat nm ldsc_slope vp_trait ncovar).1).mulVec (toVec ncovar bxy) ∧
    (toMat ncovar (mtcojo_d_r_mat nm ldsc_slope vp_trait ncovar).1
        * toMat ncovar (mtcojo_d_r_mat nm ldsc_slope vp_trait ncovar).2
        * toMat ncovar (mtcojo_d_r_mat nm ldsc_slope vp_trait ncovar).1).mulVec
        (toVec ncovar (mtcojo_bjxy nm ldsc_slope vp_trait bxy ncovar))
      = (toMat ncovar (mtcojo_d_r_mat nm ldsc_slope vp_trait ncovar).1
          * toMat ncovar (mtcojo_d_r_mat nm ldsc_slope vp_trait ncovar).1).mulVec
          (toVec ncovar bxy) := by
  have hdet := d_mat_det_ne_zero nm ldsc_slope vp_trait ncovar hD
  exact ⟨d_mat_diagonal nm ldsc_slope vp_trait ncovar,
    bjxy_solves_RD nm ldsc_slope vp_trait bxy ncovar hdet hR,
    bjxy_solves_DRD nm ldsc_slope vp_trait bxy ncovar hdet hR⟩

/-- Witness for C3 with one covariate, `S[1][1] = 1/4`, `vp[1] = 1` (so `D = (1/2)`,
`R = (1)`) and `bxy = (1)`. -/
theorem C3_bjxy_solves_witness :
    (∀ i, i < 1 → 0 < exampleNumerics.sqrt (matOf [[1/4, 0], [0, 1/4]] (i + 1) (i + 1)
        * vecOf [1, 1] (i + 1))) ∧
    (toMat 1 (mtcojo_d_r_mat exampleNumerics (matOf [[1/4, 0], [0, 1/4]])
      (vecOf [1, 1]) 1).2).det ≠ 0 ∧
    (toMat 1 (mtcojo_d_r_mat exampleNumerics (matOf [[1/4, 0], [0, 1/4]]) (vecOf [1, 1]) 1).2
        * toMat 1 (mtcojo_d_r_mat exampleNumerics (matOf [[1/4, 0], [0, 1/4]]) (vecOf [1, 1]) 1).1).mulVec
        (toVec 1 (mtcojo_bjxy exampleNumerics (matOf [[1/4, 0], [0, 1/4]]) (vecOf [1, 1]) (vecOf [1]) 1))
      = (toMat 1 (mtcojo_d_r_mat exampleNumerics (matOf [[1/4, 0], [0, 1/4]]) (vecOf [1, 1]) 1).1).mulVec
          (toVec 1 (vecOf [1])) :=
  ⟨example_one_covar_hD, example_one_covar_hR,
    (C3_bjxy_solves exampleNumerics _ _ (vecOf [1]) 1 example_one_covar_hD
      example_one_covar_hR).2.1⟩

/-- C3 (counterexample to the claim as stated): one covariate with
`S[1][1] = 1/4`, `vp[1] = 1`, `bxy = (1)`. Then `D = (1/2)` has positive
diagonal and `R = (1)` is invertible, but `D * R * D * bjxy = (1/4)` differs
from `D * bxy = (1/2)`. -/
theorem C3_DRD_counterexample :
    (∀ i, i < 1 → 0 < exampleNumerics.sqrt (matOf [[1/4, 0], [0, 1/4]] (i + 1) (i + 1)
        * vecOf [1, 1] (i + 1))) ∧
    (toMat 1 (mtcojo_d_r_mat exampleNumerics (matOf [[1/4, 0], [0, 1/4]])
      (vecOf [1, 1]) 1).2).det ≠ 0 ∧
    (toMat 1 (mtcojo_d_r_mat exampleNumerics (matOf [[1/4, 0], [0, 1/4]]) (vecOf [1, 1]) 1).1
        * toMat 1 (mtcojo_d_r_mat exampleNumerics (matOf [[1/4, 0], [0, 1/4]]) (vecOf [1, 1]) 1).2
        * toMat 1 (mtcojo_d_r_mat exampleNumerics (matOf [[1/4, 0], [0, 1/4]]) (vecOf [1, 1]) 1).1).mulVec
        (toVec 1 (mtcojo_bjxy exampleNumerics (matOf [[1/4, 0], [0, 1/4]]) (vecOf [1, 1]) (vecOf [1]) 1))
      ≠ (toMat 1 (mtcojo_d_r_mat exampleNumerics (matOf [[1/4, 0], [0, 1/4]]) (vecOf [1, 1]) 1).1).mulVec
          (toVec 1 (vecOf [1])) := by
  refine ⟨example_one_covar_hD, example_one_covar_hR, ?_⟩
  rw [bjxy_solves_DRD exampleNumerics _ _ (vecOf [1]) 1
    (d_mat_det_ne_zero _ _ _ 1 example_one_covar_hD) example_one_covar_hR]
  intro h
  have h0 := congrFun h 0
  simp [d_mat_diagonal, Matrix.mulVec, Matrix.dotProduct, toVec, vecOf, matOf,
    exampleNumerics, qsqrt] at h0
  norm_num at h0

/-- The inner loop of a symmetric fill, `for (j = s; j < s + len; j++)
m(i,j) = m(j,i) = v j`, for a row `i < s`. -/
theorem foldl_sym_inner (v : ℕ → ℚ) (i s : ℕ) (his : i < s) (len : ℕ) :
    ∀ (m : ℕ → ℕ → ℚ) (a b : ℕ),
      (List.range' s len).foldl (fun m j => setEntry (setEntry m j i (v j)) i j (v j)) m a b
        = if a = i ∧ s ≤ b ∧ b < s + len then v b
          else if b = i ∧ s ≤ a ∧ a < s + len then v a else m a b := by
  induction len with
  | zero =>
    intro m a b
    have h1 : ¬ (a = i ∧ s ≤ b ∧ b < s + 0) := by omega
    have h2 : ¬ (b = i ∧ s ≤ a ∧ a < s + 0) := by omega
    simp only [List.range'_zero, List.foldl_nil, h1, h2, if_false]
  | succ len ih =>
    intro m a b
    rw [List.range'_1_concat, List.foldl_append]
    simp only [List.foldl_cons, List.foldl_nil, setEntry]
    rw [ih]
    by_cases h1 : a = i ∧ b = s + len
    · obtain ⟨ha, hb⟩ := h1
      subst ha; subst hb
      simp
    · rw [if_neg h1]
      by_cases h2 : a = s + len ∧ b = i
      · obtain ⟨ha, hb⟩ := h2
        subst ha; subst hb
        have h3 : ¬ (s + len = b) := by omega
        simp [h3]
      · rw [if_neg h2]
        by_cases h4 : a = i
        · subst h4
          have hb : b ≠ s + len := fun h => h1 ⟨rfl, h⟩
          by_cases h5 : s ≤ b ∧ b < s + len
          · have h6 : s ≤ b ∧ b < s + (len + 1) := ⟨h5.1, by omega⟩
            simp [h5, h6]
          · have h6 : ¬ (s ≤ b ∧ b < s + (len + 1)) := by
              intro h; apply h5; exact ⟨h.1, by omega⟩
            simp only [true_and, h5, h6, if_false]
            by_cases h7 : b = a
            · subst h7
              have h8 : ¬ (s ≤ b ∧ b < s + len) := by omega
              have h9 : ¬ (s ≤ b ∧ b < s + (len + 1)) := by omega
              simp [h8, h9]
            · simp [h7]
        · simp only [h4, false_and, if_false]
          by_cases h7 : b = i
          · subst h7
            have ha : a ≠ s + len := fun h => h2 ⟨h, rfl⟩
            by_cases h5 : s ≤ a ∧ a < s + len
            · have h6 : s ≤ a ∧ a < s + (len + 1) := ⟨h5.1, by omega⟩
              simp [h5, h6]
            · have h6 : ¬ (s ≤ a ∧ a < s + (len + 1)) := by
                intro h; apply h5; exact ⟨h.1, by omega⟩
              simp [h5, h6]
          · simp [h7]

/-- Entries of the matrix `bzx_intercept` (mtcojo.cpp 1342-1347) after the
first `k` rows of the outer loop. -/
theorem bzx_intercept_rows (ldsc_intercept : ℕ → ℕ → ℚ) (n k : ℕ) :
    ∀ (a b : ℕ),
      (List.range k).foldl
        (fun m i => (List.range' (i + 1) (n - (i + 1))).foldl
          (fun m j => setEntry (setEntry m j i (ldsc_intercept (i + 1) (j + 1))) i j
            (ldsc_intercept (i + 1) (j + 1))) m)
        identityMat a b
        = if a < b ∧ a < k ∧ b < n then ldsc_intercept (a + 1) (b + 1)
          else if b < a ∧ b < k ∧ a < n then ldsc_intercept (b + 1) (a + 1)
          else identityMat a b := by
  induction k with
  | zero => intro a b; simp
  | succ k ih =>
    intro a b
    rw [List.range_succ, List.foldl_append]
    simp only [List.foldl_cons, List.foldl_nil]
    rw [foldl_sym_inner (fun j => ldsc_intercept (k + 1) (j + 1)) k (k + 1) (Nat.lt_succ_self k)]
    rw [ih]
    by_cases h1 : a = k ∧ k + 1 ≤ b ∧ b < k + 1 + (n - (k + 1))
    · obtain ⟨ha, hb1, hb2⟩ := h1
      subst ha
      have h2 : a < b ∧ a < a + 1 ∧ b < n := by omega
      simp [hb1, hb2, h2]
    · rw [if_neg h1]
      by_cases h2 : b = k ∧ k + 1 ≤ a ∧ a < k + 1 + (n - (k + 1))
      · obtain ⟨hb, ha1, ha2⟩ := h2
        subst hb
        have h3 : ¬ (a < b ∧ a < b + 1 ∧ b < n) := by omega
        have h4 : b < a ∧ b < b + 1 ∧ a < n := by omega
        simp [ha1, ha2, h3, h4]
      · rw [if_neg h2]
        by_cases h3 : a < b ∧ a < k ∧ b < n
        · have h4 : a < b ∧ a < k + 1 ∧ b < n := by omega
          simp [h3, h4]
        · have h4 : ¬ (a < b ∧ a < k + 1 ∧ b < n) := by omega
          rw [if_neg h3, if_neg h4]
          by_cases h5 : b < a ∧ b < k ∧ a < n
          · have h6 : b < a ∧ b < k + 1 ∧ a < n := by omega
            simp [h5, h6]
          · have h6 : ¬ (b < a ∧ b < k + 1 ∧ a < n) := by omega
            rw [if_neg h5, if_neg h6]

/-- Entries of `bzx_intercept` inside the `ncovar × ncovar` shape: ones on the
diagonal, `ldsc_intercept(min+1, max+1)` off the diagonal. -/
theorem bzx_intercept_entry (ldsc_intercept : ℕ → ℕ → ℚ) (ncovar a b : ℕ)
    (ha : a < ncovar) (hb : b < ncovar) :
    mtcojo_bzx_intercept ldsc_intercept ncovar a b
      = if a = b then 1
        else if a < b then ldsc_intercept (a + 1) (b + 1) else ldsc_intercept (b + 1) (a + 1) := by
  unfold mtcojo_bzx_intercept
  rw [bzx_intercept_rows]
  by_cases hab : a = b
  · subst hab
    simp [identityMat]
  · by_cases hlt : a < b
    · have h1 : a < b ∧ a < ncovar - 1 ∧ b < ncovar := by omega
      simp [h1, hab, hlt]
    · have h1 : ¬ (a < b ∧ a < ncovar - 1 ∧ b < ncovar) := by omega
      have h2 : b < a ∧ b < ncovar - 1 ∧ a < ncovar := by omega
      simp [h1, h2, hab, hlt]

theorem foldl_triple {α β γ δ : Type} (f : α → δ → α) (g : β → δ → β) (h : γ → δ → γ)
    (l : List δ) :
    ∀ (a : α) (b : β) (c : γ),
      l.foldl (fun (st : α × β × γ) i => (f st.1 i, g st.2.1 i, h st.2.2 i)) (a, b, c)
        = (l.foldl f a, l.foldl g b, l.foldl h c) := by
  induction l with
  | nil => intro a b c; rfl
  | cons x xs ih => intro a b c; simp only [List.foldl_cons]; exact ih _ _ _

theorem foldl_add_range (g : ℕ → ℚ) (n : ℕ) :
    (List.range n).foldl (fun s j => s + g j) 0 = ∑ j in Finset.range n, g j := by
  induction n with
  | zero => simp
  | succ n ih =>
    rw [List.range_succ, List.foldl_append, Finset.sum_range_succ, ← ih]
    rfl

/-- The three results of the inner covariate loop for SNP `i`. -/
theorem multi_inner_eq (bzy_se : ℕ → ℚ) (bzx bzx_se : ℕ → ℕ → ℚ) (bjxy : ℕ → ℚ)
    (ldsc_intercept : ℕ → ℕ → ℚ) (ncovar i : ℕ) (buf : ℕ → ℕ → ℚ) :
    mtcojo_multi_inner bzy_se bzx bzx_se bjxy ldsc_intercept ncovar i buf
      = (∑ j in Finset.range ncovar, bzx i j * bjxy j,
         (fun a b => if a = b ∧ a < ncovar then bzx_se i a else buf a b),
         ∑ j in Finset.range ncovar,
           bzx_se i j * bzy_se i * bjxy j * ldsc_intercept 0 (j + 1)) := by
  unfold mtcojo_multi_inner
  rw [foldl_triple (fun s j => s + bzx i j * bjxy j)
    (fun m j => setEntry m j j (bzx_se i j))
    (fun s j => s + bzx_se i j * bzy_se i * bjxy j * ldsc_intercept 0 (j + 1))]
  rw [foldl_add_range, foldl_add_range]
  congr 2
  funext a b
  exact foldl_diag (fun j => bzx_se i j) buf ncovar a b

/-- The variance term `bjxyᵀ * bzx_se_buf * bzx_intercept * bzx_se_buf * bjxy`
when `bzx_se_buf` is the diagonal matrix of the standard errors of SNP `i`. -/
theorem multi_var_term (n : ℕ) (b : Fin n → ℚ) (B RI : Matrix (Fin n) (Fin n) ℚ) :
    Matrix.dotProduct (Matrix.vecMul (Matrix.vecMul (Matrix.vecMul b B) RI) B) b
      = Matrix.dotProduct b ((B * RI * B).mulVec b) := by
  rw [Matrix.dotProduct_mulVec, Matrix.vecMul_vecMul, Matrix.vecMul_vecMul, Matrix.mul_assoc]

/-- Invariant of the per-SNP loop: `bzx_se_buf` stays zero off the diagonal,
and every finished row holds the conditioned effect and its standard error. -/
theorem multi_rows_inv (nm : Numerics) (bzy bzy_se : ℕ → ℚ) (bzx bzx_se : ℕ → ℕ → ℚ)
    (bjxy : ℕ → ℚ) (ldsc_intercept bzx_intercept : ℕ → ℕ → ℚ) (ncovar n : ℕ) :
    (∀ a b, a ≠ b →
      ((List.range n).foldl
        (mtcojo_multi_row nm bzy bzy_se bzx bzx_se bjxy ldsc_intercept bzx_intercept ncovar)
        (zeroMat, zeroMat)).1 a b = 0) ∧
    (∀ i, i < n →
      ((List.range n).foldl
        (mtcojo_multi_row nm bzy bzy_se bzx bzx_se bjxy ldsc_intercept bzx_intercept ncovar)
        (zeroMat, zeroMat)).2 i 0
        = bzy i - ∑ j in Finset.range ncovar, bzx i j * bjxy j ∧
      ((List.range n).foldl
        (mtcojo_multi_row nm bzy bzy_se bzx bzx_se bjxy ldsc_intercept bzx_intercept ncovar)
        (zeroMat, zeroMat)).2 i 1
        = nm.sqrt (bzy_se i * bzy_se i
            + Matrix.dotProduct (toVec ncovar bjxy)
                ((Matrix.diagonal (fun j : Fin ncovar => bzx_se i j.val)
                  * toMat ncovar bzx_intercept
                  * Matrix.diagonal (fun j : Fin ncovar => bzx_se i j.val)).mulVec
                  (toVec ncovar bjxy))
            - 2 * ∑ j in Finset.range ncovar,
                bzx_se i j * bzy_se i * bjxy j * ldsc_intercept 0 (j + 1))) := by
  induction n with
  | zero =>
    refine ⟨?_, ?_⟩
    · intro a b _; simp [zeroMat]
    · intro i hi; omega
  | succ n ih =>
    obtain ⟨ih1, ih2⟩ := ih
    rw [List.range_succ, List.foldl_append]
    simp only [List.foldl_cons, List.foldl_nil]
    generalize (List.range n).foldl
      (mtcojo_multi_row nm bzy bzy_se bzx bzx_se bjxy ldsc_intercept bzx_intercept ncovar)
      (zeroMat, zeroMat) = st at ih1 ih2
    have hbuf : toMat ncovar
        (fun a b => if a = b ∧ a < ncovar then bzx_se n a else st.1 a b)
        = Matrix.diagonal (fun j : Fin ncovar => bzx_se n j.val) := by
      ext a b
      simp only [toMat, Matrix.of_apply, Matrix.diagonal_apply]
      by_cases hab : a = b
      · subst hab; simp
      · have h1 : ¬ a.val = b.val := fun h => hab (Fin.ext h)
        simp [hab, h1, ih1 a.val b.val h1]
    have h12 : ¬ ((1 : ℕ) = 2) := by decide
    have h10 : ¬ ((1 : ℕ) = 0) := by decide
    have h02 : ¬ ((0 : ℕ) = 2) := by decide
    have h01 : ¬ ((0 : ℕ) = 1) := by decide
    refine ⟨?_, ?_⟩
    · intro a b hab
      simp only [mtcojo_multi_row, multi_inner_eq]
      simp [hab, ih1 a b hab]
    · intro i hi
      by_cases hin : i = n
      · subst hin
        simp only [mtcojo_multi_row, multi_inner_eq, setEntry, hbuf, multi_var_term,
          h12, h10, h02, h01, and_false, and_self, if_true, if_false]
      · have hlt : i < n := by omega
        obtain ⟨e0, e1⟩ := ih2 i hlt
        simp only [mtcojo_multi_row, setEntry, hin, false_and, if_false]
        exact ⟨e0, e1⟩

/-- C4: for every SNP row `i < nsnp`, `mtcojo_cond_multiple_covars` returns
`bC_i = bzy_i - Σ_j bzx[i][j] * bjxy_j` and
`bC_se_i = sqrt(sezy_i² + bjxyᵀ diag(sezx_i) R_I diag(sezx_i) bjxy
  - 2 Σ_j sezx[i][j] * sezy_i * bjxy_j * I[0][j+1])`, where `bjxy` is the joint-effect
vector the function computes and `R_I` has ones on the diagonal and `I[a+1][b+1]`
off the diagonal (`I` the symmetric LDSC intercept matrix). -/
theorem C4_multiple_covars (nm : Numerics) (bzy bzy_se : ℕ → ℚ) (bzx bzx_se : ℕ → ℕ → ℚ)
    (bxy : ℕ → ℚ) (ldsc_intercept ldsc_slope : ℕ → ℕ → ℚ) (vp_trait : ℕ → ℚ)
    (nsnp ncovar i : ℕ) (hi : i < nsnp)
    (hsym : ∀ a b, ldsc_intercept a b = ldsc_intercept b a) :
    mtcojo_cond_multiple_covars nm bzy bzy_se bzx bzx_se bxy ldsc_intercept ldsc_slope
        vp_trait nsnp ncovar i 0
      = bzy i - ∑ j in Finset.range ncovar,
          bzx i j * mtcojo_bjxy nm ldsc_slope vp_trait bxy ncovar j ∧
    mtcojo_cond_multiple_covars nm bzy bzy_se bzx bzx_se bxy ldsc_intercept ldsc_slope
        vp_trait nsnp ncovar i 1
      = nm.sqrt (bzy_se i ^ 2
          + Matrix.dotProduct (toVec ncovar (mtcojo_bjxy nm ldsc_slope vp_trait bxy ncovar))
              ((Matrix.diagonal (fun j : Fin ncovar => bzx_se i j.val)
                * Matrix.of (fun a b : Fin ncovar =>
                    if a = b then 1 else ldsc_intercept (a.val + 1) (b.val + 1))
                * Matrix.diagonal (fun j : Fin ncovar => bzx_se i j.val)).mulVec
                (toVec ncovar (mtcojo_bjxy nm ldsc_slope vp_trait bxy ncovar)))
          - 2 * ∑ j in Finset.range ncovar,
              bzx_se i j * bzy_se i * mtcojo_bjxy nm ldsc_slope vp_trait bxy ncovar j
                * ldsc_intercept 0 (j + 1)) := by
  have hRI : toMat ncovar (mtcojo_bzx_intercept ldsc_intercept ncovar)
      = Matrix.of (fun a b : Fin ncovar =>
          if a = b then 1 else ldsc_intercept (a.val + 1) (b.val + 1)) := by
    ext a b
    simp only [toMat, Matrix.of_apply]
    rw [bzx_intercept_entry ldsc_intercept ncovar a.val b.val a.isLt b.isLt]
    by_cases hab : a = b
    · subst hab; simp
    · have h1 : ¬ a.val = b.val := fun h => hab (Fin.ext h)
      rw [if_neg h1, if_neg hab]
      by_cases hlt : a.val < b.val
      · rw [if_pos hlt]
      · rw [if_neg hlt]
        exact hsym _ _
  obtain ⟨e0, e1⟩ := (multi_rows_inv nm bzy bzy_se bzx bzx_se
    (mtcojo_bjxy nm ldsc_slope vp_trait bxy ncovar) ldsc_intercept
    (mtcojo_bzx_intercept ldsc_intercept ncovar) ncovar nsnp).2 i hi
  unfold mtcojo_cond_multiple_covars
  refine ⟨e0, ?_⟩
  rw [e1, hRI]
  congr 1
  ring

theorem example2_bjxy :
    mtcojo_bjxy exampleNumerics example2_slope example2_vp example2_bxy 2 0 = 1 ∧
    mtcojo_bjxy exampleNumerics example2_slope example2_vp example2_bxy 2 1 = 0 := by
  have hd : toMat 2 (mtcojo_d_r_mat exampleNumerics example2_slope example2_vp 2).1
      = !![1, 0; 0, 1] := by
    rw [d_mat_diagonal]
    ext a b
    fin_cases a <;> fin_cases b <;>
      simp [example2_slope, example2_vp, matOf, vecOf, exampleNumerics, qsqrt]
  have hr : toMat 2 (mtcojo_d_r_mat exampleNumerics example2_slope example2_vp 2).2
      = !![1, 1/2; 1/2, 1] := by
    ext a b
    fin_cases a <;> fin_cases b <;>
      simp [toMat, mtcojo_d_r_mat, mtcojo_r_mat_inner, List.range_succ, List.range',
        setEntry, identityMat, example2_slope, matOf]
  unfold mtcojo_bjxy
  simp only [hd, hr]
  constructor <;>
    (simp [ofVec, ldlt_solve, Matrix.det_fin_two, Matrix.adjugate_fin_two, Matrix.mulVec,
      Matrix.dotProduct, Fin.sum_univ_two, toVec, example2_bxy, vecOf]
     try norm_num)

/-- Witness for C4 on a two-covariate example with one SNP: the joint effects are
`bjxy = (1, 0)`, the conditioned effect is `1/10 - (1/5 * 1 + 1/10 * 0) = -1/10` and
its standard error is `sqrt(1/10000 + 1/10000 - 2 * 1/20000) = 1/100`. -/
theorem C4_multiple_covars_witness :
    (0 : ℕ) < 1 ∧ (∀ a b, example2_intercept a b = example2_intercept b a) ∧
    mtcojo_cond_multiple_covars exampleNumerics (vecOf [1/10]) (vecOf [1/100]) example2_bzx
        example2_bzx_se example2_bxy example2_intercept example2_slope example2_vp 1 2 0 0
      = -1/10 ∧
    mtcojo_cond_multiple_covars exampleNumerics (vecOf [1/10]) (vecOf [1/100]) example2_bzx
        example2_bzx_se example2_bxy example2_intercept example2_slope example2_vp 1 2 0 1
      = 1/100 := by
  have hsym : ∀ a b, example2_intercept a b = example2_intercept b a := by
    intro a b
    unfold example2_intercept matOf
    rcases a with _ | _ | _ | a <;> rcases b with _ | _ | _ | b <;> simp
  obtain ⟨e0, e1⟩ := C4_multiple_covars exampleNumerics (vecOf [1/10]) (vecOf [1/100])
    example2_bzx example2_bzx_se example2_bxy example2_intercept example2_slope example2_vp
    1 2 0 (by decide) hsym
  refine ⟨by decide, hsym, ?_, ?_⟩
  · rw [e0]
    simp [Finset.sum_range_succ, example2_bjxy.1, example2_bjxy.2, example2_bzx, matOf, vecOf]
    norm_num
  · rw [e1]
    simp [Finset.sum_range_succ, Matrix.dotProduct, Matrix.mulVec, Matrix.mul_apply,
      Fin.sum_univ_two, Matrix.diagonal_apply, toVec, example2_bjxy.1, example2_bjxy.2,
      example2_bzx_se, example2_intercept, matOf, vecOf]
    norm_num [exampleNumerics, qsqrt]

theorem foldl_setCoeff (f : ℕ → ℚ) (init : ℕ → ℚ) (n a : ℕ) :
    (List.range n).foldl (fun v i => setCoeff v i (f i)) init a
      = if a < n then f a else init a := by
  induction n with
  | zero => simp
  | succ n ih =>
    rw [List.range_succ, List.foldl_append]
    simp only [List.foldl_cons, List.foldl_nil, setCoeff]
    rw [ih]
    by_cases h1 : a = n
    · subst h1; simp
    · by_cases h2 : a < n
      · simp [h1, h2, Nat.lt_succ_of_lt h2]
      · have h3 : ¬ a < n + 1 := by omega
        simp [h1, h2, h3]

theorem setEntry_idem (m : ℕ → ℕ → ℚ) (i j : ℕ) (x : ℚ) :
    setEntry (setEntry m i j x) i j x = setEntry m i j x := by
  funext a b
  simp only [setEntry]
  by_cases h : a = i ∧ b = j <;> simp [h]

/-- The inner loop of a symmetric fill that starts on the diagonal,
`for (j = i; j < n; j++) m(i,j) = m(j,i) = v j`. -/
theorem foldl_upper_inner (v : ℕ → ℚ) (i n : ℕ) (m : ℕ → ℕ → ℚ) (a b : ℕ) :
    (List.range' i (n - i)).foldl (fun m j => setEntry (setEntry m j i (v j)) i j (v j)) m a b
      = if a = i ∧ i ≤ b ∧ b < n then v b
        else if b = i ∧ i ≤ a ∧ a < n then v a else m a b := by
  by_cases hin : i < n
  · have hlen : n - i = (n - (i + 1)) + 1 := by omega
    rw [hlen, List.range'_succ]
    simp only [List.foldl_cons]
    rw [foldl_sym_inner v i (i + 1) (Nat.lt_succ_self i)]
    simp only [setEntry]
    by_cases h1 : a = i ∧ i + 1 ≤ b ∧ b < i + 1 + (n - (i + 1))
    · have h2 : a = i ∧ i ≤ b ∧ b < n := ⟨h1.1, by omega, by omega⟩
      rw [if_pos h1, if_pos h2]
    · rw [if_neg h1]
      by_cases h3 : b = i ∧ i + 1 ≤ a ∧ a < i + 1 + (n - (i + 1))
      · have h4 : ¬ (a = i ∧ i ≤ b ∧ b < n) := by omega
        have h5 : b = i ∧ i ≤ a ∧ a < n := ⟨h3.1, by omega, by omega⟩
        rw [if_pos h3, if_neg h4, if_pos h5]
      · rw [if_neg h3]
        by_cases h6 : a = i ∧ b = i
        · obtain ⟨ha, hb⟩ := h6
          rw [ha, hb]
          have h7 : i = i ∧ i ≤ i ∧ i < n := ⟨rfl, le_refl i, hin⟩
          simp [h7]
        · have h8 : ¬ (a = i ∧ i ≤ b ∧ b < n) := by omega
          have h9 : ¬ (b = i ∧ i ≤ a ∧ a < n) := by omega
          rw [if_neg h8, if_neg h9]
          have h10 : ¬ (a = i ∧ b = i) := h6
          simp [h10]
  · have hlen : n - i = 0 := by omega
    have h1 : ¬ (a = i ∧ i ≤ b ∧ b < n) := by omega
    have h2 : ¬ (b = i ∧ i ≤ a ∧ a < n) := by omega
    rw [hlen, if_neg h1, if_neg h2]
    rfl

/-- Entries after the first `k` rows of the symmetric fill
`for (i = 0; i < n; i++) for (j = i; j < n; j++) m(i,j) = m(j,i) = v i j`. -/
theorem foldl_upper_rows (v : ℕ → ℕ → ℚ) (n : ℕ) (init : ℕ → ℕ → ℚ) (k : ℕ) :
    ∀ (a b : ℕ),
      (List.range k).foldl
        (fun m i => (List.range' i (n - i)).foldl
          (fun m j => setEntry (setEntry m j i (v i j)) i j (v i j)) m) init a b
        = if a ≤ b ∧ a < k ∧ b < n then v a b
          else if b < a ∧ b < k ∧ a < n then v b a else init a b := by
  induction k with
  | zero => intro a b; simp
  | succ k ih =>
    intro a b
    rw [List.range_succ, List.foldl_append]
    simp only [List.foldl_cons, List.foldl_nil]
    rw [foldl_upper_inner (fun j => v k j) k n, ih]
    by_cases h1 : a = k ∧ k ≤ b ∧ b < n
    · have h2 : a ≤ b ∧ a < k + 1 ∧ b < n := by omega
      rw [if_pos h1, if_pos h2, h1.1]
    · rw [if_neg h1]
      by_cases h3 : b = k ∧ k ≤ a ∧ a < n
      · have h4 : ¬ (a ≤ b ∧ a < k + 1 ∧ b < n) := by omega
        have h5 : b < a ∧ b < k + 1 ∧ a < n := by omega
        rw [if_pos h3, if_neg h4, if_pos h5, h3.1]
      · rw [if_neg h3]
        by_cases h6 : a ≤ b ∧ a < k ∧ b < n
        · have h7 : a ≤ b ∧ a < k + 1 ∧ b < n := by omega
          rw [if_pos h6, if_pos h7]
        · have h7 : ¬ (a ≤ b ∧ a < k + 1 ∧ b < n) := by omega
          rw [if_neg h6, if_neg h7]
          by_cases h8 : b < a ∧ b < k ∧ a < n
          · have h9 : b < a ∧ b < k + 1 ∧ a < n := by omega
            rw [if_pos h8, if_pos h9]
          · have h9 : ¬ (b < a ∧ b < k + 1 ∧ a < n) := by omega
            rw [if_neg h8, if_neg h9]

/-- Entries of the matrix `cov_bxy` built by `gsmr_cov_bxy`. -/
theorem gsmr_cov_bxy_entry (ld_r_mat : ℕ → ℕ → ℚ) (kept_ID : List ℕ)
    (bxy z1 z2 : ℕ → ℚ) (n a b : ℕ) :
    gsmr_cov_bxy ld_r_mat kept_ID bxy z1 z2 n a b
      = if a ≤ b ∧ b < n then
          (if a = b then z2 a * z2 b + z1 a * z1 b * bxy a * bxy b
           else ld_r_mat (kept_ID.getD a 0) (kept_ID.getD b 0) * z2 a * z2 b
             + ld_r_mat (kept_ID.getD a 0) (kept_ID.getD b 0) * z1 a * z1 b * bxy a * bxy b)
        else if b < a ∧ a < n then
          ld_r_mat (kept_ID.getD b 0) (kept_ID.getD a 0) * z2 b * z2 a
             + ld_r_mat (kept_ID.getD b 0) (kept_ID.getD a 0) * z1 b * z1 a * bxy b * bxy a
        else 0 := by
  have hstep : ∀ i : ℕ,
      (fun (m : ℕ → ℕ → ℚ) (j : ℕ) =>
        if i = j then
          setEntry m i j (z2 i * z2 j + z1 i * z1 j * bxy i * bxy j)
        else
          setEntry (setEntry m j i
            (ld_r_mat (kept_ID.getD i 0) (kept_ID.getD j 0) * z2 i * z2 j
              + ld_r_mat (kept_ID.getD i 0) (kept_ID.getD j 0) * z1 i * z1 j
                * bxy i * bxy j)) i j
            (ld_r_mat (kept_ID.getD i 0) (kept_ID.getD j 0) * z2 i * z2 j
              + ld_r_mat (kept_ID.getD i 0) (kept_ID.getD j 0) * z1 i * z1 j
                * bxy i * bxy j))
      = (fun (m : ℕ → ℕ → ℚ) (j : ℕ) =>
          setEntry (setEntry m j i
            ((fun i j => if i = j then z2 i * z2 j + z1 i * z1 j * bxy i * bxy j
              else ld_r_mat (kept_ID.getD i 0) (kept_ID.getD j 0) * z2 i * z2 j
              + ld_r_mat (kept_ID.getD i 0) (kept_ID.getD j 0) * z1 i * z1 j
                * bxy i * bxy j) i j)) i j
            ((fun i j => if i = j then z2 i * z2 j + z1 i * z1 j * bxy i * bxy j
              else ld_r_mat (kept_ID.getD i 0) (kept_ID.getD j 0) * z2 i * z2 j
              + ld_r_mat (kept_ID.getD i 0) (kept_ID.getD j 0) * z1 i * z1 j
                * bxy i * bxy j) i j)) := by
    intro i
    funext m j
    by_cases hij : i = j
    · subst hij
      simp only [if_true]
      rw [setEntry_idem]
    · simp only [hij, if_false]
  unfold gsmr_cov_bxy
  simp only [hstep]
  rw [foldl_upper_rows]
  by_cases h1 : a ≤ b ∧ b < n
  · have h2 : a ≤ b ∧ a < n ∧ b < n := by omega
    rw [if_pos h1, if_pos h2]
  · have h2 : ¬ (a ≤ b ∧ a < n ∧ b < n) := by omega
    rw [if_neg h1, if_neg h2]
    by_cases h3 : b < a ∧ a < n
    · have h4 : b < a ∧ b < n ∧ a < n := by omega
      have h5 : ¬ b = a := by omega
      rw [if_pos h3, if_pos h4]
      simp only [h5, if_false]
    · have h4 : ¬ (b < a ∧ b < n ∧ a < n) := by omega
      rw [if_neg h3, if_neg h4]
      rfl

theorem lookup_cons_ite {β : Type} (k a : String) (b : β) (es : List (String × β)) :
    List.lookup k ((a, b) :: es) = if k = a then some b else List.lookup k es := by
  by_cases h : k = a
  · subst h; simp [List.lookup]
  · have h2 : (k == a) = false := by simpa using h
    simp [List.lookup, h, h2]

theorem gsmr_bxy_entry (g : GctaState) (bzx bzy : ℕ → ℚ) (indices_snp : List String)
    (n i : ℕ) (hi : i < n) :
    gsmr_bxy g bzx bzy indices_snp n i
      = indexVal g bzy indices_snp i / indexVal g bzx indices_snp i := by
  unfold gsmr_bxy
  rw [foldl_setCoeff (fun i => indexVal g bzy indices_snp i / indexVal g bzx indices_snp i)]
  simp [hi]

theorem gsmr_zscore_inv_entry (g : GctaState) (bzx se : ℕ → ℚ) (indices_snp : List String)
    (n i : ℕ) (hi : i < n) :
    gsmr_zscore_inv g bzx se indices_snp n i
      = indexVal g se indices_snp i / indexVal g bzx indices_snp i := by
  unfold gsmr_zscore_inv
  rw [foldl_setCoeff (fun i => indexVal g se indices_snp i / indexVal g bzx indices_snp i)]
  simp [hi]

/-- The matrix `cov_bxy` is symmetric. -/
theorem gsmr_cov_bxy_symm (ld_r_mat : ℕ → ℕ → ℚ) (kept_ID : List ℕ)
    (bxy z1 z2 : ℕ → ℚ) (n a b : ℕ) :
    gsmr_cov_bxy ld_r_mat kept_ID bxy z1 z2 n a b
      = gsmr_cov_bxy ld_r_mat kept_ID bxy z1 z2 n b a := by
  rw [gsmr_cov_bxy_entry, gsmr_cov_bxy_entry]
  rcases Nat.lt_trichotomy a b with h | h | h
  · have h1 : a ≤ b := Nat.le_of_lt h
    have h2 : ¬ b ≤ a := by omega
    have h3 : ¬ a = b := by omega
    have h4 : ¬ b < a := by omega
    by_cases hb : b < n
    · simp [h1, h2, h3, h4, h, hb]
    · simp [h1, h2, h3, h4, h, hb]
  · subst h; rfl
  · have h1 : b ≤ a := Nat.le_of_lt h
    have h2 : ¬ a ≤ b := by omega
    have h3 : ¬ b = a := by omega
    have h4 : ¬ a < b := by omega
    by_cases ha : a < n
    · simp [h1, h2, h3, h4, h, ha]
    · simp [h1, h2, h3, h4, h, ha]

/-- C6: for index SNPs `i, j < n` with non-zero exposure effect, the matrix
`cov_bxy` built by `gsmr_meta` is symmetric, has diagonal
`(sezy_i/bzx_i)² + (sezx_i/bzx_i)² * bxy_i²` and, for `i < j`, the entry
`r * sezy_i * sezy_j / (bzx_i * bzx_j) + r * sezx_i * sezx_j / (bzx_i * bzx_j) * bxy_i * bxy_j`
(the same at `(j, i)`), where `bxy_i = bzy_i / bzx_i` and `r` is the entry
`ld_r_mat(kept_ID[i], kept_ID[j])` that the code reads for the pair. -/
theorem C6_cov_bxy (g : GctaState) (bzx bzx_se bzy bzy_se : ℕ → ℚ)
    (indices_snp : List String) (ld_r_mat : ℕ → ℕ → ℚ) (kept_ID : List ℕ) (n i j : ℕ)
    (hi : i < n) (hj : j < n)
    (hbi : indexVal g bzx indices_snp i ≠ 0) (hbj : indexVal g bzx indices_snp j ≠ 0) :
    gsmr_bxy g bzx bzy indices_snp n i
      = indexVal g bzy indices_snp i / indexVal g bzx indices_snp i ∧
    gsmr_cov_bxy ld_r_mat kept_ID (gsmr_bxy g bzx bzy indices_snp n)
        (gsmr_zscore_inv g bzx bzx_se indices_snp n)
        (gsmr_zscore_inv g bzx bzy_se indices_snp n) n i j
      = gsmr_cov_bxy ld_r_mat kept_ID (gsmr_bxy g bzx bzy indices_snp n)
        (gsmr_zscore_inv g bzx bzx_se indices_snp n)
        (gsmr_zscore_inv g bzx bzy_se indices_snp n) n j i ∧
    gsmr_cov_bxy ld_r_mat kept_ID (gsmr_bxy g bzx bzy indices_snp n)
        (gsmr_zscore_inv g bzx bzx_se indices_snp n)
        (gsmr_zscore_inv g bzx bzy_se indices_snp n) n i i
      = (indexVal g bzy_se indices_snp i / indexVal g bzx indices_snp i) ^ 2
        + (indexVal g bzx_se indices_snp i / indexVal g bzx indices_snp i) ^ 2
          * gsmr_bxy g bzx bzy indices_snp n i ^ 2 ∧
    (i < j →
      gsmr_cov_bxy ld_r_mat kept_ID (gsmr_bxy g bzx bzy indices_snp n)
        (gsmr_zscore_inv g bzx bzx_se indices_snp n)
        (gsmr_zscore_inv g bzx bzy_se indices_snp n) n i j
      = ld_r_mat (kept_ID.getD i 0) (kept_ID.getD j 0)
          * indexVal g bzy_se indices_snp i * indexVal g bzy_se indices_snp j
          / (indexVal g bzx indices_snp i * indexVal g bzx indices_snp j)
        + ld_r_mat (kept_ID.getD i 0) (kept_ID.getD j 0)
          * indexVal g bzx_se indices_snp i * indexVal g bzx_se indices_snp j
          / (indexVal g bzx indices_snp i * indexVal g bzx indices_snp j)
          * gsmr_bxy g bzx bzy indices_snp n i * gsmr_bxy g bzx bzy indices_snp n j) := by
  refine ⟨gsmr_bxy_entry g bzx bzy indices_snp n i hi, gsmr_cov_bxy_symm _ _ _ _ _ _ _ _, ?_, ?_⟩
  · rw [gsmr_cov_bxy_entry]
    have h1 : i ≤ i ∧ i < n := ⟨le_refl i, hi⟩
    rw [if_pos h1, if_pos rfl, gsmr_zscore_inv_entry g bzx bzx_se indices_snp n i hi,
      gsmr_zscore_inv_entry g bzx bzy_se indices_snp n i hi]
    ring
  · intro hij
    rw [gsmr_cov_bxy_entry]
    have h1 : i ≤ j ∧ j < n := ⟨Nat.le_of_lt hij, hj⟩
    have h2 : ¬ i = j := by omega
    rw [if_pos h1, if_neg h2, gsmr_zscore_inv_entry g bzx bzx_se indices_snp n i hi,
      gsmr_zscore_inv_entry g bzx bzy_se indices_snp n i hi,
      gsmr_zscore_inv_entry g bzx bzx_se indices_snp n j hj,
      gsmr_zscore_inv_entry g bzx bzy_se indices_snp n j hj]
    field_simp

/-- Witness for C6 on the example panel (`n = 3`, identity LD matrix, SNPs 0 and 1):
`bxy_0 = 0.1`, the diagonal entry is `(0.01)² + (0.01)² * 0.1² = 101/1000000` and the
off-diagonal entry is `0` because `r = 0`. -/
theorem C6_cov_bxy_witness :
    ((0 : ℕ) < 3 ∧ (1 : ℕ) < 3 ∧ indexVal examplePanel example_bzx ["s1", "s2", "s3"] 0 ≠ 0
      ∧ indexVal examplePanel example_bzx ["s1", "s2", "s3"] 1 ≠ 0 ∧ (0 : ℕ) < 1) ∧
    gsmr_bxy examplePanel example_bzx example_bzy ["s1", "s2", "s3"] 3 0 = 1/10 ∧
    gsmr_cov_bxy identityMat [0, 1, 2]
        (gsmr_bxy examplePanel example_bzx example_bzy ["s1", "s2", "s3"] 3)
        (gsmr_zscore_inv examplePanel example_bzx example_bzx_se ["s1", "s2", "s3"] 3)
        (gsmr_zscore_inv examplePanel example_bzx example_bzy_se ["s1", "s2", "s3"] 3) 3 0 0
      = 101/1000000 ∧
    gsmr_cov_bxy identityMat [0, 1, 2]
        (gsmr_bxy examplePanel example_bzx example_bzy ["s1", "s2", "s3"] 3)
        (gsmr_zscore_inv examplePanel example_bzx example_bzx_se ["s1", "s2", "s3"] 3)
        (gsmr_zscore_inv examplePanel example_bzx example_bzy_se ["s1", "s2", "s3"] 3) 3 0 1
      = 0 := by
  have hb0 : indexVal examplePanel example_bzx ["s1", "s2", "s3"] 0 ≠ 0 := by
    simp [indexVal, metaIndex, examplePanel, example_bzx, vecOf, lookup_cons_ite]
  have hb1 : indexVal examplePanel example_bzx ["s1", "s2", "s3"] 1 ≠ 0 := by
    simp [indexVal, metaIndex, examplePanel, example_bzx, vecOf, lookup_cons_ite]
  obtain ⟨e1, _, e3, e4⟩ := C6_cov_bxy examplePanel example_bzx example_bzx_se example_bzy
    example_bzy_se ["s1", "s2", "s3"] identityMat [0, 1, 2] 3 0 1 (by decide) (by decide) hb0 hb1
  have e1v : gsmr_bxy examplePanel example_bzx example_bzy ["s1", "s2", "s3"] 3 0 = 1/10 := by
    rw [e1]
    simp [indexVal, metaIndex, examplePanel, example_bzx, example_bzy, vecOf, lookup_cons_ite]
    norm_num
  refine ⟨⟨by decide, by decide, hb0, hb1, by decide⟩, e1v, ?_, ?_⟩
  · rw [e3, e1v]
    simp [indexVal, metaIndex, examplePanel, example_bzx, example_bzx_se, example_bzy_se,
      vecOf, lookup_cons_ite]
    norm_num
  · rw [e4 (by decide)]
    norm_num [identityMat]

theorem lookup_mapInsert_of_some {β : Type} (m : List (String × β)) (k x : String) (v w : β)
    (h : m.lookup x = some w) : (mapInsert m k v).lookup x = some w := by
  unfold mapInsert
  by_cases hk : (m.lookup k).isSome
  · simp [hk, h]
  · simp [hk, List.lookup_append, h]

theorem lookup_mapInsert_of_none {β : Type} (m : List (String × β)) (k x : String) (v : β)
    (h : m.lookup x = none) :
    (mapInsert m k v).lookup x = if x = k then some v else none := by
  unfold mapInsert
  by_cases hxk : x = k
  · subst hxk
    simp [h, List.lookup_append, lookup_cons_ite]
  · have hk : (m.lookup k).isSome = true ∨ (m.lookup k).isSome = false := by
      cases (m.lookup k).isSome <;> simp
    rcases hk with hk | hk
    · simp [hk, h, hxk]
    · simp [hk, h, hxk, List.lookup_append, lookup_cons_ite]

/-- A name that none of the first `k` index SNPs bears is not a key of the map
`indices_snp_map` after `k` insertions. -/
theorem indices_snp_map_none (indices_snp : List String) (x : String) (k : ℕ)
    (h : ∀ i, i < k → indices_snp.getD i "" ≠ x) :
    (heidi_indices_snp_map indices_snp k).lookup x = none := by
  induction k with
  | zero => simp [heidi_indices_snp_map]
  | succ k ih =>
    unfold heidi_indices_snp_map
    rw [List.range_succ, List.foldl_append]
    simp only [List.foldl_cons, List.foldl_nil]
    have h1 := ih (fun i hi => h i (Nat.lt_succ_of_lt hi))
    unfold heidi_indices_snp_map at h1
    rw [lookup_mapInsert_of_none _ _ _ _ h1]
    have h2 : ¬ x = indices_snp.getD k "" := fun e => h k (Nat.lt_succ_self k) e.symm
    rw [if_neg h2]

/-- When the first `n` index SNPs bear pairwise different names, the map
`indices_snp_map` sends the name of the SNP at position `p < n` to `p`. -/
theorem indices_snp_map_lookup (indices_snp : List String) (n : ℕ)
    (hdist : ∀ i j, i < n → j < n → indices_snp.getD i "" = indices_snp.getD j "" → i = j)
    (k p : ℕ) (hk : k ≤ n) (hp : p < k) :
    (heidi_indices_snp_map indices_snp k).lookup (indices_snp.getD p "") = some p := by
  induction k with
  | zero => omega
  | succ k ih =>
    unfold heidi_indices_snp_map
    rw [List.range_succ, List.foldl_append]
    simp only [List.foldl_cons, List.foldl_nil]
    by_cases hpk : p < k
    · have h1 := ih (by omega) hpk
      unfold heidi_indices_snp_map at h1
      exact lookup_mapInsert_of_some _ _ _ _ _ h1
    · have hpk2 : p = k := by omega
      subst hpk2
      have h1 := indices_snp_map_none indices_snp (indices_snp.getD p "") p
        (fun i hi e => by
          have := hdist i p (by omega) (by omega) e
          omega)
      unfold heidi_indices_snp_map at h1
      rw [lookup_mapInsert_of_none _ _ _ _ h1]
      simp

/-- Invariant of the pivot search after `k` index SNPs. -/
theorem heidi_pivot_loop_inv (g : GctaState) (bzx_pval bxy : ℕ → ℚ) (indices_snp : List String)
    (lower_bounder upper_bounder : Option ℚ) (k : ℕ) :
    (∀ i, i < k → heidi_in_band lower_bounder upper_bounder (bxy i) = true →
      (heidi_pivot_loop g bzx_pval bxy indices_snp k lower_bounder upper_bounder).1
        ≤ indexVal g bzx_pval indices_snp i) ∧
    (((heidi_pivot_loop g bzx_pval bxy indices_snp k lower_bounder upper_bounder).2.1 = "" ∧
      (heidi_pivot_loop g bzx_pval bxy indices_snp k lower_bounder upper_bounder).1 = 1) ∨
     ∃ p, p < k ∧ heidi_in_band lower_bounder upper_bounder (bxy p) = true ∧
      (heidi_pivot_loop g bzx_pval bxy indices_snp k lower_bounder upper_bounder).2.1
        = indices_snp.getD p "" ∧
      (heidi_pivot_loop g bzx_pval bxy indices_snp k lower_bounder upper_bounder).1
        = indexVal g bzx_pval indices_snp p) := by
  induction k with
  | zero =>
    refine ⟨fun i hi => by omega, Or.inl ?_⟩
    simp [heidi_pivot_loop]
  | succ k ih =>
    obtain ⟨ih1, ih2⟩ := ih
    unfold heidi_pivot_loop at ih1 ih2 ⊢
    rw [List.range_succ, List.foldl_append]
    simp only [List.foldl_cons, List.foldl_nil]
    generalize (List.range k).foldl _ ((1 : ℚ), "", ([] : List ℕ)) = st at ih1 ih2 ⊢
    by_cases hband : heidi_in_band lower_bounder upper_bounder (bxy k) = true
    · rw [if_pos hband]
      by_cases hlt : indexVal g bzx_pval indices_snp k < st.1
      · rw [if_pos hlt]
        refine ⟨?_, Or.inr ⟨k, Nat.lt_succ_self k, hband, rfl, rfl⟩⟩
        intro i hi hb
        by_cases hik : i = k
        · subst hik; exact le_refl _
        · exact le_trans (le_of_lt hlt) (ih1 i (by omega) hb)
      · rw [if_neg hlt]
        refine ⟨?_, ?_⟩
        · intro i hi hb
          by_cases hik : i = k
          · subst hik; exact not_lt.mp hlt
          · exact ih1 i (by omega) hb
        · rcases ih2 with h | ⟨p, hp, hpb, hpn, hpv⟩
          · exact Or.inl h
          · exact Or.inr ⟨p, Nat.lt_succ_of_lt hp, hpb, hpn, hpv⟩
    · rw [if_neg hband]
      refine ⟨?_, ?_⟩
      · intro i hi hb
        by_cases hik : i = k
        · subst hik; exact absurd hb hband
        · exact ih1 i (by omega) hb
      · rcases ih2 with h | ⟨p, hp, hpb, hpn, hpv⟩
        · exact Or.inl h
        · exact Or.inr ⟨p, Nat.lt_succ_of_lt hp, hpb, hpn, hpv⟩

/-- With exact arithmetic the function `quantile` returns the linear interpolation at
position `prob * (size - 1)`. -/
theorem quantile_eq_linearInterpolation (nm : Numerics) (vals : List ℚ) (prob : ℚ)
    (hround : ∀ q, nm.round q = q) (hne : vals.length ≠ 0)
    (h0 : 0 ≤ prob) (h1 : prob ≤ 1) :
    quantile nm vals prob = .ok (some (linearInterpolation vals prob)) := by
  have hlen : (1 : ℚ) ≤ (vals.length : ℚ) := by
    have : 1 ≤ vals.length := Nat.one_le_iff_ne_zero.mpr hne
    exact_mod_cast this
  have hidx : 0 ≤ prob * ((vals.length : ℚ) - 1) := mul_nonneg h0 (by linarith)
  have hfl : 0 ≤ Int.floor (prob * ((vals.length : ℚ) - 1)) := Int.floor_nonneg.mpr hidx
  have hce : 0 ≤ Int.ceil (prob * ((vals.length : ℚ) - 1)) := Int.ceil_nonneg hidx
  have hle := Int.floor_le_ceil (prob * ((vals.length : ℚ) - 1))
  have hle2 := Int.ceil_le_floor_add_one (prob * ((vals.length : ℚ) - 1))
  have hp : ¬ (prob < 0 ∨ prob > 1) := by
    intro h
    rcases h with h | h
    · linarith
    · linarith
  unfold quantile linearInterpolation
  simp only [hround]
  rw [if_neg hp, if_neg hne]
  by_cases heq : (Int.floor (prob * ((vals.length : ℚ) - 1))).toNat
      = (Int.ceil (prob * ((vals.length : ℚ) - 1))).toNat
  · rw [if_pos heq]
    have h2 : Int.floor (prob * ((vals.length : ℚ) - 1))
        = Int.ceil (prob * ((vals.length : ℚ) - 1)) := by
      have := congrArg (fun k : ℕ => (k : ℤ)) heq
      simp only [Int.toNat_of_nonneg hfl, Int.toNat_of_nonneg hce] at this
      exact this
    have h3 : prob * ((vals.length : ℚ) - 1)
        = (Int.floor (prob * ((vals.length : ℚ) - 1)) : ℚ) := by
      apply le_antisymm
      · calc prob * ((vals.length : ℚ) - 1)
            ≤ (Int.ceil (prob * ((vals.length : ℚ) - 1)) : ℚ) := Int.le_ceil _
          _ = (Int.floor (prob * ((vals.length : ℚ) - 1)) : ℚ) := by rw [h2]
      · exact Int.floor_le _
    rw [← heq]
    have h4 : prob * ((vals.length : ℚ) - 1)
        - (Int.floor (prob * ((vals.length : ℚ) - 1)) : ℚ) = 0 := by linarith
    rw [h4]
    simp
  · rw [if_neg heq]
    have h2 : Int.ceil (prob * ((vals.length : ℚ) - 1))
        = Int.floor (prob * ((vals.length : ℚ) - 1)) + 1 := by
      have h5 : Int.floor (prob * ((vals.length : ℚ) - 1))
          ≠ Int.ceil (prob * ((vals.length : ℚ) - 1)) := by
        intro h
        apply heq
        rw [h]
      omega
    have h3 : (Int.ceil (prob * ((vals.length : ℚ) - 1))).toNat
        = (Int.floor (prob * ((vals.length : ℚ) - 1))).toNat + 1 := by
      rw [h2]
      omega
    have h4 : (((Int.floor (prob * ((vals.length : ℚ) - 1))).toNat : ℕ) : ℚ)
        = (Int.floor (prob * ((vals.length : ℚ) - 1)) : ℚ) := by
      have := Int.toNat_of_nonneg hfl
      exact_mod_cast this
    rw [h3]
    push_cast
    rw [h4]
    congr 2
    ring

theorem bxy_sort_length (bxy : ℕ → ℚ) (n : ℕ) : (bxy_sort bxy n).length = n := by
  simp [bxy_sort, List.length_insertionSort]

theorem heidi_in_band_iff (lo hi x : ℚ) :
    heidi_in_band (some lo) (some hi) x = true ↔ lo ≤ x ∧ x ≤ hi := by
  simp [heidi_in_band]

/-- The function `quantile` returns a number for a non-empty vector and a probability in
`[0, 1]`, whatever the rounding. -/
theorem quantile_some (nm : Numerics) (vals : List ℚ) (prob : ℚ) (hne : vals.length ≠ 0)
    (h0 : 0 ≤ prob) (h1 : prob ≤ 1) :
    ∃ v, quantile nm vals prob = .ok (some v) := by
  have hp : ¬ (prob < 0 ∨ prob > 1) := by
    intro h
    rcases h with h | h
    · linarith
    · linarith
  unfold quantile
  rw [if_neg hp, if_neg hne]
  simp only []
  split_ifs
  · exact ⟨_, rfl⟩
  · exact ⟨_, rfl⟩

/-- C7: the vector `bxy_sort` is the ascending rearrangement of the `n > 0` values of
`bxy`, and the band of the HEIDI step is
`[quantile(bxy_sort, 0.4), quantile(bxy_sort, 0.6)]`, each quantile being, with exact
arithmetic, the linear interpolation at position `prob * (n - 1)`. With index SNPs of
pairwise different names and exposure p-values below 1, when some SNP lies in the closed
band, the pivot `p` that `gsmr_meta` looks up lies in the band and has the smallest
exposure p-value among the SNPs of the band, and the HEIDI test is run around it. -/
theorem C7_heidi_pivot (nm : Numerics) (g : GctaState) (bzx_pval bxy : ℕ → ℚ)
    (cov_bxy : ℕ → ℕ → ℚ) (indices_snp : List String) (n : ℕ) (heidi_thresh : ℚ)
    (hn : 0 < n)
    (hdist : ∀ i j, i < n → j < n → indices_snp.getD i "" = indices_snp.getD j "" → i = j)
    (hpval : ∀ i, i < n → indexVal g bzx_pval indices_snp i < 1) :
    (bxy_sort bxy n).Sorted (fun a b => a ≤ b) ∧
    (bxy_sort bxy n).Perm ((List.range n).map bxy) ∧
    ∃ lo hi,
      quantile nm (bxy_sort bxy n) (2/5) = .ok (some lo) ∧
      quantile nm (bxy_sort bxy n) (3/5) = .ok (some hi) ∧
      ((∀ q, nm.round q = q) →
        lo = linearInterpolation (bxy_sort bxy n) (2/5) ∧
        hi = linearInterpolation (bxy_sort bxy n) (3/5)) ∧
      ((∃ i, i < n ∧ lo ≤ bxy i ∧ bxy i ≤ hi) →
        ∃ p, p < n ∧
          (heidi_indices_snp_map indices_snp n).lookup
            (heidi_pivot_loop g bzx_pval bxy indices_snp n (some lo) (some hi)).2.1 = some p ∧
          lo ≤ bxy p ∧ bxy p ≤ hi ∧
          (∀ i, i < n → lo ≤ bxy i → bxy i ≤ hi →
            indexVal g bzx_pval indices_snp p ≤ indexVal g bzx_pval indices_snp i) ∧
          gsmr_heidi nm g bzx_pval bxy cov_bxy indices_snp n heidi_thresh
            = .ok (heidi_test nm bxy cov_bxy n p heidi_thresh)) := by
  have hlen : (bxy_sort bxy n).length ≠ 0 := by
    rw [bxy_sort_length]; omega
  obtain ⟨lo, hq1⟩ := quantile_some nm (bxy_sort bxy n) (2/5) hlen (by norm_num) (by norm_num)
  obtain ⟨hi, hq2⟩ := quantile_some nm (bxy_sort bxy n) (3/5) hlen (by norm_num) (by norm_num)
  refine ⟨List.sorted_insertionSort (fun a b : ℚ => a ≤ b) _,
    List.perm_insertionSort (fun a b : ℚ => a ≤ b) _, lo, hi, hq1, hq2, ?_, ?_⟩
  · intro hround
    have e1 := quantile_eq_linearInterpolation nm (bxy_sort bxy n) (2/5) hround hlen
      (by norm_num) (by norm_num)
    have e2 := quantile_eq_linearInterpolation nm (bxy_sort bxy n) (3/5) hround hlen
      (by norm_num) (by norm_num)
    rw [hq1] at e1
    rw [hq2] at e2
    exact ⟨Option.some.inj (Except.ok.inj e1), Option.some.inj (Except.ok.inj e2)⟩
  · intro hband
    obtain ⟨inv1, inv2⟩ := heidi_pivot_loop_inv g bzx_pval bxy indices_snp
      (some lo) (some hi) n
    obtain ⟨i0, hi0, hlo0, hhi0⟩ := hband
    have hb0 := (heidi_in_band_iff _ _ _).mpr ⟨hlo0, hhi0⟩
    rcases inv2 with ⟨_, hone⟩ | ⟨p, hp, hpb, hpn, hpv⟩
    · exfalso
      have h1 := inv1 i0 hi0 hb0
      have h2 := hpval i0 hi0
      rw [hone] at h1
      linarith
    · have hlook := indices_snp_map_lookup indices_snp n hdist n p (le_refl n) hp
      obtain ⟨hplo, hphi⟩ := (heidi_in_band_iff _ _ _).mp hpb
      refine ⟨p, hp, ?_, hplo, hphi, ?_, ?_⟩
      · rw [hpn]; exact hlook
      · intro i hi2 hlo2 hhi2
        have := inv1 i hi2 ((heidi_in_band_iff _ _ _).mpr ⟨hlo2, hhi2⟩)
        rw [hpv] at this
        exact this
      · unfold gsmr_heidi
        rw [hq1, hq2]
        simp only []
        rw [hpn, hlook]

theorem scenario4_bxy_sort :
    bxy_sort scenario4_bxy 5 = [1/10, 11/100, 3/25, 13/100, 5] := by
  simp [bxy_sort, List.range_succ, List.insertionSort, List.orderedInsert, scenario4_bxy, vecOf]
  norm_num

theorem scenario4_band :
    linearInterpolation (bxy_sort scenario4_bxy 5) (2/5) = 29/250 ∧
    linearInterpolation (bxy_sort scenario4_bxy 5) (3/5) = 31/250 := by
  have hf1 : Int.floor ((2/5 : ℚ) * (((5 : ℕ) : ℚ) - 1)) = 1 := by
    norm_num [Int.floor_eq_iff]
  have hf2 : Int.floor ((3/5 : ℚ) * (((5 : ℕ) : ℚ) - 1)) = 2 := by
    norm_num [Int.floor_eq_iff]
  have t1 : Int.toNat 1 = 1 := rfl
  have t2 : Int.toNat 2 = 2 := rfl
  rw [scenario4_bxy_sort]
  unfold linearInterpolation
  simp only [List.length_cons, List.length_nil, Nat.zero_add, Nat.reduceAdd, hf1, hf2, t1, t2]
  constructor <;> norm_num

theorem scenario4_names_distinct :
    ∀ i j, i < 5 → j < 5 → scenario4_names.getD i "" = scenario4_names.getD j "" → i = j := by
  intro i j hi hj
  interval_cases i <;> interval_cases j <;> simp [scenario4_names]

theorem scenario4_pval_lt_one :
    ∀ i, i < 5 → indexVal scenario4Panel scenario4_bzx_pval scenario4_names i < 1 := by
  intro i hi
  interval_cases i <;>
    simp [indexVal, metaIndex, scenario4Panel, scenario4_bzx_pval, scenario4_names, vecOf,
      lookup_cons_ite] <;> norm_num

theorem scenario4_band_nonempty :
    ∃ i, i < 5 ∧ linearInterpolation (bxy_sort scenario4_bxy 5) (2/5) ≤ scenario4_bxy i
      ∧ scenario4_bxy i ≤ linearInterpolation (bxy_sort scenario4_bxy 5) (3/5) := by
  refine ⟨2, by decide, ?_, ?_⟩
  · rw [scenario4_band.1]; norm_num [scenario4_bxy, vecOf]
  · rw [scenario4_band.2]; norm_num [scenario4_bxy, vecOf]

theorem scenario4u_bxy_sort :
    bxy_sort scenario4u_bxy 5 = [1/10, 11/100, 3/25, 13/100, 5] := by
  simp [bxy_sort, List.range_succ, List.insertionSort, List.orderedInsert, scenario4u_bxy,
    vecOf]
  norm_num

theorem scenario4u_band :
    quantile exampleNumerics (bxy_sort scenario4u_bxy 5) (2/5) = .ok (some (29/250)) ∧
    quantile exampleNumerics (bxy_sort scenario4u_bxy 5) (3/5) = .ok (some (31/250)) := by
  have hlen : (bxy_sort scenario4u_bxy 5).length ≠ 0 := by
    rw [bxy_sort_length]; omega
  have hround : ∀ q, exampleNumerics.round q = q := fun _ => rfl
  rw [quantile_eq_linearInterpolation _ _ _ hround hlen (by norm_num) (by norm_num),
    quantile_eq_linearInterpolation _ _ _ hround hlen (by norm_num) (by norm_num),
    scenario4u_bxy_sort, ← scenario4_bxy_sort, scenario4_band.1, scenario4_band.2]
  exact ⟨rfl, rfl⟩

/-- Witness for C7 on scenario 4 of the specification with the SNPs in the order
`bxy = (0.12, 5.00, 0.10, 0.13, 0.11)`: the sorted vector is
`(0.10, 0.11, 0.12, 0.13, 5.00)`, the band is `[0.116, 0.124]` and the pivot is the SNP at
position 0 (`bxy = 0.12`), although other SNPs have smaller exposure p-values. -/
theorem C7_heidi_pivot_witness :
    ((0 : ℕ) < 5 ∧
      (∀ i j, i < 5 → j < 5 → scenario4_names.getD i "" = scenario4_names.getD j "" → i = j) ∧
      (∀ i, i < 5 → indexVal scenario4Panel scenario4_bzx_pval scenario4_names i < 1)) ∧
    bxy_sort scenario4u_bxy 5 = [1/10, 11/100, 3/25, 13/100, 5] ∧
    quantile exampleNumerics (bxy_sort scenario4u_bxy 5) (2/5) = .ok (some (29/250)) ∧
    quantile exampleNumerics (bxy_sort scenario4u_bxy 5) (3/5) = .ok (some (31/250)) ∧
    (heidi_indices_snp_map scenario4_names 5).lookup
        (heidi_pivot_loop scenario4Panel scenario4_bzx_pval scenario4u_bxy scenario4_names 5
          (some (29/250)) (some (31/250))).2.1 = some 0 ∧
    scenario4u_bxy 0 = 3/25 := by
  obtain ⟨_, _, lo, hi, h1, h2, _, hpiv⟩ :=
    C7_heidi_pivot exampleNumerics scenario4Panel scenario4_bzx_pval scenario4u_bxy
      scenario4_cov_bxy scenario4_names 5 (1/100) (by decide) scenario4_names_distinct
      scenario4_pval_lt_one
  rw [scenario4u_band.1] at h1
  rw [scenario4u_band.2] at h2
  have elo : lo = 29/250 := (Option.some.inj (Except.ok.inj h1)).symm
  have ehi : hi = 31/250 := (Option.some.inj (Except.ok.inj h2)).symm
  subst elo
  subst ehi
  obtain ⟨p, hp, hlook, hlo, hhi, _, _⟩ := hpiv
    ⟨0, by decide, by norm_num [scenario4u_bxy, vecOf], by norm_num [scenario4u_bxy, vecOf]⟩
  have hp2 : p = 0 := by
    interval_cases p <;> norm_num [scenario4u_bxy, vecOf] at hlo hhi ⊢
  rw [hp2] at hlook
  exact ⟨⟨by decide, scenario4_names_distinct, scenario4_pval_lt_one⟩, scenario4u_bxy_sort,
    scenario4u_band.1, scenario4u_band.2, hlook, by norm_num [scenario4u_bxy, vecOf]⟩

theorem foldl_append_if {α : Type} (P : α → Prop) [DecidablePred P] (l : List α) :
    ∀ init : List α,
      l.foldl (fun acc i => if P i then acc ++ [i] else acc) init
        = init ++ l.filter (fun i => decide (P i)) := by
  induction l with
  | nil => intro init; simp
  | cons x xs ih =>
    intro init
    simp only [List.foldl_cons]
    rw [ih]
    by_cases hx : P x
    · simp [hx, List.filter_cons]
    · simp [hx, List.filter_cons]

/-- The list `include_gsmr` is the list of the positions `i < n` that are the
pivot or pass the HEIDI test, in increasing order. -/
theorem heidi_test_eq_filter (nm : Numerics) (bxy : ℕ → ℚ) (cov_bxy : ℕ → ℕ → ℚ)
    (n indxbuf : ℕ) (heidi_thresh : ℚ) :
    heidi_test nm bxy cov_bxy n indxbuf heidi_thresh
      = (List.range n).filter (fun i => decide (i = indxbuf ∨
          heidi_pass (heidi_pval nm bxy cov_bxy indxbuf i) heidi_thresh = true)) := by
  have hstep : (fun (include_gsmr : List ℕ) (i : ℕ) =>
      if i = indxbuf then include_gsmr ++ [i]
      else if heidi_pass (heidi_pval nm bxy cov_bxy indxbuf i) heidi_thresh = true then
        include_gsmr ++ [i]
      else include_gsmr)
      = (fun (acc : List ℕ) (i : ℕ) =>
          if (i = indxbuf ∨
            heidi_pass (heidi_pval nm bxy cov_bxy indxbuf i) heidi_thresh = true)
          then acc ++ [i] else acc) := by
    funext acc i
    by_cases h1 : i = indxbuf
    · simp [h1]
    · simp only [h1, if_false, false_or]
  unfold heidi_test
  rw [hstep, foldl_append_if]
  simp

/-- C8: in the HEIDI test around the pivot `p < n`, the pivot is retained, every
other index SNP `i` is retained exactly when
`pchisq(d_i² / var(d_i), 1) ≥ heidi_thresh` with `d_i = bxy_i - bxy_p` and
`var(d_i) = Σ_ii + Σ_pp - 2 Σ_ip` (`Σ` the symmetric matrix `cov_bxy`), and the
retained SNPs keep their relative order. When `var(d_i)` is 0 the statistic is not
finite, and the SNP is retained exactly when the value of `pchisq` there (at `+inf`, or
at NaN when `d_i` is 0 too) is a number that is at least `heidi_thresh`. -/
theorem C8_heidi_test (nm : Numerics) (bxy : ℕ → ℚ) (cov_bxy : ℕ → ℕ → ℚ)
    (n p : ℕ) (heidi_thresh : ℚ) (hp : p < n)
    (hsym : ∀ a b, cov_bxy a b = cov_bxy b a) :
    p ∈ heidi_test nm bxy cov_bxy n p heidi_thresh ∧
    (∀ i, i < n → i ≠ p →
      (cov_bxy i i + cov_bxy p p - 2 * cov_bxy i p ≠ 0 →
        (i ∈ heidi_test nm bxy cov_bxy n p heidi_thresh ↔
          nm.pchisq ((bxy i - bxy p) ^ 2 / (cov_bxy i i + cov_bxy p p - 2 * cov_bxy i p)) 1
            ≥ heidi_thresh)) ∧
      (cov_bxy i i + cov_bxy p p - 2 * cov_bxy i p = 0 →
        (i ∈ heidi_test nm bxy cov_bxy n p heidi_thresh ↔
          ∃ q, (if (bxy i - bxy p) ^ 2 = 0 then nm.pchisq_nan else nm.pchisq_inf) = some q ∧
            q ≥ heidi_thresh))) ∧
    List.Sublist (heidi_test nm bxy cov_bxy n p heidi_thresh) (List.range n) := by
  rw [heidi_test_eq_filter]
  refine ⟨?_, ?_, List.filter_sublist _⟩
  · simp [List.mem_filter, hp]
  · intro i hi hip
    have e1 : (bxy i - bxy p) * (bxy i - bxy p) = (bxy i - bxy p) ^ 2 := by ring
    have e2 : cov_bxy p p + cov_bxy i i - 2 * cov_bxy p i
        = cov_bxy i i + cov_bxy p p - 2 * cov_bxy i p := by
      rw [hsym p i]; ring
    have hmem : i ∈ (List.range n).filter (fun i => decide (i = p ∨
          heidi_pass (heidi_pval nm bxy cov_bxy p i) heidi_thresh = true))
        ↔ heidi_pass (heidi_pval nm bxy cov_bxy p i) heidi_thresh = true := by
      simp [List.mem_filter, hi, hip]
    rw [hmem]
    unfold heidi_pval
    simp only []
    rw [e1, e2]
    constructor
    · intro hvar
      rw [if_neg hvar]
      simp [heidi_pass]
    · intro hvar
      rw [if_pos hvar]
      unfold pchisq_nonfinite heidi_pass
      cases hq : (if (bxy i - bxy p) ^ 2 = 0 then nm.pchisq_nan else nm.pchisq_inf) with
      | none => simp
      | some q => simp

/-- Witness for C8 on scenario 4 of the specification (`Σ = 0.01 * I`, pivot at
position 2): the statistic of the SNP with `bxy = 5.00` is
`4.88² / 0.02 = 29768/25`, and with the example tail function and threshold `0.01`
that SNP is dropped while the other four are retained in their order. -/
theorem C8_heidi_test_witness :
    ((2 : ℕ) < 5 ∧ (∀ a b, scenario4_cov_bxy a b = scenario4_cov_bxy b a)) ∧
    (scenario4_bxy 4 - scenario4_bxy 2) ^ 2
        / (scenario4_cov_bxy 4 4 + scenario4_cov_bxy 2 2 - 2 * scenario4_cov_bxy 4 2)
      = (122/25) ^ 2 / (1/50) ∧
    (4 ∉ heidi_test exampleNumerics scenario4_bxy scenario4_cov_bxy 5 2 (1/100)) ∧
    (2 ∈ heidi_test exampleNumerics scenario4_bxy scenario4_cov_bxy 5 2 (1/100)) ∧
    (0 ∈ heidi_test exampleNumerics scenario4_bxy scenario4_cov_bxy 5 2 (1/100)) ∧
    heidi_test exampleNumerics scenario4_bxy scenario4_cov_bxy 5 2 (1/100) = [0, 1, 2, 3] := by
  have hsym : ∀ a b, scenario4_cov_bxy a b = scenario4_cov_bxy b a := by
    intro a b
    unfold scenario4_cov_bxy
    by_cases h : a = b
    · subst h; rfl
    · have h2 : ¬ b = a := fun e => h e.symm
      simp [h, h2]
  obtain ⟨hpiv, hiff, _⟩ := C8_heidi_test exampleNumerics scenario4_bxy scenario4_cov_bxy 5 2
    (1/100) (by decide) hsym
  have hv : ∀ i, i < 5 → i ≠ 2 →
      scenario4_cov_bxy i i + scenario4_cov_bxy 2 2 - 2 * scenario4_cov_bxy i 2 = 1/50 := by
    intro i hi hne
    simp only [scenario4_cov_bxy, if_pos, if_neg hne]
    norm_num
  refine ⟨⟨by decide, hsym⟩, ?_, ?_, hpiv, ?_, ?_⟩
  · norm_num [scenario4_bxy, scenario4_cov_bxy, vecOf]
  · rw [((hiff 4 (by decide) (by decide)).1 (by rw [hv 4 (by decide) (by decide)]; norm_num))]
    norm_num [scenario4_bxy, scenario4_cov_bxy, vecOf, exampleNumerics]
  · rw [((hiff 0 (by decide) (by decide)).1 (by rw [hv 0 (by decide) (by decide)]; norm_num))]
    norm_num [scenario4_bxy, scenario4_cov_bxy, vecOf, exampleNumerics]
  · rw [heidi_test_eq_filter]
    simp [List.range_succ, List.filter_cons, heidi_pass, heidi_pval, scenario4_bxy,
      scenario4_cov_bxy, vecOf, exampleNumerics]
    norm_num

/-- The HEIDI test where the variance of the difference is 0 (`Σ = 0`): the statistic of
a SNP with another `bxy` is `+inf`, the tail of the example routines is `0` there, and
the SNP is dropped at any positive threshold; a SNP with the same `bxy` has the statistic
NaN and is dropped as well. -/
theorem example_heidi_test_zero_variance :
    heidi_pval exampleNumerics (vecOf [1, 2, 1]) (fun _ _ => 0) 0 1 = some 0 ∧
    heidi_pval exampleNumerics (vecOf [1, 2, 1]) (fun _ _ => 0) 0 2 = none ∧
    heidi_test exampleNumerics (vecOf [1, 2, 1]) (fun _ _ => 0) 3 0 (1/100) = [0] := by
  refine ⟨?_, ?_, ?_⟩
  · norm_num [heidi_pval, pchisq_nonfinite, vecOf, exampleNumerics]
  · norm_num [heidi_pval, pchisq_nonfinite, vecOf, exampleNumerics]
  · rw [heidi_test_eq_filter]
    simp [List.range_succ, List.filter_cons, heidi_pass, heidi_pval, pchisq_nonfinite, vecOf,
      exampleNumerics]
    norm_num

theorem matInverse_eq_inv {n : ℕ} (A : Matrix (Fin n) (Fin n) ℚ) : matInverse A = A⁻¹ := by
  unfold matInverse
  rw [Matrix.inv_def, Ring.inverse_eq_inv']

theorem gsmr_cov_bxy_sub_eq (cov_bxy : ℕ → ℕ → ℚ) (include_gsmr : List ℕ)
    (hsym : ∀ a b, cov_bxy a b = cov_bxy b a) :
    toMat include_gsmr.length (gsmr_cov_bxy_sub cov_bxy include_gsmr include_gsmr.length)
      = retainedCov cov_bxy include_gsmr := by
  ext i j
  simp only [toMat, retainedCov, Matrix.of_apply]
  unfold gsmr_cov_bxy_sub
  rw [foldl_upper_rows
    (fun i j => cov_bxy (include_gsmr.getD i 0) (include_gsmr.getD j 0))]
  have hi := i.isLt
  have hj := j.isLt
  by_cases hij : i.val ≤ j.val
  · have h1 : i.val ≤ j.val ∧ i.val < include_gsmr.length ∧ j.val < include_gsmr.length :=
      ⟨hij, hi, hj⟩
    rw [if_pos h1]
  · have h1 : ¬ (i.val ≤ j.val ∧ i.val < include_gsmr.length ∧ j.val < include_gsmr.length) :=
      fun h => hij h.1
    have h2 : j.val < i.val ∧ j.val < include_gsmr.length ∧ i.val < include_gsmr.length :=
      ⟨by omega, hj, hi⟩
    rw [if_neg h1, if_pos h2]
    exact hsym _ _

theorem gsmr_bxy_heidi_eq (bxy : ℕ → ℚ) (include_gsmr : List ℕ) :
    toVec include_gsmr.length (gsmr_bxy_heidi bxy include_gsmr include_gsmr.length)
      = retainedBxy bxy include_gsmr := by
  funext i
  simp only [toVec, retainedBxy]
  unfold gsmr_bxy_heidi
  rw [foldl_setCoeff (fun i => bxy (include_gsmr.getD i 0))]
  simp [i.isLt]

/-- The estimate returned by the last part of `gsmr_meta`, for a symmetric
matrix `cov_bxy`: it succeeds exactly when the count check passes and the
restricted covariance matrix is invertible, and then returns the
generalized-inverse-variance-weighted estimate. -/
theorem gsmr_estimate_eq (nm : Numerics) (bxy : ℕ → ℚ) (cov_bxy : ℕ → ℕ → ℚ)
    (include_gsmr : List ℕ) (nsnp_gsmr : ℤ) (hsym : ∀ a b, cov_bxy a b = cov_bxy b a) :
    gsmr_estimate nm bxy cov_bxy include_gsmr nsnp_gsmr
      = if (include_gsmr.length : ℤ) < nsnp_gsmr then .error .InsufficientSNPs
        else if (retainedCov cov_bxy include_gsmr).det = 0 then .error .SingularCovariance
        else .ok
          [Matrix.dotProduct (fun _ => 1)
              ((retainedCov cov_bxy include_gsmr)⁻¹.mulVec (retainedBxy bxy include_gsmr))
            / Matrix.dotProduct (fun _ => 1)
              ((retainedCov cov_bxy include_gsmr)⁻¹.mulVec (fun _ => 1)),
           nm.sqrt (1 / Matrix.dotProduct (fun _ => 1)
              ((retainedCov cov_bxy include_gsmr)⁻¹.mulVec (fun _ => 1))),
           nm.pchisq
            ((Matrix.dotProduct (fun _ => 1)
              ((retainedCov cov_bxy include_gsmr)⁻¹.mulVec (retainedBxy bxy include_gsmr))
              / Matrix.dotProduct (fun _ => 1)
              ((retainedCov cov_bxy include_gsmr)⁻¹.mulVec (fun _ => 1))) ^ 2
             * Matrix.dotProduct (fun _ => 1)
              ((retainedCov cov_bxy include_gsmr)⁻¹.mulVec (fun _ => 1))) 1,
           (include_gsmr.length : ℚ)] := by
  unfold gsmr_estimate
  simp only [gsmr_cov_bxy_sub_eq cov_bxy include_gsmr hsym, gsmr_bxy_heidi_eq,
    matInverse_eq_inv, ← Matrix.dotProduct_mulVec]
  by_cases h1 : (include_gsmr.length : ℤ) < nsnp_gsmr
  · simp only [h1, if_true]
  · simp only [h1, if_false]
    by_cases h2 : (retainedCov cov_bxy include_gsmr).det = 0
    · simp only [h2, if_true]
    · simp only [h2, if_false]
      congr 2
      · rw [one_div, div_eq_mul_inv, mul_comm]
      · congr 1
        congr 1
        · rw [one_div, div_eq_mul_inv, inv_inv]
          ring_nf

/-- The function `gsmr_meta` returns an estimate exactly when the four count
checks pass, the HEIDI-outlier step delivers a list `include_gsmr` and the last
part succeeds on it. -/
theorem gsmr_meta_ok_iff (nm : Numerics) (g : GctaState) (bzx bzx_se bzx_pval bzy bzy_se : ℕ → ℚ)
    (snp_flag : ℕ → Bool) (pval_thresh1 pval_thresh2 : ℚ) (wind_size : ℤ)
    (r2_thresh gwas_thresh heidi_thresh ld_fdr_thresh : ℚ) (nsnp_gsmr nsnp_heidi : ℤ)
    (heidi_flag : Bool) (rst : List ℚ) :
    gsmr_meta nm g bzx bzx_se bzx_pval bzy bzy_se snp_flag pval_thresh1 pval_thresh2 wind_size
        r2_thresh gwas_thresh heidi_thresh ld_fdr_thresh nsnp_gsmr nsnp_heidi heidi_flag
      = .ok (some rst) ↔
    (¬ (g._include.length : ℤ) < nsnp_gsmr ∧
     ¬ ((clumping_meta g bzx_pval snp_flag pval_thresh1 pval_thresh2 wind_size
          r2_thresh).length : ℤ) < nsnp_gsmr ∧
     ¬ ((gsmr_kept_ID nm g (clumping_meta g bzx_pval snp_flag pval_thresh1 pval_thresh2
          wind_size r2_thresh) r2_thresh).length : ℤ) < nsnp_gsmr ∧
     ¬ ((gsmr_kept_ID nm g (clumping_meta g bzx_pval snp_flag pval_thresh1 pval_thresh2
          wind_size r2_thresh) r2_thresh).length : ℤ) < nsnp_heidi ∧
     ∃ include_gsmr,
       gsmr_include_gsmr nm g bzx bzx_se bzx_pval bzy bzy_se
         (clumping_meta g bzx_pval snp_flag pval_thresh1 pval_thresh2 wind_size r2_thresh)
         r2_thresh heidi_thresh ld_fdr_thresh = .ok include_gsmr ∧
       gsmr_estimate nm
         (gsmr_index_bxy nm g bzx bzy
           (clumping_meta g bzx_pval snp_flag pval_thresh1 pval_thresh2 wind_size r2_thresh)
           r2_thresh)
         (gsmr_index_cov_bxy nm g bzx bzx_se bzy bzy_se
           (clumping_meta g bzx_pval snp_flag pval_thresh1 pval_thresh2 wind_size r2_thresh)
           r2_thresh ld_fdr_thresh)
         include_gsmr nsnp_gsmr = .ok rst) := by
  unfold gsmr_meta
  by_cases h1 : (g._include.length : ℤ) < nsnp_gsmr
  · simp [h1]
  · simp only [h1, if_false, not_false_eq_true, true_and]
    by_cases h2 : ((clumping_meta g bzx_pval snp_flag pval_thresh1 pval_thresh2 wind_size
          r2_thresh).length : ℤ) < nsnp_gsmr
    · simp [h2]
    · simp only [h2, if_false, not_false_eq_true, true_and]
      unfold gsmr_after_clumping
      by_cases h3 : ((gsmr_kept_ID nm g (clumping_meta g bzx_pval snp_flag pval_thresh1
          pval_thresh2 wind_size r2_thresh) r2_thresh).length : ℤ) < nsnp_gsmr
      · simp [h3]
      · simp only [h3, if_false, not_false_eq_true, true_and]
        by_cases h4 : ((gsmr_kept_ID nm g (clumping_meta g bzx_pval snp_flag pval_thresh1
            pval_thresh2 wind_size r2_thresh) r2_thresh).length : ℤ) < nsnp_heidi
        · simp [h4]
        · simp only [h4, if_false, not_false_eq_true, true_and]
          cases hinc : gsmr_include_gsmr nm g bzx bzx_se bzx_pval bzy bzy_se
            (clumping_meta g bzx_pval snp_flag pval_thresh1 pval_thresh2 wind_size r2_thresh)
            r2_thresh heidi_thresh ld_fdr_thresh with
          | error e => simp
          | ok inc =>
            simp only [Except.ok.injEq, exists_eq_left']
            cases hest : gsmr_estimate nm
              (gsmr_index_bxy nm g bzx bzy
                (clumping_meta g bzx_pval snp_flag pval_thresh1 pval_thresh2 wind_size r2_thresh)
                r2_thresh)
              (gsmr_index_cov_bxy nm g bzx bzx_se bzy bzy_se
                (clumping_meta g bzx_pval snp_flag pval_thresh1 pval_thresh2 wind_size r2_thresh)
                r2_thresh ld_fdr_thresh)
              inc nsnp_gsmr with
            | error e => simp
            | ok r => simp

theorem gsmr_index_cov_bxy_symm (nm : Numerics) (g : GctaState) (bzx bzx_se bzy bzy_se : ℕ → ℚ)
    (indices_snp_buf : List String) (r2_thresh ld_fdr_thresh : ℚ) (a b : ℕ) :
    gsmr_index_cov_bxy nm g bzx bzx_se bzy bzy_se indices_snp_buf r2_thresh ld_fdr_thresh a b
      = gsmr_index_cov_bxy nm g bzx bzx_se bzy bzy_se indices_snp_buf r2_thresh ld_fdr_thresh
          b a := by
  unfold gsmr_index_cov_bxy
  exact gsmr_cov_bxy_symm _ _ _ _ _ _ _ _

theorem example_snp_pvalbuf :
    clumping_snp_pvalbuf examplePanel example_bzx_pval (fun _ => true)
      = [(1/10000000000, 0), (1/1000000000, 1), (1/100000000, 2)] := by
  simp [clumping_snp_pvalbuf, examplePanel, example_bzx_pval, vecOf, lookup_cons_ite,
    List.insertionSort, List.orderedInsert]
  norm_num [pairLE]

theorem example_init_map :
    clumping_init_map examplePanel [(1/10000000000, 0), (1/1000000000, 1), (1/100000000, 2)]
      (1/20000000) = [("s1", false), ("s2", false), ("s3", false)] := by
  simp [clumping_init_map, examplePanel, mapInsert, lookup_cons_ite]
  norm_num
  simp

theorem example_clumping :
    clumping_meta examplePanel example_bzx_pval (fun _ => true) (1/20000000) (1/20000000)
      10000 (1/20) = ["s1", "s2", "s3"] := by
  unfold clumping_meta
  rw [example_snp_pvalbuf]
  simp only []
  rw [example_init_map]
  simp [List.range_succ, clumping_step, mapInsert, lookup_cons_ite, examplePanel,
    clumping_walk, List.indexOf_cons, List.range']

/-- Entries after the first `k` rows of the symmetric fill above the diagonal,
`for (i = 0; i < n - 1; i++) for (j = i + 1; j < n; j++) m(i,j) = m(j,i) = v i j`. -/
theorem foldl_strict_rows (v : ℕ → ℕ → ℚ) (n : ℕ) (init : ℕ → ℕ → ℚ) (k : ℕ) :
    ∀ (a b : ℕ),
      (List.range k).foldl
        (fun m i => (List.range' (i + 1) (n - (i + 1))).foldl
          (fun m j => setEntry (setEntry m j i (v i j)) i j (v i j)) m)
        init a b
        = if a < b ∧ a < k ∧ b < n then v a b
          else if b < a ∧ b < k ∧ a < n then v b a
          else init a b := by
  induction k with
  | zero => intro a b; simp
  | succ k ih =>
    intro a b
    rw [List.range_succ, List.foldl_append]
    simp only [List.foldl_cons, List.foldl_nil]
    rw [foldl_sym_inner (fun j => v k j) k (k + 1) (Nat.lt_succ_self k)]
    rw [ih]
    by_cases h1 : a = k ∧ k + 1 ≤ b ∧ b < k + 1 + (n - (k + 1))
    · have h2 : a < b ∧ a < k + 1 ∧ b < n := by omega
      rw [if_pos h1, if_pos h2, h1.1]
    · rw [if_neg h1]
      by_cases h2 : b = k ∧ k + 1 ≤ a ∧ a < k + 1 + (n - (k + 1))
      · have h3 : ¬ (a < b ∧ a < k + 1 ∧ b < n) := by omega
        have h4 : b < a ∧ b < k + 1 ∧ a < n := by omega
        rw [if_pos h2, if_neg h3, if_pos h4, h2.1]
      · rw [if_neg h2]
        by_cases h3 : a < b ∧ a < k ∧ b < n
        · have h4 : a < b ∧ a < k + 1 ∧ b < n := by omega
          rw [if_pos h3, if_pos h4]
        · have h4 : ¬ (a < b ∧ a < k + 1 ∧ b < n) := by omega
          rw [if_neg h3, if_neg h4]
          by_cases h5 : b < a ∧ b < k ∧ a < n
          · have h6 : b < a ∧ b < k + 1 ∧ a < n := by omega
            rw [if_pos h5, if_pos h6]
          · have h6 : ¬ (b < a ∧ b < k + 1 ∧ a < n) := by omega
            rw [if_neg h5, if_neg h6]

/-- Entries of the LD matrix `ld_r_mat` of `gsmr_meta`. -/
theorem gsmr_ld_r_mat_entry (g : GctaState) (snp_sn : List ℕ) (n a b : ℕ) :
    gsmr_ld_r_mat g snp_sn n a b
      = if a < b ∧ b < n then g.xmat_r (snp_sn.getD a 0) (snp_sn.getD b 0)
        else if b < a ∧ a < n then g.xmat_r (snp_sn.getD b 0) (snp_sn.getD a 0)
        else identityMat a b := by
  unfold gsmr_ld_r_mat
  rw [foldl_strict_rows (fun i j => g.xmat_r (snp_sn.getD i 0) (snp_sn.getD j 0))]
  by_cases h1 : a < b ∧ b < n
  · have h2 : a < b ∧ a < n - 1 ∧ b < n := by omega
    rw [if_pos h1, if_pos h2]
  · have h2 : ¬ (a < b ∧ a < n - 1 ∧ b < n) := by omega
    rw [if_neg h1, if_neg h2]
    by_cases h3 : b < a ∧ a < n
    · have h4 : b < a ∧ b < n - 1 ∧ a < n := by omega
      rw [if_pos h3, if_pos h4]
    · have h4 : ¬ (b < a ∧ b < n - 1 ∧ a < n) := by omega
      rw [if_neg h3, if_neg h4]

theorem example_snp_sn : gsmr_snp_sn examplePanel ["s1", "s2", "s3"] = [0, 1, 2] := by
  simp [gsmr_snp_sn, examplePanel, lookup_cons_ite, List.indexOf_cons]

theorem example_ld_r_mat (a b : ℕ) :
    gsmr_ld_r_mat examplePanel (gsmr_snp_sn examplePanel ["s1", "s2", "s3"]) 3 a b
      = if a = b then 1 else 0 := by
  rw [gsmr_ld_r_mat_entry, example_snp_sn]
  by_cases h1 : a < b ∧ b < 3
  · rw [if_pos h1]
    obtain ⟨h2, h3⟩ := h1
    have hab : ¬ a = b := by omega
    interval_cases b <;> interval_cases a <;> simp [examplePanel] at hab ⊢
  · rw [if_neg h1]
    by_cases h3 : b < a ∧ a < 3
    · rw [if_pos h3]
      obtain ⟨h4, h5⟩ := h3
      have hab : ¬ a = b := by omega
      interval_cases a <;> interval_cases b <;> simp [examplePanel] at hab ⊢
    · rw [if_neg h3]
      rfl

theorem example_pairs :
    rm_cor_pairs (gsmr_ld_r_mat examplePanel (gsmr_snp_sn examplePanel ["s1", "s2", "s3"]) 3)
      (exampleNumerics.sqrt (1/20)) 3 = [] := by
  simp [rm_cor_pairs, List.range_succ, example_ld_r_mat, exampleNumerics, qsqrt]
  norm_num

theorem example_kept_ID :
    gsmr_kept_ID exampleNumerics examplePanel ["s1", "s2", "s3"] (1/20) = [0, 1, 2] := by
  unfold gsmr_kept_ID rm_cor_elements
  simp only [if_true, List.length_cons, List.length_nil]
  rw [example_pairs]
  simp [List.range_succ]

theorem example_indices_snp :
    gsmr_indices_snp exampleNumerics examplePanel ["s1", "s2", "s3"] (1/20)
      = ["s1", "s2", "s3"] := by
  unfold gsmr_indices_snp
  rw [example_kept_ID]
  simp [gsmr_kept_names, List.range_succ]

/-- The loop of `adjust_ld_r_fdr` only writes zeros: an entry that is zero
stays zero. -/
theorem adjust_ld_r_fdr_loop_zero (pval_buf : List ℚ) (m : ℕ) (thresh : ℚ) (a b : ℕ) :
    ∀ (l : List (ℚ × ℕ)) (i : ℕ) (ld_r_mat : ℕ → ℕ → ℚ), ld_r_mat a b = 0 →
      adjust_ld_r_fdr_loop pval_buf m thresh l i ld_r_mat a b = 0 := by
  intro l
  induction l with
  | nil => intro i ld h; simpa [adjust_ld_r_fdr_loop] using h
  | cons pk rest ih =>
    intro i ld h
    unfold adjust_ld_r_fdr_loop
    by_cases h1 : pval_buf.getD i 0 < thresh
    · rw [if_pos h1]; exact h
    · rw [if_neg h1]
      apply ih
      simp only [setEntry]
      split_ifs <;> first | rfl | exact h

/-- The loop of `adjust_ld_r_fdr` leaves an entry unchanged or sets it to zero. -/
theorem adjust_ld_r_fdr_loop_entry (pval_buf : List ℚ) (m : ℕ) (thresh : ℚ) (a b : ℕ) :
    ∀ (l : List (ℚ × ℕ)) (i : ℕ) (ld_r_mat : ℕ → ℕ → ℚ),
      adjust_ld_r_fdr_loop pval_buf m thresh l i ld_r_mat a b = ld_r_mat a b ∨
      adjust_ld_r_fdr_loop pval_buf m thresh l i ld_r_mat a b = 0 := by
  intro l
  induction l with
  | nil => intro i ld; left; simp [adjust_ld_r_fdr_loop]
  | cons pk rest ih =>
    intro i ld
    unfold adjust_ld_r_fdr_loop
    by_cases h1 : pval_buf.getD i 0 < thresh
    · rw [if_pos h1]; left; rfl
    · rw [if_neg h1]
      rcases ih (i + 1)
        (setEntry (setEntry ld (pk.2 % m) (pk.2 / m) 0) (pk.2 / m) (pk.2 % m) 0) with h | h
      · rw [h]
        simp only [setEntry]
        split_ifs
        · right; rfl
        · right; rfl
        · left; rfl
      · right; exact h

theorem example_ld_r_adj (a b : ℕ) (hab : a ≠ b) :
    gsmr_ld_r_adj exampleNumerics examplePanel ["s1", "s2", "s3"] (1/20) (1/20) a b = 0 := by
  unfold gsmr_ld_r_adj adjust_ld_r_fdr
  apply adjust_ld_r_fdr_loop_zero
  have h := example_ld_r_mat a b
  simp only [hab, if_false] at h
  exact h

theorem example_index_bxy :
    gsmr_index_bxy exampleNumerics examplePanel example_bzx example_bzy ["s1", "s2", "s3"] (1/20) 0
      = 1/10 ∧
    gsmr_index_bxy exampleNumerics examplePanel example_bzx example_bzy ["s1", "s2", "s3"] (1/20) 1
      = 11/100 ∧
    gsmr_index_bxy exampleNumerics examplePanel example_bzx example_bzy ["s1", "s2", "s3"] (1/20) 2
      = 5 := by
  unfold gsmr_index_bxy
  rw [example_kept_ID, example_indices_snp]
  refine ⟨?_, ?_, ?_⟩
  · rw [gsmr_bxy_entry _ _ _ _ _ _ (by decide)]
    simp [indexVal, metaIndex, examplePanel, example_bzx, example_bzy, vecOf, lookup_cons_ite]
    norm_num
  · rw [gsmr_bxy_entry _ _ _ _ _ _ (by decide)]
    simp [indexVal, metaIndex, examplePanel, example_bzx, example_bzy, vecOf, lookup_cons_ite]
    norm_num
  · rw [gsmr_bxy_entry _ _ _ _ _ _ (by decide)]
    simp [indexVal, metaIndex, examplePanel, example_bzx, example_bzy, vecOf, lookup_cons_ite]
    norm_num

theorem example_zscore_inv (se : ℕ → ℚ) (hse : se = example_bzx_se ∨ se = example_bzy_se)
    (i : ℕ) (hi : i < 3) :
    gsmr_zscore_inv examplePanel example_bzx se ["s1", "s2", "s3"] 3 i = 1/100 := by
  rw [gsmr_zscore_inv_entry _ _ _ _ _ _ hi]
  rcases hse with h | h <;> subst h <;> interval_cases i <;>
    simp [indexVal, metaIndex, examplePanel, example_bzx, example_bzx_se, example_bzy_se, vecOf,
      lookup_cons_ite] <;> norm_num

theorem example_cov_bxy :
    gsmr_index_cov_bxy exampleNumerics examplePanel example_bzx example_bzx_se example_bzy
        example_bzy_se ["s1", "s2", "s3"] (1/20) (1/20) 0 0 = 101/1000000 ∧
    gsmr_index_cov_bxy exampleNumerics examplePanel example_bzx example_bzx_se example_bzy
        example_bzy_se ["s1", "s2", "s3"] (1/20) (1/20) 1 1 = 10121/100000000 ∧
    gsmr_index_cov_bxy exampleNumerics examplePanel example_bzx example_bzx_se example_bzy
        example_bzy_se ["s1", "s2", "s3"] (1/20) (1/20) 2 2 = 13/5000 ∧
    (∀ a b, a ≠ b →
      gsmr_index_cov_bxy exampleNumerics examplePanel example_bzx example_bzx_se example_bzy
        example_bzy_se ["s1", "s2", "s3"] (1/20) (1/20) a b = 0) := by
  obtain ⟨b0, b1, b2⟩ := example_index_bxy
  have hz1 := example_zscore_inv example_bzx_se (Or.inl rfl)
  have hz2 := example_zscore_inv example_bzy_se (Or.inr rfl)
  unfold gsmr_index_cov_bxy
  simp only [example_kept_ID, example_indices_snp, List.length_cons, List.length_nil,
    Nat.zero_add, Nat.reduceAdd]
  refine ⟨?_, ?_, ?_, ?_⟩
  · rw [gsmr_cov_bxy_entry]
    simp only [le_refl, Nat.lt_add_one, and_self, if_true, hz1 0 (by decide),
      hz2 0 (by decide), b0, show (0 : ℕ) < 3 by decide]
    norm_num
  · rw [gsmr_cov_bxy_entry]
    simp only [le_refl, and_self, if_true, hz1 1 (by decide),
      hz2 1 (by decide), b1, show (1 : ℕ) < 3 by decide, true_and]
    norm_num
  · rw [gsmr_cov_bxy_entry]
    simp only [le_refl, and_self, if_true, hz1 2 (by decide),
      hz2 2 (by decide), b2, show (2 : ℕ) < 3 by decide, true_and]
    norm_num
  · intro a b hab
    rw [gsmr_cov_bxy_entry]
    have hkept : ∀ i, i < 3 → ([0, 1, 2] : List ℕ).getD i 0 = i := by
      intro i hi
      interval_cases i <;> rfl
    by_cases h1 : a ≤ b ∧ b < 3
    · rw [if_pos h1, if_neg hab, hkept a (by omega), hkept b (by omega),
        example_ld_r_adj a b hab]
      ring
    · rw [if_neg h1]
      by_cases h2 : b < a ∧ a < 3
      · rw [if_pos h2, hkept a (by omega), hkept b (by omega),
          example_ld_r_adj b a (fun e => hab e.symm)]
        ring
      · rw [if_neg h2]

theorem example_bxy_sort :
    bxy_sort (gsmr_index_bxy exampleNumerics examplePanel example_bzx example_bzy
      ["s1", "s2", "s3"] (1/20)) 3 = [1/10, 11/100, 5] := by
  obtain ⟨b0, b1, b2⟩ := example_index_bxy
  generalize gsmr_index_bxy exampleNumerics examplePanel example_bzx example_bzy
    ["s1", "s2", "s3"] (1/20) = B at b0 b1 b2 ⊢
  simp [bxy_sort, List.range_succ, List.insertionSort, List.orderedInsert, b0, b1, b2]
  norm_num

theorem example_quantiles :
    quantile exampleNumerics ([1/10, 11/100, 5] : List ℚ) (2/5) = .ok (some (27/250)) ∧
    quantile exampleNumerics ([1/10, 11/100, 5] : List ℚ) (3/5) = .ok (some (136/125)) := by
  have hf1 : Int.floor ((2/5 : ℚ) * (((3 : ℕ) : ℚ) - 1)) = 0 := by
    norm_num [Int.floor_eq_iff]
  have hf2 : Int.floor ((3/5 : ℚ) * (((3 : ℕ) : ℚ) - 1)) = 1 := by
    norm_num [Int.floor_eq_iff]
  have t0 : Int.toNat 0 = 0 := rfl
  have t1 : Int.toNat 1 = 1 := rfl
  constructor
  · rw [quantile_eq_linearInterpolation _ _ _ (fun _ => rfl) (by simp) (by norm_num)
      (by norm_num)]
    unfold linearInterpolation
    simp only [List.length_cons, List.length_nil, Nat.zero_add, Nat.reduceAdd, hf1, t0]
    norm_num
  · rw [quantile_eq_linearInterpolation _ _ _ (fun _ => rfl) (by simp) (by norm_num)
      (by norm_num)]
    unfold linearInterpolation
    simp only [List.length_cons, List.length_nil, Nat.zero_add, Nat.reduceAdd, hf2, t1]
    norm_num

theorem example_pivot :
    (heidi_pivot_loop examplePanel example_bzx_pval
      (gsmr_index_bxy exampleNumerics examplePanel example_bzx example_bzy
        ["s1", "s2", "s3"] (1/20)) ["s1", "s2", "s3"] 3 (some (27/250)) (some (136/125))).2.1
      = "s2" := by
  obtain ⟨b0, b1, b2⟩ := example_index_bxy
  generalize gsmr_index_bxy exampleNumerics examplePanel example_bzx example_bzy
    ["s1", "s2", "s3"] (1/20) = B at b0 b1 b2 ⊢
  simp [heidi_pivot_loop, List.range_succ, heidi_in_band, b0, b1, b2, indexVal, metaIndex,
    examplePanel, example_bzx_pval, vecOf, lookup_cons_ite]
  norm_num

theorem example_heidi_test :
    heidi_test exampleNumerics
      (gsmr_index_bxy exampleNumerics examplePanel example_bzx example_bzy
        ["s1", "s2", "s3"] (1/20))
      (gsmr_index_cov_bxy exampleNumerics examplePanel example_bzx example_bzx_se example_bzy
        example_bzy_se ["s1", "s2", "s3"] (1/20) (1/20)) 3 1 (1/100) = [0, 1] := by
  obtain ⟨b0, b1, b2⟩ := example_index_bxy
  obtain ⟨c0, c1, c2, coff⟩ := example_cov_bxy
  have c10 := coff 1 0 (by decide)
  have c12 := coff 1 2 (by decide)
  rw [heidi_test_eq_filter]
  generalize gsmr_index_bxy exampleNumerics examplePanel example_bzx example_bzy
    ["s1", "s2", "s3"] (1/20) = B at b0 b1 b2 ⊢
  generalize gsmr_index_cov_bxy exampleNumerics examplePanel example_bzx example_bzx_se
    example_bzy example_bzy_se ["s1", "s2", "s3"] (1/20) (1/20) = C at c0 c1 c2 c10 c12 ⊢
  simp [List.range_succ, List.filter_cons, b0, b1, b2, c0, c1, c2, c10, c12, exampleNumerics,
    heidi_pass, heidi_pval]
  norm_num

theorem example_include_gsmr :
    gsmr_include_gsmr exampleNumerics examplePanel example_bzx example_bzx_se example_bzx_pval
      example_bzy example_bzy_se ["s1", "s2", "s3"] (1/20) (1/100) (1/20) = .ok [0, 1] := by
  unfold gsmr_include_gsmr gsmr_heidi
  simp only [example_kept_ID, example_indices_snp, List.length_cons, List.length_nil,
    Nat.zero_add, Nat.reduceAdd, example_bxy_sort, example_quantiles.1, example_quantiles.2,
    example_pivot]
  have hl : (heidi_indices_snp_map ["s1", "s2", "s3"] 3).lookup "s2" = some 1 := by
    simp [heidi_indices_snp_map, List.range_succ, mapInsert, lookup_cons_ite]
  rw [hl]
  simp only [example_heidi_test]

theorem example_estimate :
    gsmr_estimate exampleNumerics
      (gsmr_index_bxy exampleNumerics examplePanel example_bzx example_bzy
        ["s1", "s2", "s3"] (1/20))
      (gsmr_index_cov_bxy exampleNumerics examplePanel example_bzx example_bzx_se example_bzy
        example_bzy_se ["s1", "s2", "s3"] (1/20) (1/20)) [0, 1] 2
      = .ok [21231/202210, exampleNumerics.sqrt (1022221/20221000000),
          20670330841/4528223940841, 2] := by
  obtain ⟨b0, b1, _⟩ := example_index_bxy
  obtain ⟨c0, c1, _, coff⟩ := example_cov_bxy
  have c01 := coff 0 1 (by decide)
  have c10 := coff 1 0 (by decide)
  rw [gsmr_estimate_eq exampleNumerics _ _ [0, 1] 2
    (gsmr_index_cov_bxy_symm exampleNumerics examplePanel example_bzx example_bzx_se example_bzy
      example_bzy_se _ (1/20) (1/20))]
  generalize gsmr_index_bxy exampleNumerics examplePanel example_bzx example_bzy
    ["s1", "s2", "s3"] (1/20) = B at b0 b1 ⊢
  generalize gsmr_index_cov_bxy exampleNumerics examplePanel example_bzx example_bzx_se
    example_bzy example_bzy_se ["s1", "s2", "s3"] (1/20) (1/20) = C at c0 c1 c01 c10 ⊢
  have hA : retainedCov C [0, 1]
      = (!![101/1000000, 0; 0, 10121/100000000] : Matrix (Fin 2) (Fin 2) ℚ) := by
    ext i j
    fin_cases i <;> fin_cases j <;> simp [retainedCov, c0, c1, c01, c10]
  have hb : retainedBxy B [0, 1] = (![1/10, 11/100] : Fin 2 → ℚ) := by
    funext i
    fin_cases i <;> simp [retainedBxy, b0, b1]
  have hdet : (!![101/1000000, 0; 0, 10121/100000000] : Matrix (Fin 2) (Fin 2) ℚ).det
      = 1022221/100000000000000 := by
    rw [Matrix.det_fin_two]; norm_num
  have hinv : (!![101/1000000, 0; 0, 10121/100000000] : Matrix (Fin 2) (Fin 2) ℚ)⁻¹
      = !![1000000/101, 0; 0, 100000000/10121] := by
    rw [Matrix.inv_def, hdet, Matrix.adjugate_fin_two, Ring.inverse_eq_inv']
    ext i j
    fin_cases i <;> fin_cases j <;> simp <;> norm_num
  rw [hA, hb, hinv]
  have h1 : ¬ (((([0, 1] : List ℕ).length : ℕ) : ℤ) < 2) := by simp
  rw [if_neg h1]
  split_ifs with h2
  · exfalso
    have h3 : (1022221/100000000000000 : ℚ) = 0 := hdet.symm.trans h2
    norm_num at h3
  · simp [Matrix.dotProduct, Matrix.mulVec, Fin.sum_univ_two]
    norm_num [exampleNumerics]

/-- The run of `gsmr_meta` on the example panel with `nsnp_gsmr = 2` and
`nsnp_heidi = 3`: three index SNPs survive clumping and pruning, the HEIDI-outlier
step retains two of them, and the estimate is returned. -/
theorem example_gsmr_meta :
    gsmr_meta exampleNumerics examplePanel example_bzx example_bzx_se example_bzx_pval
      example_bzy example_bzy_se (fun _ => true) (1/20000000) (1/20000000) 10000 (1/20)
      (1/20000000) (1/100) (1/20) 2 3 true
      = .ok (some [21231/202210, exampleNumerics.sqrt (1022221/20221000000),
          20670330841/4528223940841, 2]) := by
  rw [gsmr_meta_ok_iff]
  rw [example_clumping, example_kept_ID]
  refine ⟨by simp [examplePanel], by simp, by simp, by simp, [0, 1], example_include_gsmr,
    example_estimate⟩

theorem example_meta_columns :
    (fun k => example_meta_snp_b k 1) = example_bzx ∧
    (fun k => example_meta_snp_se k 1) = example_bzx_se ∧
    (fun k => example_meta_snp_pval k 1) = example_bzx_pval ∧
    (fun k => example_meta_snp_b k 0) = example_bzy ∧
    (fun k => example_meta_snp_se k 0) = example_bzy_se := by
  refine ⟨?_, ?_, ?_, ?_, ?_⟩ <;> funext k <;> rcases k with _ | _ | _ | k <;>
    simp [example_meta_snp_b, example_meta_snp_se, example_meta_snp_pval, example_bzx,
      example_bzx_se, example_bzx_pval, example_bzy, example_bzy_se, matOf, vecOf]

/-- C9 (the code at the failing input): the driver is run on the example panel
with the caller's minima `nsnp_heidi = 2` and `nsnp_gsmr = 3`. Line 1397 hands
them to `gsmr_meta` in the order `nsnp_heidi, nsnp_gsmr`, where they are received as
`nsnp_gsmr = 2` and `nsnp_heidi = 3`. The HEIDI-outlier step retains two SNPs, fewer
than the caller's `nsnp_gsmr = 3`, and still the run does not fail: the estimate
is returned. -/
theorem C9_mtcojo_gsmr_swapped_minima :
    mtcojo_gsmr exampleNumerics examplePanel example_meta_snp_b example_meta_snp_se
      example_meta_snp_pval (fun _ _ => true) 1 (1/20000000) (1/20000000) 10000 (1/20)
      (1/20000000) (1/100) (1/20) 2 3 true
      = .ok [21231/202210, exampleNumerics.sqrt (1022221/20221000000),
          20670330841/4528223940841, 2] ∧
    gsmr_include_gsmr exampleNumerics examplePanel example_bzx example_bzx_se example_bzx_pval
        example_bzy example_bzy_se
        (clumping_meta examplePanel example_bzx_pval (fun _ => true) (1/20000000) (1/20000000)
          10000 (1/20)) (1/20) (1/100) (1/20) = .ok [0, 1] ∧
    ((([0, 1] : List ℕ).length : ℤ) < 3) := by
  obtain ⟨h1, h2, h3, h4, h5⟩ := example_meta_columns
  refine ⟨?_, ?_, by decide⟩
  · unfold mtcojo_gsmr
    have hflag : (fun _ : ℕ => decide ((true.toNat + true.toNat) / 2 ≠ 0)) = (fun _ => true) := by
      funext j
      simp
    simp only [h1, h2, h3, h4, h5, hflag, example_gsmr_meta]
  · rw [example_clumping]
    exact example_include_gsmr

theorem pairLE_total (a b : ℚ × ℕ) : pairLE a b ∨ pairLE b a := by
  unfold pairLE
  rcases lt_trichotomy a.1 b.1 with h | h | h
  · exact Or.inl (Or.inl h)
  · rcases Nat.le_total a.2 b.2 with h2 | h2
    · exact Or.inl (Or.inr ⟨h, h2⟩)
    · exact Or.inr (Or.inr ⟨h.symm, h2⟩)
  · exact Or.inr (Or.inl h)

theorem pairLE_trans (a b c : ℚ × ℕ) (h1 : pairLE a b) (h2 : pairLE b c) : pairLE a c := by
  unfold pairLE at h1 h2 ⊢
  rcases h1 with h1 | ⟨h1, h1b⟩
  · rcases h2 with h2 | ⟨h2, _⟩
    · exact Or.inl (lt_trans h1 h2)
    · exact Or.inl (h2 ▸ h1)
  · rcases h2 with h2 | ⟨h2, h2b⟩
    · exact Or.inl (h1 ▸ h2)
    · exact Or.inr ⟨h1.trans h2, le_trans h1b h2b⟩

theorem pairLE_fst (a b : ℚ × ℕ) (h : pairLE a b) : a.1 ≤ b.1 := by
  unfold pairLE at h
  rcases h with h | ⟨h, _⟩
  · exact le_of_lt h
  · exact le_of_eq h

/-- The list `snp_pvalbuf` is sorted in the order of `std::pair`. -/
theorem snp_pvalbuf_sorted (g : GctaState) (snp_pval : ℕ → ℚ) (snp_flag : ℕ → Bool) :
    List.Sorted pairLE (clumping_snp_pvalbuf g snp_pval snp_flag) := by
  haveI : IsTotal (ℚ × ℕ) pairLE := ⟨pairLE_total⟩
  haveI : IsTrans (ℚ × ℕ) pairLE := ⟨pairLE_trans⟩
  unfold clumping_snp_pvalbuf
  exact List.sorted_insertionSort pairLE _

/-- The entries of `snp_pvalbuf` are the pairs `(p_k, k)` of the remaining SNPs
`k` that pass the mask and are in the reference panel. -/
theorem mem_snp_pvalbuf (g : GctaState) (snp_pval : ℕ → ℚ) (snp_flag : ℕ → Bool)
    (pk : ℚ × ℕ) :
    pk ∈ clumping_snp_pvalbuf g snp_pval snp_flag ↔
      pk.2 ∈ g._meta_remain_snp ∧ snp_flag pk.2 = true ∧
      (g._snp_name_map.lookup (g._meta_snp_name pk.2)).isSome = true ∧
      pk.1 = snp_pval pk.2 := by
  unfold clumping_snp_pvalbuf
  rw [(List.perm_insertionSort pairLE _).mem_iff, List.mem_filterMap]
  constructor
  · rintro ⟨k, hk, hf⟩
    by_cases hc : snp_flag k = true ∧
        (g._snp_name_map.lookup (g._meta_snp_name k)).isSome = true
    · rw [if_pos hc] at hf
      have := Option.some.inj hf
      subst this
      exact ⟨hk, hc.1, hc.2, rfl⟩
    · rw [if_neg hc] at hf
      cases hf
  · rintro ⟨hk, hf, hm, hp⟩
    refine ⟨pk.2, hk, ?_⟩
    rw [if_pos ⟨hf, hm⟩, ← hp]

/-- In a sorted list, the entries that satisfy a downward closed property form
a prefix. -/
theorem sorted_filter_prefix {α : Type} (r : α → α → Prop) (P : α → Prop) [DecidablePred P]
    (hP : ∀ a b, r a b → P b → P a) :
    ∀ (l : List α), List.Sorted r l → ∀ (i : ℕ) (d : α),
      i < (l.filter (fun a => decide (P a))).length → P (l.getD i d) := by
  intro l
  induction l with
  | nil => intro _ i d hi; simp at hi
  | cons x xs ih =>
    intro hs i d hi
    have hs2 := List.sorted_cons.mp hs
    by_cases hx : P x
    · cases i with
      | zero => simpa using hx
      | succ i =>
        have hi2 : i < (xs.filter (fun a => decide (P a))).length := by
          simp [List.filter_cons, hx] at hi
          exact hi
        simpa using ih hs2.2 i d hi2
    · exfalso
      have hnone : xs.filter (fun a => decide (P a)) = [] := by
        rw [List.filter_eq_nil_iff]
        intro y hy hPy
        exact hx (hP x y (hs2.1 y hy) (by simpa using hPy))
      simp [List.filter_cons, hx, hnone] at hi

theorem mapInsert_length_le {β : Type} (m : List (String × β)) (k : String) (v : β) :
    (mapInsert m k v).length ≤ m.length + 1 := by
  unfold mapInsert
  split_ifs <;> simp

/-- The map `clumped_snp` has at most as many entries as there are candidates
below the threshold. -/
theorem init_map_length_le (g : GctaState) (pval_thresh1 : ℚ) (l : List (ℚ × ℕ)) :
    ∀ (m : List (String × Bool)),
      (l.foldl (fun m pk => if pk.1 ≥ pval_thresh1 then m
          else mapInsert m (g._meta_snp_name pk.2) false) m).length
        ≤ m.length + (l.filter (fun pk => decide (pk.1 < pval_thresh1))).length := by
  induction l with
  | nil => intro m; simp
  | cons x xs ih =>
    intro m
    simp only [List.foldl_cons]
    by_cases hx : x.1 ≥ pval_thresh1
    · have hx2 : ¬ x.1 < pval_thresh1 := not_lt.mpr hx
      rw [if_pos hx]
      simpa [List.filter_cons, hx2] using ih m
    · have hx2 : x.1 < pval_thresh1 := not_le.mp hx
      rw [if_neg hx]
      have h1 := ih (mapInsert m (g._meta_snp_name x.2) false)
      have h2 := mapInsert_length_le m (g._meta_snp_name x.2) false
      simp only [List.filter_cons, hx2, decide_True, if_true, List.length_cons]
      omega

/-- Every value of the map `clumped_snp` is `false` before the clumping loop. -/
theorem init_map_all_false (g : GctaState) (pval_thresh1 : ℚ) (l : List (ℚ × ℕ)) :
    ∀ (m : List (String × Bool)), (∀ kv ∈ m, kv.2 = false) →
      ∀ kv ∈ l.foldl (fun m pk => if pk.1 ≥ pval_thresh1 then m
          else mapInsert m (g._meta_snp_name pk.2) false) m, kv.2 = false := by
  induction l with
  | nil => intro m hm; simpa using hm
  | cons x xs ih =>
    intro m hm
    simp only [List.foldl_cons]
    apply ih
    by_cases hx : x.1 ≥ pval_thresh1
    · rw [if_pos hx]; exact hm
    · rw [if_neg hx]
      unfold mapInsert
      split_ifs
      · exact hm
      · intro kv hkv
        rcases List.mem_append.mp hkv with h | h
        · exact hm kv h
        · simp at h
          rw [h]

theorem lookup_all_false (m : List (String × Bool)) (hm : ∀ kv ∈ m, kv.2 = false)
    (x : String) : (m.lookup x).getD false = false := by
  induction m with
  | nil => simp
  | cons kv rest ih =>
    obtain ⟨k, v⟩ := kv
    rw [lookup_cons_ite]
    by_cases hx : x = k
    · rw [if_pos hx]
      have := hm (k, v) (List.mem_cons_self _ _)
      simpa using this
    · rw [if_neg hx]
      exact ih (fun kv h => hm kv (List.mem_cons_of_mem _ h))

theorem mapInsert_all_false (m : List (String × Bool)) (hm : ∀ kv ∈ m, kv.2 = false)
    (x : String) : ∀ kv ∈ mapInsert m x false, kv.2 = false := by
  unfold mapInsert
  split_ifs
  · exact hm
  · intro kv hkv
    rcases List.mem_append.mp hkv with h | h
    · exact hm kv h
    · simp at h
      rw [h]

theorem mapInsert_length_pos {β : Type} (m : List (String × β)) (k : String) (v : β) :
    m.length ≤ (mapInsert m k v).length ∧ 1 ≤ (mapInsert m k v).length := by
  unfold mapInsert
  by_cases h : (m.lookup k).isSome = true
  · rw [if_pos h]
    refine ⟨le_refl _, ?_⟩
    cases m with
    | nil => simp at h
    | cons a as => simp
  · rw [if_neg h]
    simp

theorem init_map_length_ge (g : GctaState) (pval_thresh1 : ℚ) (l : List (ℚ × ℕ)) :
    ∀ (m : List (String × Bool)),
      m.length ≤ (l.foldl (fun m pk => if pk.1 ≥ pval_thresh1 then m
          else mapInsert m (g._meta_snp_name pk.2) false) m).length ∧
      ((∃ pk ∈ l, pk.1 < pval_thresh1) →
        1 ≤ (l.foldl (fun m pk => if pk.1 ≥ pval_thresh1 then m
          else mapInsert m (g._meta_snp_name pk.2) false) m).length) := by
  induction l with
  | nil =>
    intro m
    refine ⟨le_refl _, ?_⟩
    rintro ⟨pk, hpk, _⟩
    simp at hpk
  | cons x xs ih =>
    intro m
    simp only [List.foldl_cons]
    by_cases hx : x.1 ≥ pval_thresh1
    · rw [if_pos hx]
      refine ⟨(ih m).1, ?_⟩
      rintro ⟨pk, hpk, hlt⟩
      rcases List.mem_cons.mp hpk with h | h
      · subst h
        exact absurd hlt (not_lt.mpr hx)
      · exact (ih m).2 ⟨pk, h, hlt⟩
    · rw [if_neg hx]
      have h1 := mapInsert_length_pos m (g._meta_snp_name x.2) false
      have h2 := (ih (mapInsert m (g._meta_snp_name x.2) false)).1
      exact ⟨le_trans h1.1 h2, fun _ => le_trans h1.2 h2⟩

/-- The list of index SNPs after one round of the clumping loop: the `i`-th
candidate is appended unless it is marked as clumped. -/
theorem clumping_step_snd (g : GctaState) (snp_pvalbuf : List (ℚ × ℕ)) (wind_size : ℤ)
    (r2_thresh : ℚ) (st : List (String × Bool) × List String) (i : ℕ) :
    (clumping_step g snp_pvalbuf wind_size r2_thresh st i).2
      = if ((mapInsert st.1 (g._meta_snp_name (snp_pvalbuf.getD i (0, 0)).2) false).lookup
            (g._meta_snp_name (snp_pvalbuf.getD i (0, 0)).2)).getD false = true
        then st.2 else st.2 ++ [g._meta_snp_name (snp_pvalbuf.getD i (0, 0)).2] := by
  unfold clumping_step
  simp only []
  split_ifs <;> rfl

/-- Invariant of the clumping loop after `k` rounds: the elected index SNPs are
the names of entries of `snp_pvalbuf` at increasing positions below `k`, and when
no candidate is marked at the start the entry at position 0 is elected first. -/
theorem clumping_loop_inv (g : GctaState) (snp_pvalbuf : List (ℚ × ℕ)) (wind_size : ℤ)
    (r2_thresh : ℚ) (m0 : List (String × Bool)) (k : ℕ) :
    ∃ is : List ℕ,
      ((List.range k).foldl (clumping_step g snp_pvalbuf wind_size r2_thresh) (m0, [])).2
        = is.map (fun i => g._meta_snp_name (snp_pvalbuf.getD i (0, 0)).2) ∧
      is.Pairwise (fun a b => a < b) ∧
      (∀ i ∈ is, i < k) ∧
      ((∀ kv ∈ m0, kv.2 = false) → 0 < k → is.head? = some 0) := by
  induction k with
  | zero =>
    exact ⟨[], by simp, List.Pairwise.nil, by simp, fun _ h => absurd h (lt_irrefl 0)⟩
  | succ k ih =>
    obtain ⟨is, h1, h2, h3, h4⟩ := ih
    rw [List.range_succ, List.foldl_append]
    simp only [List.foldl_cons, List.foldl_nil]
    by_cases hskip : ((mapInsert
        ((List.range k).foldl (clumping_step g snp_pvalbuf wind_size r2_thresh) (m0, [])).1
        (g._meta_snp_name (snp_pvalbuf.getD k (0, 0)).2) false).lookup
        (g._meta_snp_name (snp_pvalbuf.getD k (0, 0)).2)).getD false = true
    · refine ⟨is, ?_, h2, fun i hi => Nat.lt_succ_of_lt (h3 i hi), ?_⟩
      · rw [clumping_step_snd, if_pos hskip]
        exact h1
      · intro hm0 _
        by_cases hk0 : 0 < k
        · exact h4 hm0 hk0
        · exfalso
          have hk : k = 0 := by omega
          subst hk
          simp only [List.range_zero, List.foldl_nil] at hskip
          have := lookup_all_false _ (mapInsert_all_false m0 hm0
            (g._meta_snp_name (snp_pvalbuf.getD 0 (0, 0)).2))
            (g._meta_snp_name (snp_pvalbuf.getD 0 (0, 0)).2)
          rw [this] at hskip
          cases hskip
    · refine ⟨is ++ [k], ?_, ?_, ?_, ?_⟩
      · rw [clumping_step_snd, if_neg hskip, h1]
        simp
      · rw [List.pairwise_append]
        refine ⟨h2, List.pairwise_singleton _ _, ?_⟩
        intro a ha b hb
        simp at hb
        subst hb
        exact h3 a ha
      · intro i hi
        rcases List.mem_append.mp hi with h | h
        · exact Nat.lt_succ_of_lt (h3 i h)
        · simp at h
          omega
      · intro hm0 _
        by_cases hk0 : 0 < k
        · rw [List.head?_append, h4 hm0 hk0]
          rfl
        · have hk : k = 0 := by omega
          subst hk
          have his : is = [] := by
            cases is with
            | nil => rfl
            | cons a as => exact absurd (h3 a (List.mem_cons_self _ _)) (Nat.not_lt_zero a)
          subst his
          rfl

/-- C10: `clumping_meta` returns the names of registry SNPs `ks` that are in
non-decreasing order of p-value; every one of them is a remaining SNP that
passes the validity mask, is present in the reference panel and has
`p < pval_thresh1`; and whenever such a candidate exists the list is non-empty and
starts with a SNP whose p-value is smallest among all candidates. -/
theorem C10_clumping_meta (g : GctaState) (snp_pval : ℕ → ℚ) (snp_flag : ℕ → Bool)
    (pval_thresh1 pval_thresh2 : ℚ) (wind_size : ℤ) (r2_thresh : ℚ) :
    ∃ ks : List ℕ,
      clumping_meta g snp_pval snp_flag pval_thresh1 pval_thresh2 wind_size r2_thresh
        = ks.map g._meta_snp_name ∧
      ks.Pairwise (fun a b => snp_pval a ≤ snp_pval b) ∧
      (∀ k ∈ ks, k ∈ g._meta_remain_snp ∧ snp_flag k = true ∧
        (g._snp_name_map.lookup (g._meta_snp_name k)).isSome = true ∧
        snp_pval k < pval_thresh1) ∧
      ((∃ c, c ∈ g._meta_remain_snp ∧ snp_flag c = true ∧
          (g._snp_name_map.lookup (g._meta_snp_name c)).isSome = true ∧
          snp_pval c < pval_thresh1) →
        ∃ k0 rest, ks = k0 :: rest ∧
          ∀ c, c ∈ g._meta_remain_snp → snp_flag c = true →
            (g._snp_name_map.lookup (g._meta_snp_name c)).isSome = true →
            snp_pval k0 ≤ snp_pval c) := by
  have hsorted := snp_pvalbuf_sorted g snp_pval snp_flag
  have hmem := mem_snp_pvalbuf g snp_pval snp_flag
  have hlen := init_map_length_le g pval_thresh1 (clumping_snp_pvalbuf g snp_pval snp_flag) []
  have hge := init_map_length_ge g pval_thresh1 (clumping_snp_pvalbuf g snp_pval snp_flag) []
  have hfalse := init_map_all_false g pval_thresh1 (clumping_snp_pvalbuf g snp_pval snp_flag) []
    (by simp)
  have hprefix := sorted_filter_prefix pairLE (fun pk : ℚ × ℕ => pk.1 < pval_thresh1)
    (fun a b hab hb => lt_of_le_of_lt (pairLE_fst a b hab) hb)
    (clumping_snp_pvalbuf g snp_pval snp_flag) hsorted
  obtain ⟨is, h1, h2, h3, h4⟩ := clumping_loop_inv g (clumping_snp_pvalbuf g snp_pval snp_flag)
    (clumping_window g wind_size) r2_thresh
    (clumping_init_map g (clumping_snp_pvalbuf g snp_pval snp_flag) pval_thresh1)
    (clumping_init_map g (clumping_snp_pvalbuf g snp_pval snp_flag) pval_thresh1).length
  unfold clumping_init_map at h1 h3 h4
  generalize hbuf : clumping_snp_pvalbuf g snp_pval snp_flag = buf at *
  generalize hm0 : buf.foldl (fun m pk => if pk.1 ≥ pval_thresh1 then m
          else mapInsert m (g._meta_snp_name pk.2) false) [] = m0 at *
  simp only [List.length_nil, Nat.zero_add] at hlen
  beta_reduce at hprefix
  have hfl : (buf.filter (fun pk => decide (pk.1 < pval_thresh1))).length ≤ buf.length :=
    List.length_filter_le _ _
  have hpos : ∀ i ∈ is, i < buf.length ∧ (buf.getD i (0, 0)).1 < pval_thresh1 ∧
      buf.getD i (0, 0) ∈ buf := by
    intro i hi
    have hi2 := h3 i hi
    have hi3 : i < buf.length := by omega
    refine ⟨hi3, hprefix i (0, 0) (by omega), ?_⟩
    rw [List.getD_eq_getElem _ _ hi3]
    exact List.getElem_mem hi3
  refine ⟨is.map (fun i => (buf.getD i (0, 0)).2), ?_, ?_, ?_, ?_⟩
  · unfold clumping_meta
    simp only [hbuf]
    unfold clumping_init_map
    rw [hm0, h1, List.map_map]
    rfl
  · rw [List.pairwise_map]
    refine List.Pairwise.imp_of_mem ?_ h2
    intro a b ha hb hab
    obtain ⟨ha1, _, ha3⟩ := hpos a ha
    obtain ⟨hb1, _, hb3⟩ := hpos b hb
    have hle : pairLE (buf.getD a (0, 0)) (buf.getD b (0, 0)) := by
      rw [List.getD_eq_getElem _ _ ha1, List.getD_eq_getElem _ _ hb1]
      exact List.pairwise_iff_getElem.mp hsorted a b ha1 hb1 hab
    have e1 := ((hmem _).mp ha3).2.2.2
    have e2 := ((hmem _).mp hb3).2.2.2
    rw [← e1, ← e2]
    exact pairLE_fst _ _ hle
  · intro k hk
    obtain ⟨i, hi, rfl⟩ := List.mem_map.mp hk
    obtain ⟨_, hi2, hi3⟩ := hpos i hi
    obtain ⟨m1, m2, m3, m4⟩ := (hmem _).mp hi3
    exact ⟨m1, m2, m3, m4 ▸ hi2⟩
  · rintro ⟨c, hc1, hc2, hc3, hc4⟩
    have hcmem : (snp_pval c, c) ∈ buf := (hmem (snp_pval c, c)).mpr ⟨hc1, hc2, hc3, rfl⟩
    have hN : 0 < m0.length := hge.2 ⟨(snp_pval c, c), hcmem, hc4⟩
    have hhead := h4 hfalse hN
    cases is with
    | nil => simp at hhead
    | cons i0 rest =>
      simp only [List.head?_cons, Option.some.injEq] at hhead
      subst hhead
      refine ⟨(buf.getD 0 (0, 0)).2, rest.map (fun i => (buf.getD i (0, 0)).2), by simp, ?_⟩
      intro c2 hd1 hd2 hd3
      have hc2mem : (snp_pval c2, c2) ∈ buf := (hmem (snp_pval c2, c2)).mpr ⟨hd1, hd2, hd3, rfl⟩
      obtain ⟨h01, _, h03⟩ := hpos 0 (List.mem_cons_self _ _)
      have e0 := ((hmem _).mp h03).2.2.2
      rw [← e0]
      cases hb : buf with
      | nil => rw [hb] at h01; simp at h01
      | cons x xs =>
        rw [hb] at hsorted hc2mem
        simp only [List.getD_cons_zero]
        rcases List.mem_cons.mp hc2mem with h | h
        · rw [← h]
        · exact pairLE_fst _ _ ((List.sorted_cons.mp hsorted).1 _ h)

/-- The loop of `adjust_ld_r_fdr` characterised: when the first `k` adjusted p-values
read from position `i` on are not below the threshold and the loop stops there (end
of the list, or the next adjusted p-value is below the threshold), an entry is zero if
one of the first `k` codes decodes to it (in either orientation) and unchanged
otherwise. -/
theorem adjust_ld_r_fdr_loop_char (pval_buf : List ℚ) (m : ℕ) (thresh : ℚ) (a b : ℕ) :
    ∀ (l : List (ℚ × ℕ)) (i : ℕ) (ld_r_mat : ℕ → ℕ → ℚ) (k : ℕ), k ≤ l.length →
      (∀ j, j < k → ¬ pval_buf.getD (i + j) 0 < thresh) →
      (k = l.length ∨ pval_buf.getD (i + k) 0 < thresh) →
      adjust_ld_r_fdr_loop pval_buf m thresh l i ld_r_mat a b
        = if ∃ j, j < k ∧
              ((a = (l.getD j (0, 0)).2 / m ∧ b = (l.getD j (0, 0)).2 % m) ∨
               (a = (l.getD j (0, 0)).2 % m ∧ b = (l.getD j (0, 0)).2 / m))
          then 0 else ld_r_mat a b := by
  intro l
  induction l with
  | nil =>
    intro i ld k hk _ _
    have hk0 : k = 0 := by simpa using hk
    subst hk0
    simp [adjust_ld_r_fdr_loop]
  | cons pk rest ih =>
    intro i ld k hk hpre hstop
    unfold adjust_ld_r_fdr_loop
    cases k with
    | zero =>
      have h1 : pval_buf.getD i 0 < thresh := by
        rcases hstop with h | h
        · simp at h
        · simpa using h
      rw [if_pos h1]
      simp
    | succ k =>
      have h0 : ¬ pval_buf.getD i 0 < thresh := by simpa using hpre 0 (Nat.succ_pos k)
      rw [if_neg h0]
      have hk2 : k ≤ rest.length := by simpa using hk
      have hpre2 : ∀ j, j < k → ¬ pval_buf.getD (i + 1 + j) 0 < thresh := by
        intro j hj
        have := hpre (j + 1) (Nat.succ_lt_succ hj)
        rwa [show i + (j + 1) = i + 1 + j by omega] at this
      have hstop2 : k = rest.length ∨ pval_buf.getD (i + 1 + k) 0 < thresh := by
        rcases hstop with h | h
        · left; simpa using h
        · right; rwa [show i + (k + 1) = i + 1 + k by omega] at h
      rw [ih (i + 1) _ k hk2 hpre2 hstop2]
      by_cases hex : ∃ j, j < k ∧
              ((a = (rest.getD j (0, 0)).2 / m ∧ b = (rest.getD j (0, 0)).2 % m) ∨
               (a = (rest.getD j (0, 0)).2 % m ∧ b = (rest.getD j (0, 0)).2 / m))
      · rw [if_pos hex]
        obtain ⟨j, hj, hdec⟩ := hex
        rw [if_pos ⟨j + 1, Nat.succ_lt_succ hj, by simpa using hdec⟩]
      · rw [if_neg hex]
        by_cases hhead : (a = pk.2 / m ∧ b = pk.2 % m) ∨ (a = pk.2 % m ∧ b = pk.2 / m)
        · rw [if_pos ⟨0, Nat.succ_pos k, by simpa using hhead⟩]
          simp only [setEntry]
          rcases hhead with h | h
          · rw [if_pos h]
          · by_cases h2 : a = pk.2 / m ∧ b = pk.2 % m
            · rw [if_pos h2]
            · rw [if_neg h2, if_pos h]
        · have hno : ¬ ∃ j, j < k + 1 ∧
              ((a = ((pk :: rest).getD j (0, 0)).2 / m ∧ b = ((pk :: rest).getD j (0, 0)).2 % m) ∨
               (a = ((pk :: rest).getD j (0, 0)).2 % m ∧ b = ((pk :: rest).getD j (0, 0)).2 / m)) := by
            rintro ⟨j, hj, hdec⟩
            cases j with
            | zero => exact hhead (by simpa using hdec)
            | succ j => exact hex ⟨j, Nat.lt_of_succ_lt_succ hj, by simpa using hdec⟩
          rw [if_neg hno]
          simp only [setEntry]
          push_neg at hhead
          rw [if_neg (fun h => hhead.1 h.1 h.2), if_neg (fun h => hhead.2 h.1 h.2)]

/-- C14 (as stated, refuted): one pair of SNPs (`m = 2`, code `1`, i.e. the pair
`(0, 1)`) whose adjusted p-value `1/1000` is below the FDR threshold `1/20`. The loop
stops at once and the entry `r_01 = 9/10` is left as it is, not set to zero. -/
theorem C14_fdr_below_threshold_counterexample :
    exampleNumerics.ControlFDR_BH [1/1000] = [1/1000] ∧
    adjust_ld_r_fdr exampleNumerics (matOf [[1, 9/10], [9/10, 1]]) [(1/1000, 1)] 2 (1/20) 0 1
      = 9/10 ∧
    adjust_ld_r_fdr exampleNumerics (matOf [[1, 9/10], [9/10, 1]]) [(1/1000, 1)] 2 (1/20) 1 0
      = 9/10 := by
  refine ⟨rfl, ?_, ?_⟩ <;>
  norm_num [adjust_ld_r_fdr, adjust_ld_r_fdr_loop, exampleNumerics, matOf]

/-- C14 (amended): `adjust_ld_r_fdr` walks the pairs in the order of `ld_pval`
(decreasing raw p-value) and stops at the first pair whose Benjamini-Hochberg-adjusted
p-value is below the threshold. With `k` the number of pairs before that stop (all of
them have an adjusted p-value that is not below the threshold), the entries `r_ij` and
`r_ji` of exactly these `k` pairs are set to 0 and every other entry of the matrix is
unchanged. -/
theorem C14_adjust_ld_r_fdr (nm : Numerics) (ld_r_mat : ℕ → ℕ → ℚ) (ld_pval : List (ℚ × ℕ))
    (m : ℕ) (thresh : ℚ) (k : ℕ) (hk : k ≤ ld_pval.length)
    (hpre : ∀ i, i < k → ¬ (nm.ControlFDR_BH (ld_pval.map Prod.fst)).getD i 0 < thresh)
    (hstop : k = ld_pval.length ∨ (nm.ControlFDR_BH (ld_pval.map Prod.fst)).getD k 0 < thresh)
    (a b : ℕ) :
    adjust_ld_r_fdr nm ld_r_mat ld_pval m thresh a b
      = if ∃ i, i < k ∧
            ((a = (ld_pval.getD i (0, 0)).2 / m ∧ b = (ld_pval.getD i (0, 0)).2 % m) ∨
             (a = (ld_pval.getD i (0, 0)).2 % m ∧ b = (ld_pval.getD i (0, 0)).2 / m))
        then 0 else ld_r_mat a b := by
  unfold adjust_ld_r_fdr
  apply adjust_ld_r_fdr_loop_char _ m thresh a b ld_pval 0 ld_r_mat k hk
  · intro j hj; simpa using hpre j hj
  · simpa using hstop

/-- Witness for C14: three SNPs (`m = 3`), pairs `(0, 1)`, `(0, 2)`, `(1, 2)` with
adjusted p-values `1/2`, `1/10`, `1/1000` and threshold `1/20`. The loop zeroes the
first two pairs and stops at the third, so `r_01 = 0` and `r_12` keeps its value. -/
theorem C14_adjust_ld_r_fdr_witness :
    ((2 : ℕ) ≤ ([(1/2, 1), (1/10, 2), (1/1000, 5)] : List (ℚ × ℕ)).length ∧
      (∀ i, i < 2 → ¬ (exampleNumerics.ControlFDR_BH
        (([(1/2, 1), (1/10, 2), (1/1000, 5)] : List (ℚ × ℕ)).map Prod.fst)).getD i 0 < 1/20) ∧
      (2 = ([(1/2, 1), (1/10, 2), (1/1000, 5)] : List (ℚ × ℕ)).length ∨
        (exampleNumerics.ControlFDR_BH
          (([(1/2, 1), (1/10, 2), (1/1000, 5)] : List (ℚ × ℕ)).map Prod.fst)).getD 2 0 < 1/20)) ∧
    adjust_ld_r_fdr exampleNumerics (matOf [[1, 1/10, 1/5], [1/10, 1, 9/10], [1/5, 9/10, 1]])
        [(1/2, 1), (1/10, 2), (1/1000, 5)] 3 (1/20) 0 1 = 0 ∧
    adjust_ld_r_fdr exampleNumerics (matOf [[1, 1/10, 1/5], [1/10, 1, 9/10], [1/5, 9/10, 1]])
        [(1/2, 1), (1/10, 2), (1/1000, 5)] 3 (1/20) 1 2 = 9/10 := by
  have hpre : ∀ i, i < 2 → ¬ (exampleNumerics.ControlFDR_BH
      (([(1/2, 1), (1/10, 2), (1/1000, 5)] : List (ℚ × ℕ)).map Prod.fst)).getD i 0 < 1/20 := by
    intro i hi
    interval_cases i <;> norm_num [exampleNumerics]
  have hstop : 2 = ([(1/2, 1), (1/10, 2), (1/1000, 5)] : List (ℚ × ℕ)).length ∨
      (exampleNumerics.ControlFDR_BH
        (([(1/2, 1), (1/10, 2), (1/1000, 5)] : List (ℚ × ℕ)).map Prod.fst)).getD 2 0 < 1/20 := by
    right; norm_num [exampleNumerics]
  refine ⟨⟨by decide, hpre, hstop⟩, ?_, ?_⟩
  · rw [C14_adjust_ld_r_fdr exampleNumerics _ _ 3 (1/20) 2 (by decide) hpre hstop 0 1]
    rw [if_pos ⟨0, by decide, Or.inl ⟨by decide, by decide⟩⟩]
  · rw [C14_adjust_ld_r_fdr exampleNumerics _ _ 3 (1/20) 2 (by decide) hpre hstop 1 2]
    rw [if_neg]
    · norm_num [matOf]
    · rintro ⟨i, hi, h⟩
      interval_cases i <;> simp at h

/-- Membership in the list built by the inner loop of `rm_cor_pairs`. -/
theorem rm_cor_pairs_inner_mem (r_mat : ℕ → ℕ → ℚ) (thresh : ℚ) (i : ℕ) (p : ℕ × ℕ)
    (l : List ℕ) :
    ∀ acc : List (ℕ × ℕ),
      p ∈ l.foldl (fun acc j => if |r_mat i j| > thresh then acc ++ [(i, j)] else acc) acc
        ↔ p ∈ acc ∨ (p.1 = i ∧ p.2 ∈ l ∧ |r_mat i p.2| > thresh) := by
  induction l with
  | nil => intro acc; simp
  | cons x xs ih =>
    intro acc
    simp only [List.foldl_cons]
    rw [ih]
    by_cases hx : |r_mat i x| > thresh
    · rw [if_pos hx]
      constructor
      · rintro (h | ⟨h1, h2, h3⟩)
        · rcases List.mem_append.1 h with h | h
          · exact Or.inl h
          · right
            have hp : p = (i, x) := by simpa using h
            subst hp
            exact ⟨rfl, List.mem_cons_self _ _, hx⟩
        · exact Or.inr ⟨h1, List.mem_cons_of_mem _ h2, h3⟩
      · rintro (h | ⟨h1, h2, h3⟩)
        · exact Or.inl (List.mem_append_left _ h)
        · rcases List.mem_cons.1 h2 with h | h
          · left
            apply List.mem_append_right
            have hp : p = (i, x) := Prod.ext h1 h
            rw [hp]; exact List.mem_singleton_self _
          · exact Or.inr ⟨h1, h, h3⟩
    · rw [if_neg hx]
      constructor
      · rintro (h | ⟨h1, h2, h3⟩)
        · exact Or.inl h
        · exact Or.inr ⟨h1, List.mem_cons_of_mem _ h2, h3⟩
      · rintro (h | ⟨h1, h2, h3⟩)
        · exact Or.inl h
        · rcases List.mem_cons.1 h2 with h | h
          · rw [h] at h3; exact absurd h3 hx
          · exact Or.inr ⟨h1, h, h3⟩

/-- Membership in the list built by the two loops of `rm_cor_pairs`. -/
theorem rm_cor_pairs_outer_mem (r_mat : ℕ → ℕ → ℚ) (thresh : ℚ) (p : ℕ × ℕ) (l : List ℕ) :
    ∀ acc : List (ℕ × ℕ),
      p ∈ l.foldl (fun acc i => (List.range i).foldl
          (fun acc j => if |r_mat i j| > thresh then acc ++ [(i, j)] else acc) acc) acc
        ↔ p ∈ acc ∨ (p.1 ∈ l ∧ p.2 < p.1 ∧ |r_mat p.1 p.2| > thresh) := by
  induction l with
  | nil => intro acc; simp
  | cons x xs ih =>
    intro acc
    simp only [List.foldl_cons]
    rw [ih, rm_cor_pairs_inner_mem]
    constructor
    · rintro ((h | ⟨h1, h2, h3⟩) | ⟨h1, h2, h3⟩)
      · exact Or.inl h
      · right
        rw [List.mem_range] at h2
        exact ⟨by rw [h1]; exact List.mem_cons_self _ _, by rw [h1]; exact h2,
          by rw [h1]; exact h3⟩
      · exact Or.inr ⟨List.mem_cons_of_mem _ h1, h2, h3⟩
    · rintro (h | ⟨h1, h2, h3⟩)
      · exact Or.inl (Or.inl h)
      · rcases List.mem_cons.1 h1 with h | h
        · left; right
          exact ⟨h, by rw [List.mem_range, ← h]; exact h2, by rw [← h]; exact h3⟩
        · exact Or.inr ⟨h, h2, h3⟩

/-- The pairs recorded by `rm_cor_elements` are the pairs `(i, j)` with `j < i < n`
and `|r_mat(i, j)|` above the threshold. -/
theorem mem_rm_cor_pairs (r_mat : ℕ → ℕ → ℚ) (thresh : ℚ) (n : ℕ) (p : ℕ × ℕ) :
    p ∈ rm_cor_pairs r_mat thresh n ↔ p.2 < p.1 ∧ p.1 < n ∧ |r_mat p.1 p.2| > thresh := by
  unfold rm_cor_pairs
  rw [rm_cor_pairs_outer_mem]
  simp only [List.not_mem_nil, false_or, List.mem_range]
  tauto

theorem mem_destutter_aux {α : Type} [DecidableEq α] (x : α) (l : List α) :
    ∀ a : α, x ∈ a :: l → x ∈ List.destutter' (fun a b => a ≠ b) a l := by
  induction l with
  | nil => intro a h; simpa using h
  | cons b l ih =>
    intro a h
    by_cases hab : a ≠ b
    · rw [List.destutter'_cons_pos _ hab]
      rcases List.mem_cons.1 h with h | h
      · rw [h]; exact List.mem_cons_self _ _
      · exact List.mem_cons_of_mem _ (ih b h)
    · rw [List.destutter'_cons_neg _ hab]
      apply ih
      have hab2 : a = b := not_not.1 hab
      rcases List.mem_cons.1 h with h | h
      · rw [h]; exact List.mem_cons_self _ _
      · rw [hab2]; exact h

/-- `std::unique` keeps one copy of every value. -/
theorem mem_destutter {α : Type} [DecidableEq α] (x : α) (l : List α) :
    x ∈ List.destutter (fun a b => a ≠ b) l ↔ x ∈ l := by
  constructor
  · exact fun h => (List.destutter_sublist _ l).subset h
  · intro h
    cases l with
    | nil => simp at h
    | cons a l => exact mem_destutter_aux x l a h

/-- Sorting followed by `std::unique` preserves the set of values. -/
theorem mem_sort_unique {α : Type} [LinearOrder α] (x : α) (l : List α) :
    x ∈ List.destutter (fun a b => a ≠ b) (List.insertionSort (fun a b => a ≤ b) l) ↔ x ∈ l := by
  rw [mem_destutter]
  exact (List.perm_insertionSort _ l).mem_iff

theorem sorted_lt_of_sorted_le_of_chain_ne {α : Type} [LinearOrder α] :
    ∀ l : List α, List.Sorted (fun a b => a ≤ b) l → List.Chain' (fun a b => a ≠ b) l →
      List.Sorted (fun a b => a < b) l := by
  intro l
  induction l with
  | nil => intro _ _; exact List.sorted_nil
  | cons a l ih =>
    intro hs hc
    have hs1 := List.sorted_cons.1 hs
    have hc1 := List.chain'_cons'.1 hc
    refine List.sorted_cons.2 ⟨?_, ih hs1.2 hc1.2⟩
    intro b hb
    cases l with
    | nil => simp at hb
    | cons c l =>
      have hac : a ≠ c := hc1.1 c (by simp)
      have hac2 : a ≤ c := hs1.1 c (List.mem_cons_self _ _)
      have hac3 : a < c := lt_of_le_of_ne hac2 hac
      rcases List.mem_cons.1 hb with h | h
      · rw [h]; exact hac3
      · exact lt_of_lt_of_le hac3 ((List.sorted_cons.1 hs1.2).1 b h)

/-- Sorting followed by `std::unique` gives a strictly increasing list. -/
theorem sort_unique_sorted {α : Type} [LinearOrder α] (l : List α) :
    List.Sorted (fun a b => a < b)
      (List.destutter (fun a b => a ≠ b) (List.insertionSort (fun a b => a ≤ b) l)) := by
  apply sorted_lt_of_sorted_le_of_chain_ne
  · exact (List.sorted_insertionSort _ l).sublist (List.destutter_sublist _ _)
  · exact List.destutter_is_chain' _ _

theorem drop_eq_cons_info (L : List ℕ) (j x : ℕ) (L2 : List ℕ) (h : L.drop j = x :: L2) :
    j < L.length ∧ L.getD j 0 = x ∧ L.drop (j + 1) = L2 := by
  have hlt : j < L.length := by
    by_contra hge
    rw [List.drop_eq_nil_of_le (not_lt.1 hge)] at h
    exact List.noConfusion h
  refine ⟨hlt, ?_, ?_⟩
  · have h1 : (L.drop j).head? = some x := by rw [h]; rfl
    rw [List.head?_drop] at h1
    rw [List.getD_eq_getElem?_getD, h1]; rfl
  · rw [← List.tail_drop, h]; rfl

theorem take_set_succ (kept : List ℕ) (k s : ℕ) (hk : k < kept.length) :
    (kept.set k s).take (k + 1) = kept.take k ++ [s] := by
  induction kept generalizing k with
  | nil => simp at hk
  | cons a l ih =>
    cases k with
    | zero => simp
    | succ k =>
      simp only [List.set_cons_succ, List.take_succ_cons, List.cons_append]
      rw [ih k (by simpa using hk)]

theorem sorted_in_window_length (L : List ℕ) (s m : ℕ) (hs : List.Sorted (fun a b => a < b) L)
    (hw : ∀ x ∈ L, s ≤ x ∧ x < s + m) : L.length ≤ m := by
  have hnd : L.Nodup := hs.imp (fun h => ne_of_lt h)
  have hsub : L ⊆ List.range' s m := by
    intro x hx
    rw [List.mem_range']
    exact ⟨x - s, by have := hw x hx; omega, by have := hw x hx; omega⟩
  have := (List.subperm_of_subset hnd hsub).length_le
  simpa using this

/-- The scan of `rm_cor_elements` (mtcojo.cpp 654-658) from the index `s` on, with
`j` pointing into the sorted list `L` of removed indices and `k` entries of `kept_ID`
written: when reads of `L` at or past its end never return a loop index, the scan
appends the indices that are not in the rest of `L`. -/
theorem rm_cor_scan_aux (rd : ℕ → ℤ) (L : List ℕ) (N : ℕ)
    (hin : ∀ j, j < L.length → rd j = ((L.getD j 0 : ℕ) : ℤ))
    (hout : ∀ j i, L.length ≤ j → i < N → rd j ≠ (i : ℤ)) :
    ∀ (m s j k : ℕ) (kept : List ℕ), s + m ≤ N →
      List.Sorted (fun a b => a < b) (L.drop j) →
      (∀ x ∈ L.drop j, s ≤ x ∧ x < s + m) →
      kept.length = k + (m - (L.drop j).length) →
      ((List.range' s m).foldl
          (fun (st : ℕ × ℕ × List ℕ) (i : ℕ) =>
            if (i : ℤ) = rd st.1 then (st.1 + 1, st.2.1, st.2.2)
            else (st.1, st.2.1 + 1, st.2.2.set st.2.1 i))
          (j, k, kept)).2.2
        = kept.take k ++ (List.range' s m).filter (fun i => decide (i ∉ L.drop j)) := by
  intro m
  induction m with
  | zero =>
    intro s j k kept _ _ _ hlen
    simp only [List.range'_zero, List.foldl_nil, List.filter_nil, List.append_nil]
    rw [List.take_of_length_le]
    omega
  | succ m ih =>
    intro s j k kept hN hsort hw hlen
    rw [List.range'_succ, List.foldl_cons]
    rcases hL : L.drop j with _ | ⟨x, L2⟩
    · -- the list of removed indices is exhausted: the read is past its end
      have hj : L.length ≤ j := List.drop_eq_nil_iff.1 hL
      have hne : ¬ ((s : ℤ) = rd j) := fun h => hout j s hj (by omega) h.symm
      simp only [hne, if_false]
      rw [hL] at hlen
      have hlen2 : kept.length = k + (m + 1) := by simpa using hlen
      rw [ih (s + 1) j (k + 1) (kept.set k s) (by omega) (by rw [hL]; exact List.sorted_nil)
        (by rw [hL]; simp) (by rw [hL]; simp; omega)]
      rw [take_set_succ kept k s (by omega), hL]
      simp [List.filter_cons]
    · obtain ⟨hjlt, hget, hdrop⟩ := drop_eq_cons_info L j x L2 hL
      rw [hL] at hsort hw hlen
      have hsort2 := List.sorted_cons.1 hsort
      have hx := hw x (List.mem_cons_self _ _)
      have hL2len : L2.length ≤ m := by
        have := sorted_in_window_length (x :: L2) s (m + 1) hsort hw
        simpa using this
      by_cases hxs : x = s
      · -- the index `s` is the next removed index
        have heq : (s : ℤ) = rd j := by rw [hin j hjlt, hget, hxs]
        simp only [heq, if_true]
        have hw2 : ∀ y ∈ L.drop (j + 1), s + 1 ≤ y ∧ y < s + 1 + m := by
          rw [hdrop]
          intro y hy
          have h1 := hsort2.1 y hy
          have h2 := hw y (List.mem_cons_of_mem _ hy)
          omega
        rw [ih (s + 1) (j + 1) k kept (by omega) (by rw [hdrop]; exact hsort2.2) hw2
          (by rw [hdrop]; simp at hlen; omega)]
        rw [hdrop]
        congr 1
        rw [List.filter_cons]
        have hs_in : ¬ (decide (s ∉ x :: L2) = true) := by simp [hxs]
        rw [if_neg hs_in]
        apply List.filter_congr
        intro y hy
        have hys : s + 1 ≤ y := (List.mem_range'.1 hy).elim (fun i hi => by omega)
        have : y ≠ x := by omega
        simp [this]
      · -- the index `s` is kept
        have hxgt : s < x := by omega
        have hne : ¬ ((s : ℤ) = rd j) := by
          rw [hin j hjlt, hget]
          intro h
          exact hxs (by exact_mod_cast h.symm)
        simp only [hne, if_false]
        have hw2 : ∀ y ∈ L.drop j, s + 1 ≤ y ∧ y < s + 1 + m := by
          rw [hL]
          intro y hy
          have h2 := hw y hy
          rcases List.mem_cons.1 hy with h | h
          · omega
          · have h1 := hsort2.1 y h
            omega
        have hL3len : L2.length + 1 ≤ m := by
          have := sorted_in_window_length (x :: L2) (s + 1) m hsort (by rw [← hL]; exact hw2)
          simpa using this
        rw [ih (s + 1) j (k + 1) (kept.set k s) (by omega) (by rw [hL]; exact hsort) hw2
          (by rw [hL]; simp at hlen ⊢; omega)]
        rw [take_set_succ kept k s (by simp at hlen; omega), hL]
        have hs_out : decide (s ∉ x :: L2) = true := by
          have h1 : s ≠ x := fun h => hxs h.symm
          have h2 : s ∉ L2 := fun h => by have := hsort2.1 s h; omega
          simp [h1, h2]
        rw [List.filter_cons, if_pos hs_out]
        simp

/-- The function `rm_cor_elements` as a filter: with `ID1` the sorted list of the
distinct first members of the swapped pairs, the kept indices are the indices below
`n` that are not in `ID1`, in increasing order (provided that a read of `ID1` at or
past its end never returns a loop index). -/
theorem rm_cor_elements_eq_filter (oob_read : ℕ → ℤ) (r_mat : ℕ → ℕ → ℚ) (n : ℕ)
    (nm : Numerics) (r2_thresh : ℚ) (r2_flag : Bool)
    (hoob : ∀ j i, i < n → oob_read j ≠ (i : ℤ)) :
    rm_cor_elements oob_read r_mat n nm r2_thresh r2_flag
      = (List.range n).filter (fun i => decide (i ∉ (rm_cor_swap (rm_cor_pairs r_mat
          (if r2_flag then nm.sqrt r2_thresh else r2_thresh) n)).map Prod.fst)) := by
  unfold rm_cor_elements
  simp only
  generalize hp : rm_cor_pairs r_mat (if r2_flag then nm.sqrt r2_thresh else r2_thresh) n = pairs
  by_cases hlen : pairs.length > 0
  · rw [if_pos hlen]
    generalize hL : List.destutter (fun a b => a ≠ b)
      (List.insertionSort (fun a b => a ≤ b) ((rm_cor_swap pairs).map Prod.fst)) = L
    have hLmem : ∀ x, x ∈ L ↔ x ∈ (rm_cor_swap pairs).map Prod.fst := by
      intro x; rw [← hL]; exact mem_sort_unique x _
    have hLsort : List.Sorted (fun a b => a < b) L := by
      rw [← hL]; exact sort_unique_sorted _
    have hLlt : ∀ x ∈ L, x < n := by
      intro x hx
      rw [hLmem] at hx
      obtain ⟨q, hq, hqx⟩ := List.mem_map.1 hx
      unfold rm_cor_swap at hq
      obtain ⟨p, hpm, hpq⟩ := List.mem_map.1 hq
      rw [← hp, mem_rm_cor_pairs] at hpm
      rw [← hqx, ← hpq]
      split_ifs
      · simp only; omega
      · exact hpm.2.1
    unfold rm_cor_scan
    rw [List.range_eq_range']
    have haux := rm_cor_scan_aux
      (fun j => if j < L.length then ((L.getD j 0 : ℕ) : ℤ) else oob_read j) L n
      (fun j hj => by simp only [hj, if_true])
      (fun j i hj hi => by
        have : ¬ j < L.length := by omega
        simp only [this, if_false]
        exact hoob j i hi)
      n 0 0 0 (List.replicate (n - L.length) 0) (by omega) (by simpa using hLsort)
      (by intro x hx; simp at hx; have := hLlt x hx; omega)
      (by simp)
    refine haux.trans ?_
    simp only [List.take_zero, List.nil_append, List.drop_zero]
    apply List.filter_congr
    intro x _
    simp only [hLmem]
  · rw [if_neg hlen]
    have hnil : pairs = [] := by
      cases pairs with
      | nil => rfl
      | cons a l => simp at hlen
    rw [hnil]
    simp [rm_cor_swap]

/-- Every recorded pair has one of its two members among the removed indices. -/
theorem rm_cor_swap_covers (pairs : List (ℕ × ℕ)) (p : ℕ × ℕ) (hp : p ∈ pairs) :
    p.1 ∈ (rm_cor_swap pairs).map Prod.fst ∨ p.2 ∈ (rm_cor_swap pairs).map Prod.fst := by
  unfold rm_cor_swap
  by_cases h : ((rm_cor_uni_ID_count pairs).lookup p.1).getD 0
      < ((rm_cor_uni_ID_count pairs).lookup p.2).getD 0
  · right
    rw [List.map_map]
    exact List.mem_map.2 ⟨p, hp, by simp [h]⟩
  · left
    rw [List.map_map]
    exact List.mem_map.2 ⟨p, hp, by simp [h]⟩

/-- The result of `rm_cor_elements` when the scan does not find a loop index where it
reads the list of removed indices at or past its end: for a symmetric `n × n` matrix and
any threshold, `rm_cor_elements` with `r2_flag = true` then returns a strictly increasing
list of indices below `n`, and no two distinct kept indices `i`, `j` have
`|r_mat(i, j)| > sqrt(r2_thresh)`. -/
theorem rm_cor_elements_benign_read (oob_read : ℕ → ℤ) (r_mat : ℕ → ℕ → ℚ) (n : ℕ) (nm : Numerics)
    (r2_thresh : ℚ) (hsym : ∀ i j, i < n → j < n → r_mat i j = r_mat j i)
    (hoob : ∀ j i, i < n → oob_read j ≠ (i : ℤ)) :
    List.Sorted (fun a b => a < b) (rm_cor_elements oob_read r_mat n nm r2_thresh true) ∧
    (∀ i ∈ rm_cor_elements oob_read r_mat n nm r2_thresh true, i < n) ∧
    (∀ i ∈ rm_cor_elements oob_read r_mat n nm r2_thresh true,
      ∀ j ∈ rm_cor_elements oob_read r_mat n nm r2_thresh true,
        i ≠ j → ¬ |r_mat i j| > nm.sqrt r2_thresh) := by
  rw [rm_cor_elements_eq_filter oob_read r_mat n nm r2_thresh true hoob]
  simp only [if_true]
  have hrange : List.Sorted (fun a b : ℕ => a < b) (List.range n) := List.sorted_lt_range n
  have key : ∀ i j, i < n → j < i →
      i ∉ (rm_cor_swap (rm_cor_pairs r_mat (nm.sqrt r2_thresh) n)).map Prod.fst →
      j ∉ (rm_cor_swap (rm_cor_pairs r_mat (nm.sqrt r2_thresh) n)).map Prod.fst →
      ¬ |r_mat i j| > nm.sqrt r2_thresh := by
    intro i j hi hji hi2 hj2 habs
    have hmem : (i, j) ∈ rm_cor_pairs r_mat (nm.sqrt r2_thresh) n :=
      (mem_rm_cor_pairs _ _ _ _).2 ⟨hji, hi, habs⟩
    rcases rm_cor_swap_covers _ _ hmem with h | h
    · exact hi2 h
    · exact hj2 h
  refine ⟨hrange.sublist (List.filter_sublist _), ?_, ?_⟩
  · intro i hi
    exact List.mem_range.1 (List.mem_filter.1 hi).1
  · intro i hi j hj hij
    have hi1 := List.mem_filter.1 hi
    have hj1 := List.mem_filter.1 hj
    have hin : i < n := List.mem_range.1 hi1.1
    have hjn : j < n := List.mem_range.1 hj1.1
    have hi2 := of_decide_eq_true hi1.2
    have hj2 := of_decide_eq_true hj1.2
    rcases Nat.lt_or_gt_of_ne hij with h | h
    · rw [hsym i j hin hjn]
      exact key j i hjn h hj2 hi2
    · exact key i j hin h hi2 hj2

theorem pair3_pairs : rm_cor_pairs pair3_r_mat (exampleNumerics.sqrt (1/4)) 3 = [(1, 0)] := by
  have habs : |(9 : ℚ) / 10| = 9 / 10 := abs_of_pos (by norm_num)
  simp [rm_cor_pairs, List.range_succ, pair3_r_mat, matOf, exampleNumerics, qsqrt]
  norm_num [habs]

theorem pair3_kept :
    rm_cor_elements (fun _ => -1) pair3_r_mat 3 exampleNumerics (1/4) true = [0, 2] := by
  unfold rm_cor_elements
  simp only [if_true]
  rw [pair3_pairs]
  decide

theorem cycle4_pairs :
    rm_cor_pairs cycle4_r_mat (exampleNumerics.sqrt (1/4)) 4 = [(1, 0), (2, 1), (3, 0), (3, 2)] := by
  have habs : |(9 : ℚ) / 10| = 9 / 10 := abs_of_pos (by norm_num)
  simp [rm_cor_pairs, List.range_succ, cycle4_r_mat, matOf, exampleNumerics, qsqrt]
  norm_num [habs]

theorem cycle4_kept :
    rm_cor_elements (fun _ => -1) cycle4_r_mat 4 exampleNumerics (1/4) true = [0] := by
  unfold rm_cor_elements
  simp only [if_true]
  rw [cycle4_pairs]
  decide

/-- Three SNPs of which SNPs 0 and 1 are correlated above the threshold
`sqrt(1/4) = 1/2`, with a read past the end that returns `-1`: SNP 1 is removed and
`[0, 2]` is kept. -/
theorem rm_cor_elements_benign_read_witness :
    ((∀ i j, i < 3 → j < 3 → pair3_r_mat i j = pair3_r_mat j i) ∧
      (∀ j i : ℕ, i < 3 → ((fun _ => -1) : ℕ → ℤ) j ≠ (i : ℤ))) ∧
    List.Sorted (fun a b => a < b)
      (rm_cor_elements (fun _ => -1) pair3_r_mat 3 exampleNumerics (1/4) true) ∧
    (∀ i ∈ rm_cor_elements (fun _ => -1) pair3_r_mat 3 exampleNumerics (1/4) true, i < 3) ∧
    (∀ i ∈ rm_cor_elements (fun _ => -1) pair3_r_mat 3 exampleNumerics (1/4) true,
      ∀ j ∈ rm_cor_elements (fun _ => -1) pair3_r_mat 3 exampleNumerics (1/4) true,
        i ≠ j → ¬ |pair3_r_mat i j| > exampleNumerics.sqrt (1/4)) := by
  have hsym : ∀ i j, i < 3 → j < 3 → pair3_r_mat i j = pair3_r_mat j i := by
    intro i j hi hj
    interval_cases i <;> interval_cases j <;> simp [pair3_r_mat, matOf]
  have hoob : ∀ j i : ℕ, i < 3 → ((fun _ => -1) : ℕ → ℤ) j ≠ (i : ℤ) := by
    intro j i _
    simp only
    omega
  exact ⟨⟨hsym, hoob⟩,
    rm_cor_elements_benign_read (fun _ => -1) pair3_r_mat 3 exampleNumerics (1/4) hsym hoob⟩

/-- C12 (the code at the failing input): for the symmetric 3 × 3 matrix with the single
pair `(1, 0)` above the threshold `sqrt(1/4) = 1/2`, the scan reads the list of removed
indices at its end in the round `i = 2`. When the value read there is `2`, the round is
skipped and the result is `[0, 0]`: it is not strictly ascending and SNP 2, which is in
no pair above the threshold, is not kept. -/
theorem C12_stale_read_breaks_order :
    (∀ i j, i < 3 → j < 3 → pair3_r_mat i j = pair3_r_mat j i) ∧
    rm_cor_elements (fun _ => 2) pair3_r_mat 3 exampleNumerics (1/4) true = [0, 0] ∧
    ¬ List.Sorted (fun a b => a < b)
      (rm_cor_elements (fun _ => 2) pair3_r_mat 3 exampleNumerics (1/4) true) ∧
    2 ∉ rm_cor_elements (fun _ => 2) pair3_r_mat 3 exampleNumerics (1/4) true ∧
    (∀ j, j < 3 → j ≠ 2 → ¬ |pair3_r_mat 2 j| > exampleNumerics.sqrt (1/4)) := by
  have hk : rm_cor_elements (fun _ => 2) pair3_r_mat 3 exampleNumerics (1/4) true = [0, 0] := by
    unfold rm_cor_elements
    simp only [if_true]
    rw [pair3_pairs]
    decide
  refine ⟨?_, hk, ?_, ?_, ?_⟩
  · intro i j hi hj
    interval_cases i <;> interval_cases j <;> simp [pair3_r_mat, matOf]
  · rw [hk]
    simp
  · rw [hk]
    simp
  · intro j hj hj2
    interval_cases j <;>
      first
      | exact absurd rfl hj2
      | norm_num [pair3_r_mat, matOf, exampleNumerics, qsqrt]

/-- C13 (as stated, refuted): on the four-SNP cycle 0 - 1 - 2 - 3 - 0 with threshold
`sqrt(1/4) = 1/2` every SNP occurs in two pairs, no pair is swapped, and
`rm_cor_elements` keeps only SNP 0, so it removes the three SNPs 1, 2, 3. Removing
the two SNPs 1 and 3 is enough: the remaining SNPs 0 and 2 are uncorrelated. -/
theorem C13_four_cycle_counterexample :
    rm_cor_elements (fun _ => -1) cycle4_r_mat 4 exampleNumerics (1/4) true = [0] ∧
    (∀ i j, i < 4 → j < 4 → cycle4_r_mat i j = cycle4_r_mat j i) ∧
    (∀ i ∈ [0, 2], ∀ j ∈ [0, 2], i ≠ j → ¬ |cycle4_r_mat i j| > exampleNumerics.sqrt (1/4)) := by
  refine ⟨cycle4_kept, ?_, ?_⟩
  · intro i j hi hj
    interval_cases i <;> interval_cases j <;> simp [cycle4_r_mat, matOf]
  · intro i hi j hj hij
    simp only [List.mem_cons, List.mem_singleton, List.not_mem_nil, or_false] at hi hj
    rcases hi with rfl | rfl <;> rcases hj with rfl | rfl <;>
      first
      | exact absurd rfl hij
      | norm_num [cycle4_r_mat, matOf, exampleNumerics, qsqrt]

theorem lookup_map_self (f : ℕ → ℕ) (u : ℕ) (l : List ℕ) :
    (l.map (fun v => (v, f v))).lookup u = if u ∈ l then some (f u) else none := by
  induction l with
  | nil => simp
  | cons a l ih =>
    simp only [List.map_cons, List.lookup_cons, List.mem_cons]
    by_cases h : u = a
    · subst h
      simp
    · have hb : (u == a) = false := by simpa using h
      rw [hb, ih]
      simp [h]

/-- The map `rm_uni_ID_count` gives, for every index, the number of recorded pairs in
which the index occurs. -/
theorem rm_cor_uni_ID_count_lookup (pairs : List (ℕ × ℕ)) (u : ℕ) :
    ((rm_cor_uni_ID_count pairs).lookup u).getD 0
      = (pairs.map Prod.fst).count u + (pairs.map Prod.snd).count u := by
  unfold rm_cor_uni_ID_count
  rw [lookup_map_self (fun u => (pairs.map Prod.fst).count u + (pairs.map Prod.snd).count u)]
  by_cases h : u ∈ rm_cor_uni_ID pairs
  · rw [if_pos h]; rfl
  · rw [if_neg h]
    unfold rm_cor_uni_ID at h
    rw [mem_sort_unique, List.mem_append, not_or] at h
    rw [List.count_eq_zero_of_not_mem h.1, List.count_eq_zero_of_not_mem h.2]
    rfl

/-- C13 (amended): `rm_cor_elements` removes a set that is chosen pair by pair, not a
minimum one. When the scan does not find a loop index where it reads the list of
removed indices at or past its end, then, with the pairs `(i, j)`, `j < i < n`, that have
`|r_mat(i, j)| > sqrt(r2_thresh)`, an index `x < n` is removed exactly when it is, for
one of these pairs, the member that occurs in more pairs (`j` when `i` occurs in fewer
pairs than `j`, and `i` otherwise, also when both occur equally often). -/
theorem C13_rm_cor_removed (oob_read : ℕ → ℤ) (r_mat : ℕ → ℕ → ℚ) (n : ℕ) (nm : Numerics)
    (r2_thresh : ℚ) (hoob : ∀ j i, i < n → oob_read j ≠ (i : ℤ)) (x : ℕ) (hx : x < n) :
    x ∉ rm_cor_elements oob_read r_mat n nm r2_thresh true ↔
      ∃ i j, j < i ∧ i < n ∧ |r_mat i j| > nm.sqrt r2_thresh ∧
        x = if ((rm_cor_pairs r_mat (nm.sqrt r2_thresh) n).map Prod.fst).count i
                + ((rm_cor_pairs r_mat (nm.sqrt r2_thresh) n).map Prod.snd).count i
              < ((rm_cor_pairs r_mat (nm.sqrt r2_thresh) n).map Prod.fst).count j
                + ((rm_cor_pairs r_mat (nm.sqrt r2_thresh) n).map Prod.snd).count j
            then j else i := by
  rw [rm_cor_elements_eq_filter oob_read r_mat n nm r2_thresh true hoob]
  simp only [if_true]
  rw [List.mem_filter, List.mem_range]
  simp only [hx, true_and, decide_eq_true_eq, not_not]
  unfold rm_cor_swap
  rw [List.map_map, List.mem_map]
  constructor
  · rintro ⟨p, hp, hpx⟩
    have hp2 := (mem_rm_cor_pairs _ _ _ _).1 hp
    refine ⟨p.1, p.2, hp2.1, hp2.2.1, hp2.2.2, ?_⟩
    rw [← hpx]
    simp only [Function.comp_apply, rm_cor_uni_ID_count_lookup]
    split_ifs <;> rfl
  · rintro ⟨i, j, hji, hi, habs, hxe⟩
    refine ⟨(i, j), (mem_rm_cor_pairs _ _ _ _).2 ⟨hji, hi, habs⟩, ?_⟩
    rw [hxe]
    simp only [Function.comp_apply, rm_cor_uni_ID_count_lookup]
    split_ifs <;> rfl

/-- Witness for C13 on the four-SNP cycle: SNP 2 is removed, as the member chosen for
the pair `(2, 1)` (both SNPs occur in two pairs, so the first member `i = 2` goes). -/
theorem C13_rm_cor_removed_witness :
    ((∀ j i : ℕ, i < 4 → ((fun _ => -1) : ℕ → ℤ) j ≠ (i : ℤ)) ∧ (2 : ℕ) < 4) ∧
    (2 ∉ rm_cor_elements (fun _ => -1) cycle4_r_mat 4 exampleNumerics (1/4) true ↔
      ∃ i j, j < i ∧ i < 4 ∧ |cycle4_r_mat i j| > exampleNumerics.sqrt (1/4) ∧
        2 = if ((rm_cor_pairs cycle4_r_mat (exampleNumerics.sqrt (1/4)) 4).map Prod.fst).count i
                + ((rm_cor_pairs cycle4_r_mat (exampleNumerics.sqrt (1/4)) 4).map Prod.snd).count i
              < ((rm_cor_pairs cycle4_r_mat (exampleNumerics.sqrt (1/4)) 4).map Prod.fst).count j
                + ((rm_cor_pairs cycle4_r_mat (exampleNumerics.sqrt (1/4)) 4).map Prod.snd).count j
            then j else i) := by
  have hoob : ∀ j i : ℕ, i < 4 → ((fun _ => -1) : ℕ → ℤ) j ≠ (i : ℤ) := by
    intro j i _
    simp only
    omega
  exact ⟨⟨hoob, by decide⟩,
    C13_rm_cor_removed (fun _ => -1) cycle4_r_mat 4 exampleNumerics (1/4) hoob 2 (by decide)⟩

theorem lookup_mapSet (m : List (String × Bool)) (k x : String) (v : Bool) :
    (mapSet m k v).lookup x
      = if x = k then (if (m.lookup k).isSome then some v else none) else m.lookup x := by
  induction m with
  | nil => simp [mapSet]
  | cons kv rest ih =>
    obtain ⟨a, b⟩ := kv
    unfold mapSet at ih ⊢
    simp only [List.map_cons]
    by_cases hak : a = k
    · rw [if_pos hak]
      simp only [lookup_cons_ite, ih]
      by_cases hxk : x = k
      · simp [hxk, hak]
      · have hxa : ¬ x = a := by rw [hak]; exact hxk
        simp [hxk, hxa]
    · rw [if_neg hak]
      simp only [lookup_cons_ite, ih]
      have hka : ¬ k = a := fun h => hak h.symm
      by_cases hxk : x = k
      · have hxa : ¬ x = a := by rw [hxk]; exact hka
        simp [hxk, hka]
      · simp [hxk]

theorem lookup_mapSet_isSome (m : List (String × Bool)) (k x : String)
    (h : (m.lookup x).isSome = true) : ((mapSet m k true).lookup x).isSome = true := by
  rw [lookup_mapSet]
  by_cases h3 : x = k
  · rw [if_pos h3, ← h3, if_pos h]; rfl
  · rw [if_neg h3]; exact h

theorem lookup_mapSet_true (m : List (String × Bool)) (k x : String)
    (h : m.lookup x = some true) : (mapSet m k true).lookup x = some true := by
  rw [lookup_mapSet]
  by_cases h3 : x = k
  · rw [if_pos h3, ← h3, h]; rfl
  · rw [if_neg h3]; exact h

/-- One side of the window walk never removes a key and never resets a mark. -/
theorem clumping_walk_preserves (g : GctaState) (wind_size : ℤ) (r2_thresh : ℚ)
    (geno_indx center : ℕ) (x : String) :
    ∀ (js : List ℕ) (m : List (String × Bool)),
      ((m.lookup x).isSome = true →
        ((clumping_walk g wind_size r2_thresh geno_indx center js m).lookup x).isSome = true) ∧
      (m.lookup x = some true →
        (clumping_walk g wind_size r2_thresh geno_indx center js m).lookup x = some true) := by
  intro js
  induction js with
  | nil => intro m; simp [clumping_walk]
  | cons j js ih =>
    intro m
    unfold clumping_walk
    by_cases h1 : g._chr geno_indx = g._chr (g._include.getD j 0)
        ∧ |g._bp geno_indx - g._bp (g._include.getD j 0)| < wind_size
    · rw [if_pos h1]
      cases hm : m.lookup (g._snp_name (g._include.getD j 0)) with
      | none => exact ih m
      | some w =>
        simp only
        by_cases h2 : g.makex_r center j * g.makex_r center j ≥ r2_thresh
        · rw [if_pos h2]
          exact ⟨fun h => (ih _).1 (lookup_mapSet_isSome m _ x h),
            fun h => (ih _).2 (lookup_mapSet_true m _ x h)⟩
        · rw [if_neg h2]
          exact ih m
    · rw [if_neg h1]
      exact ⟨id, id⟩

/-- When every position up to and including `b` passes the chromosome and window test,
the key of `b` is a candidate and its `r²` with the index SNP reaches the threshold,
the walk marks `b` as clumped. -/
theorem clumping_walk_marks (g : GctaState) (wind_size : ℤ) (r2_thresh : ℚ)
    (geno_indx center b : ℕ) (t : List ℕ)
    (hb : g._chr geno_indx = g._chr (g._include.getD b 0)
      ∧ |g._bp geno_indx - g._bp (g._include.getD b 0)| < wind_size)
    (hr : g.makex_r center b * g.makex_r center b ≥ r2_thresh) :
    ∀ (s : List ℕ) (m : List (String × Bool)),
      (∀ j ∈ s, g._chr geno_indx = g._chr (g._include.getD j 0)
        ∧ |g._bp geno_indx - g._bp (g._include.getD j 0)| < wind_size) →
      (m.lookup (g._snp_name (g._include.getD b 0))).isSome = true →
      (clumping_walk g wind_size r2_thresh geno_indx center (s ++ b :: t) m).lookup
        (g._snp_name (g._include.getD b 0)) = some true := by
  intro s
  induction s with
  | nil =>
    intro m _ hkey
    simp only [List.nil_append]
    unfold clumping_walk
    rw [if_pos hb]
    obtain ⟨v, hv⟩ := Option.isSome_iff_exists.1 hkey
    rw [hv]
    simp only
    rw [if_pos hr]
    apply (clumping_walk_preserves g wind_size r2_thresh geno_indx center _ t _).2
    rw [lookup_mapSet, if_pos rfl, if_pos hkey]
  | cons j s ih =>
    intro m hs hkey
    have hj := hs j (List.mem_cons_self _ _)
    have hs2 : ∀ i ∈ s, g._chr geno_indx = g._chr (g._include.getD i 0)
        ∧ |g._bp geno_indx - g._bp (g._include.getD i 0)| < wind_size :=
      fun i hi => hs i (List.mem_cons_of_mem _ hi)
    simp only [List.cons_append]
    unfold clumping_walk
    rw [if_pos hj]
    cases hm : m.lookup (g._snp_name (g._include.getD j 0)) with
    | none => exact ih m hs2 hkey
    | some w =>
      simp only
      by_cases h2 : g.makex_r center j * g.makex_r center j ≥ r2_thresh
      · rw [if_pos h2]
        exact ih _ hs2 (lookup_mapSet_isSome m _ _ hkey)
      · rw [if_neg h2]
        exact ih m hs2 hkey

/-- Every candidate below the threshold has a key in the map `clumped_snp`. -/
theorem init_map_has_key (g : GctaState) (pval_thresh1 : ℚ) (x : String) (l : List (ℚ × ℕ)) :
    ∀ (m : List (String × Bool)),
      ((m.lookup x).isSome = true ∨ ∃ pk ∈ l, pk.1 < pval_thresh1 ∧ g._meta_snp_name pk.2 = x) →
      ((l.foldl (fun m pk => if pk.1 ≥ pval_thresh1 then m
          else mapInsert m (g._meta_snp_name pk.2) false) m).lookup x).isSome = true := by
  induction l with
  | nil =>
    intro m h
    rcases h with h | ⟨pk, hpk, _⟩
    · simpa using h
    · simp at hpk
  | cons a l ih =>
    intro m h
    simp only [List.foldl_cons]
    apply ih
    rcases h with h | ⟨pk, hpk, hlt, hname⟩
    · left
      split_ifs
      · exact h
      · obtain ⟨v, hv⟩ := Option.isSome_iff_exists.1 h
        rw [lookup_mapInsert_of_some m _ x false v hv]; rfl
    · rcases List.mem_cons.1 hpk with h1 | h1
      · left
        rw [h1] at hlt hname
        rw [if_neg (not_le.2 hlt), hname]
        cases hm : m.lookup x with
        | none => rw [lookup_mapInsert_of_none m x x false hm, if_pos rfl]; rfl
        | some v => rw [lookup_mapInsert_of_some m x x false v hm]; rfl
      · exact Or.inr ⟨pk, h1, hlt, hname⟩

/-- In a panel that lists every chromosome contiguously in increasing base-pair order, a
position between two positions that are on one chromosome and within the window of
each other passes the chromosome and window test against either of them. -/
theorem clumping_between_test (g : GctaState) (wind_size : ℤ)
    (hpanel : ∀ a j b, a ≤ j → j ≤ b → b < g._include.length →
      g._chr (g._include.getD a 0) = g._chr (g._include.getD b 0) →
      g._chr (g._include.getD j 0) = g._chr (g._include.getD a 0) ∧
        g._bp (g._include.getD a 0) ≤ g._bp (g._include.getD j 0) ∧
        g._bp (g._include.getD j 0) ≤ g._bp (g._include.getD b 0))
    (a j b : ℕ) (haj : a ≤ j) (hjb : j ≤ b) (hb : b < g._include.length)
    (hchr : g._chr (g._include.getD a 0) = g._chr (g._include.getD b 0))
    (hbp : |g._bp (g._include.getD a 0) - g._bp (g._include.getD b 0)| < wind_size) :
    (g._chr (g._include.getD a 0) = g._chr (g._include.getD j 0)
      ∧ |g._bp (g._include.getD a 0) - g._bp (g._include.getD j 0)| < wind_size) ∧
    (g._chr (g._include.getD b 0) = g._chr (g._include.getD j 0)
      ∧ |g._bp (g._include.getD b 0) - g._bp (g._include.getD j 0)| < wind_size) := by
  obtain ⟨h1, h2, h3⟩ := hpanel a j b haj hjb hb hchr
  rw [abs_lt] at hbp
  refine ⟨⟨h1.symm, ?_⟩, ⟨by rw [← hchr]; exact h1.symm, ?_⟩⟩
  · rw [abs_lt]; constructor <;> linarith
  · rw [abs_lt]; constructor <;> linarith

/-- The two walks around an index SNP at position `c` mark every candidate at another
position `pi` that is on the same chromosome, within the window and in LD with it. -/
theorem clumping_walks_mark (g : GctaState) (wind_size : ℤ) (r2_thresh : ℚ) (c pi : ℕ)
    (m : List (String × Bool))
    (hpanel : ∀ a j b, a ≤ j → j ≤ b → b < g._include.length →
      g._chr (g._include.getD a 0) = g._chr (g._include.getD b 0) →
      g._chr (g._include.getD j 0) = g._chr (g._include.getD a 0) ∧
        g._bp (g._include.getD a 0) ≤ g._bp (g._include.getD j 0) ∧
        g._bp (g._include.getD j 0) ≤ g._bp (g._include.getD b 0))
    (hc : c < g._include.length) (hpi : pi < g._include.length) (hne : pi ≠ c)
    (hchr : g._chr (g._include.getD c 0) = g._chr (g._include.getD pi 0))
    (hbp : |g._bp (g._include.getD c 0) - g._bp (g._include.getD pi 0)| < wind_size)
    (hr : g.makex_r c pi * g.makex_r c pi ≥ r2_thresh)
    (hkey : (m.lookup (g._snp_name (g._include.getD pi 0))).isSome = true) :
    (clumping_walk g wind_size r2_thresh (g._include.getD c 0) c
        (List.range' (c + 1) (g._include.length - (c + 1)))
        (clumping_walk g wind_size r2_thresh (g._include.getD c 0) c
          (List.range c).reverse m)).lookup (g._snp_name (g._include.getD pi 0))
      = some true := by
  rcases Nat.lt_or_gt_of_ne hne with hlt | hgt
  · -- `pi` is to the left of the index SNP
    apply (clumping_walk_preserves _ _ _ _ _ _ _ _).2
    have hmem : pi ∈ (List.range c).reverse := by
      rw [List.mem_reverse, List.mem_range]; exact hlt
    obtain ⟨s, t, hst⟩ := List.append_of_mem hmem
    have hsorted : ((List.range c).reverse).Pairwise (fun a b => a > b) := by
      rw [List.pairwise_reverse]
      exact List.pairwise_lt_range c
    rw [hst] at hsorted
    have hs : ∀ j ∈ s, pi < j ∧ j < c := by
      intro j hj
      refine ⟨(List.pairwise_append.1 hsorted).2.2 j hj pi (List.mem_cons_self _ _), ?_⟩
      have : j ∈ (List.range c).reverse := by rw [hst]; exact List.mem_append_left _ hj
      rw [List.mem_reverse, List.mem_range] at this
      exact this
    have hbp2 : |g._bp (g._include.getD pi 0) - g._bp (g._include.getD c 0)| < wind_size := by
      rw [abs_sub_comm]; exact hbp
    rw [hst]
    apply clumping_walk_marks g wind_size r2_thresh (g._include.getD c 0) c pi t
      (clumping_between_test g wind_size hpanel pi pi c (le_refl _) (le_of_lt hlt) hc
        hchr.symm hbp2).2 hr s m _ hkey
    intro j hj
    exact (clumping_between_test g wind_size hpanel pi j c (le_of_lt (hs j hj).1)
      (le_of_lt (hs j hj).2) hc hchr.symm hbp2).2
  · -- `pi` is to the right of the index SNP
    have hmem : pi ∈ List.range' (c + 1) (g._include.length - (c + 1)) := by
      rw [List.mem_range']
      exact ⟨pi - (c + 1), by omega, by omega⟩
    obtain ⟨s, t, hst⟩ := List.append_of_mem hmem
    have hsorted : (List.range' (c + 1) (g._include.length - (c + 1))).Pairwise
        (fun a b => a < b) := List.pairwise_lt_range' _ _
    rw [hst] at hsorted
    have hs : ∀ j ∈ s, c < j ∧ j < pi := by
      intro j hj
      refine ⟨?_, (List.pairwise_append.1 hsorted).2.2 j hj pi (List.mem_cons_self _ _)⟩
      have : j ∈ List.range' (c + 1) (g._include.length - (c + 1)) := by
        rw [hst]; exact List.mem_append_left _ hj
      rw [List.mem_range'] at this
      obtain ⟨i, _, hi⟩ := this
      omega
    rw [hst]
    apply clumping_walk_marks g wind_size r2_thresh (g._include.getD c 0) c pi t
      (clumping_between_test g wind_size hpanel c pi pi (le_of_lt hgt) (le_refl _) hpi
        hchr hbp).1 hr s _ _
      ((clumping_walk_preserves _ _ _ _ _ _ _ _).1 hkey)
    intro j hj
    exact (clumping_between_test g wind_size hpanel c j pi (le_of_lt (hs j hj).1)
      (le_of_lt (hs j hj).2) hpi hchr hbp).1

/-- A round of the clumping loop on a candidate that is marked leaves the state as it
is. -/
theorem clumping_step_skip (g : GctaState) (snp_pvalbuf : List (ℚ × ℕ)) (wind_size : ℤ)
    (r2_thresh : ℚ) (st : List (String × Bool) × List String) (i : ℕ)
    (h : st.1.lookup (g._meta_snp_name (snp_pvalbuf.getD i (0, 0)).2) = some true) :
    clumping_step g snp_pvalbuf wind_size r2_thresh st i = st := by
  have hins : mapInsert st.1 (g._meta_snp_name (snp_pvalbuf.getD i (0, 0)).2) false = st.1 := by
    unfold mapInsert
    rw [h]; rfl
  unfold clumping_step
  simp only [hins, h, Option.getD_some, if_true]

/-- A round of the clumping loop on a candidate that is not marked elects it and
walks the window on both sides. -/
theorem clumping_step_elect (g : GctaState) (snp_pvalbuf : List (ℚ × ℕ)) (wind_size : ℤ)
    (r2_thresh : ℚ) (st : List (String × Bool) × List String) (i : ℕ)
    (h : st.1.lookup (g._meta_snp_name (snp_pvalbuf.getD i (0, 0)).2) = some false) :
    clumping_step g snp_pvalbuf wind_size r2_thresh st i
      = (clumping_walk g wind_size r2_thresh
            (clumping_geno_indx g (snp_pvalbuf.getD i (0, 0)).2)
            (clumping_geno_indx_center g (snp_pvalbuf.getD i (0, 0)).2)
            (List.range' (clumping_geno_indx_center g (snp_pvalbuf.getD i (0, 0)).2 + 1)
              (g._include.length
                - (clumping_geno_indx_center g (snp_pvalbuf.getD i (0, 0)).2 + 1)))
            (clumping_walk g wind_size r2_thresh
              (clumping_geno_indx g (snp_pvalbuf.getD i (0, 0)).2)
              (clumping_geno_indx_center g (snp_pvalbuf.getD i (0, 0)).2)
              (List.range (clumping_geno_indx_center g (snp_pvalbuf.getD i (0, 0)).2)).reverse
              st.1),
          st.2 ++ [g._meta_snp_name (snp_pvalbuf.getD i (0, 0)).2]) := by
  have hins : mapInsert st.1 (g._meta_snp_name (snp_pvalbuf.getD i (0, 0)).2) false = st.1 := by
    unfold mapInsert
    rw [h]; rfl
  unfold clumping_step clumping_geno_indx_center clumping_geno_indx
  simp only [hins, h, Option.getD_some]
  rfl

/-- The list `snp_pvalbuf` has no repeated entry when the list of remaining SNPs has
none. -/
theorem snp_pvalbuf_nodup (g : GctaState) (snp_pval : ℕ → ℚ) (snp_flag : ℕ → Bool)
    (hremain : g._meta_remain_snp.Nodup) :
    (clumping_snp_pvalbuf g snp_pval snp_flag).Nodup := by
  unfold clumping_snp_pvalbuf
  rw [(List.perm_insertionSort pairLE _).nodup_iff]
  apply List.Nodup.filterMap _ hremain
  intro a a2 b hb hb2
  split_ifs at hb hb2
  · simp only [Option.mem_def, Option.some.injEq] at hb hb2
    have h1 := congrArg Prod.snd hb
    have h2 := congrArg Prod.snd hb2
    simp only at h1 h2
    rw [h1, h2]
  all_goals simp at hb hb2

/-- When all candidates are on one chromosome, within the window of each other and in
pairwise LD, the clumping loop elects the first entry of `snp_pvalbuf` and nothing
else. -/
theorem clumping_single_index_loop (g : GctaState) (snp_pval : ℕ → ℚ) (snp_flag : ℕ → Bool)
    (pval_thresh1 : ℚ) (wind_size : ℤ) (r2_thresh : ℚ)
    (hremain : g._meta_remain_snp.Nodup)
    (hpanel : ∀ a j b, a ≤ j → j ≤ b → b < g._include.length →
      g._chr (g._include.getD a 0) = g._chr (g._include.getD b 0) →
      g._chr (g._include.getD j 0) = g._chr (g._include.getD a 0) ∧
        g._bp (g._include.getD a 0) ≤ g._bp (g._include.getD j 0) ∧
        g._bp (g._include.getD j 0) ≤ g._bp (g._include.getD b 0))
    (hcand : ∀ k, clumping_candidate g snp_pval snp_flag pval_thresh1 k →
      clumping_geno_indx g k ∈ g._include ∧
        g._snp_name (clumping_geno_indx g k) = g._meta_snp_name k)
    (hnames : ∀ k k2, clumping_candidate g snp_pval snp_flag pval_thresh1 k →
      clumping_candidate g snp_pval snp_flag pval_thresh1 k2 →
      g._meta_snp_name k = g._meta_snp_name k2 → k = k2)
    (hchr : ∀ k k2, clumping_candidate g snp_pval snp_flag pval_thresh1 k →
      clumping_candidate g snp_pval snp_flag pval_thresh1 k2 →
      g._chr (clumping_geno_indx g k) = g._chr (clumping_geno_indx g k2))
    (hbp : ∀ k k2, clumping_candidate g snp_pval snp_flag pval_thresh1 k →
      clumping_candidate g snp_pval snp_flag pval_thresh1 k2 →
      |g._bp (clumping_geno_indx g k) - g._bp (clumping_geno_indx g k2)| < wind_size * 1000)
    (hr2 : ∀ k k2, clumping_candidate g snp_pval snp_flag pval_thresh1 k →
      clumping_candidate g snp_pval snp_flag pval_thresh1 k2 → k ≠ k2 →
      g.makex_r (clumping_geno_indx_center g k) (clumping_geno_indx_center g k2)
        * g.makex_r (clumping_geno_indx_center g k) (clumping_geno_indx_center g k2)
        ≥ r2_thresh)
    (buf : List (ℚ × ℕ)) (hbuf : buf = clumping_snp_pvalbuf g snp_pval snp_flag)
    (m0 : List (String × Bool)) (hm0 : m0 = clumping_init_map g buf pval_thresh1)
    (hcand_i : ∀ i, i < m0.length →
      clumping_candidate g snp_pval snp_flag pval_thresh1 (buf.getD i (0, 0)).2)
    (hdist : ∀ i, 0 < i → i < m0.length → (buf.getD i (0, 0)).2 ≠ (buf.getD 0 (0, 0)).2)
    (hfalse : ∀ kv ∈ m0, kv.2 = false)
    (hkeys : ∀ k, clumping_candidate g snp_pval snp_flag pval_thresh1 k →
      (m0.lookup (g._meta_snp_name k)).isSome = true) :
    ∀ j, 0 < j → j ≤ m0.length →
      ((List.range j).foldl (clumping_step g buf (wind_size * 1000) r2_thresh) (m0, [])).2
          = [g._meta_snp_name (buf.getD 0 (0, 0)).2] ∧
      ∀ k, clumping_candidate g snp_pval snp_flag pval_thresh1 k → k ≠ (buf.getD 0 (0, 0)).2 →
        ((List.range j).foldl (clumping_step g buf (wind_size * 1000) r2_thresh)
          (m0, [])).1.lookup (g._meta_snp_name k) = some true := by
  intro j
  induction j with
  | zero => intro h; exact absurd h (lt_irrefl 0)
  | succ j ih =>
    intro _ hj
    rw [List.range_succ, List.foldl_append]
    simp only [List.foldl_cons, List.foldl_nil]
    by_cases hj0 : j = 0
    · -- round 0 elects the first entry and marks every other candidate
      subst hj0
      simp only [List.range_zero, List.foldl_nil]
      have hc0 := hcand_i 0 hj
      have hlook0 : m0.lookup (g._meta_snp_name (buf.getD 0 (0, 0)).2) = some false := by
        have h1 := hkeys _ hc0
        have h2 := lookup_all_false m0 hfalse (g._meta_snp_name (buf.getD 0 (0, 0)).2)
        obtain ⟨v, hv⟩ := Option.isSome_iff_exists.1 h1
        rw [hv] at h2 ⊢
        simpa using h2
      rw [clumping_step_elect g buf (wind_size * 1000) r2_thresh (m0, []) 0 hlook0]
      refine ⟨by simp, ?_⟩
      intro k hk hne
      have hin0 := (hcand _ hc0).1
      have hink := (hcand k hk).1
      have hname := (hcand k hk).2
      have hget0 : g._include.getD (clumping_geno_indx_center g (buf.getD 0 (0, 0)).2) 0
          = clumping_geno_indx g (buf.getD 0 (0, 0)).2 := by
        unfold clumping_geno_indx_center
        rw [List.getD_eq_getElem _ _ (List.indexOf_lt_length.2 hin0)]
        exact List.indexOf_get _
      have hgetk : g._include.getD (clumping_geno_indx_center g k) 0
          = clumping_geno_indx g k := by
        unfold clumping_geno_indx_center
        rw [List.getD_eq_getElem _ _ (List.indexOf_lt_length.2 hink)]
        exact List.indexOf_get _
      have hposne : clumping_geno_indx_center g k
          ≠ clumping_geno_indx_center g (buf.getD 0 (0, 0)).2 := by
        intro h
        have h1 : clumping_geno_indx g k = clumping_geno_indx g (buf.getD 0 (0, 0)).2 := by
          rw [← hgetk, ← hget0, h]
        have h2 : g._meta_snp_name k = g._meta_snp_name (buf.getD 0 (0, 0)).2 := by
          rw [← hname, ← (hcand _ hc0).2, h1]
        exact hne (hnames k _ hk hc0 h2)
      have hmark := clumping_walks_mark g (wind_size * 1000) r2_thresh
        (clumping_geno_indx_center g (buf.getD 0 (0, 0)).2) (clumping_geno_indx_center g k) m0
        hpanel (List.indexOf_lt_length.2 hin0) (List.indexOf_lt_length.2 hink) hposne
        (by rw [hget0, hgetk]; exact hchr _ _ hc0 hk)
        (by rw [hget0, hgetk]; exact hbp _ _ hc0 hk)
        (hr2 _ _ hc0 hk (fun h => hne h.symm))
        (by rw [hgetk, hname]; exact hkeys k hk)
      rw [hget0, hgetk, hname] at hmark
      exact hmark
    · -- later rounds meet a marked candidate
      have hjpos : 0 < j := Nat.pos_of_ne_zero hj0
      obtain ⟨ih1, ih2⟩ := ih hjpos (by omega)
      have hcj := hcand_i j (by omega)
      have hnej := hdist j hjpos (by omega)
      rw [clumping_step_skip g buf (wind_size * 1000) r2_thresh _ j (ih2 _ hcj hnej)]
      exact ⟨ih1, ih2⟩

/-- Clumping with a window that fits an `int`: when `wind_size · 1000` is in the range of
`int` and the clumping candidates (remaining SNPs that pass the mask, are in the
reference panel and have `p < pval_thresh1`) lie on one chromosome, are pairwise closer
than `wind_size · 1000` bp and have pairwise `r² ≥ r2_thresh`, `clumping_meta` returns
exactly one index SNP, a candidate with the smallest p-value. The registry and the panel
are assumed well formed: no repeated entry in the list of remaining SNPs, distinct
candidate names, every candidate's panel column is included and carries the candidate's
name, and the panel lists each chromosome contiguously in increasing base-pair order. -/
theorem clumping_single_index_in_range (g : GctaState) (snp_pval : ℕ → ℚ) (snp_flag : ℕ → Bool)
    (pval_thresh1 pval_thresh2 : ℚ) (wind_size : ℤ) (r2_thresh : ℚ)
    (hremain : g._meta_remain_snp.Nodup)
    (hpanel : ∀ a j b, a ≤ j → j ≤ b → b < g._include.length →
      g._chr (g._include.getD a 0) = g._chr (g._include.getD b 0) →
      g._chr (g._include.getD j 0) = g._chr (g._include.getD a 0) ∧
        g._bp (g._include.getD a 0) ≤ g._bp (g._include.getD j 0) ∧
        g._bp (g._include.getD j 0) ≤ g._bp (g._include.getD b 0))
    (hcand : ∀ k, clumping_candidate g snp_pval snp_flag pval_thresh1 k →
      clumping_geno_indx g k ∈ g._include ∧
        g._snp_name (clumping_geno_indx g k) = g._meta_snp_name k)
    (hnames : ∀ k k2, clumping_candidate g snp_pval snp_flag pval_thresh1 k →
      clumping_candidate g snp_pval snp_flag pval_thresh1 k2 →
      g._meta_snp_name k = g._meta_snp_name k2 → k = k2)
    (hchr : ∀ k k2, clumping_candidate g snp_pval snp_flag pval_thresh1 k →
      clumping_candidate g snp_pval snp_flag pval_thresh1 k2 →
      g._chr (clumping_geno_indx g k) = g._chr (clumping_geno_indx g k2))
    (hbp : ∀ k k2, clumping_candidate g snp_pval snp_flag pval_thresh1 k →
      clumping_candidate g snp_pval snp_flag pval_thresh1 k2 →
      |g._bp (clumping_geno_indx g k) - g._bp (clumping_geno_indx g k2)| < wind_size * 1000)
    (hr2 : ∀ k k2, clumping_candidate g snp_pval snp_flag pval_thresh1 k →
      clumping_candidate g snp_pval snp_flag pval_thresh1 k2 → k ≠ k2 →
      g.makex_r (clumping_geno_indx_center g k) (clumping_geno_indx_center g k2)
        * g.makex_r (clumping_geno_indx_center g k) (clumping_geno_indx_center g k2)
        ≥ r2_thresh)
    (hex : ∃ k, clumping_candidate g snp_pval snp_flag pval_thresh1 k)
    (hwind : -2147483648 ≤ wind_size * 1000 ∧ wind_size * 1000 ≤ 2147483647) :
    ∃ k0, clumping_candidate g snp_pval snp_flag pval_thresh1 k0 ∧
      (∀ k, clumping_candidate g snp_pval snp_flag pval_thresh1 k → snp_pval k0 ≤ snp_pval k) ∧
      clumping_meta g snp_pval snp_flag pval_thresh1 pval_thresh2 wind_size r2_thresh
        = [g._meta_snp_name k0] := by
  have hsorted := snp_pvalbuf_sorted g snp_pval snp_flag
  have hmem := mem_snp_pvalbuf g snp_pval snp_flag
  have hnodup := snp_pvalbuf_nodup g snp_pval snp_flag hremain
  have hlen := init_map_length_le g pval_thresh1 (clumping_snp_pvalbuf g snp_pval snp_flag) []
  have hge := init_map_length_ge g pval_thresh1 (clumping_snp_pvalbuf g snp_pval snp_flag) []
  have hfalse := init_map_all_false g pval_thresh1 (clumping_snp_pvalbuf g snp_pval snp_flag) []
    (by simp)
  have hprefix := sorted_filter_prefix pairLE (fun pk : ℚ × ℕ => pk.1 < pval_thresh1)
    (fun a b hab hb => lt_of_le_of_lt (pairLE_fst a b hab) hb)
    (clumping_snp_pvalbuf g snp_pval snp_flag) hsorted
  beta_reduce at hprefix
  have hkey0 := fun x => init_map_has_key g pval_thresh1 x
    (clumping_snp_pvalbuf g snp_pval snp_flag) []
  have hloop := clumping_single_index_loop g snp_pval snp_flag pval_thresh1 wind_size r2_thresh
    hremain hpanel hcand hnames hchr hbp hr2 (clumping_snp_pvalbuf g snp_pval snp_flag) rfl
    (clumping_init_map g (clumping_snp_pvalbuf g snp_pval snp_flag) pval_thresh1) rfl
  unfold clumping_meta
  simp only [clumping_window, if_pos hwind]
  unfold clumping_init_map at hloop ⊢
  generalize clumping_snp_pvalbuf g snp_pval snp_flag = buf at *
  generalize hm0 : buf.foldl (fun m pk => if pk.1 ≥ pval_thresh1 then m
      else mapInsert m (g._meta_snp_name pk.2) false) [] = m0 at *
  simp only [List.length_nil, zero_add] at hlen
  have hflen : (buf.filter (fun pk => decide (pk.1 < pval_thresh1))).length ≤ buf.length :=
    List.length_filter_le _ _
  -- every candidate has an entry in `snp_pvalbuf`
  have hcand_mem : ∀ k, clumping_candidate g snp_pval snp_flag pval_thresh1 k →
      (snp_pval k, k) ∈ buf := by
    intro k hk
    exact (hmem (snp_pval k, k)).2 ⟨hk.1, hk.2.1, hk.2.2.1, rfl⟩
  have hpos : 1 ≤ m0.length := by
    obtain ⟨k, hk⟩ := hex
    exact hge.2 ⟨(snp_pval k, k), hcand_mem k hk, hk.2.2.2⟩
  have hget_mem : ∀ i, i < m0.length → buf.getD i (0, 0) ∈ buf := by
    intro i hi
    rw [List.getD_eq_getElem _ _ (by omega)]
    exact List.getElem_mem _
  have hcand_i : ∀ i, i < m0.length →
      clumping_candidate g snp_pval snp_flag pval_thresh1 (buf.getD i (0, 0)).2 := by
    intro i hi
    have h1 := (hmem _).1 (hget_mem i hi)
    have h2 := hprefix i (0, 0) (by omega)
    exact ⟨h1.1, h1.2.1, h1.2.2.1, by rw [← h1.2.2.2]; exact h2⟩
  have hdist : ∀ i, 0 < i → i < m0.length →
      (buf.getD i (0, 0)).2 ≠ (buf.getD 0 (0, 0)).2 := by
    intro i hi0 hi heq
    have h1 := (hmem _).1 (hget_mem i hi)
    have h0 := (hmem _).1 (hget_mem 0 (by omega))
    have hpair : buf.getD i (0, 0) = buf.getD 0 (0, 0) :=
      Prod.ext (by rw [h1.2.2.2, h0.2.2.2, heq]) heq
    rw [List.getD_eq_getElem _ _ (by omega : i < buf.length),
      List.getD_eq_getElem _ _ (by omega : 0 < buf.length)] at hpair
    have := (List.Nodup.getElem_inj_iff hnodup).1 hpair
    omega
  have hkeys : ∀ k, clumping_candidate g snp_pval snp_flag pval_thresh1 k →
      (m0.lookup (g._meta_snp_name k)).isSome = true := by
    intro k hk
    exact hkey0 _ (Or.inr ⟨(snp_pval k, k), hcand_mem k hk, hk.2.2.2, rfl⟩)
  refine ⟨(buf.getD 0 (0, 0)).2, hcand_i 0 (by omega), ?_,
    (hloop hcand_i hdist hfalse hkeys m0.length (by omega) (le_refl _)).1⟩
  -- the first entry has the smallest p-value
  intro k hk
  have h0 := (hmem _).1 (hget_mem 0 (by omega))
  rw [← h0.2.2.2]
  have hk_mem := hcand_mem k hk
  cases hb : buf with
  | nil => rw [hb] at hk_mem; simp at hk_mem
  | cons b rest =>
    rw [hb] at hsorted hk_mem
    simp only [List.getD_cons_zero]
    rcases List.mem_cons.1 hk_mem with h | h
    · rw [← h]
    · have := pairLE_fst _ _ ((List.sorted_cons.1 hsorted).1 _ h)
      simpa using this

theorem scenario3_candidate_iff (k : ℕ) :
    clumping_candidate scenario3Panel scenario3_pval (fun _ => true) (1/20000000) k ↔ k < 3 := by
  unfold clumping_candidate
  constructor
  · rintro ⟨h1, _⟩
    simp only [scenario3Panel, List.mem_cons, List.mem_singleton, List.not_mem_nil,
      or_false] at h1
    omega
  · intro hk
    interval_cases k
    · exact ⟨by simp [scenario3Panel], rfl, by simp [scenario3Panel, lookup_cons_ite],
        by norm_num [scenario3_pval, vecOf]⟩
    · exact ⟨by simp [scenario3Panel], rfl, by simp [scenario3Panel, lookup_cons_ite],
        by norm_num [scenario3_pval, vecOf]⟩
    · exact ⟨by simp [scenario3Panel], rfl, by simp [scenario3Panel, lookup_cons_ite],
        by norm_num [scenario3_pval, vecOf]⟩

theorem scenario3_geno_indx (k : ℕ) (hk : k < 3) :
    clumping_geno_indx scenario3Panel k = k ∧ clumping_geno_indx_center scenario3Panel k = k := by
  interval_cases k <;>
    simp [clumping_geno_indx_center, clumping_geno_indx, scenario3Panel, lookup_cons_ite,
      List.indexOf_cons]

theorem scenario3_panel_ordered (a j b : ℕ) (haj : a ≤ j) (hjb : j ≤ b)
    (hb : b < scenario3Panel._include.length)
    (_ : scenario3Panel._chr (scenario3Panel._include.getD a 0)
      = scenario3Panel._chr (scenario3Panel._include.getD b 0)) :
    scenario3Panel._chr (scenario3Panel._include.getD j 0)
        = scenario3Panel._chr (scenario3Panel._include.getD a 0) ∧
      scenario3Panel._bp (scenario3Panel._include.getD a 0)
        ≤ scenario3Panel._bp (scenario3Panel._include.getD j 0) ∧
      scenario3Panel._bp (scenario3Panel._include.getD j 0)
        ≤ scenario3Panel._bp (scenario3Panel._include.getD b 0) := by
  have hb3 : b < 3 := by simpa [scenario3Panel] using hb
  interval_cases b <;> interval_cases j <;> interval_cases a <;> simp [scenario3Panel]

/-- Scenario 3 of the specification with a window that fits an `int`: three SNPs on
chromosome 1 at
10, 50 and 100 kb, pairwise correlation `19/20`, `p = (1e-10, 1e-9, 1e-8)`, index-SNP
threshold `5e-8`, window 500 kb, `r²` threshold `0.1`. The only index SNP is `s1`. -/
theorem clumping_single_index_in_range_witness :
    (scenario3Panel._meta_remain_snp.Nodup ∧
      (∀ k, clumping_candidate scenario3Panel scenario3_pval (fun _ => true) (1/20000000) k →
        clumping_geno_indx scenario3Panel k ∈ scenario3Panel._include ∧
          scenario3Panel._snp_name (clumping_geno_indx scenario3Panel k)
            = scenario3Panel._meta_snp_name k) ∧
      (∀ k k2, clumping_candidate scenario3Panel scenario3_pval (fun _ => true) (1/20000000) k →
        clumping_candidate scenario3Panel scenario3_pval (fun _ => true) (1/20000000) k2 →
        scenario3Panel._meta_snp_name k = scenario3Panel._meta_snp_name k2 → k = k2) ∧
      (∀ k k2, clumping_candidate scenario3Panel scenario3_pval (fun _ => true) (1/20000000) k →
        clumping_candidate scenario3Panel scenario3_pval (fun _ => true) (1/20000000) k2 →
        |scenario3Panel._bp (clumping_geno_indx scenario3Panel k)
          - scenario3Panel._bp (clumping_geno_indx scenario3Panel k2)| < 500 * 1000) ∧
      (∀ k k2, clumping_candidate scenario3Panel scenario3_pval (fun _ => true) (1/20000000) k →
        clumping_candidate scenario3Panel scenario3_pval (fun _ => true) (1/20000000) k2 →
        k ≠ k2 →
        scenario3Panel.makex_r (clumping_geno_indx_center scenario3Panel k)
            (clumping_geno_indx_center scenario3Panel k2)
          * scenario3Panel.makex_r (clumping_geno_indx_center scenario3Panel k)
            (clumping_geno_indx_center scenario3Panel k2) ≥ 1/10) ∧
      (∃ k, clumping_candidate scenario3Panel scenario3_pval (fun _ => true) (1/20000000) k) ∧
      (-2147483648 ≤ (500 : ℤ) * 1000 ∧ (500 : ℤ) * 1000 ≤ 2147483647)) ∧
    clumping_meta scenario3Panel scenario3_pval (fun _ => true) (1/20000000) (1/20000000)
      500 (1/10) = ["s1"] := by
  have hremain : scenario3Panel._meta_remain_snp.Nodup := by decide
  have hcand : ∀ k,
      clumping_candidate scenario3Panel scenario3_pval (fun _ => true) (1/20000000) k →
      clumping_geno_indx scenario3Panel k ∈ scenario3Panel._include ∧
        scenario3Panel._snp_name (clumping_geno_indx scenario3Panel k)
          = scenario3Panel._meta_snp_name k := by
    intro k hk
    have hk3 := (scenario3_candidate_iff k).1 hk
    rw [(scenario3_geno_indx k hk3).1]
    interval_cases k <;> simp [scenario3Panel]
  have hnames : ∀ k k2,
      clumping_candidate scenario3Panel scenario3_pval (fun _ => true) (1/20000000) k →
      clumping_candidate scenario3Panel scenario3_pval (fun _ => true) (1/20000000) k2 →
      scenario3Panel._meta_snp_name k = scenario3Panel._meta_snp_name k2 → k = k2 := by
    intro k k2 hk hk2 h
    have hk3 := (scenario3_candidate_iff k).1 hk
    have hk23 := (scenario3_candidate_iff k2).1 hk2
    interval_cases k <;> interval_cases k2 <;> simp [scenario3Panel] at h ⊢
  have hchr : ∀ k k2,
      clumping_candidate scenario3Panel scenario3_pval (fun _ => true) (1/20000000) k →
      clumping_candidate scenario3Panel scenario3_pval (fun _ => true) (1/20000000) k2 →
      scenario3Panel._chr (clumping_geno_indx scenario3Panel k)
        = scenario3Panel._chr (clumping_geno_indx scenario3Panel k2) := fun _ _ _ _ => rfl
  have hbp : ∀ k k2,
      clumping_candidate scenario3Panel scenario3_pval (fun _ => true) (1/20000000) k →
      clumping_candidate scenario3Panel scenario3_pval (fun _ => true) (1/20000000) k2 →
      |scenario3Panel._bp (clumping_geno_indx scenario3Panel k)
        - scenario3Panel._bp (clumping_geno_indx scenario3Panel k2)| < 500 * 1000 := by
    intro k k2 hk hk2
    have hk3 := (scenario3_candidate_iff k).1 hk
    have hk23 := (scenario3_candidate_iff k2).1 hk2
    rw [(scenario3_geno_indx k hk3).1, (scenario3_geno_indx k2 hk23).1, abs_lt]
    interval_cases k <;> interval_cases k2 <;> norm_num [scenario3Panel]
  have hr2 : ∀ k k2,
      clumping_candidate scenario3Panel scenario3_pval (fun _ => true) (1/20000000) k →
      clumping_candidate scenario3Panel scenario3_pval (fun _ => true) (1/20000000) k2 →
      k ≠ k2 →
      scenario3Panel.makex_r (clumping_geno_indx_center scenario3Panel k)
          (clumping_geno_indx_center scenario3Panel k2)
        * scenario3Panel.makex_r (clumping_geno_indx_center scenario3Panel k)
          (clumping_geno_indx_center scenario3Panel k2) ≥ 1/10 := by
    intro k k2 _ _ _
    simp only [scenario3Panel]
    split_ifs <;> norm_num
  have hex : ∃ k,
      clumping_candidate scenario3Panel scenario3_pval (fun _ => true) (1/20000000) k :=
    ⟨0, (scenario3_candidate_iff 0).2 (by decide)⟩
  refine ⟨⟨hremain, hcand, hnames, hbp, hr2, hex, by norm_num⟩, ?_⟩
  obtain ⟨k0, hk0, hmin, hres⟩ := clumping_single_index_in_range scenario3Panel scenario3_pval
    (fun _ => true) (1/20000000) (1/20000000) 500 (1/10) hremain scenario3_panel_ordered
    hcand hnames hchr hbp hr2 hex (by norm_num)
  have hk03 := (scenario3_candidate_iff k0).1 hk0
  have h0 := hmin 0 ((scenario3_candidate_iff 0).2 (by decide))
  have hk00 : k0 = 0 := by
    interval_cases k0
    · rfl
    · norm_num [scenario3_pval, vecOf] at h0
    · norm_num [scenario3_pval, vecOf] at h0
  rw [hres, hk00]
  simp [scenario3Panel]

theorem scenario3_snp_pvalbuf :
    clumping_snp_pvalbuf scenario3Panel scenario3_pval (fun _ => true)
      = [(1/10000000000, 0), (1/1000000000, 1), (1/100000000, 2)] := by
  simp [clumping_snp_pvalbuf, scenario3Panel, scenario3_pval, vecOf, lookup_cons_ite,
    List.insertionSort, List.orderedInsert]
  norm_num [pairLE]

theorem scenario3_init_map :
    clumping_init_map scenario3Panel
      [(1/10000000000, 0), (1/1000000000, 1), (1/100000000, 2)]
      (1/20000000) = [("s1", false), ("s2", false), ("s3", false)] := by
  simp [clumping_init_map, scenario3Panel, mapInsert, lookup_cons_ite]
  norm_num
  simp

/-- C11 (the code at the failing input): scenario 3 of the specification (three SNPs on
chromosome 1 at 10, 50 and 100 kb, pairwise correlation `19/20`,
`p = (1e-10, 1e-9, 1e-8)`, `r²` threshold `0.1`) with a window of 3000000 kb. The three
SNPs are pairwise closer than `3000000 · 1000` bp, but this product is outside the range
of `int`; with the value `-2147483648` that the conversion yields no neighbour is inside
the window and all three SNPs are returned as index SNPs, whereas with the window of
500 kb only `s1` is. -/
theorem C11_window_overflow :
    (∀ a b : ℕ, a < 3 → b < 3 →
      |scenario3Panel._bp a - scenario3Panel._bp b| < 3000000 * 1000) ∧
    ¬ ((3000000 : ℤ) * 1000 ≤ 2147483647) ∧
    clumping_window scenario3Panel 3000000 = -2147483648 ∧
    clumping_meta scenario3Panel scenario3_pval (fun _ => true) (1/20000000) (1/20000000)
      3000000 (1/10) = ["s1", "s2", "s3"] ∧
    clumping_meta scenario3Panel scenario3_pval (fun _ => true) (1/20000000) (1/20000000)
      500 (1/10) = ["s1"] := by
  have hw : clumping_window scenario3Panel 3000000 = -2147483648 := by
    norm_num [clumping_window, scenario3Panel]
  have hw2 : clumping_window scenario3Panel 500 = 500000 := by
    norm_num [clumping_window]
  refine ⟨?_, by norm_num, hw, ?_, ?_⟩
  · intro a b ha hb
    rw [abs_lt]
    interval_cases a <;> interval_cases b <;> norm_num [scenario3Panel]
  · unfold clumping_meta
    rw [scenario3_snp_pvalbuf, hw]
    simp only []
    rw [scenario3_init_map]
    simp [List.range_succ, clumping_step, mapInsert, lookup_cons_ite, scenario3Panel,
      clumping_walk, List.indexOf_cons, List.range']
  · unfold clumping_meta
    rw [scenario3_snp_pvalbuf, hw2]
    simp only []
    rw [scenario3_init_map]
    have hr : (10 : ℚ)⁻¹ ≤ 19 / 20 * (19 / 20) := by norm_num
    simp [List.range_succ, clumping_step, mapInsert, mapSet, lookup_cons_ite, scenario3Panel,
      clumping_walk, List.indexOf_cons, List.range', hr]

/-- The number of values left by sorting followed by `std::unique` is the number of
distinct values. -/
theorem sort_unique_length {α : Type} [LinearOrder α] (l : List α) :
    (List.destutter (fun a b => a ≠ b) (List.insertionSort (fun a b => a ≤ b) l)).length
      = l.dedup.length := by
  apply List.Perm.length_eq
  rw [List.perm_ext_iff_of_nodup]
  · intro x
    rw [mem_sort_unique, List.mem_dedup]
  · exact (sort_unique_sorted l).imp (fun h => ne_of_lt h)
  · exact List.nodup_dedup l

/-- C15 (the code at the failing input): `s1` is in the reference-panel map, at panel index 0, with the panel
pair `(A, G)`. The test `snpindx > 0` fails for index 0, so `remove_bad_snps` takes as
reference pair the pair `(G, A)` of the first valid trait; for `s2`, at panel index 1,
it takes the panel pair. -/
theorem C15_reference_pair_at_panel_index_zero :
    harm_plink_snp_name_map.lookup (harm_snp_name 0) = some 0 ∧
    (harm_ref_a1 0, harm_ref_a2 0) = ("A", "G") ∧
    remove_bad_snps_reference harm_snp_name (fun _ _ => true) harm_flipped
      harm_plink_snp_name_map harm_ref_a1 harm_ref_a2 1 0 = ["G", "A"] ∧
    remove_bad_snps_reference harm_snp_name (fun _ _ => true) harm_flipped
      harm_plink_snp_name_map harm_ref_a1 harm_ref_a2 1 1 = ["A", "G"] := by
  refine ⟨?_, ?_, ?_, ?_⟩
  · simp [harm_plink_snp_name_map, harm_snp_name, lookup_cons_ite]
  · simp [harm_ref_a1, harm_ref_a2]
  · simp [remove_bad_snps_reference, remove_bad_snps_snpindx, harm_plink_snp_name_map,
      harm_snp_name, lookup_cons_ite, remove_bad_snps_first_valid, List.range_succ,
      harm_flipped, strMatOf]
  · simp [remove_bad_snps_reference, remove_bad_snps_snpindx, harm_plink_snp_name_map,
      harm_snp_name, lookup_cons_ite, harm_ref_a1, harm_ref_a2]

/-- The number of strings left by sorting followed by `std::unique` is the number of
distinct strings. -/
theorem sort_unique_length_string (l : List String) :
    (List.destutter (fun a b => a ≠ b) (List.insertionSort (fun a b => a ≤ b) l)).length
      = l.dedup.length := by
  have h := sort_unique_length l
  convert h using 3

theorem harm_flipped_step0 :
    remove_bad_snps_step harm_snp_name [0, 1] (fun _ => 0) (fun _ _ => true) harm_se harm_pval
      harm_n harm_plink_snp_name_map harm_ref_a1 harm_ref_a2 1 (harm_flipped, []) 0
      = (harm_flipped, []) := by
  unfold remove_bad_snps_step
  simp only [sort_unique_length_string]
  simp [remove_bad_snps_traits, remove_bad_snps_reference,
    remove_bad_snps_snpindx, remove_bad_snps_first_valid, remain_read,
    harm_plink_snp_name_map, harm_snp_name, lookup_cons_ite, List.range_succ, harm_flipped,
    strMatOf, optMatOf, harm_se, harm_pval, harm_n]
  norm_num
  all_goals decide

theorem harm_flipped_step1 :
    remove_bad_snps_step harm_snp_name [0, 1] (fun _ => 0) (fun _ _ => true) harm_se harm_pval
      harm_n harm_plink_snp_name_map harm_ref_a1 harm_ref_a2 1 (harm_flipped, []) 1
      = (remove_bad_snps_flip harm_flipped 0 1, []) := by
  unfold remove_bad_snps_step
  simp only [sort_unique_length_string]
  simp [remove_bad_snps_traits, remove_bad_snps_reference,
    remove_bad_snps_snpindx, remove_bad_snps_first_valid, remain_read,
    harm_plink_snp_name_map, harm_snp_name, lookup_cons_ite, List.range_succ, harm_flipped,
    strMatOf, optMatOf, harm_se, harm_pval, harm_n, harm_ref_a1, harm_ref_a2]
  norm_num
  all_goals decide

/-- C17 (the code at the failing input): `s1` is in the reference panel (panel index 0) with effect allele
`A`, and the only trait reports it with the alleles `(G, A)`. `remove_bad_snps` does not
report `s1` as bad and leaves its record as it is, so afterwards the effect allele of
the valid trait is `G`, not the panel allele `A`. The record of `s2` (panel index 1) is
aligned to the panel. -/
theorem C17_effect_allele_at_panel_index_zero :
    harm_plink_snp_name_map.lookup (harm_snp_name 0) = some 0 ∧ harm_ref_a1 0 = "A" ∧
    (remove_bad_snps harm_snp_name [0, 1] (fun _ => 0) (fun _ _ => true) harm_flipped harm_se
      harm_pval harm_n harm_plink_snp_name_map harm_ref_a1 harm_ref_a2 1 0).2 = [] ∧
    (remove_bad_snps harm_snp_name [0, 1] (fun _ => 0) (fun _ _ => true) harm_flipped harm_se
      harm_pval harm_n harm_plink_snp_name_map harm_ref_a1 harm_ref_a2 1 0).1.snp_a1 0 0 = "G" ∧
    (remove_bad_snps harm_snp_name [0, 1] (fun _ => 0) (fun _ _ => true) harm_flipped harm_se
      harm_pval harm_n harm_plink_snp_name_map harm_ref_a1 harm_ref_a2 1 0).1.snp_a1 0 1 = "A" := by
  have hfold : (List.range ([0, 1] : List ℕ).length).foldl
      (remove_bad_snps_step harm_snp_name [0, 1] (fun _ => 0) (fun _ _ => true) harm_se harm_pval
        harm_n harm_plink_snp_name_map harm_ref_a1 harm_ref_a2 (1 + 0)) (harm_flipped, [])
      = (remove_bad_snps_flip harm_flipped 0 1, []) := by
    simp only [List.length_cons, List.length_nil, List.range_succ, List.range_zero,
      List.nil_append, List.cons_append, List.foldl_cons, List.foldl_nil, Nat.add_zero,
      Nat.zero_add, Nat.reduceAdd]
    rw [harm_flipped_step0, harm_flipped_step1]
  unfold remove_bad_snps
  rw [hfold]
  refine ⟨?_, ?_, ?_, ?_, ?_⟩
  · simp [harm_plink_snp_name_map, harm_snp_name, lookup_cons_ite]
  · simp [harm_ref_a1]
  · rfl
  · simp [remove_bad_snps_flip, harm_flipped, strMatOf]
  · simp [remove_bad_snps_flip, harm_flipped, strMatOf]

/-- A round of the SNP loop of `remove_bad_snps` keeps the bad SNPs found so far. -/
theorem remove_bad_snps_step_mem (snp_name : ℕ → String) (snp_remain : List ℕ)
    (remain_oob : ℕ → ℕ) (snp_flag : ℕ → ℕ → Bool) (snp_se snp_pval snp_n : ℕ → ℕ → Option ℚ)
    (plink_snp_name_map : List (String × ℕ)) (snp_ref_a1 snp_ref_a2 : ℕ → String)
    (npheno : ℕ) (st : MetaArrays × List String) (i : ℕ) (x : String) (h : x ∈ st.2) :
    x ∈ (remove_bad_snps_step snp_name snp_remain remain_oob snp_flag snp_se snp_pval snp_n
      plink_snp_name_map snp_ref_a1 snp_ref_a2 npheno st i).2 := by
  unfold remove_bad_snps_step
  simp only
  split_ifs
  · exact List.mem_append_left _ h
  · exact h

/-- The SNP loop of `remove_bad_snps` keeps the bad SNPs found so far. -/
theorem remove_bad_snps_fold_mem (snp_name : ℕ → String) (snp_remain : List ℕ)
    (remain_oob : ℕ → ℕ) (snp_flag : ℕ → ℕ → Bool) (snp_se snp_pval snp_n : ℕ → ℕ → Option ℚ)
    (plink_snp_name_map : List (String × ℕ)) (snp_ref_a1 snp_ref_a2 : ℕ → String)
    (npheno : ℕ) (x : String) (l : List ℕ) :
    ∀ st : MetaArrays × List String, x ∈ st.2 →
      x ∈ (l.foldl (remove_bad_snps_step snp_name snp_remain remain_oob snp_flag snp_se snp_pval
        snp_n plink_snp_name_map snp_ref_a1 snp_ref_a2 npheno) st).2 := by
  induction l with
  | nil => intro st h; exact h
  | cons i l ih =>
    intro st h
    simp only [List.foldl_cons]
    exact ih _ (remove_bad_snps_step_mem _ _ _ _ _ _ _ _ _ _ _ st i x h)

theorem harm_mismatch_step0 :
    remove_bad_snps_step harm_snp_name [0, 1] (fun _ => 0) (fun _ _ => true) harm_se harm_pval
      harm_n harm_plink_snp_name_map harm_ref_a1 harm_ref_a2 1 (harm_mismatch, []) 0
      = (harm_mismatch, []) := by
  unfold remove_bad_snps_step
  simp only [sort_unique_length_string]
  simp [remove_bad_snps_traits, remove_bad_snps_reference,
    remove_bad_snps_snpindx, remove_bad_snps_first_valid, remain_read,
    harm_plink_snp_name_map, harm_snp_name, lookup_cons_ite, List.range_succ, harm_mismatch,
    strMatOf, optMatOf, harm_se, harm_pval, harm_n]
  norm_num
  all_goals decide

theorem harm_mismatch_step1 :
    (remove_bad_snps_step harm_snp_name [0, 1] (fun _ => 0) (fun _ _ => true) harm_se harm_pval
      harm_n harm_plink_snp_name_map harm_ref_a1 harm_ref_a2 1 (harm_mismatch, []) 1).2
      = ["s2"] := by
  unfold remove_bad_snps_step
  simp only [sort_unique_length_string]
  simp [remove_bad_snps_traits, remove_bad_snps_reference,
    remove_bad_snps_snpindx, remove_bad_snps_first_valid, remain_read,
    harm_plink_snp_name_map, harm_snp_name, lookup_cons_ite, List.range_succ, harm_mismatch,
    strMatOf, optMatOf, harm_se, harm_pval, harm_n, harm_ref_a1, harm_ref_a2]
  norm_num
  all_goals decide

theorem harm_missing_step0 (remain_oob : ℕ → ℕ) :
    (remove_bad_snps_step harm_snp_name [1, 2] remain_oob (fun _ _ => true) harm3_se harm3_pval
      harm3_n [] harm_ref_a1 harm_ref_a2 1 (harm_missing, []) 0).2 = ["s2"] := by
  unfold remove_bad_snps_step
  simp only [sort_unique_length_string]
  simp [remove_bad_snps_traits, remove_bad_snps_reference,
    remove_bad_snps_snpindx, remove_bad_snps_first_valid, remain_read,
    harm_snp_name, List.range_succ, harm_missing,
    strMatOf, optMatOf, harm3_se, harm3_pval, harm3_n]

/-- C16 (the code at the failing input): two inputs on which the bad-SNP report differs from the claim.
First, `s1` is the panel SNP of index 0 with the panel pair `(A, G)` and its only trait
reports the alleles `(C, T)`: the four letters A, C, G, T are seen, but
`remove_bad_snps` reports only `s2` (panel index 1, same data) as bad. Second, with
`snp_remain = [1, 2]` the SNP `s2` has no missing value, a standard error of `0.01` and
the two alleles `(A, G)`, but it is reported as bad, because the effect is tested for NaN
in the row `snp_remain[snp_remain[0]] = 2` of the SNP `s3`. -/
theorem C16_bad_snp_report :
    (harm_plink_snp_name_map.lookup (harm_snp_name 0) = some 0 ∧
      [harm_ref_a1 0, harm_ref_a2 0, harm_mismatch.snp_a1 0 0, harm_mismatch.snp_a2 0 0]
        = ["A", "G", "C", "T"] ∧
      (remove_bad_snps harm_snp_name [0, 1] (fun _ => 0) (fun _ _ => true) harm_mismatch harm_se
        harm_pval harm_n harm_plink_snp_name_map harm_ref_a1 harm_ref_a2 1 0).2 = ["s2"]) ∧
    ((harm_missing.snp_b 1 0, harm3_se 1 0, harm3_pval 1 0, harm3_n 1 0)
        = (some (1/5), some (1/100), some (1/2), some 1000) ∧
      [harm_missing.snp_a1 0 1, harm_missing.snp_a2 0 1] = ["A", "G"] ∧
      ∀ remain_oob : ℕ → ℕ,
        harm_snp_name 1 ∈ (remove_bad_snps harm_snp_name [1, 2] remain_oob (fun _ _ => true)
          harm_missing harm3_se harm3_pval harm3_n [] harm_ref_a1 harm_ref_a2 1 0).2) := by
  refine ⟨⟨?_, ?_, ?_⟩, ?_, ?_, ?_⟩
  · simp [harm_plink_snp_name_map, harm_snp_name, lookup_cons_ite]
  · simp [harm_ref_a1, harm_ref_a2, harm_mismatch, strMatOf]
  · unfold remove_bad_snps
    simp only [List.length_cons, List.length_nil, List.range_succ, List.range_zero,
      List.nil_append, List.cons_append, List.foldl_cons, List.foldl_nil, Nat.add_zero,
      Nat.zero_add, Nat.reduceAdd]
    rw [harm_mismatch_step0, harm_mismatch_step1]
    rfl
  · simp [harm_missing, harm3_se, harm3_pval, harm3_n, optMatOf]
  · simp [harm_missing, strMatOf]
  · intro remain_oob
    unfold remove_bad_snps
    simp only [List.length_cons, List.length_nil, List.range_succ, List.range_zero,
      List.nil_append, List.cons_append, List.foldl_cons, List.foldl_nil, Nat.add_zero,
      Nat.zero_add, Nat.reduceAdd]
    rw [(List.perm_insertionSort _ _).mem_iff]
    apply remove_bad_snps_step_mem
    rw [harm_missing_step0]
    simp [harm_snp_name]

theorem harm_two_traits_first_run (remain_oob : ℕ → ℕ) :
    remove_bad_snps harm_snp_name [0, 1, 2] remain_oob harm_two_traits_flag harm_two_traits
      harm_two_traits_se harm_two_traits_val harm_two_traits_val [] harm_ref_a1 harm_ref_a2 1 1
      = (harm_two_traits, ["s1"]) := by
  have h0 : remove_bad_snps_step harm_snp_name [0, 1, 2] remain_oob harm_two_traits_flag
      harm_two_traits_se harm_two_traits_val harm_two_traits_val [] harm_ref_a1 harm_ref_a2 2
      (harm_two_traits, []) 0 = (harm_two_traits, ["s1"]) := by
    unfold remove_bad_snps_step
    simp only [sort_unique_length_string]
    simp [remove_bad_snps_traits, remove_bad_snps_reference,
      remove_bad_snps_snpindx, remove_bad_snps_first_valid, remain_read,
      harm_snp_name, List.range_succ, harm_two_traits, harm_two_traits_flag, flagMatOf,
      strMatOf, optMatOf, harm_two_traits_se, harm_two_traits_val]
    norm_num
  have h1 : remove_bad_snps_step harm_snp_name [0, 1, 2] remain_oob harm_two_traits_flag
      harm_two_traits_se harm_two_traits_val harm_two_traits_val [] harm_ref_a1 harm_ref_a2 2
      (harm_two_traits, ["s1"]) 1 = (harm_two_traits, ["s1"]) := by
    unfold remove_bad_snps_step
    simp only [sort_unique_length_string]
    simp [remove_bad_snps_traits, remove_bad_snps_reference,
      remove_bad_snps_snpindx, remove_bad_snps_first_valid, remain_read,
      harm_snp_name, List.range_succ, harm_two_traits, harm_two_traits_flag, flagMatOf,
      strMatOf, optMatOf, harm_two_traits_se, harm_two_traits_val]
    norm_num
    all_goals decide
  have h2 : remove_bad_snps_step harm_snp_name [0, 1, 2] remain_oob harm_two_traits_flag
      harm_two_traits_se harm_two_traits_val harm_two_traits_val [] harm_ref_a1 harm_ref_a2 2
      (harm_two_traits, ["s1"]) 2 = (harm_two_traits, ["s1"]) := by
    unfold remove_bad_snps_step
    simp only [sort_unique_length_string]
    simp [remove_bad_snps_traits, remove_bad_snps_reference,
      remove_bad_snps_snpindx, remove_bad_snps_first_valid, remain_read,
      harm_snp_name, List.range_succ, harm_two_traits, harm_two_traits_flag, flagMatOf,
      strMatOf, optMatOf, harm_two_traits_se, harm_two_traits_val]
    norm_num
    all_goals decide
  unfold remove_bad_snps
  simp only [List.length_cons, List.length_nil, List.range_succ, List.range_zero,
    List.nil_append, List.cons_append, List.foldl_cons, List.foldl_nil, Nat.add_zero,
    Nat.zero_add, Nat.reduceAdd]
  rw [h0, h1, h2]
  rfl

theorem harm_two_traits_second_run_step0 (remain_oob : ℕ → ℕ) :
    (remove_bad_snps_step harm_snp_name [1, 2] remain_oob harm_two_traits_flag
      harm_two_traits_se harm_two_traits_val harm_two_traits_val [] harm_ref_a1 harm_ref_a2 2
      (harm_two_traits, []) 0).2 = ["s2"] := by
  unfold remove_bad_snps_step
  simp only [sort_unique_length_string]
  simp [remove_bad_snps_traits, remove_bad_snps_reference,
    remove_bad_snps_snpindx, remove_bad_snps_first_valid, remain_read,
    harm_snp_name, List.range_succ, harm_two_traits, harm_two_traits_flag, flagMatOf,
    strMatOf, optMatOf, harm_two_traits_se, harm_two_traits_val]
  norm_num

/-- C18 (the code at the failing input): three SNPs and two traits, all with the alleles `(A, G)`. The first
run (`snp_remain = [0, 1, 2]`) leaves the arrays as they are and reports `s1` as bad
(standard error below `1e-6`). The second run, on the arrays of the first run with `s1`
removed from `snp_remain`, reports the SNP `s2` as bad although none of its values is
missing: for position 0 the effect is tested for NaN in the row
`snp_remain[snp_remain[0]] = snp_remain[1] = 2`, where the second trait has no record.
This holds whatever the read of `snp_remain[2]`, past the end of the vector, returns in
the next round. -/
theorem C18_second_run_reports_bad_snp : ∀ remain_oob : ℕ → ℕ,
    remove_bad_snps harm_snp_name [0, 1, 2] remain_oob harm_two_traits_flag harm_two_traits
        harm_two_traits_se harm_two_traits_val harm_two_traits_val [] harm_ref_a1 harm_ref_a2 1 1
      = (harm_two_traits, ["s1"]) ∧
    (harm_two_traits.snp_b 1 0, harm_two_traits.snp_b 1 1) = (some (1/5), some (1/5)) ∧
    harm_snp_name 1 ∈ (remove_bad_snps harm_snp_name [1, 2] remain_oob harm_two_traits_flag
      (remove_bad_snps harm_snp_name [0, 1, 2] remain_oob harm_two_traits_flag harm_two_traits
        harm_two_traits_se harm_two_traits_val harm_two_traits_val [] harm_ref_a1 harm_ref_a2
        1 1).1
      harm_two_traits_se harm_two_traits_val harm_two_traits_val [] harm_ref_a1 harm_ref_a2
      1 1).2 := by
  intro remain_oob
  refine ⟨harm_two_traits_first_run remain_oob, ?_, ?_⟩
  · simp [harm_two_traits, optMatOf]
  · rw [harm_two_traits_first_run]
    unfold remove_bad_snps
    simp only [List.length_cons, List.length_nil, List.range_succ, List.range_zero,
      List.nil_append, List.cons_append, List.foldl_cons, List.foldl_nil, Nat.add_zero,
      Nat.zero_add, Nat.reduceAdd]
    rw [(List.perm_insertionSort _ _).mem_iff]
    apply remove_bad_snps_step_mem
    rw [harm_two_traits_second_run_step0]
    simp [harm_snp_name]

/-- The flags after one data row: the flag of the row's SNP is set, whatever the fields
of the row are. -/
theorem read_single_metafile_row_flag (tx : TextRoutines)
    (st : MetaColumns × List (Option ℚ)) (snp_indx : ℕ) (line_elements : List String) (i : ℕ) :
    (read_single_metafile_row tx st snp_indx line_elements).1.snp_flag i
      = if i = snp_indx then true else st.1.snp_flag i := rfl

/-- The reading loop returns when every line has 8 tokens, and then the flag of index
`i` is set exactly when it was set before or a data line (any line but line 1) carries
a SNP name that the registry maps to `i`. -/
theorem read_single_metafile_loop_flag (tx : TextRoutines) (id_map : List (String × ℕ))
    (i : ℕ) :
    ∀ (lines : List (List String)) (line_number : ℕ) (st : MetaColumns × List (Option ℚ)),
      (∀ line ∈ lines, line.length = 8) →
      ∃ st2, read_single_metafile_loop tx id_map lines line_number st = .ok st2 ∧
        (st2.1.snp_flag i = true ↔
          st.1.snp_flag i = true ∨
          ∃ k, k < lines.length ∧ line_number + k ≠ 1 ∧
            id_map.lookup ((lines.getD k []).getD 0 "") = some i) := by
  intro lines
  induction lines with
  | nil =>
    intro ln st _
    exact ⟨st, rfl, by simp⟩
  | cons line rest ih =>
    intro ln st h8
    have hline : line.length = 8 := h8 line (List.mem_cons_self _ _)
    have hrest : ∀ l ∈ rest, l.length = 8 := fun l hl => h8 l (List.mem_cons_of_mem _ hl)
    have hshift : ∀ (P : Prop), (P ∨ ∃ k, k < rest.length ∧ ln + 1 + k ≠ 1 ∧
          id_map.lookup ((rest.getD k []).getD 0 "") = some i) ↔
        (P ∨ ∃ k, 0 < k ∧ k < (line :: rest).length ∧ ln + k ≠ 1 ∧
          id_map.lookup (((line :: rest).getD k []).getD 0 "") = some i) := by
      intro P
      constructor
      · rintro (h | ⟨k, hk, hne, hl⟩)
        · exact Or.inl h
        · exact Or.inr ⟨k + 1, Nat.succ_pos k, by simpa using hk, by omega, by simpa using hl⟩
      · rintro (h | ⟨k, hk0, hk, hne, hl⟩)
        · exact Or.inl h
        · obtain ⟨k2, rfl⟩ := Nat.exists_eq_succ_of_ne_zero (Nat.pos_iff_ne_zero.1 hk0)
          exact Or.inr ⟨k2, by simpa using hk, by omega, by simpa using hl⟩
    unfold read_single_metafile_loop
    rw [if_neg (by simp [hline])]
    by_cases hln : ln = 1
    · rw [if_pos hln]
      obtain ⟨st2, hok, hflag⟩ := ih (ln + 1) st hrest
      refine ⟨st2, hok, ?_⟩
      rw [hflag, hshift]
      constructor
      · rintro (h | ⟨k, _, hk, hne, hl⟩)
        · exact Or.inl h
        · exact Or.inr ⟨k, hk, hne, hl⟩
      · rintro (h | ⟨k, hk, hne, hl⟩)
        · exact Or.inl h
        · exact Or.inr ⟨k, by omega, hk, hne, hl⟩
    · rw [if_neg hln]
      cases hlook : id_map.lookup (line.getD 0 "") with
      | none =>
        simp only
        obtain ⟨st2, hok, hflag⟩ := ih (ln + 1) st hrest
        refine ⟨st2, hok, ?_⟩
        rw [hflag, hshift]
        constructor
        · rintro (h | ⟨k, _, hk, hne, hl⟩)
          · exact Or.inl h
          · exact Or.inr ⟨k, hk, hne, hl⟩
        · rintro (h | ⟨k, hk, hne, hl⟩)
          · exact Or.inl h
          · rcases Nat.eq_zero_or_pos k with h0 | h0
            · subst h0
              simp only [List.getD_cons_zero] at hl
              rw [hlook] at hl
              exact absurd hl (by simp)
            · exact Or.inr ⟨k, h0, hk, hne, hl⟩
      | some snp_indx =>
        simp only
        obtain ⟨st2, hok, hflag⟩ := ih (ln + 1)
          (read_single_metafile_row tx st snp_indx line) hrest
        refine ⟨st2, hok, ?_⟩
        rw [hflag, hshift, read_single_metafile_row_flag]
        constructor
        · rintro (h | ⟨k, _, hk, hne, hl⟩)
          · by_cases hi : i = snp_indx
            · right
              refine ⟨0, by simp, by omega, ?_⟩
              simp only [List.getD_cons_zero]
              rw [hlook, hi]
            · rw [if_neg hi] at h
              exact Or.inl h
          · exact Or.inr ⟨k, hk, hne, hl⟩
        · rintro (h | ⟨k, hk, hne, hl⟩)
          · left
            split_ifs
            · rfl
            · exact h
          · rcases Nat.eq_zero_or_pos k with h0 | h0
            · subst h0
              simp only [List.getD_cons_zero] at hl
              rw [hlook] at hl
              left
              rw [if_pos (Option.some.inj hl).symm]
            · exact Or.inr ⟨k, h0, hk, hne, hl⟩

/-- C20 (as stated, refuted): a file with the header and one row for `s1` whose
frequency is `NA`. The row stores NaN as frequency and still sets the validity flag of
`s1`; the missing field only keeps the row out of the median of `vp`. -/
theorem C20_flag_set_on_missing_field_counterexample :
    ∃ cols,
      read_single_metafile exampleText (some example_metafile_missing) [("s1", 0)] emptyColumns
        = .ok (some 0, cols) ∧
      cols.snp_flag 0 = true ∧ cols.snp_freq 0 = none := by
  refine ⟨(read_single_metafile_row exampleText (emptyColumns, [])
    0 ["s1", "A", "G", "NA", "0.1", "0.01", "0.5", "1000"]).1, ?_, ?_, ?_⟩
  · simp [read_single_metafile, read_single_metafile_loop, example_metafile_missing,
      lookup_cons_ite, read_single_metafile_row, read_single_metafile_field]
  · rfl
  · simp [read_single_metafile_row, read_single_metafile_field]

/-- C20 (amended): when every line of the file has 8 tokens, `read_single_metafile`
returns, and afterwards the validity flag of registry index `i` is set exactly when it
was set before or the file has a data row (any line after the header) whose SNP name the
registry maps to `i`, whether or not a field of that row is missing. -/
theorem C20_read_single_metafile_flag (tx : TextRoutines) (lines : List (List String))
    (id_map : List (String × ℕ)) (cols : MetaColumns)
    (h8 : ∀ line ∈ lines, line.length = 8) :
    ∃ vp cols2, read_single_metafile tx (some lines) id_map cols = .ok (vp, cols2) ∧
      ∀ i, (cols2.snp_flag i = true ↔
        cols.snp_flag i = true ∨
        ∃ k, 0 < k ∧ k < lines.length ∧
          id_map.lookup ((lines.getD k []).getD 0 "") = some i) := by
  obtain ⟨st2, hok, _⟩ := read_single_metafile_loop_flag tx id_map 0 lines 1 (cols, []) h8
  refine ⟨if st2.2.length > 0 then tx.median st2.2 else some 0, st2.1, ?_, ?_⟩
  · unfold read_single_metafile
    simp only [hok]
  · intro i
    obtain ⟨st3, hok3, hflag⟩ := read_single_metafile_loop_flag tx id_map i lines 1 (cols, []) h8
    rw [hok] at hok3
    have heq : st2 = st3 := Except.ok.inj hok3
    rw [heq, hflag]
    constructor
    · rintro (h | ⟨k, hk, hne, hl⟩)
      · exact Or.inl h
      · exact Or.inr ⟨k, by omega, hk, hl⟩
    · rintro (h | ⟨k, hk0, hk, hl⟩)
      · exact Or.inl h
      · exact Or.inr ⟨k, hk, by omega, hl⟩

/-- Witness for C20 on the file with the header and one row for `s1` whose frequency is
`NA`: the function returns and the flag of `s1` (index 0) is set. -/
theorem C20_read_single_metafile_flag_witness :
    (∀ line ∈ example_metafile_missing, line.length = 8) ∧
    ∃ vp cols2, read_single_metafile exampleText (some example_metafile_missing) [("s1", 0)]
        emptyColumns = .ok (vp, cols2) ∧ cols2.snp_flag 0 = true := by
  have h8 : ∀ line ∈ example_metafile_missing, line.length = 8 := by
    intro line hl
    simp only [example_metafile_missing, List.mem_cons, List.mem_singleton, List.not_mem_nil,
      or_false] at hl
    rcases hl with rfl | rfl <;> rfl
  obtain ⟨vp, cols2, hok, hflag⟩ := C20_read_single_metafile_flag exampleText
    example_metafile_missing [("s1", 0)] emptyColumns h8
  refine ⟨h8, vp, cols2, hok, (hflag 0).2 (Or.inr ⟨1, by decide, by decide, ?_⟩)⟩
  simp [example_metafile_missing, lookup_cons_ite]

theorem harm_aligned_run :
    remove_bad_snps harm_snp_name [0, 1] (fun _ => 0) (fun _ _ => true) harm_aligned harm_se
      harm_pval harm_n harm_plink_snp_name_map harm_ref_a1 harm_ref_a2 1 0
      = (harm_aligned, []) := by
  have h0 : remove_bad_snps_step harm_snp_name [0, 1] (fun _ => 0) (fun _ _ => true) harm_se
      harm_pval harm_n harm_plink_snp_name_map harm_ref_a1 harm_ref_a2 1 (harm_aligned, []) 0
      = (harm_aligned, []) := by
    unfold remove_bad_snps_step
    simp only [sort_unique_length_string]
    simp [remove_bad_snps_traits, remove_bad_snps_reference,
      remove_bad_snps_snpindx, remove_bad_snps_first_valid, remain_read,
      harm_plink_snp_name_map, harm_snp_name, lookup_cons_ite, List.range_succ, harm_aligned,
      strMatOf, optMatOf, harm_se, harm_pval, harm_n]
    norm_num
    all_goals decide
  have h1 : remove_bad_snps_step harm_snp_name [0, 1] (fun _ => 0) (fun _ _ => true) harm_se
      harm_pval harm_n harm_plink_snp_name_map harm_ref_a1 harm_ref_a2 1 (harm_aligned, []) 1
      = (harm_aligned, []) := by
    unfold remove_bad_snps_step
    simp only [sort_unique_length_string]
    simp [remove_bad_snps_traits, remove_bad_snps_reference,
      remove_bad_snps_snpindx, remove_bad_snps_first_valid, remain_read,
      harm_plink_snp_name_map, harm_snp_name, lookup_cons_ite, List.range_succ, harm_aligned,
      strMatOf, optMatOf, harm_se, harm_pval, harm_n, harm_ref_a1, harm_ref_a2]
    norm_num
    all_goals decide
  unfold remove_bad_snps
  simp only [List.length_cons, List.length_nil, List.range_succ, List.range_zero,
    List.nil_append, List.cons_append, List.foldl_cons, List.foldl_nil, Nat.add_zero,
    Nat.zero_add, Nat.reduceAdd]
  rw [h0, h1]
  rfl

theorem harm_strand_flipped_run :
    remove_bad_snps harm_snp_name [0, 1] (fun _ => 0) (fun _ _ => true) harm_strand_flipped
      harm_se harm_pval harm_n harm_plink_snp_name_map harm_ref_a1 harm_ref_a2 1 0
      = (remove_bad_snps_flip harm_strand_flipped 0 1, []) := by
  have h0 : remove_bad_snps_step harm_snp_name [0, 1] (fun _ => 0) (fun _ _ => true) harm_se
      harm_pval harm_n harm_plink_snp_name_map harm_ref_a1 harm_ref_a2 1
      (harm_strand_flipped, []) 0 = (harm_strand_flipped, []) := by
    unfold remove_bad_snps_step
    simp only [sort_unique_length_string]
    simp [remove_bad_snps_traits, remove_bad_snps_reference,
      remove_bad_snps_snpindx, remove_bad_snps_first_valid, remain_read,
      harm_plink_snp_name_map, harm_snp_name, lookup_cons_ite, List.range_succ,
      harm_strand_flipped, strMatOf, optMatOf, harm_se, harm_pval, harm_n]
    norm_num
    all_goals decide
  have h1 : remove_bad_snps_step harm_snp_name [0, 1] (fun _ => 0) (fun _ _ => true) harm_se
      harm_pval harm_n harm_plink_snp_name_map harm_ref_a1 harm_ref_a2 1
      (harm_strand_flipped, []) 1 = (remove_bad_snps_flip harm_strand_flipped 0 1, []) := by
    unfold remove_bad_snps_step
    simp only [sort_unique_length_string]
    simp [remove_bad_snps_traits, remove_bad_snps_reference,
      remove_bad_snps_snpindx, remove_bad_snps_first_valid, remain_read,
      harm_plink_snp_name_map, harm_snp_name, lookup_cons_ite, List.range_succ,
      harm_strand_flipped, strMatOf, optMatOf, harm_se, harm_pval, harm_n, harm_ref_a1,
      harm_ref_a2]
    norm_num
    all_goals decide
  unfold remove_bad_snps
  simp only [List.length_cons, List.length_nil, List.range_succ, List.range_zero,
    List.nil_append, List.cons_append, List.foldl_cons, List.foldl_nil, Nat.add_zero,
    Nat.zero_add, Nat.reduceAdd]
  rw [h0, h1]
  rfl

/-- C19 (the code at the failing input): `s1` and `s2` are the panel SNPs of index 0 and 1, both with the
panel pair `(A, G)`, and the only trait reports them either as `(A, G, 0.3, 0.2)` or in
the other orientation `(G, A, 0.7, -0.2)`. No SNP is reported bad. For `s2` the two
orientations give the same harmonised record `(A, G, 0.3, 0.2)`. For `s1`, at panel
index 0, the record stays as it was given: effect `0.2`, allele `A` in one orientation
and effect `-0.2`, allele `G` in the other. -/
theorem C19_orientation_at_panel_index_zero :
    (remove_bad_snps harm_snp_name [0, 1] (fun _ => 0) (fun _ _ => true) harm_aligned harm_se
      harm_pval harm_n harm_plink_snp_name_map harm_ref_a1 harm_ref_a2 1 0).2 = [] ∧
    (remove_bad_snps harm_snp_name [0, 1] (fun _ => 0) (fun _ _ => true) harm_strand_flipped
      harm_se harm_pval harm_n harm_plink_snp_name_map harm_ref_a1 harm_ref_a2 1 0).2 = [] ∧
    ((fun r : MetaArrays × List String =>
        (r.1.snp_a1 0 1, r.1.snp_a2 0 1, r.1.snp_freq 1 0, r.1.snp_b 1 0))
      (remove_bad_snps harm_snp_name [0, 1] (fun _ => 0) (fun _ _ => true) harm_aligned harm_se
        harm_pval harm_n harm_plink_snp_name_map harm_ref_a1 harm_ref_a2 1 0)
      = ("A", "G", some (3/10), some (1/5))) ∧
    ((fun r : MetaArrays × List String =>
        (r.1.snp_a1 0 1, r.1.snp_a2 0 1, r.1.snp_freq 1 0, r.1.snp_b 1 0))
      (remove_bad_snps harm_snp_name [0, 1] (fun _ => 0) (fun _ _ => true) harm_strand_flipped
        harm_se harm_pval harm_n harm_plink_snp_name_map harm_ref_a1 harm_ref_a2 1 0)
      = ("A", "G", some (3/10), some (1/5))) ∧
    ((fun r : MetaArrays × List String =>
        (r.1.snp_a1 0 0, r.1.snp_a2 0 0, r.1.snp_freq 0 0, r.1.snp_b 0 0))
      (remove_bad_snps harm_snp_name [0, 1] (fun _ => 0) (fun _ _ => true) harm_aligned harm_se
        harm_pval harm_n harm_plink_snp_name_map harm_ref_a1 harm_ref_a2 1 0)
      = ("A", "G", some (3/10), some (1/5))) ∧
    ((fun r : MetaArrays × List String =>
        (r.1.snp_a1 0 0, r.1.snp_a2 0 0, r.1.snp_freq 0 0, r.1.snp_b 0 0))
      (remove_bad_snps harm_snp_name [0, 1] (fun _ => 0) (fun _ _ => true) harm_strand_flipped
        harm_se harm_pval harm_n harm_plink_snp_name_map harm_ref_a1 harm_ref_a2 1 0)
      = ("G", "A", some (7/10), some (-1/5))) := by
  rw [harm_aligned_run, harm_strand_flipped_run]
  refine ⟨rfl, rfl, ?_, ?_, ?_, ?_⟩
  · simp [harm_aligned, strMatOf, optMatOf]
  · simp [remove_bad_snps_flip, harm_strand_flipped, strMatOf, optMatOf]
    norm_num
  · simp [harm_aligned, strMatOf, optMatOf]
  · simp [remove_bad_snps_flip, harm_strand_flipped, strMatOf, optMatOf]

theorem record_flip (A : MetaArrays) (j x j2 x2 : ℕ) :
    (remove_bad_snps_flip A j x).record j2 x2
      = if j2 = j ∧ x2 = x then flip_record (A.record j x) else A.record j2 x2 := by
  unfold MetaArrays.record remove_bad_snps_flip flip_record
  by_cases h : j2 = j ∧ x2 = x
  · have h2 : x2 = x ∧ j2 = j := ⟨h.2, h.1⟩
    simp only [h, h2, and_self, if_true]
  · have h2 : ¬ (x2 = x ∧ j2 = j) := fun h3 => h ⟨h3.2, h3.1⟩
    simp only [h, h2, if_false]

theorem flip_record_flip_record (r : String × String × Option ℚ × Option ℚ) :
    flip_record (flip_record r) = r := by
  obtain ⟨a1, a2, f, b⟩ := r
  unfold flip_record
  simp only [Option.map_map]
  have hf : ((fun f : ℚ => 1 - f) ∘ fun f => 1 - f) = id := by funext q; simp
  have hb : ((fun b : ℚ => -1 * b) ∘ fun b => -1 * b) = id := by funext q; simp
  rw [hf, hb]
  simp

theorem flip_record_isNone (r : String × String × Option ℚ × Option ℚ) :
    (flip_record r).2.2.2.isNone = r.2.2.2.isNone := by
  unfold flip_record
  cases r.2.2.2 <;> rfl

/-- Related states have NaN effects at the same places. -/
theorem orient_rel_isNone (t s : ℕ) (A A2 : MetaArrays) (h : orient_rel t s A A2) (x j : ℕ) :
    (A2.snp_b x j).isNone = (A.snp_b x j).isNone := by
  by_cases hjx : j = t ∧ x = s
  · obtain ⟨rfl, rfl⟩ := hjx
    rcases h.2 with h2 | ⟨h2, _⟩
    · have := congrArg (fun r => r.2.2.2) h2
      simp only [MetaArrays.record] at this
      rw [this]
    · have := congrArg (fun r => r.2.2.2.isNone) h2
      simp only [flip_record_isNone] at this
      simpa [MetaArrays.record] using this
  · have := congrArg (fun r => r.2.2.2) (h.1 j x hjx)
    simp only [MetaArrays.record] at this
    rw [this]

/-- Aligning a record other than the one of trait `t` at SNP `s` in both states keeps
the states related. -/
theorem orient_rel_flip_both (t s : ℕ) (A A2 : MetaArrays) (h : orient_rel t s A A2)
    (j x : ℕ) (hjx : ¬ (j = t ∧ x = s)) :
    orient_rel t s (remove_bad_snps_flip A j x) (remove_bad_snps_flip A2 j x) ∧
    (remove_bad_snps_flip A j x).record t s = A.record t s ∧
    (remove_bad_snps_flip A2 j x).record t s = A2.record t s := by
  have hts : ¬ (t = j ∧ s = x) := fun h2 => hjx ⟨h2.1.symm, h2.2.symm⟩
  have e1 : (remove_bad_snps_flip A j x).record t s = A.record t s := by
    rw [record_flip, if_neg hts]
  have e2 : (remove_bad_snps_flip A2 j x).record t s = A2.record t s := by
    rw [record_flip, if_neg hts]
  refine ⟨⟨?_, ?_⟩, e1, e2⟩
  · intro j2 x2 h2
    rw [record_flip, record_flip]
    by_cases h3 : j2 = j ∧ x2 = x
    · rw [if_pos h3, if_pos h3, h.1 j x hjx]
    · rw [if_neg h3, if_neg h3]
      exact h.1 j2 x2 h2
  · rw [e1, e2]
    have ea : (remove_bad_snps_flip A j x).snp_a1 t s = A.snp_a1 t s :=
      congrArg (fun r => r.1) e1
    have eb : (remove_bad_snps_flip A j x).snp_a2 t s = A.snp_a2 t s :=
      congrArg (fun r => r.2.1) e1
    rw [ea, eb]
    exact h.2

theorem remove_bad_snps_traits_skip (snp_flag : ℕ → ℕ → Bool)
    (snp_se snp_pval snp_n : ℕ → ℕ → Option ℚ) (x row_b j : ℕ) (js : List ℕ)
    (allelebuf : List String) (A : MetaArrays) (hf : snp_flag j x = false) :
    remove_bad_snps_traits snp_flag snp_se snp_pval snp_n x row_b (j :: js) allelebuf A
      = remove_bad_snps_traits snp_flag snp_se snp_pval snp_n x row_b js allelebuf A := by
  rw [remove_bad_snps_traits, if_pos hf]

theorem remove_bad_snps_traits_nan (snp_flag : ℕ → ℕ → Bool)
    (snp_se snp_pval snp_n : ℕ → ℕ → Option ℚ) (x row_b j : ℕ) (js : List ℕ)
    (allelebuf : List String) (A : MetaArrays) (hf : ¬ snp_flag j x = false)
    (hnan : (A.snp_b row_b j).isNone = true ∨ (snp_se x j).isNone = true
      ∨ (snp_pval x j).isNone = true ∨ (snp_n x j).isNone = true) :
    remove_bad_snps_traits snp_flag snp_se snp_pval snp_n x row_b (j :: js) allelebuf A
      = (allelebuf ++ [A.snp_a1 j x, A.snp_a2 j x], A, false) := by
  rw [remove_bad_snps_traits, if_neg hf, if_pos hnan]

theorem remove_bad_snps_traits_se (snp_flag : ℕ → ℕ → Bool)
    (snp_se snp_pval snp_n : ℕ → ℕ → Option ℚ) (x row_b j : ℕ) (js : List ℕ)
    (allelebuf : List String) (A : MetaArrays) (hf : ¬ snp_flag j x = false)
    (hnan : ¬ ((A.snp_b row_b j).isNone = true ∨ (snp_se x j).isNone = true
      ∨ (snp_pval x j).isNone = true ∨ (snp_n x j).isNone = true))
    (hse : (snp_se x j).getD 0 < 1/1000000) :
    remove_bad_snps_traits snp_flag snp_se snp_pval snp_n x row_b (j :: js) allelebuf A
      = (allelebuf ++ [A.snp_a1 j x, A.snp_a2 j x], A, false) := by
  rw [remove_bad_snps_traits, if_neg hf, if_neg hnan, if_pos hse]

theorem remove_bad_snps_traits_align (snp_flag : ℕ → ℕ → Bool)
    (snp_se snp_pval snp_n : ℕ → ℕ → Option ℚ) (x row_b j : ℕ) (js : List ℕ)
    (allelebuf : List String) (A : MetaArrays) (hf : ¬ snp_flag j x = false)
    (hnan : ¬ ((A.snp_b row_b j).isNone = true ∨ (snp_se x j).isNone = true
      ∨ (snp_pval x j).isNone = true ∨ (snp_n x j).isNone = true))
    (hse : ¬ (snp_se x j).getD 0 < 1/1000000)
    (hal : (allelebuf ++ [A.snp_a1 j x, A.snp_a2 j x]).getD 0 "" ≠ A.snp_a1 j x) :
    remove_bad_snps_traits snp_flag snp_se snp_pval snp_n x row_b (j :: js) allelebuf A
      = remove_bad_snps_traits snp_flag snp_se snp_pval snp_n x row_b js
          (allelebuf ++ [A.snp_a1 j x, A.snp_a2 j x]) (remove_bad_snps_flip A j x) := by
  rw [remove_bad_snps_traits, if_neg hf, if_neg hnan, if_neg hse, if_pos hal]

theorem remove_bad_snps_traits_keep (snp_flag : ℕ → ℕ → Bool)
    (snp_se snp_pval snp_n : ℕ → ℕ → Option ℚ) (x row_b j : ℕ) (js : List ℕ)
    (allelebuf : List String) (A : MetaArrays) (hf : ¬ snp_flag j x = false)
    (hnan : ¬ ((A.snp_b row_b j).isNone = true ∨ (snp_se x j).isNone = true
      ∨ (snp_pval x j).isNone = true ∨ (snp_n x j).isNone = true))
    (hse : ¬ (snp_se x j).getD 0 < 1/1000000)
    (hal : ¬ (allelebuf ++ [A.snp_a1 j x, A.snp_a2 j x]).getD 0 "" ≠ A.snp_a1 j x) :
    remove_bad_snps_traits snp_flag snp_se snp_pval snp_n x row_b (j :: js) allelebuf A
      = remove_bad_snps_traits snp_flag snp_se snp_pval snp_n x row_b js
          (allelebuf ++ [A.snp_a1 j x, A.snp_a2 j x]) A := by
  rw [remove_bad_snps_traits, if_neg hf, if_neg hnan, if_neg hse, if_neg hal]

/-- The trait loop for a SNP `x` other than `s`, run from two related states: the same
`allelebuf` and `iterFlag` result, the states stay related, and the record of trait `t`
at SNP `s` is not touched. -/
theorem remove_bad_snps_traits_other (snp_flag : ℕ → ℕ → Bool)
    (snp_se snp_pval snp_n : ℕ → ℕ → Option ℚ) (t s x row_b : ℕ) (hx : x ≠ s) :
    ∀ (js : List ℕ) (allelebuf : List String) (A A2 : MetaArrays), orient_rel t s A A2 →
      (remove_bad_snps_traits snp_flag snp_se snp_pval snp_n x row_b js allelebuf A2).1
        = (remove_bad_snps_traits snp_flag snp_se snp_pval snp_n x row_b js allelebuf A).1 ∧
      (remove_bad_snps_traits snp_flag snp_se snp_pval snp_n x row_b js allelebuf A2).2.2
        = (remove_bad_snps_traits snp_flag snp_se snp_pval snp_n x row_b js allelebuf A).2.2 ∧
      orient_rel t s
        (remove_bad_snps_traits snp_flag snp_se snp_pval snp_n x row_b js allelebuf A).2.1
        (remove_bad_snps_traits snp_flag snp_se snp_pval snp_n x row_b js allelebuf A2).2.1 ∧
      (remove_bad_snps_traits snp_flag snp_se snp_pval snp_n x row_b js allelebuf A).2.1.record t s
        = A.record t s ∧
      (remove_bad_snps_traits snp_flag snp_se snp_pval snp_n x row_b js allelebuf A2).2.1.record
        t s = A2.record t s := by
  intro js
  induction js with
  | nil =>
    intro buf A A2 h
    rw [remove_bad_snps_traits, remove_bad_snps_traits]
    exact ⟨rfl, rfl, h, rfl, rfl⟩
  | cons j js ih =>
    intro buf A A2 h
    have hjx : ¬ (j = t ∧ x = s) := fun h2 => hx h2.2
    have hrec := h.1 j x hjx
    have ha1 : A2.snp_a1 j x = A.snp_a1 j x := (congrArg (fun r => r.1) hrec).symm
    have ha2 : A2.snp_a2 j x = A.snp_a2 j x := (congrArg (fun r => r.2.1) hrec).symm
    have hnone := orient_rel_isNone t s A A2 h row_b j
    by_cases hf : snp_flag j x = false
    · rw [remove_bad_snps_traits_skip _ _ _ _ _ _ _ _ _ A hf,
        remove_bad_snps_traits_skip _ _ _ _ _ _ _ _ _ A2 hf]
      exact ih buf A A2 h
    · by_cases hnan : (A.snp_b row_b j).isNone = true ∨ (snp_se x j).isNone = true
          ∨ (snp_pval x j).isNone = true ∨ (snp_n x j).isNone = true
      · rw [remove_bad_snps_traits_nan _ _ _ _ _ _ _ _ _ A hf hnan,
          remove_bad_snps_traits_nan _ _ _ _ _ _ _ _ _ A2 hf (by rw [hnone]; exact hnan),
          ha1, ha2]
        exact ⟨rfl, rfl, h, rfl, rfl⟩
      · have hnan2 : ¬ ((A2.snp_b row_b j).isNone = true ∨ (snp_se x j).isNone = true
            ∨ (snp_pval x j).isNone = true ∨ (snp_n x j).isNone = true) := by
          rw [hnone]; exact hnan
        by_cases hse : (snp_se x j).getD 0 < 1/1000000
        · rw [remove_bad_snps_traits_se _ _ _ _ _ _ _ _ _ A hf hnan hse,
            remove_bad_snps_traits_se _ _ _ _ _ _ _ _ _ A2 hf hnan2 hse, ha1, ha2]
          exact ⟨rfl, rfl, h, rfl, rfl⟩
        · by_cases hal : (buf ++ [A.snp_a1 j x, A.snp_a2 j x]).getD 0 "" ≠ A.snp_a1 j x
          · rw [remove_bad_snps_traits_align _ _ _ _ _ _ _ _ _ A hf hnan hse hal,
              remove_bad_snps_traits_align _ _ _ _ _ _ _ _ _ A2 hf hnan2 hse
                (by rw [ha1, ha2]; exact hal), ha1, ha2]
            obtain ⟨hrel, e1, e2⟩ := orient_rel_flip_both t s A A2 h j x hjx
            obtain ⟨i1, i2, i3, i4, i5⟩ := ih (buf ++ [A.snp_a1 j x, A.snp_a2 j x])
              (remove_bad_snps_flip A j x) (remove_bad_snps_flip A2 j x) hrel
            exact ⟨i1, i2, i3, i4.trans e1, i5.trans e2⟩
          · rw [remove_bad_snps_traits_keep _ _ _ _ _ _ _ _ _ A hf hnan hse hal,
              remove_bad_snps_traits_keep _ _ _ _ _ _ _ _ _ A2 hf hnan2 hse
                (by rw [ha1, ha2]; exact hal), ha1, ha2]
            exact ih _ A A2 h

theorem getD_zero_append (buf l : List String) (h : buf ≠ []) :
    (buf ++ l).getD 0 "" = buf.getD 0 "" := by
  cases buf with
  | nil => exact absurd rfl h
  | cons a as => rfl

theorem getD_zero_mem (buf : List String) (h : buf ≠ []) : buf.getD 0 "" ∈ buf := by
  cases buf with
  | nil => exact absurd rfl h
  | cons a as => exact List.mem_cons_self _ _

theorem record_flip_off (A : MetaArrays) (t s j x : ℕ) (h : ¬ (j = t ∧ x = s)) :
    (remove_bad_snps_flip A t s).record j x = A.record j x := by
  rw [record_flip, if_neg h]

theorem record_flip_at (A : MetaArrays) (t s : ℕ) :
    (remove_bad_snps_flip A t s).record t s = flip_record (A.record t s) := by
  rw [record_flip, if_pos ⟨rfl, rfl⟩]

/-- Three different allele letters in `allelebuf` leave more than two letters after
sorting and `std::unique`. -/
theorem three_letters_dedup (buf : List String) (a b c : String) (ha : a ∈ buf) (hb : b ∈ buf)
    (hc : c ∈ buf) (hab : a ≠ b) (hac : a ≠ c) (hbc : b ≠ c) : 3 ≤ buf.dedup.length := by
  have hnd : ([a, b, c] : List String).Nodup := by
    simp [hab, hac, hbc]
  have hsub : [a, b, c] ⊆ buf.dedup := by
    intro y hy
    simp only [List.mem_cons, List.mem_singleton, List.not_mem_nil, or_false] at hy
    rw [List.mem_dedup]
    rcases hy with rfl | rfl | rfl
    · exact ha
    · exact hb
    · exact hc
  have := (List.subperm_of_subset hnd hsub).length_le
  simpa using this

/-- The trait loop for the SNP `s` itself, run from two related states with buffers that
hold the same letters and the same first letter: the same `iterFlag` results, the
buffers still hold the same letters, the states stay related, and when the loop runs to
its end the two records of trait `t` are equal unless three different letters were
seen. -/
theorem remove_bad_snps_traits_same (snp_flag : ℕ → ℕ → Bool)
    (snp_se snp_pval snp_n : ℕ → ℕ → Option ℚ) (t s row_b : ℕ)
    (hvalid : snp_flag t s = true) :
    ∀ (js : List ℕ) (buf buf2 : List String) (A A2 : MetaArrays), orient_rel t s A A2 →
      buf.Perm buf2 → buf.getD 0 "" = buf2.getD 0 "" → buf ≠ [] →
      (A.record t s = A2.record t s ∨
        (∃ a b c, a ∈ buf ∧ b ∈ buf ∧ c ∈ buf ∧ a ≠ b ∧ a ≠ c ∧ b ≠ c) ∨ t ∈ js) →
      (remove_bad_snps_traits snp_flag snp_se snp_pval snp_n s row_b js buf A).1.Perm
        (remove_bad_snps_traits snp_flag snp_se snp_pval snp_n s row_b js buf2 A2).1 ∧
      (remove_bad_snps_traits snp_flag snp_se snp_pval snp_n s row_b js buf2 A2).2.2
        = (remove_bad_snps_traits snp_flag snp_se snp_pval snp_n s row_b js buf A).2.2 ∧
      orient_rel t s
        (remove_bad_snps_traits snp_flag snp_se snp_pval snp_n s row_b js buf A).2.1
        (remove_bad_snps_traits snp_flag snp_se snp_pval snp_n s row_b js buf2 A2).2.1 ∧
      ((remove_bad_snps_traits snp_flag snp_se snp_pval snp_n s row_b js buf A).2.2 = true →
        (remove_bad_snps_traits snp_flag snp_se snp_pval snp_n s row_b js buf A).2.1.record t s
          = (remove_bad_snps_traits snp_flag snp_se snp_pval snp_n s row_b js buf2 A2).2.1.record
              t s ∨
        ∃ a b c,
          a ∈ (remove_bad_snps_traits snp_flag snp_se snp_pval snp_n s row_b js buf A).1 ∧
          b ∈ (remove_bad_snps_traits snp_flag snp_se snp_pval snp_n s row_b js buf A).1 ∧
          c ∈ (remove_bad_snps_traits snp_flag snp_se snp_pval snp_n s row_b js buf A).1 ∧
          a ≠ b ∧ a ≠ c ∧ b ≠ c) := by
  intro js
  induction js with
  | nil =>
    intro buf buf2 A A2 h hperm _ _ hcase
    rw [remove_bad_snps_traits, remove_bad_snps_traits]
    refine ⟨hperm, rfl, h, fun _ => ?_⟩
    rcases hcase with h1 | h1 | h1
    · exact Or.inl h1
    · exact Or.inr h1
    · simp at h1
  | cons j js ih =>
    intro buf buf2 A A2 h hperm hhead hne hcase
    have hne2 : buf2 ≠ [] := by
      intro h2
      rw [h2] at hperm
      exact hne (List.Perm.eq_nil hperm)
    have hnone := orient_rel_isNone t s A A2 h row_b j
    -- letters seen so far stay in the buffer
    have hthree : ∀ l : List String,
        (∃ a b c, a ∈ buf ∧ b ∈ buf ∧ c ∈ buf ∧ a ≠ b ∧ a ≠ c ∧ b ≠ c) →
        ∃ a b c, a ∈ buf ++ l ∧ b ∈ buf ++ l ∧ c ∈ buf ++ l ∧ a ≠ b ∧ a ≠ c ∧ b ≠ c := by
      rintro l ⟨a, b, c, ha, hb, hc, hd⟩
      exact ⟨a, b, c, List.mem_append_left _ ha, List.mem_append_left _ hb,
        List.mem_append_left _ hc, hd⟩
    by_cases hf : snp_flag j s = false
    · -- the trait has no record of the SNP
      have hjt : j ≠ t := by
        intro h2
        rw [h2, hvalid] at hf
        exact Bool.noConfusion hf
      rw [remove_bad_snps_traits_skip _ _ _ _ _ _ _ _ _ A hf,
        remove_bad_snps_traits_skip _ _ _ _ _ _ _ _ _ A2 hf]
      apply ih buf buf2 A A2 h hperm hhead hne
      rcases hcase with h1 | h1 | h1
      · exact Or.inl h1
      · exact Or.inr (Or.inl h1)
      · rcases List.mem_cons.1 h1 with h2 | h2
        · exact absurd h2.symm hjt
        · exact Or.inr (Or.inr h2)
    · by_cases hjt : j = t
      · -- the trait whose record has two orientations
        subst hjt
        rcases h.2 with heq | ⟨hflip, hbi⟩
        · -- the two records are equal
          have ha1 : A2.snp_a1 j s = A.snp_a1 j s := (congrArg (fun r => r.1) heq).symm
          have ha2 : A2.snp_a2 j s = A.snp_a2 j s := (congrArg (fun r => r.2.1) heq).symm
          have hperm2 : (buf ++ [A.snp_a1 j s, A.snp_a2 j s]).Perm
              (buf2 ++ [A.snp_a1 j s, A.snp_a2 j s]) := List.Perm.append_right _ hperm
          have hhead2 : (buf ++ [A.snp_a1 j s, A.snp_a2 j s]).getD 0 ""
              = (buf2 ++ [A.snp_a1 j s, A.snp_a2 j s]).getD 0 "" := by
            rw [getD_zero_append _ _ hne, getD_zero_append _ _ hne2, hhead]
          by_cases hnan : (A.snp_b row_b j).isNone = true ∨ (snp_se s j).isNone = true
              ∨ (snp_pval s j).isNone = true ∨ (snp_n s j).isNone = true
          · rw [remove_bad_snps_traits_nan _ _ _ _ _ _ _ _ _ A hf hnan,
              remove_bad_snps_traits_nan _ _ _ _ _ _ _ _ _ A2 hf (by rw [hnone]; exact hnan),
              ha1, ha2]
            exact ⟨hperm2, rfl, h, fun h2 => Bool.noConfusion h2⟩
          · have hnan2 : ¬ ((A2.snp_b row_b j).isNone = true ∨ (snp_se s j).isNone = true
                ∨ (snp_pval s j).isNone = true ∨ (snp_n s j).isNone = true) := by
              rw [hnone]; exact hnan
            by_cases hse : (snp_se s j).getD 0 < 1/1000000
            · rw [remove_bad_snps_traits_se _ _ _ _ _ _ _ _ _ A hf hnan hse,
                remove_bad_snps_traits_se _ _ _ _ _ _ _ _ _ A2 hf hnan2 hse, ha1, ha2]
              exact ⟨hperm2, rfl, h, fun h2 => Bool.noConfusion h2⟩
            · by_cases hal : (buf ++ [A.snp_a1 j s, A.snp_a2 j s]).getD 0 "" ≠ A.snp_a1 j s
              · rw [remove_bad_snps_traits_align _ _ _ _ _ _ _ _ _ A hf hnan hse hal,
                  remove_bad_snps_traits_align _ _ _ _ _ _ _ _ _ A2 hf hnan2 hse
                    (by rw [ha1, ha2, ← hhead2]; exact hal), ha1, ha2]
                have heq2 : (remove_bad_snps_flip A j s).record j s
                    = (remove_bad_snps_flip A2 j s).record j s := by
                  rw [record_flip_at, record_flip_at, heq]
                have hrel : orient_rel j s (remove_bad_snps_flip A j s)
                    (remove_bad_snps_flip A2 j s) := by
                  refine ⟨fun j2 x2 h2 => ?_, Or.inl heq2⟩
                  rw [record_flip_off _ _ _ _ _ h2, record_flip_off _ _ _ _ _ h2]
                  exact h.1 j2 x2 h2
                exact ih _ _ _ _ hrel hperm2 hhead2 (by simp) (Or.inl heq2)
              · rw [remove_bad_snps_traits_keep _ _ _ _ _ _ _ _ _ A hf hnan hse hal,
                  remove_bad_snps_traits_keep _ _ _ _ _ _ _ _ _ A2 hf hnan2 hse
                    (by rw [ha1, ha2, ← hhead2]; exact hal), ha1, ha2]
                exact ih _ _ _ _ h hperm2 hhead2 (by simp) (Or.inl heq)
        · -- the second record is the first in the other orientation
          have ha1 : A2.snp_a1 j s = A.snp_a2 j s := congrArg (fun r => r.1) hflip
          have ha2 : A2.snp_a2 j s = A.snp_a1 j s := congrArg (fun r => r.2.1) hflip
          have hperm2 : (buf ++ [A.snp_a1 j s, A.snp_a2 j s]).Perm
              (buf2 ++ [A.snp_a2 j s, A.snp_a1 j s]) :=
            List.Perm.append hperm (List.Perm.swap _ _ _)
          have hhead2 : (buf ++ [A.snp_a1 j s, A.snp_a2 j s]).getD 0 ""
              = (buf2 ++ [A.snp_a2 j s, A.snp_a1 j s]).getD 0 "" := by
            rw [getD_zero_append _ _ hne, getD_zero_append _ _ hne2, hhead]
          have hoff : ∀ j2 x2, ¬ (j2 = j ∧ x2 = s) → A.record j2 x2 = A2.record j2 x2 := h.1
          by_cases hnan : (A.snp_b row_b j).isNone = true ∨ (snp_se s j).isNone = true
              ∨ (snp_pval s j).isNone = true ∨ (snp_n s j).isNone = true
          · rw [remove_bad_snps_traits_nan _ _ _ _ _ _ _ _ _ A hf hnan,
              remove_bad_snps_traits_nan _ _ _ _ _ _ _ _ _ A2 hf (by rw [hnone]; exact hnan),
              ha1, ha2]
            exact ⟨hperm2, rfl, h, fun h2 => Bool.noConfusion h2⟩
          · have hnan2 : ¬ ((A2.snp_b row_b j).isNone = true ∨ (snp_se s j).isNone = true
                ∨ (snp_pval s j).isNone = true ∨ (snp_n s j).isNone = true) := by
              rw [hnone]; exact hnan
            by_cases hse : (snp_se s j).getD 0 < 1/1000000
            · rw [remove_bad_snps_traits_se _ _ _ _ _ _ _ _ _ A hf hnan hse,
                remove_bad_snps_traits_se _ _ _ _ _ _ _ _ _ A2 hf hnan2 hse, ha1, ha2]
              exact ⟨hperm2, rfl, h, fun h2 => Bool.noConfusion h2⟩
            · by_cases hal : (buf ++ [A.snp_a1 j s, A.snp_a2 j s]).getD 0 "" ≠ A.snp_a1 j s
              · by_cases hal2 : (buf ++ [A.snp_a1 j s, A.snp_a2 j s]).getD 0 "" ≠ A.snp_a2 j s
                · -- the first letter is a third letter: both records are aligned
                  rw [remove_bad_snps_traits_align _ _ _ _ _ _ _ _ _ A hf hnan hse hal,
                    remove_bad_snps_traits_align _ _ _ _ _ _ _ _ _ A2 hf hnan2 hse
                      (by rw [ha1, ha2, ← hhead2]; exact hal2), ha1, ha2]
                  have hflip2 : (remove_bad_snps_flip A2 j s).record j s
                      = flip_record ((remove_bad_snps_flip A j s).record j s) := by
                    rw [record_flip_at, record_flip_at, hflip]
                  have hbi2 : (remove_bad_snps_flip A j s).snp_a1 j s
                      ≠ (remove_bad_snps_flip A j s).snp_a2 j s := by
                    have e := record_flip_at A j s
                    have e1 : (remove_bad_snps_flip A j s).snp_a1 j s = A.snp_a2 j s :=
                      congrArg (fun r => r.1) e
                    have e2 : (remove_bad_snps_flip A j s).snp_a2 j s = A.snp_a1 j s :=
                      congrArg (fun r => r.2.1) e
                    rw [e1, e2]
                    exact fun h2 => hbi h2.symm
                  have hrel : orient_rel j s (remove_bad_snps_flip A j s)
                      (remove_bad_snps_flip A2 j s) := by
                    refine ⟨fun j2 x2 h2 => ?_, Or.inr ⟨hflip2, hbi2⟩⟩
                    rw [record_flip_off _ _ _ _ _ h2, record_flip_off _ _ _ _ _ h2]
                    exact hoff j2 x2 h2
                  apply ih _ _ _ _ hrel hperm2 hhead2 (by simp)
                  right; left
                  refine ⟨(buf ++ [A.snp_a1 j s, A.snp_a2 j s]).getD 0 "", A.snp_a1 j s,
                    A.snp_a2 j s, getD_zero_mem _ (by simp), by simp, by simp, hal, hal2, hbi⟩
                · -- the first letter is the other allele: only the first record is aligned
                  rw [remove_bad_snps_traits_align _ _ _ _ _ _ _ _ _ A hf hnan hse hal,
                    remove_bad_snps_traits_keep _ _ _ _ _ _ _ _ _ A2 hf hnan2 hse
                      (by rw [ha1, ha2, ← hhead2]; exact hal2), ha1, ha2]
                  have heq2 : (remove_bad_snps_flip A j s).record j s = A2.record j s := by
                    rw [record_flip_at, hflip]
                  have hrel : orient_rel j s (remove_bad_snps_flip A j s) A2 := by
                    refine ⟨fun j2 x2 h2 => ?_, Or.inl heq2⟩
                    rw [record_flip_off _ _ _ _ _ h2]
                    exact hoff j2 x2 h2
                  exact ih _ _ _ _ hrel hperm2 hhead2 (by simp) (Or.inl heq2)
              · -- the first letter is the effect allele: only the second record is aligned
                have hal2 : (buf ++ [A.snp_a1 j s, A.snp_a2 j s]).getD 0 "" ≠ A.snp_a2 j s := by
                  rw [not_not.1 hal]; exact hbi
                rw [remove_bad_snps_traits_keep _ _ _ _ _ _ _ _ _ A hf hnan hse hal,
                  remove_bad_snps_traits_align _ _ _ _ _ _ _ _ _ A2 hf hnan2 hse
                    (by rw [ha1, ha2, ← hhead2]; exact hal2), ha1, ha2]
                have heq2 : A.record j s = (remove_bad_snps_flip A2 j s).record j s := by
                  rw [record_flip_at, hflip, flip_record_flip_record]
                have hrel : orient_rel j s A (remove_bad_snps_flip A2 j s) := by
                  refine ⟨fun j2 x2 h2 => ?_, Or.inl heq2⟩
                  rw [record_flip_off _ _ _ _ _ h2]
                  exact hoff j2 x2 h2
                exact ih _ _ _ _ hrel hperm2 hhead2 (by simp) (Or.inl heq2)
      · -- another trait: the same record in both states
        have hjx : ¬ (j = t ∧ s = s) := fun h2 => hjt h2.1
        have hrec := h.1 j s hjx
        have ha1 : A2.snp_a1 j s = A.snp_a1 j s := (congrArg (fun r => r.1) hrec).symm
        have ha2 : A2.snp_a2 j s = A.snp_a2 j s := (congrArg (fun r => r.2.1) hrec).symm
        have hperm2 : (buf ++ [A.snp_a1 j s, A.snp_a2 j s]).Perm
            (buf2 ++ [A.snp_a1 j s, A.snp_a2 j s]) := List.Perm.append_right _ hperm
        have hhead2 : (buf ++ [A.snp_a1 j s, A.snp_a2 j s]).getD 0 ""
            = (buf2 ++ [A.snp_a1 j s, A.snp_a2 j s]).getD 0 "" := by
          rw [getD_zero_append _ _ hne, getD_zero_append _ _ hne2, hhead]
        have hcase2 : ∀ B B2 : MetaArrays, B.record t s = A.record t s →
            B2.record t s = A2.record t s →
            (B.record t s = B2.record t s ∨
              (∃ a b c, a ∈ buf ++ [A.snp_a1 j s, A.snp_a2 j s]
                ∧ b ∈ buf ++ [A.snp_a1 j s, A.snp_a2 j s]
                ∧ c ∈ buf ++ [A.snp_a1 j s, A.snp_a2 j s] ∧ a ≠ b ∧ a ≠ c ∧ b ≠ c) ∨ t ∈ js) := by
          intro B B2 e1 e2
          rcases hcase with h1 | h1 | h1
          · left; rw [e1, e2]; exact h1
          · exact Or.inr (Or.inl (hthree _ h1))
          · rcases List.mem_cons.1 h1 with h2 | h2
            · exact absurd h2.symm hjt
            · exact Or.inr (Or.inr h2)
        by_cases hnan : (A.snp_b row_b j).isNone = true ∨ (snp_se s j).isNone = true
            ∨ (snp_pval s j).isNone = true ∨ (snp_n s j).isNone = true
        · rw [remove_bad_snps_traits_nan _ _ _ _ _ _ _ _ _ A hf hnan,
            remove_bad_snps_traits_nan _ _ _ _ _ _ _ _ _ A2 hf (by rw [hnone]; exact hnan),
            ha1, ha2]
          exact ⟨hperm2, rfl, h, fun h2 => Bool.noConfusion h2⟩
        · have hnan2 : ¬ ((A2.snp_b row_b j).isNone = true ∨ (snp_se s j).isNone = true
              ∨ (snp_pval s j).isNone = true ∨ (snp_n s j).isNone = true) := by
            rw [hnone]; exact hnan
          by_cases hse : (snp_se s j).getD 0 < 1/1000000
          · rw [remove_bad_snps_traits_se _ _ _ _ _ _ _ _ _ A hf hnan hse,
              remove_bad_snps_traits_se _ _ _ _ _ _ _ _ _ A2 hf hnan2 hse, ha1, ha2]
            exact ⟨hperm2, rfl, h, fun h2 => Bool.noConfusion h2⟩
          · by_cases hal : (buf ++ [A.snp_a1 j s, A.snp_a2 j s]).getD 0 "" ≠ A.snp_a1 j s
            · rw [remove_bad_snps_traits_align _ _ _ _ _ _ _ _ _ A hf hnan hse hal,
                remove_bad_snps_traits_align _ _ _ _ _ _ _ _ _ A2 hf hnan2 hse
                  (by rw [ha1, ha2, ← hhead2]; exact hal), ha1, ha2]
              obtain ⟨hrel, e1, e2⟩ := orient_rel_flip_both t s A A2 h j s hjx
              exact ih _ _ _ _ hrel hperm2 hhead2 (by simp) (hcase2 _ _ e1 e2)
            · rw [remove_bad_snps_traits_keep _ _ _ _ _ _ _ _ _ A hf hnan hse hal,
                remove_bad_snps_traits_keep _ _ _ _ _ _ _ _ _ A2 hf hnan2 hse
                  (by rw [ha1, ha2, ← hhead2]; exact hal), ha1, ha2]
              exact ih _ _ _ _ h hperm2 hhead2 (by simp) (hcase2 _ _ rfl rfl)

theorem remove_bad_snps_first_valid_congr (snp_flag : ℕ → ℕ → Bool) (A A2 : MetaArrays)
    (x : ℕ) :
    ∀ js : List ℕ, (∀ j ∈ js, A.record j x = A2.record j x) →
      remove_bad_snps_first_valid snp_flag A2 x js = remove_bad_snps_first_valid snp_flag A x js := by
  intro js
  induction js with
  | nil => intro _; rfl
  | cons j js ih =>
    intro h
    have hrec := h j (List.mem_cons_self _ _)
    have ha1 : A2.snp_a1 j x = A.snp_a1 j x := (congrArg (fun r => r.1) hrec).symm
    have ha2 : A2.snp_a2 j x = A.snp_a2 j x := (congrArg (fun r => r.2.1) hrec).symm
    rw [remove_bad_snps_first_valid, remove_bad_snps_first_valid, ha1, ha2,
      ih (fun j2 hj2 => h j2 (List.mem_cons_of_mem _ hj2))]

theorem remove_bad_snps_first_valid_append (snp_flag : ℕ → ℕ → Bool) (A : MetaArrays) (x : ℕ)
    (l2 : List ℕ) :
    ∀ l1 : List ℕ, (∃ j ∈ l1, snp_flag j x = true) →
      remove_bad_snps_first_valid snp_flag A x (l1 ++ l2)
          = remove_bad_snps_first_valid snp_flag A x l1 ∧
        remove_bad_snps_first_valid snp_flag A x l1 ≠ [] := by
  intro l1
  induction l1 with
  | nil => rintro ⟨j, hj, _⟩; simp at hj
  | cons j l1 ih =>
    rintro ⟨j0, hj0, hflag⟩
    simp only [List.cons_append, remove_bad_snps_first_valid]
    by_cases hf : snp_flag j x = true
    · rw [if_pos hf, if_pos hf]
      exact ⟨rfl, by simp⟩
    · rw [if_neg hf, if_neg hf]
      apply ih
      rcases List.mem_cons.1 hj0 with h | h
      · rw [h] at hflag; exact absurd hflag hf
      · exact ⟨j0, h, hflag⟩

/-- The reference pair of a SNP is the same in two related states, provided that for the
SNP `s` it comes from the panel or from a trait before `t`. -/
theorem remove_bad_snps_reference_rel (snp_name : ℕ → String) (snp_flag : ℕ → ℕ → Bool)
    (plink_snp_name_map : List (String × ℕ)) (snp_ref_a1 snp_ref_a2 : ℕ → String)
    (npheno t s : ℕ) (ht : t < npheno)
    (href : remove_bad_snps_snpindx plink_snp_name_map (snp_name s) > 0 ∨
      ∃ j0, j0 < t ∧ snp_flag j0 s = true)
    (A A2 : MetaArrays) (h : orient_rel t s A A2) (x : ℕ) :
    remove_bad_snps_reference snp_name snp_flag A2 plink_snp_name_map snp_ref_a1 snp_ref_a2
        npheno x
      = remove_bad_snps_reference snp_name snp_flag A plink_snp_name_map snp_ref_a1 snp_ref_a2
        npheno x ∧
    (x = s → remove_bad_snps_reference snp_name snp_flag A plink_snp_name_map snp_ref_a1
      snp_ref_a2 npheno x ≠ []) := by
  unfold remove_bad_snps_reference
  by_cases hidx : remove_bad_snps_snpindx plink_snp_name_map (snp_name x) > 0
  · rw [if_pos hidx, if_pos hidx]
    exact ⟨rfl, fun _ => by simp⟩
  · rw [if_neg hidx, if_neg hidx]
    by_cases hx : x = s
    · subst hx
      rcases href with h1 | ⟨j0, hj0, hflag⟩
      · exact absurd h1 hidx
      · have hsplit : List.range npheno = List.range t ++ List.range' t (npheno - t) := by
          have h1 := List.range'_append_1 0 t (npheno - t)
          rw [Nat.zero_add, show npheno - t + t = npheno by omega] at h1
          rw [List.range_eq_range', List.range_eq_range', h1]
        have hex : ∃ j ∈ List.range t, snp_flag j x = true :=
          ⟨j0, List.mem_range.2 hj0, hflag⟩
        rw [hsplit, (remove_bad_snps_first_valid_append snp_flag A x _ _ hex).1,
          (remove_bad_snps_first_valid_append snp_flag A2 x _ _ hex).1]
        refine ⟨?_, fun _ => (remove_bad_snps_first_valid_append snp_flag A x
          (List.range' t (npheno - t)) _ hex).2⟩
        apply remove_bad_snps_first_valid_congr
        intro j hj
        have hjt : j < t := List.mem_range.1 hj
        exact h.1 j x (fun h2 => by omega)
    · refine ⟨?_, fun h2 => absurd h2 hx⟩
      apply remove_bad_snps_first_valid_congr
      intro j _
      exact h.1 j x (fun h2 => hx h2.2)

theorem remove_bad_snps_step_fst (snp_name : ℕ → String) (snp_remain : List ℕ)
    (remain_oob : ℕ → ℕ) (snp_flag : ℕ → ℕ → Bool) (snp_se snp_pval snp_n : ℕ → ℕ → Option ℚ)
    (plink_snp_name_map : List (String × ℕ)) (snp_ref_a1 snp_ref_a2 : ℕ → String)
    (npheno : ℕ) (st : MetaArrays × List String) (i : ℕ) :
    (remove_bad_snps_step snp_name snp_remain remain_oob snp_flag snp_se snp_pval snp_n
      plink_snp_name_map snp_ref_a1 snp_ref_a2 npheno st i).1
      = (remove_bad_snps_traits snp_flag snp_se snp_pval snp_n (snp_remain.getD i 0)
          (remain_read snp_remain remain_oob (snp_remain.getD i 0)) (List.range npheno)
          (remove_bad_snps_reference snp_name snp_flag st.1 plink_snp_name_map snp_ref_a1
            snp_ref_a2 npheno (snp_remain.getD i 0)) st.1).2.1 := by
  unfold remove_bad_snps_step
  simp only
  split_ifs <;> rfl

theorem remove_bad_snps_step_snd (snp_name : ℕ → String) (snp_remain : List ℕ)
    (remain_oob : ℕ → ℕ) (snp_flag : ℕ → ℕ → Bool) (snp_se snp_pval snp_n : ℕ → ℕ → Option ℚ)
    (plink_snp_name_map : List (String × ℕ)) (snp_ref_a1 snp_ref_a2 : ℕ → String)
    (npheno : ℕ) (st : MetaArrays × List String) (i : ℕ) :
    (remove_bad_snps_step snp_name snp_remain remain_oob snp_flag snp_se snp_pval snp_n
      plink_snp_name_map snp_ref_a1 snp_ref_a2 npheno st i).2
      = if (remove_bad_snps_traits snp_flag snp_se snp_pval snp_n (snp_remain.getD i 0)
            (remain_read snp_remain remain_oob (snp_remain.getD i 0)) (List.range npheno)
            (remove_bad_snps_reference snp_name snp_flag st.1 plink_snp_name_map snp_ref_a1
              snp_ref_a2 npheno (snp_remain.getD i 0)) st.1).1.dedup.length ≠ 2 ∨
          (remove_bad_snps_traits snp_flag snp_se snp_pval snp_n (snp_remain.getD i 0)
            (remain_read snp_remain remain_oob (snp_remain.getD i 0)) (List.range npheno)
            (remove_bad_snps_reference snp_name snp_flag st.1 plink_snp_name_map snp_ref_a1
              snp_ref_a2 npheno (snp_remain.getD i 0)) st.1).2.2 = false
        then st.2 ++ [snp_name (snp_remain.getD i 0)] else st.2 := by
  unfold remove_bad_snps_step
  simp only [sort_unique_length_string]
  split_ifs <;> rfl

/-- One round of the SNP loop of `remove_bad_snps` run from two related states with the
same list of bad SNPs: the same list of bad SNPs results, the states stay related, a
round for another SNP leaves the two records of trait `t` at SNP `s` as they are, and a
round for the SNP `s` makes them equal or reports `s` as bad. -/
theorem remove_bad_snps_step_rel (snp_name : ℕ → String) (snp_remain : List ℕ)
    (remain_oob : ℕ → ℕ) (snp_flag : ℕ → ℕ → Bool) (snp_se snp_pval snp_n : ℕ → ℕ → Option ℚ)
    (plink_snp_name_map : List (String × ℕ)) (snp_ref_a1 snp_ref_a2 : ℕ → String)
    (npheno t s : ℕ) (ht : t < npheno) (hvalid : snp_flag t s = true)
    (href : remove_bad_snps_snpindx plink_snp_name_map (snp_name s) > 0 ∨
      ∃ j0, j0 < t ∧ snp_flag j0 s = true)
    (st st2 : MetaArrays × List String) (i : ℕ) (hbad : st2.2 = st.2)
    (hrel : orient_rel t s st.1 st2.1) :
    (remove_bad_snps_step snp_name snp_remain remain_oob snp_flag snp_se snp_pval snp_n
        plink_snp_name_map snp_ref_a1 snp_ref_a2 npheno st2 i).2
      = (remove_bad_snps_step snp_name snp_remain remain_oob snp_flag snp_se snp_pval snp_n
        plink_snp_name_map snp_ref_a1 snp_ref_a2 npheno st i).2 ∧
    orient_rel t s
      (remove_bad_snps_step snp_name snp_remain remain_oob snp_flag snp_se snp_pval snp_n
        plink_snp_name_map snp_ref_a1 snp_ref_a2 npheno st i).1
      (remove_bad_snps_step snp_name snp_remain remain_oob snp_flag snp_se snp_pval snp_n
        plink_snp_name_map snp_ref_a1 snp_ref_a2 npheno st2 i).1 ∧
    (snp_remain.getD i 0 ≠ s → st.1.record t s = st2.1.record t s →
      (remove_bad_snps_step snp_name snp_remain remain_oob snp_flag snp_se snp_pval snp_n
          plink_snp_name_map snp_ref_a1 snp_ref_a2 npheno st i).1.record t s
        = (remove_bad_snps_step snp_name snp_remain remain_oob snp_flag snp_se snp_pval snp_n
          plink_snp_name_map snp_ref_a1 snp_ref_a2 npheno st2 i).1.record t s) ∧
    (snp_remain.getD i 0 = s →
      (remove_bad_snps_step snp_name snp_remain remain_oob snp_flag snp_se snp_pval snp_n
          plink_snp_name_map snp_ref_a1 snp_ref_a2 npheno st i).1.record t s
        = (remove_bad_snps_step snp_name snp_remain remain_oob snp_flag snp_se snp_pval snp_n
          plink_snp_name_map snp_ref_a1 snp_ref_a2 npheno st2 i).1.record t s ∨
      snp_name s ∈ (remove_bad_snps_step snp_name snp_remain remain_oob snp_flag snp_se
        snp_pval snp_n plink_snp_name_map snp_ref_a1 snp_ref_a2 npheno st i).2) := by
  obtain ⟨href1, href2⟩ := remove_bad_snps_reference_rel snp_name snp_flag plink_snp_name_map
    snp_ref_a1 snp_ref_a2 npheno t s ht href st.1 st2.1 hrel (snp_remain.getD i 0)
  simp only [remove_bad_snps_step_fst, remove_bad_snps_step_snd, href1, hbad]
  generalize remove_bad_snps_reference snp_name snp_flag st.1 plink_snp_name_map snp_ref_a1
    snp_ref_a2 npheno (snp_remain.getD i 0) = ref at href2 ⊢
  generalize remain_read snp_remain remain_oob (snp_remain.getD i 0) = row_b
  by_cases hx : snp_remain.getD i 0 = s
  · -- a round for the SNP `s`
    rw [hx] at href2 ⊢
    obtain ⟨p1, p2, p3, p4⟩ := remove_bad_snps_traits_same snp_flag snp_se snp_pval snp_n t s
      row_b hvalid (List.range npheno) ref ref st.1 st2.1 hrel (List.Perm.refl _) rfl
      (href2 rfl) (Or.inr (Or.inr (List.mem_range.2 ht)))
    have hlen := (List.Perm.dedup p1).length_eq
    rw [p2, ← hlen]
    refine ⟨rfl, p3, fun h => absurd rfl h, fun _ => ?_⟩
    by_cases hc : (remove_bad_snps_traits snp_flag snp_se snp_pval snp_n s row_b
          (List.range npheno) ref st.1).1.dedup.length ≠ 2 ∨
        (remove_bad_snps_traits snp_flag snp_se snp_pval snp_n s row_b
          (List.range npheno) ref st.1).2.2 = false
    · right
      rw [if_pos hc]
      simp
    · left
      rw [not_or] at hc
      have hflag : (remove_bad_snps_traits snp_flag snp_se snp_pval snp_n s row_b
          (List.range npheno) ref st.1).2.2 = true := by
        simpa using hc.2
      rcases p4 hflag with h1 | ⟨a, b, c, ha, hb, hc2, hab, hac, hbc⟩
      · exact h1
      · have := three_letters_dedup _ a b c ha hb hc2 hab hac hbc
        have h2 := not_not.1 hc.1
        omega
  · -- a round for another SNP
    obtain ⟨p1, p2, p3, p4, p5⟩ := remove_bad_snps_traits_other snp_flag snp_se snp_pval
      snp_n t s (snp_remain.getD i 0) row_b hx (List.range npheno) ref st.1 st2.1 hrel
    rw [p1, p2]
    refine ⟨rfl, p3, fun _ h => ?_, fun h => absurd h hx⟩
    rw [p4, p5]
    exact h

/-- The SNP loop of `remove_bad_snps` run from two related states: after any number of
rounds the lists of bad SNPs are the same, the states are related, and once the SNP `s`
has had a round the two records of trait `t` are equal unless `s` was reported bad. -/
theorem remove_bad_snps_fold_rel (snp_name : ℕ → String) (snp_remain : List ℕ)
    (remain_oob : ℕ → ℕ) (snp_flag : ℕ → ℕ → Bool) (snp_se snp_pval snp_n : ℕ → ℕ → Option ℚ)
    (plink_snp_name_map : List (String × ℕ)) (snp_ref_a1 snp_ref_a2 : ℕ → String)
    (npheno t s : ℕ) (ht : t < npheno) (hvalid : snp_flag t s = true)
    (href : remove_bad_snps_snpindx plink_snp_name_map (snp_name s) > 0 ∨
      ∃ j0, j0 < t ∧ snp_flag j0 s = true)
    (A A2 : MetaArrays) (hrel : orient_rel t s A A2) (k : ℕ) :
    ((List.range k).foldl (remove_bad_snps_step snp_name snp_remain remain_oob snp_flag snp_se
        snp_pval snp_n plink_snp_name_map snp_ref_a1 snp_ref_a2 npheno) (A2, [])).2
      = ((List.range k).foldl (remove_bad_snps_step snp_name snp_remain remain_oob snp_flag
        snp_se snp_pval snp_n plink_snp_name_map snp_ref_a1 snp_ref_a2 npheno) (A, [])).2 ∧
    orient_rel t s
      ((List.range k).foldl (remove_bad_snps_step snp_name snp_remain remain_oob snp_flag
        snp_se snp_pval snp_n plink_snp_name_map snp_ref_a1 snp_ref_a2 npheno) (A, [])).1
      ((List.range k).foldl (remove_bad_snps_step snp_name snp_remain remain_oob snp_flag
        snp_se snp_pval snp_n plink_snp_name_map snp_ref_a1 snp_ref_a2 npheno) (A2, [])).1 ∧
    ((∃ i, i < k ∧ snp_remain.getD i 0 = s) →
      ((List.range k).foldl (remove_bad_snps_step snp_name snp_remain remain_oob snp_flag
          snp_se snp_pval snp_n plink_snp_name_map snp_ref_a1 snp_ref_a2 npheno)
          (A, [])).1.record t s
        = ((List.range k).foldl (remove_bad_snps_step snp_name snp_remain remain_oob snp_flag
          snp_se snp_pval snp_n plink_snp_name_map snp_ref_a1 snp_ref_a2 npheno)
          (A2, [])).1.record t s ∨
      snp_name s ∈ ((List.range k).foldl (remove_bad_snps_step snp_name snp_remain remain_oob
        snp_flag snp_se snp_pval snp_n plink_snp_name_map snp_ref_a1 snp_ref_a2 npheno)
        (A, [])).2) := by
  induction k with
  | zero =>
    rw [List.range_zero, List.foldl_nil, List.foldl_nil]
    exact ⟨rfl, hrel, fun ⟨i, hi, _⟩ => absurd hi (Nat.not_lt_zero i)⟩
  | succ k ih =>
    obtain ⟨ih1, ih2, ih3⟩ := ih
    rw [List.range_succ, List.foldl_append, List.foldl_append]
    simp only [List.foldl_cons, List.foldl_nil]
    obtain ⟨q1, q2, q3, q4⟩ := remove_bad_snps_step_rel snp_name snp_remain remain_oob snp_flag
      snp_se snp_pval snp_n plink_snp_name_map snp_ref_a1 snp_ref_a2 npheno t s ht hvalid href
      _ _ k ih1 ih2
    refine ⟨q1, q2, ?_⟩
    rintro ⟨i, hi, his⟩
    by_cases hx : snp_remain.getD k 0 = s
    · exact q4 hx
    · have hik : i < k := by
        rcases Nat.lt_succ_iff_lt_or_eq.1 hi with h | h
        · exact h
        · rw [h] at his; exact absurd his hx
      rcases ih3 ⟨i, hik, his⟩ with h | h
      · exact Or.inl (q3 hx h)
      · exact Or.inr (remove_bad_snps_step_mem _ _ _ _ _ _ _ _ _ _ _ _ k _ h)

/-- Harmonisation does not depend on the orientation of the record of a valid trait `t`
at a SNP `s` of `snp_remain`, when the record has two different alleles and the
reference pair that `remove_bad_snps` takes for `s` comes from the panel (`snpindx > 0`)
or from a valid trait before `t`: the same SNPs are reported bad, and unless `s` is among
them all the records are the same afterwards. -/
theorem remove_bad_snps_orientation (snp_name : ℕ → String) (snp_remain : List ℕ)
    (remain_oob : ℕ → ℕ) (snp_flag : ℕ → ℕ → Bool) (snp_se snp_pval snp_n : ℕ → ℕ → Option ℚ)
    (plink_snp_name_map : List (String × ℕ)) (snp_ref_a1 snp_ref_a2 : ℕ → String)
    (ntarget ncovar t s : ℕ) (A A2 : MetaArrays)
    (ht : t < ntarget + ncovar) (hs : s ∈ snp_remain) (hvalid : snp_flag t s = true)
    (hoff : ∀ j x, ¬ (j = t ∧ x = s) → A.record j x = A2.record j x)
    (hflip : A2.record t s = flip_record (A.record t s))
    (hbi : A.snp_a1 t s ≠ A.snp_a2 t s)
    (href : remove_bad_snps_snpindx plink_snp_name_map (snp_name s) > 0 ∨
      ∃ j0, j0 < t ∧ snp_flag j0 s = true) :
    (remove_bad_snps snp_name snp_remain remain_oob snp_flag A2 snp_se snp_pval snp_n
        plink_snp_name_map snp_ref_a1 snp_ref_a2 ntarget ncovar).2
      = (remove_bad_snps snp_name snp_remain remain_oob snp_flag A snp_se snp_pval snp_n
        plink_snp_name_map snp_ref_a1 snp_ref_a2 ntarget ncovar).2 ∧
    (snp_name s ∉ (remove_bad_snps snp_name snp_remain remain_oob snp_flag A snp_se snp_pval
        snp_n plink_snp_name_map snp_ref_a1 snp_ref_a2 ntarget ncovar).2 →
      ∀ j x,
        (remove_bad_snps snp_name snp_remain remain_oob snp_flag A snp_se snp_pval snp_n
          plink_snp_name_map snp_ref_a1 snp_ref_a2 ntarget ncovar).1.record j x
        = (remove_bad_snps snp_name snp_remain remain_oob snp_flag A2 snp_se snp_pval snp_n
          plink_snp_name_map snp_ref_a1 snp_ref_a2 ntarget ncovar).1.record j x) := by
  obtain ⟨f1, f2, f3⟩ := remove_bad_snps_fold_rel snp_name snp_remain remain_oob snp_flag
    snp_se snp_pval snp_n plink_snp_name_map snp_ref_a1 snp_ref_a2 (ntarget + ncovar) t s ht
    hvalid href A A2 ⟨hoff, Or.inr ⟨hflip, hbi⟩⟩ snp_remain.length
  unfold remove_bad_snps
  simp only
  rw [f1]
  refine ⟨rfl, fun hbad j x => ?_⟩
  rw [(List.perm_insertionSort _ _).mem_iff] at hbad
  obtain ⟨i, hi, his⟩ := List.mem_iff_getElem.1 hs
  have hex : ∃ i, i < snp_remain.length ∧ snp_remain.getD i 0 = s :=
    ⟨i, hi, by rw [List.getD_eq_getElem _ _ hi]; exact his⟩
  rcases f3 hex with h | h
  · by_cases hjx : j = t ∧ x = s
    · rw [hjx.1, hjx.2]; exact h
    · exact f2.1 j x hjx
  · exact absurd h hbad

theorem mapInsert_of_isSome {β : Type} (m : List (String × β)) (k : String) (v : β)
    (h : (m.lookup k).isSome = true) : mapInsert m k v = m := by
  unfold mapInsert
  rw [if_pos h]

theorem mapInsert_of_none {β : Type} (m : List (String × β)) (k : String) (v : β)
    (h : m.lookup k = none) : mapInsert m k v = m ++ [(k, v)] := by
  unfold mapInsert
  rw [if_neg (by simp [h])]

/-- The loop of `init_meta_snp_map` stops with the duplicate error when a remaining name
is repeated or is a key of the map already. -/
theorem init_meta_snp_map_loop_dup (l : List String) :
    ∀ (i size : ℕ) (m : List (String × ℕ)) (remain : List ℕ), size = m.length →
      (¬ l.Nodup ∨ ∃ x ∈ l, (m.lookup x).isSome = true) →
      init_meta_snp_map_loop l i size m remain = .error .DuplicateSNP := by
  induction l with
  | nil =>
    intro i size m remain _ h
    rcases h with h | ⟨x, hx, _⟩
    · exact absurd List.nodup_nil h
    · simp at hx
  | cons name rest ih =>
    intro i size m remain hsize h
    unfold init_meta_snp_map_loop
    by_cases hk : (m.lookup name).isSome = true
    · simp only [mapInsert_of_isSome m name i hk]
      rw [if_pos hsize]
    · have hnone : m.lookup name = none := by
        cases hl : m.lookup name with
        | none => rfl
        | some v => simp [hl] at hk
      simp only [mapInsert_of_none m name i hnone]
      rw [if_neg (by simp [hsize])]
      apply ih
      · rfl
      · have hname : ((m ++ [(name, i)]).lookup name).isSome = true := by
          have := lookup_mapInsert_of_none m name name i hnone
          rw [mapInsert_of_none m name i hnone] at this
          simp [this]
        rcases h with h | ⟨x, hx, hsome⟩
        · rw [List.nodup_cons, not_and_or, not_not] at h
          rcases h with h | h
          · exact Or.inr ⟨name, h, hname⟩
          · exact Or.inl h
        · rcases List.mem_cons.mp hx with hx | hx
          · subst hx; exact absurd hsome hk
          · refine Or.inr ⟨x, hx, ?_⟩
            cases hl : m.lookup x with
            | none => simp [hl] at hsome
            | some w =>
              have := lookup_mapInsert_of_some m name x i w hl
              rw [mapInsert_of_none m name i hnone] at this
              simp [this]

/-- The loop of `init_meta_snp_map` on names that are pairwise different and not keys of
the map: it returns, the name at position `k` gets the index `i + k`, the other keys
keep their value, and the remain vector holds `p` at the positions `i ≤ p < i + n`. -/
theorem init_meta_snp_map_loop_ok (l : List String) :
    ∀ (i size : ℕ) (m : List (String × ℕ)) (remain : List ℕ), size = m.length →
      l.Nodup → (∀ x ∈ l, m.lookup x = none) →
      ∃ m2 remain2, init_meta_snp_map_loop l i size m remain = .ok (m2, remain2) ∧
        (∀ k (h : k < l.length), m2.lookup (l.get ⟨k, h⟩) = some (i + k)) ∧
        (∀ x, x ∉ l → m2.lookup x = m.lookup x) ∧
        m2.length = m.length + l.length ∧
        (∀ kv ∈ m2, kv ∈ m ∨ kv.2 < i + l.length) ∧
        (∀ p, remain2[p]? = if i ≤ p ∧ p < i + l.length ∧ p < remain.length then some p
          else remain[p]?) := by
  induction l with
  | nil =>
    intro i size m remain _ _ _
    refine ⟨m, remain, rfl, ?_, fun _ _ => rfl, rfl, fun kv h => Or.inl h, ?_⟩
    · intro k h; simp at h
    · intro p
      rw [if_neg (by simp; omega)]
  | cons name rest ih =>
    intro i size m remain hsize hnd hnone
    have hn : m.lookup name = none := hnone name (List.mem_cons_self _ _)
    have hnd2 := List.nodup_cons.mp hnd
    unfold init_meta_snp_map_loop
    simp only [mapInsert_of_none m name i hn]
    rw [if_neg (by simp [hsize])]
    have hl : ∀ x, (m ++ [(name, i)]).lookup x
        = if (m.lookup x).isSome then m.lookup x else if x = name then some i else none := by
      intro x
      cases hx : m.lookup x with
      | none =>
        have := lookup_mapInsert_of_none m name x i hx
        rw [mapInsert_of_none m name i hn] at this
        simpa using this
      | some w =>
        have := lookup_mapInsert_of_some m name x i w hx
        rw [mapInsert_of_none m name i hn] at this
        simpa using this
    obtain ⟨m2, remain2, hrun, hidx, hother, hlen, hval, hrem⟩ :=
      ih (i + 1) (m ++ [(name, i)]).length (m ++ [(name, i)]) (remain.set i i) rfl hnd2.2
        (fun x hx => by
          rw [hl x, hnone x (List.mem_cons_of_mem _ hx)]
          have : x ≠ name := fun e => hnd2.1 (e ▸ hx)
          simp [this])
    refine ⟨m2, remain2, hrun, ?_, ?_, ?_, ?_, ?_⟩
    · intro k h
      cases k with
      | zero =>
        show m2.lookup name = some (i + 0)
        rw [hother name hnd2.1, hl name, hn]
        simp
      | succ k =>
        have := hidx k (by simpa using h)
        show m2.lookup (rest.get ⟨k, _⟩) = some (i + (k + 1))
        rw [this]
        congr 1
        omega
    · intro x hx
      have hx2 : x ≠ name ∧ x ∉ rest := by
        constructor
        · intro e; exact hx (e ▸ List.mem_cons_self _ _)
        · intro e; exact hx (List.mem_cons_of_mem _ e)
      rw [hother x hx2.2, hl x]
      cases hm : m.lookup x with
      | none => simp [hx2.1]
      | some w => simp
    · rw [hlen]
      simp
      omega
    · intro kv hkv
      rcases hval kv hkv with h | h
      · rcases List.mem_append.mp h with h | h
        · exact Or.inl h
        · right
          simp at h
          rw [h]
          simp
      · right
        simp
        omega
    · intro p
      rw [hrem p, List.length_set, List.getElem?_set]
      simp only [List.length_cons]
      by_cases h1 : i = p
      · subst h1
        by_cases h2 : i < remain.length
        · simp [h2]
        · simp [h2]
          omega
      · by_cases h2 : i + 1 ≤ p ∧ p < i + 1 + rest.length ∧ p < remain.length
        · rw [if_pos h2, if_pos ⟨by omega, by omega, h2.2.2⟩]
        · rw [if_neg h2, if_neg h1, if_neg (by omega)]

/-- C21: `init_meta_snp_map` stops with the duplicated-SNP error exactly when the name
list holds a repeated name; on a list without repetition it returns the registry whose
name array is the input list, whose remain vector is `0, 1, …, n - 1` and whose map
sends the name at position `i` to `i` and has no other key. -/
theorem C21_init_meta_snp_map (snplist : List String) :
    (init_meta_snp_map snplist = .error .DuplicateSNP ↔ ¬ snplist.Nodup) ∧
    (snplist.Nodup → ∃ m, init_meta_snp_map snplist
        = .ok ⟨m, snplist, List.range snplist.length⟩ ∧
      (∀ i (h : i < snplist.length), m.lookup (snplist.get ⟨i, h⟩) = some i) ∧
      (∀ x, x ∉ snplist → m.lookup x = none)) := by
  have hok : snplist.Nodup → ∃ m, init_meta_snp_map snplist
        = .ok ⟨m, snplist, List.range snplist.length⟩ ∧
      (∀ i (h : i < snplist.length), m.lookup (snplist.get ⟨i, h⟩) = some i) ∧
      (∀ x, x ∉ snplist → m.lookup x = none) := by
    intro hnd
    obtain ⟨m2, remain2, hrun, hidx, hother, _, _, hrem⟩ :=
      init_meta_snp_map_loop_ok snplist 0 0 [] (List.replicate snplist.length 0) rfl hnd
        (fun _ _ => rfl)
    have hr : remain2 = List.range snplist.length := by
      apply List.ext_getElem?
      intro p
      rw [hrem p]
      by_cases hp : p < snplist.length
      · rw [if_pos ⟨Nat.zero_le _, by omega, by simpa using hp⟩, List.getElem?_range hp]
      · rw [if_neg (by omega)]
        rw [List.getElem?_eq_none (by simpa using hp), List.getElem?_eq_none (by simpa using hp)]
    refine ⟨m2, ?_, ?_, ?_⟩
    · unfold init_meta_snp_map
      rw [hrun, hr]
    · intro i h
      simpa using hidx i h
    · intro x hx
      rw [hother x hx]
      rfl
  refine ⟨⟨fun h hnd => ?_, fun h => ?_⟩, hok⟩
  · obtain ⟨m, hm, _⟩ := hok hnd
    rw [hm] at h
    cases h
  · unfold init_meta_snp_map
    rw [init_meta_snp_map_loop_dup snplist 0 0 [] _ rfl (Or.inl h)]

/-- Witness for C21: the list `s1, s2` has no repeated name, and the registry built from
it maps `s1` to `0` and `s2` to `1`, with the remain vector `0, 1`. -/
theorem C21_init_meta_snp_map_witness :
    ∃ m, init_meta_snp_map ["s1", "s2"] = .ok ⟨m, ["s1", "s2"], List.range 2⟩ ∧
      (∀ i (h : i < 2), m.lookup (["s1", "s2"].get ⟨i, h⟩) = some i) ∧
      (∀ x, x ∉ ["s1", "s2"] → m.lookup x = none) :=
  (C21_init_meta_snp_map ["s1", "s2"]).2 (by simp)

theorem foldl_mapErase {β : Type} (adjsnps : List String) :
    ∀ m : List (String × β),
      adjsnps.foldl mapErase m = m.filter (fun kv => decide (kv.1 ∉ adjsnps)) := by
  induction adjsnps with
  | nil => intro m; simp
  | cons a rest ih =>
    intro m
    rw [List.foldl_cons, ih]
    unfold mapErase
    rw [List.filter_filter]
    congr 1
    funext kv
    by_cases h1 : kv.1 = a <;> by_cases h2 : kv.1 ∈ rest <;> simp [h1, h2]

theorem lookup_filter_key {β : Type} (p : String → Bool) (x : String) :
    ∀ m : List (String × β),
      (m.filter (fun kv => p kv.1)).lookup x = if p x = true then m.lookup x else none := by
  intro m
  induction m with
  | nil => simp
  | cons kv rest ih =>
    obtain ⟨k, v⟩ := kv
    by_cases hk : p k = true
    · rw [List.filter_cons_of_pos (by simpa using hk), lookup_cons_ite, lookup_cons_ite, ih]
      by_cases hx : x = k
      · subst hx; simp [hk]
      · simp [hx]
    · rw [List.filter_cons_of_neg (by simpa using hk), lookup_cons_ite, ih]
      by_cases hx : x = k
      · subst hx; simp [hk]
      · simp [hx]

/-- C22: `update_mtcojo_snp_rm` drops exactly the given names. The map keeps the entries
whose key is not a given name, each with its old index, so a given name is no key
afterwards, every other name has its old index, and given names that are no keys change
nothing; the name array is untouched; the remain vector is sorted ascending and holds
exactly the indices of the surviving entries. -/
theorem C22_update_mtcojo_snp_rm (adjsnps : List String) (R : MetaRegistry) :
    (update_mtcojo_snp_rm adjsnps R)._meta_snp_name_map
      = R._meta_snp_name_map.filter (fun kv => decide (kv.1 ∉ adjsnps)) ∧
    (∀ x, (update_mtcojo_snp_rm adjsnps R)._meta_snp_name_map.lookup x
      = if x ∈ adjsnps then none else R._meta_snp_name_map.lookup x) ∧
    ((∀ x ∈ adjsnps, R._meta_snp_name_map.lookup x = none) →
      (update_mtcojo_snp_rm adjsnps R)._meta_snp_name_map = R._meta_snp_name_map) ∧
    (update_mtcojo_snp_rm adjsnps R)._meta_snp_name = R._meta_snp_name ∧
    (update_mtcojo_snp_rm adjsnps R)._meta_remain_snp.Sorted (· ≤ ·) ∧
    (update_mtcojo_snp_rm adjsnps R)._meta_remain_snp.Perm
      ((R._meta_snp_name_map.filter (fun kv => decide (kv.1 ∉ adjsnps))).map Prod.snd) := by
  have hmap : (update_mtcojo_snp_rm adjsnps R)._meta_snp_name_map
      = R._meta_snp_name_map.filter (fun kv => decide (kv.1 ∉ adjsnps)) :=
    foldl_mapErase adjsnps R._meta_snp_name_map
  refine ⟨hmap, ?_, ?_, rfl, ?_, ?_⟩
  · intro x
    rw [hmap, lookup_filter_key (fun k => decide (k ∉ adjsnps)) x]
    by_cases hx : x ∈ adjsnps <;> simp [hx]
  · intro h
    rw [hmap, List.filter_eq_self]
    intro kv hkv
    simp only [decide_eq_true_eq]
    intro hmem
    have hnone := h kv.1 hmem
    rw [List.lookup_eq_none_iff] at hnone
    have := hnone kv hkv
    simp at this
  · exact List.sorted_insertionSort _ _
  · show (List.insertionSort (· ≤ ·)
      ((adjsnps.foldl mapErase R._meta_snp_name_map).map Prod.snd)).Perm _
    rw [foldl_mapErase]
    exact List.perm_insertionSort _ _

/-- The map filled by inserting `(l[i], i)` for `i = 0 .. n - 1` sends the name at
position `p` to `p` when the names are pairwise different. -/
theorem range_foldl_mapInsert_lookup (l : List String) (hnd : l.Nodup) (p : ℕ)
    (hp : p < l.length) :
    ((List.range l.length).foldl (fun m i => mapInsert m (l.getD i "") i) []).lookup
      (l.getD p "") = some p := by
  refine indices_snp_map_lookup l l.length ?_ l.length p le_rfl hp
  intro i j hi hj e
  rw [List.getD_eq_getElem _ _ hi, List.getD_eq_getElem _ _ hj] at e
  exact (List.Nodup.getElem_inj_iff hnd).mp e

/-- C23 (as stated, refuted): on the registry with the single name `a` and the remain
vector `0, 0`, whose entries are valid indices, `update_meta_snp` yields the name array
`a, a` and a map that sends `a` to `0`, so the name at position `1` is not sent
to `1`. -/
theorem C23_repeated_entry_counterexample :
    (∀ r ∈ (⟨[("a", 0)], ["a"], [0, 0]⟩ : MetaRegistry)._meta_remain_snp,
      r < (⟨[("a", 0)], ["a"], [0, 0]⟩ : MetaRegistry)._meta_snp_name.length) ∧
    (update_meta_snp ⟨[("a", 0)], ["a"], [0, 0]⟩)._meta_snp_name = ["a", "a"] ∧
    (update_meta_snp ⟨[("a", 0)], ["a"], [0, 0]⟩)._meta_snp_name_map.lookup "a" = some 0 ∧
    ¬ (∀ k, k < 2 →
      (update_meta_snp ⟨[("a", 0)], ["a"], [0, 0]⟩)._meta_snp_name_map.lookup
        ((update_meta_snp ⟨[("a", 0)], ["a"], [0, 0]⟩)._meta_snp_name.getD k "") = some k) := by
  refine ⟨by decide, by decide, by decide, ?_⟩
  intro h
  exact absurd (h 1 (by decide)) (by decide)

/-- C23 (amended): for a remain vector of length `m` whose entries are valid indices of
pairwise different names, `update_meta_snp` yields the remain vector `0, …, m - 1` and a
name array of length `m`, and for every `k < m` the name formerly at index `remain[k]`
is the new name at position `k` and the map sends it to `k`; the map has no other
key. -/
theorem C23_update_meta_snp (R : MetaRegistry)
    (hvalid : ∀ r ∈ R._meta_remain_snp, r < R._meta_snp_name.length)
    (hdist : (R._meta_remain_snp.map fun r => R._meta_snp_name.getD r "").Nodup) :
    (update_meta_snp R)._meta_remain_snp = List.range R._meta_remain_snp.length ∧
    (update_meta_snp R)._meta_snp_name.length = R._meta_remain_snp.length ∧
    (∀ k (h : k < R._meta_remain_snp.length), ∃ name,
      R._meta_snp_name[R._meta_remain_snp.get ⟨k, h⟩]? = some name ∧
      (update_meta_snp R)._meta_snp_name[k]? = some name ∧
      (update_meta_snp R)._meta_snp_name_map.lookup name = some k) ∧
    (∀ x, x ∉ (update_meta_snp R)._meta_snp_name →
      (update_meta_snp R)._meta_snp_name_map.lookup x = none) := by
  refine ⟨rfl, by simp [update_meta_snp], ?_, ?_⟩
  · intro k h
    have hr : R._meta_remain_snp.get ⟨k, h⟩ < R._meta_snp_name.length :=
      hvalid _ (List.get_mem _ _ _)
    have hr2 : R._meta_remain_snp[k] < R._meta_snp_name.length := hr
    refine ⟨R._meta_snp_name.get ⟨_, hr⟩, ?_, ?_, ?_⟩
    · simp
    · simp [update_meta_snp, h, List.getElem?_eq_getElem hr2]
    · have hk : k < (R._meta_remain_snp.map fun r => R._meta_snp_name.getD r "").length := by
        simpa using h
      have := range_foldl_mapInsert_lookup _ hdist k hk
      rw [List.length_map] at this
      have he : (R._meta_remain_snp.map fun r => R._meta_snp_name.getD r "").getD k ""
          = R._meta_snp_name.get ⟨_, hr⟩ := by
        rw [List.getD_eq_getElem _ _ hk]
        simp [List.getElem?_eq_getElem hr2]
      rw [he] at this
      exact this
  · intro x hx
    have hx2 : ∀ i, i < R._meta_remain_snp.length →
        (R._meta_remain_snp.map fun r => R._meta_snp_name.getD r "").getD i "" ≠ x := by
      intro i hi e
      apply hx
      have hk : i < (R._meta_remain_snp.map fun r => R._meta_snp_name.getD r "").length := by
        simpa using hi
      rw [List.getD_eq_getElem _ _ hk] at e
      rw [← e]
      exact List.getElem_mem _
    exact indices_snp_map_none _ x R._meta_remain_snp.length hx2

/-- Witness for C23: the registry of the names `a, b, c` with the remain vector `2, 0`
is compacted to the names `c, a` with the indices `0, 1`. -/
theorem C23_update_meta_snp_witness :
    (update_meta_snp ⟨[("a", 0), ("c", 2)], ["a", "b", "c"], [2, 0]⟩)._meta_remain_snp
      = List.range 2 ∧
    (update_meta_snp ⟨[("a", 0), ("c", 2)], ["a", "b", "c"], [2, 0]⟩)._meta_snp_name.length
      = 2 ∧
    (∀ k (h : k < 2), ∃ name,
      ["a", "b", "c"][[2, 0].get ⟨k, h⟩]? = some name ∧
      (update_meta_snp ⟨[("a", 0), ("c", 2)], ["a", "b", "c"], [2, 0]⟩)._meta_snp_name[k]?
        = some name ∧
      (update_meta_snp ⟨[("a", 0), ("c", 2)], ["a", "b", "c"], [2, 0]⟩)._meta_snp_name_map.lookup
        name = some k) ∧
    (∀ x, x ∉ (update_meta_snp ⟨[("a", 0), ("c", 2)], ["a", "b", "c"], [2, 0]⟩)._meta_snp_name →
      (update_meta_snp ⟨[("a", 0), ("c", 2)], ["a", "b", "c"], [2, 0]⟩)._meta_snp_name_map.lookup
        x = none) :=
  C23_update_meta_snp ⟨[("a", 0), ("c", 2)], ["a", "b", "c"], [2, 0]⟩ (by decide) (by decide)

/-- The loop of `update_meta_snp_map` stops with the duplicate error when a remaining
name is repeated or was met before. -/
theorem update_meta_snp_map_loop_dup (l : List String) :
    ∀ (i j size : ℕ) (add : List (String × ℕ)) (R : MetaRegistry), size = add.length →
      (¬ l.Nodup ∨ ∃ x ∈ l, (add.lookup x).isSome = true) →
      update_meta_snp_map_loop l i j size add R = .error .DuplicateSNP := by
  induction l with
  | nil =>
    intro i j size add R _ h
    rcases h with h | ⟨x, hx, _⟩
    · exact absurd List.nodup_nil h
    · simp at hx
  | cons name rest ih =>
    intro i j size add R hsize h
    unfold update_meta_snp_map_loop
    by_cases hk : (add.lookup name).isSome = true
    · simp only [mapInsert_of_isSome add name i hk]
      rw [if_pos hsize]
    · have hnone : add.lookup name = none := by
        cases hl : add.lookup name with
        | none => rfl
        | some v => simp [hl] at hk
      simp only [mapInsert_of_none add name i hnone]
      rw [if_neg (by simp [hsize])]
      have hname : ((add ++ [(name, i)]).lookup name).isSome = true := by
        have := lookup_mapInsert_of_none add name name i hnone
        rw [mapInsert_of_none add name i hnone] at this
        simp [this]
      have hnext : ¬ rest.Nodup ∨ ∃ x ∈ rest, ((add ++ [(name, i)]).lookup x).isSome = true := by
        rcases h with h | ⟨x, hx, hsome⟩
        · rw [List.nodup_cons, not_and_or, not_not] at h
          rcases h with h | h
          · exact Or.inr ⟨name, h, hname⟩
          · exact Or.inl h
        · rcases List.mem_cons.mp hx with hx | hx
          · subst hx; exact absurd hsome hk
          · refine Or.inr ⟨x, hx, ?_⟩
            cases hl : add.lookup x with
            | none => simp [hl] at hsome
            | some w =>
              have := lookup_mapInsert_of_some add name x i w hl
              rw [mapInsert_of_none add name i hnone] at this
              simp [this]
      split_ifs
      · exact ih _ _ _ _ _ rfl hnext
      · exact ih _ _ _ _ _ rfl hnext

/-- The loop of `update_meta_snp_map` on names that are pairwise different and were not
met before: it returns, and the keys of the map afterwards are the former keys and the
names of the list. -/
theorem update_meta_snp_map_loop_ok (l : List String) :
    ∀ (i j size : ℕ) (add : List (String × ℕ)) (R : MetaRegistry), size = add.length →
      l.Nodup → (∀ x ∈ l, add.lookup x = none) →
      ∃ R2, update_meta_snp_map_loop l i j size add R = .ok R2 ∧
        ∀ x, (R2._meta_snp_name_map.lookup x).isSome = true ↔
          ((R._meta_snp_name_map.lookup x).isSome = true ∨ x ∈ l) := by
  induction l with
  | nil =>
    intro i j size add R _ _ _
    exact ⟨R, rfl, fun x => by simp⟩
  | cons name rest ih =>
    intro i j size add R hsize hnd hnone
    have hn : add.lookup name = none := hnone name (List.mem_cons_self _ _)
    have hnd2 := List.nodup_cons.mp hnd
    unfold update_meta_snp_map_loop
    simp only [mapInsert_of_none add name i hn]
    rw [if_neg (by simp [hsize])]
    have hadd : ∀ x ∈ rest, (add ++ [(name, i)]).lookup x = none := by
      intro x hx
      have := lookup_mapInsert_of_none add name x i (hnone x (List.mem_cons_of_mem _ hx))
      rw [mapInsert_of_none add name i hn] at this
      have hne : ¬ x = name := fun e => hnd2.1 (e ▸ hx)
      rw [this, if_neg hne]
    by_cases hk : (R._meta_snp_name_map.lookup name).isSome = true
    · rw [if_pos hk]
      obtain ⟨R2, hrun, hkeys⟩ := ih (i + 1) j _ _ R rfl hnd2.2 hadd
      refine ⟨R2, hrun, fun x => ?_⟩
      rw [hkeys x, List.mem_cons]
      constructor
      · rintro (h | h)
        · exact Or.inl h
        · exact Or.inr (Or.inr h)
      · rintro (h | h | h)
        · exact Or.inl h
        · subst h; exact Or.inl hk
        · exact Or.inr h
    · rw [if_neg hk]
      have hkn : R._meta_snp_name_map.lookup name = none := by
        cases hl : R._meta_snp_name_map.lookup name with
        | none => rfl
        | some v => simp [hl] at hk
      obtain ⟨R2, hrun, hkeys⟩ := ih (i + 1) (j + 1) _ _
        ⟨mapInsert R._meta_snp_name_map name j, R._meta_snp_name ++ [name],
          R._meta_remain_snp ++ [j]⟩ rfl hnd2.2 hadd
      refine ⟨R2, hrun, fun x => ?_⟩
      rw [hkeys x, List.mem_cons]
      have hins : ((mapInsert R._meta_snp_name_map name j).lookup x).isSome = true ↔
          ((R._meta_snp_name_map.lookup x).isSome = true ∨ x = name) := by
        cases hx : R._meta_snp_name_map.lookup x with
        | none =>
          rw [lookup_mapInsert_of_none _ _ _ _ hx]
          by_cases e : x = name <;> simp [e]
        | some w =>
          rw [lookup_mapInsert_of_some _ _ _ _ _ hx]
          simp
      show (((mapInsert R._meta_snp_name_map name j).lookup x).isSome = true ∨ x ∈ rest) ↔ _
      rw [hins]
      tauto

/-- The loop of `update_meta_snp_map` keeps the invariant on a registry whose map has as
many entries as the name array, when `j` is that number. -/
theorem update_meta_snp_map_loop_inv (l : List String) :
    ∀ (i j size : ℕ) (add : List (String × ℕ)) (R R2 : MetaRegistry),
      j = R._meta_snp_name_map.length →
      R._meta_snp_name_map.length = R._meta_snp_name.length → registry_inv R →
      update_meta_snp_map_loop l i j size add R = .ok R2 →
      registry_inv R2 ∧ R2._meta_snp_name_map.length = R2._meta_snp_name.length := by
  induction l with
  | nil =>
    intro i j size add R R2 _ hdense hinv hrun
    unfold update_meta_snp_map_loop at hrun
    cases hrun
    exact ⟨hinv, hdense⟩
  | cons name rest ih =>
    intro i j size add R R2 hj hdense hinv hrun
    unfold update_meta_snp_map_loop at hrun
    simp only at hrun
    split_ifs at hrun with h1 h2
    · exact ih _ _ _ _ R R2 hj hdense hinv hrun
    · have hkn : R._meta_snp_name_map.lookup name = none := by
        cases hl : R._meta_snp_name_map.lookup name with
        | none => rfl
        | some v => simp [hl] at h2
      refine ih _ _ _ _ _ R2 ?_ ?_ ?_ hrun
      · simp [mapInsert_of_none _ _ _ hkn, hj]
      · simp [mapInsert_of_none _ _ _ hkn, hdense]
      · obtain ⟨hs, hv, hm⟩ := hinv
        refine ⟨?_, ?_, ?_⟩
        · show (R._meta_remain_snp ++ [j]).Sorted (· ≤ ·)
          rw [List.Sorted, List.pairwise_append]
          refine ⟨hs, List.pairwise_singleton _ _, ?_⟩
          intro a ha b hb
          simp at hb
          have := hv a ha
          omega
        · intro r hr
          show r < (R._meta_snp_name ++ [name]).length
          rw [List.length_append]
          rcases List.mem_append.mp hr with hr | hr
          · have := hv r hr
            simp
            omega
          · simp at hr
            simp
            omega
        · intro kv hkv
          show kv.2 < (R._meta_snp_name ++ [name]).length
          rw [List.length_append]
          have hkv2 : kv ∈ R._meta_snp_name_map ++ [(name, j)] := by
            rw [← mapInsert_of_none _ _ _ hkn]
            exact hkv
          rcases List.mem_append.mp hkv2 with hr | hr
          · have := hm kv hr
            simp
            omega
          · simp at hr
            rw [hr]
            simp
            omega
theorem foldl_mapErase_keys {β : Type} (buf : List (String × β)) (m : List (String × ℕ)) :
    buf.foldl (fun m kv => mapErase m kv.1) m
      = m.filter (fun kv => decide (kv.1 ∉ buf.map Prod.fst)) := by
  rw [← foldl_mapErase (buf.map Prod.fst) m, List.foldl_map]

/-- The remain vector rebuilt from the values of a map whose values are valid indices
satisfies the invariant together with that map. -/
theorem registry_inv_rebuild (m : List (String × ℕ)) (names : List String)
    (hm : ∀ kv ∈ m, kv.2 < names.length) :
    registry_inv ⟨m, names, List.insertionSort (· ≤ ·) (m.map Prod.snd)⟩ := by
  refine ⟨List.sorted_insertionSort _ _, ?_, hm⟩
  intro r hr
  have hr2 : r ∈ m.map Prod.snd := (List.perm_insertionSort _ _).mem_iff.mp hr
  obtain ⟨kv, hkv, rfl⟩ := List.mem_map.mp hr2
  exact hm kv hkv

/-- C24 (as stated, refuted): the registry of the names `a, b, c` after the removal of
`a` and `b` has the remain vector `2`, sorted and valid; `update_meta_snp_map` with the
new name `d` then appends the index `1`, the size of the map, and the remain vector
`2, 1` is not sorted. -/
theorem C24_update_after_removal_counterexample :
    init_meta_snp_map ["a", "b", "c"]
      = .ok ⟨[("a", 0), ("b", 1), ("c", 2)], ["a", "b", "c"], [0, 1, 2]⟩ ∧
    update_mtcojo_snp_rm ["a", "b"] ⟨[("a", 0), ("b", 1), ("c", 2)], ["a", "b", "c"], [0, 1, 2]⟩
      = ⟨[("c", 2)], ["a", "b", "c"], [2]⟩ ∧
    ([2] : List ℕ).Sorted (· ≤ ·) ∧ (∀ r ∈ ([2] : List ℕ), r < ["a", "b", "c"].length) ∧
    update_meta_snp_map ["d"] ⟨[("c", 2)], ["a", "b", "c"], [2]⟩
      = .ok ⟨[("c", 2), ("d", 1)], ["a", "b", "c", "d"], [2, 1]⟩ ∧
    ¬ ([2, 1] : List ℕ).Sorted (· ≤ ·) := by
  refine ⟨by rfl, by rfl, by simp, by simp, by rfl, by simp⟩

/-- C24 (amended): on a registry whose remain vector is sorted ascending and whose remain
entries and map values are valid indices into the name array, `update_meta_snp`,
`update_mtcojo_snp_kp` and `update_mtcojo_snp_rm` yield a registry with the same
properties, and so does `update_meta_snp_map` for a list without repeated name when the
map has as many entries as the name array, which it then still has; `init_meta_snp_map`
yields such a registry from every list without repeated name. -/
theorem C24_registry_invariant (R : MetaRegistry) (adjsnps snplist : List String)
    (hinv : registry_inv R) :
    (snplist.Nodup → ∃ R2, init_meta_snp_map snplist = .ok R2 ∧ registry_inv R2 ∧
      R2._meta_snp_name_map.length = R2._meta_snp_name.length) ∧
    registry_inv (update_meta_snp R) ∧
    registry_inv (update_mtcojo_snp_kp adjsnps R) ∧
    registry_inv (update_mtcojo_snp_rm adjsnps R) ∧
    (snplist.Nodup → R._meta_snp_name_map.length = R._meta_snp_name.length →
      ∃ R2, update_meta_snp_map snplist R = .ok R2 ∧ registry_inv R2 ∧
        R2._meta_snp_name_map.length = R2._meta_snp_name.length) := by
  obtain ⟨hs, hv, hm⟩ := hinv
  refine ⟨?_, ?_, ?_, ?_, ?_⟩
  · intro hnd
    obtain ⟨m2, remain2, hrun, _, _, hlen, hval, hrem⟩ :=
      init_meta_snp_map_loop_ok snplist 0 0 [] (List.replicate snplist.length 0) rfl hnd
        (fun _ _ => rfl)
    have hr : remain2 = List.range snplist.length := by
      apply List.ext_getElem?
      intro p
      rw [hrem p]
      by_cases hp : p < snplist.length
      · rw [if_pos ⟨Nat.zero_le _, by omega, by simpa using hp⟩, List.getElem?_range hp]
      · rw [if_neg (by omega)]
        rw [List.getElem?_eq_none (by simpa using hp), List.getElem?_eq_none (by simpa using hp)]
    refine ⟨⟨m2, snplist, remain2⟩, ?_, ⟨?_, ?_, ?_⟩, ?_⟩
    · unfold init_meta_snp_map
      rw [hrun]
    · show remain2.Sorted (· ≤ ·)
      rw [hr]
      exact (List.sorted_lt_range _).le_of_lt
    · intro r hr2
      rw [hr] at hr2
      exact List.mem_range.mp hr2
    · intro kv hkv
      rcases hval kv hkv with h | h
      · simp at h
      · simpa using h
    · simpa using hlen
  · refine ⟨?_, ?_, ?_⟩
    · exact (List.sorted_lt_range _).le_of_lt
    · intro r hr
      have : r < R._meta_remain_snp.length := List.mem_range.mp hr
      simpa [update_meta_snp] using this
    · intro kv hkv
      have hgen : ∀ (n : ℕ) (f : ℕ → String), ∀ kv ∈
          (List.range n).foldl (fun m i => mapInsert m (f i) i) ([] : List (String × ℕ)),
          kv.2 < n := by
        intro n f
        induction n with
        | zero => intro kv h; simp at h
        | succ n ih =>
          intro kv h
          rw [List.range_succ, List.foldl_append] at h
          simp only [List.foldl_cons, List.foldl_nil] at h
          unfold mapInsert at h
          split_ifs at h
          · have := ih kv h
            omega
          · rcases List.mem_append.mp h with h | h
            · have := ih kv h
              omega
            · simp at h
              rw [h]
              simp
      have := hgen _ _ kv hkv
      simpa [update_meta_snp] using this
  · unfold update_mtcojo_snp_kp
    apply registry_inv_rebuild
    intro kv hkv
    rw [foldl_mapErase_keys] at hkv
    exact hm kv (List.mem_of_mem_filter hkv)
  · unfold update_mtcojo_snp_rm
    apply registry_inv_rebuild
    intro kv hkv
    rw [foldl_mapErase] at hkv
    exact hm kv (List.mem_of_mem_filter hkv)
  · intro hnd hdense
    obtain ⟨R2, hrun, _⟩ := update_meta_snp_map_loop_ok snplist 0
      R._meta_snp_name_map.length 0 [] R rfl hnd (fun _ _ => rfl)
    refine ⟨R2, hrun, ?_⟩
    exact update_meta_snp_map_loop_inv snplist _ _ _ _ R R2 rfl hdense ⟨hs, hv, hm⟩ hrun

/-- Witness for C24: the registry of the names `a, b, c` with all three retained
satisfies the invariant, and each operation keeps it. -/
theorem C24_registry_invariant_witness :
    registry_inv ⟨[("a", 0), ("b", 1), ("c", 2)], ["a", "b", "c"], [0, 1, 2]⟩ ∧
    registry_inv (update_meta_snp ⟨[("a", 0), ("b", 1), ("c", 2)], ["a", "b", "c"], [0, 1, 2]⟩) ∧
    registry_inv (update_mtcojo_snp_kp ["a", "c"]
      ⟨[("a", 0), ("b", 1), ("c", 2)], ["a", "b", "c"], [0, 1, 2]⟩) ∧
    registry_inv (update_mtcojo_snp_rm ["a", "c"]
      ⟨[("a", 0), ("b", 1), ("c", 2)], ["a", "b", "c"], [0, 1, 2]⟩) ∧
    (∃ R2, update_meta_snp_map ["c", "d"]
        ⟨[("a", 0), ("b", 1), ("c", 2)], ["a", "b", "c"], [0, 1, 2]⟩ = .ok R2 ∧
      registry_inv R2 ∧ R2._meta_snp_name_map.length = R2._meta_snp_name.length) := by
  have hinv : registry_inv ⟨[("a", 0), ("b", 1), ("c", 2)], ["a", "b", "c"], [0, 1, 2]⟩ := by
    refine ⟨by simp, by simp, by simp⟩
  have h := C24_registry_invariant
    ⟨[("a", 0), ("b", 1), ("c", 2)], ["a", "b", "c"], [0, 1, 2]⟩ ["a", "c"] ["c", "d"] hinv
  exact ⟨hinv, h.2.1, h.2.2.1, h.2.2.2.1, h.2.2.2.2 (by simp) rfl⟩

/-- With a threshold that is not positive the reading loop of `read_snp_metafile` lists
the first token of every line after the header, when every line has 8 tokens. -/
theorem read_snp_metafile_loop_all (tx : TextRoutines) (thresh : ℚ) (hth : ¬ thresh > 0)
    (lines : List (List String)) :
    ∀ (line_number : ℕ) (pval_buf : Option ℚ) (snplist : List String),
      (∀ l ∈ lines, l.length = 8) →
      read_snp_metafile_loop tx thresh lines line_number pval_buf snplist
        = .ok (snplist ++ ((if line_number = 0 then lines.drop 1 else lines).map
            fun l => l.getD 0 "")) := by
  induction lines with
  | nil =>
    intro line_number pval_buf snplist _
    unfold read_snp_metafile_loop
    simp
  | cons line rest ih =>
    intro line_number pval_buf snplist h8
    unfold read_snp_metafile_loop
    rw [if_neg (by simp [h8 line (List.mem_cons_self _ _)])]
    have hrest : ∀ l ∈ rest, l.length = 8 := fun l hl => h8 l (List.mem_cons_of_mem _ hl)
    by_cases h0 : line_number = 0
    · subst h0
      rw [if_pos rfl, ih _ _ _ hrest]
      simp
    · rw [if_neg (by omega), if_neg hth, ih _ _ _ hrest, if_neg (by omega), if_neg h0]
      simp

/-- A line that does not have 8 tokens makes `read_snp_metafile` stop with the format
error, whatever the threshold. -/
theorem read_snp_metafile_loop_bad (tx : TextRoutines) (thresh : ℚ)
    (lines : List (List String)) :
    ∀ (line_number : ℕ) (pval_buf : Option ℚ) (snplist : List String),
      (∃ l ∈ lines, l.length ≠ 8) →
      read_snp_metafile_loop tx thresh lines line_number pval_buf snplist
        = .error .InvalidFormat := by
  induction lines with
  | nil => intro _ _ _ h; simp at h
  | cons line rest ih =>
    intro line_number pval_buf snplist h
    unfold read_snp_metafile_loop
    by_cases h8 : line.length ≠ 8
    · rw [if_pos h8]
    · rw [if_neg h8]
      have hrest : ∃ l ∈ rest, l.length ≠ 8 := by
        obtain ⟨l, hl, hne⟩ := h
        rcases List.mem_cons.mp hl with e | hl
        · subst e; exact absurd hne h8
        · exact ⟨l, hl, hne⟩
      simp only
      split_ifs <;> exact ih _ _ _ hrest

theorem read_snp_metafile_all (tx : TextRoutines) (lines : List (List String))
    (h8 : ∀ l ∈ lines, l.length = 8) :
    read_snp_metafile tx (some lines) (-9) = .ok ((lines.drop 1).map fun l => l.getD 0 "") := by
  unfold read_snp_metafile
  simp only
  rw [read_snp_metafile_loop_all tx (-9) (by norm_num) lines 0 (some 0) [] h8]
  simp

/-- The covariate loop of `read_mtcojofile` after the first file: each file adds its
names, so the keys of the map afterwards are the former keys and the names of the
files. -/
theorem read_mtcojofile_covar_loop_tail (tx : TextRoutines)
    (tables : List (List (List String))) :
    ∀ (i : ℕ) (R : MetaRegistry), i ≠ 0 →
      (∀ t ∈ tables, (∀ l ∈ t, l.length = 8) ∧
        ((t.drop 1).map fun l => l.getD 0 "").Nodup) →
      ∃ R2, read_mtcojofile_covar_loop tx (tables.map some) i R = .ok R2 ∧
        ∀ x, (R2._meta_snp_name_map.lookup x).isSome = true ↔
          ((R._meta_snp_name_map.lookup x).isSome = true ∨
            ∃ t ∈ tables, x ∈ (t.drop 1).map fun l => l.getD 0 "") := by
  induction tables with
  | nil =>
    intro i R _ _
    exact ⟨R, rfl, fun x => by simp⟩
  | cons t rest ih =>
    intro i R hi h
    obtain ⟨h8, hnd⟩ := h t (List.mem_cons_self _ _)
    obtain ⟨R1, hrun1, hkeys1⟩ := update_meta_snp_map_loop_ok _ 0
      R._meta_snp_name_map.length 0 [] R rfl hnd (fun _ _ => rfl)
    obtain ⟨R2, hrun2, hkeys2⟩ := ih (i + 1) R1 (by omega)
      (fun t2 ht2 => h t2 (List.mem_cons_of_mem _ ht2))
    refine ⟨R2, ?_, ?_⟩
    · rw [List.map_cons]
      unfold read_mtcojofile_covar_loop
      rw [read_snp_metafile_all tx t h8]
      simp only
      rw [if_neg hi]
      unfold update_meta_snp_map
      rw [hrun1]
      exact hrun2
    · intro x
      rw [hkeys2 x, hkeys1 x]
      simp only [List.mem_cons, exists_eq_or_imp]
      tauto
/-- The map after `update_mtcojo_snp_kp` holds the entries whose key is a given name. -/
theorem update_mtcojo_snp_kp_map (adjsnps : List String) (R : MetaRegistry) :
    (update_mtcojo_snp_kp adjsnps R)._meta_snp_name_map
      = R._meta_snp_name_map.filter (fun kv => decide (kv.1 ∈ adjsnps)) := by
  show (adjsnps.foldl mapErase R._meta_snp_name_map).foldl (fun m kv => mapErase m kv.1)
    R._meta_snp_name_map = _
  rw [foldl_mapErase_keys, foldl_mapErase]
  apply List.filter_congr
  intro kv hkv
  by_cases hmem : kv.1 ∈ adjsnps
  · have : kv.1 ∉ (R._meta_snp_name_map.filter
        (fun kv => decide (kv.1 ∉ adjsnps))).map Prod.fst := by
      intro h
      obtain ⟨kv2, hkv2, e⟩ := List.mem_map.mp h
      have := (List.mem_filter.mp hkv2).2
      simp only [decide_eq_true_eq] at this
      exact this (e ▸ hmem)
    simp [hmem, this]
  · have : kv.1 ∈ (R._meta_snp_name_map.filter
        (fun kv => decide (kv.1 ∉ adjsnps))).map Prod.fst :=
      List.mem_map.mpr ⟨kv, List.mem_filter.mpr ⟨hkv, by simpa using hmem⟩, rfl⟩
    simp only [hmem, this, not_true_eq_false, decide_False]

theorem update_mtcojo_snp_kp_lookup (adjsnps : List String) (R : MetaRegistry) (x : String) :
    (update_mtcojo_snp_kp adjsnps R)._meta_snp_name_map.lookup x
      = if x ∈ adjsnps then R._meta_snp_name_map.lookup x else none := by
  rw [update_mtcojo_snp_kp_map, lookup_filter_key (fun k => decide (k ∈ adjsnps)) x]
  by_cases hx : x ∈ adjsnps <;> simp [hx]

/-- The covariate loop of `read_mtcojofile` from the first file on: the keys of the map
afterwards are the names of the files. -/
theorem read_mtcojofile_covar_loop_keys (tx : TextRoutines)
    (tables : List (List (List String))) (R : MetaRegistry) (hne : tables ≠ [])
    (hfiles : ∀ t ∈ tables, (∀ l ∈ t, l.length = 8) ∧
      ((t.drop 1).map fun l => l.getD 0 "").Nodup) :
    ∃ R2, read_mtcojofile_covar_loop tx (tables.map some) 0 R = .ok R2 ∧
      ∀ x, (R2._meta_snp_name_map.lookup x).isSome = true ↔
        ∃ t ∈ tables, x ∈ (t.drop 1).map fun l => l.getD 0 "" := by
  cases tables with
  | nil => exact absurd rfl hne
  | cons t rest =>
    obtain ⟨h8, hnd⟩ := hfiles t (List.mem_cons_self _ _)
    obtain ⟨m, remain, hrun, hidx, hother, _, _, _⟩ :=
      init_meta_snp_map_loop_ok _ 0 0 []
        (List.replicate ((t.drop 1).map fun l => l.getD 0 "").length 0) rfl hnd (fun _ _ => rfl)
    obtain ⟨R2, hrun2, hkeys2⟩ := read_mtcojofile_covar_loop_tail tx rest 1
      ⟨m, (t.drop 1).map fun l => l.getD 0 "", remain⟩ (by omega)
      (fun t2 ht2 => hfiles t2 (List.mem_cons_of_mem _ ht2))
    refine ⟨R2, ?_, ?_⟩
    · rw [List.map_cons]
      unfold read_mtcojofile_covar_loop
      rw [read_snp_metafile_all tx t h8]
      simp only
      rw [if_pos trivial]
      unfold init_meta_snp_map
      rw [hrun]
      exact hrun2
    · intro x
      rw [hkeys2 x]
      have hm : (m.lookup x).isSome = true ↔ x ∈ (t.drop 1).map fun l => l.getD 0 "" := by
        constructor
        · intro h
          by_contra hx
          rw [hother x hx] at h
          simp at h
        · intro hx
          obtain ⟨k, hk, e⟩ := List.getElem_of_mem hx
          have := hidx k hk
          rw [List.get_eq_getElem, e] at this
          simp [this]
      show ((m.lookup x).isSome = true ∨ _) ↔ _
      rw [hm]
      simp only [List.mem_cons, exists_eq_or_imp]

/-- C25 (as stated, refuted): with the covariate files `s1, s2` and `s2, s3` the registry
after the second covariate file holds the three names `s1`, `s2` and `s3`, although
`s1` is not in the second file and `s3` is not in the first. -/
theorem C25_second_covariate_adds_counterexample :
    read_mtcojofile_covar_loop exampleText
        [some example_metafile_s1_s2, some example_metafile_s2_s3] 0 ⟨[], [], []⟩
      = .ok ⟨[("s1", 0), ("s2", 1), ("s3", 2)], ["s1", "s2", "s3"], [0, 1, 2]⟩ ∧
    "s1" ∉ (example_metafile_s2_s3.drop 1).map (fun l => l.getD 0 "") ∧
    "s3" ∉ (example_metafile_s1_s2.drop 1).map (fun l => l.getD 0 "") := by
  have ha : read_snp_metafile exampleText (some example_metafile_s1_s2) (-9)
      = .ok ["s1", "s2"] := by
    rw [read_snp_metafile_all _ _ (by decide)]
    rfl
  have hb : read_snp_metafile exampleText (some example_metafile_s2_s3) (-9)
      = .ok ["s2", "s3"] := by
    rw [read_snp_metafile_all _ _ (by decide)]
    rfl
  refine ⟨?_, by decide, by decide⟩
  unfold read_mtcojofile_covar_loop
  rw [ha]
  simp only
  unfold read_mtcojofile_covar_loop
  rw [hb]
  rfl

/-- C25 (amended): in `read_mtcojofile`, for covariate files that can be read, have 8
tokens on every line and list no SNP twice, the registry after the first `k` covariate
files holds exactly the SNP names present in at least one of these files; when
`update_id_map_kp` keeps exactly the keys it is given, the registry after the target
file holds exactly the names of the target file that are in at least one covariate
file. -/
theorem C25_read_mtcojofile_registry (tx : TextRoutines)
    (update_id_map_kp : List String → MetaRegistry → MetaRegistry)
    (tables : List (List (List String))) (target : List (List String)) (R : MetaRegistry)
    (hne : tables ≠ [])
    (hfiles : ∀ t ∈ tables, (∀ l ∈ t, l.length = 8) ∧
      ((t.drop 1).map fun l => l.getD 0 "").Nodup)
    (htarget : ∀ l ∈ target, l.length = 8)
    (hkp : ∀ (l : List String) (R : MetaRegistry) (x : String),
      ((update_id_map_kp l R)._meta_snp_name_map.lookup x).isSome = true ↔
        (x ∈ l ∧ (R._meta_snp_name_map.lookup x).isSome = true)) :
    (∀ k, 0 < k → k ≤ tables.length →
      ∃ Rk, read_mtcojofile_covar_loop tx ((tables.take k).map some) 0 R = .ok Rk ∧
        ∀ x, (Rk._meta_snp_name_map.lookup x).isSome = true ↔
          ∃ t ∈ tables.take k, x ∈ (t.drop 1).map fun l => l.getD 0 "") ∧
    (∃ R2, read_mtcojofile_snps tx update_id_map_kp (tables.map some) (some target) R
        = .ok R2 ∧
      ∀ x, (R2._meta_snp_name_map.lookup x).isSome = true ↔
        (x ∈ (target.drop 1).map (fun l => l.getD 0 "") ∧
          ∃ t ∈ tables, x ∈ (t.drop 1).map fun l => l.getD 0 "")) := by
  constructor
  · intro k hk hk2
    apply read_mtcojofile_covar_loop_keys
    · intro h
      have := congrArg List.length h
      rw [List.length_take, List.length_nil] at this
      omega
    · intro t ht
      exact hfiles t (List.mem_of_mem_take ht)
  · obtain ⟨R2, hrun, hkeys⟩ := read_mtcojofile_covar_loop_keys tx tables R hne hfiles
    refine ⟨update_id_map_kp ((target.drop 1).map fun l => l.getD 0 "") R2, ?_, ?_⟩
    · unfold read_mtcojofile_snps
      rw [hrun]
      simp only
      rw [read_snp_metafile_all tx target htarget]
    · intro x
      rw [hkp, hkeys x]

/-- Witness for C25: the covariate files `s1, s2` and `s2, s3` with the target file
`s2, s3`, and `update_mtcojo_snp_kp` in the place of `update_id_map_kp`. -/
theorem C25_read_mtcojofile_registry_witness :
    (∀ k, 0 < k → k ≤ [example_metafile_s1_s2, example_metafile_s2_s3].length →
      ∃ Rk, read_mtcojofile_covar_loop exampleText
          (([example_metafile_s1_s2, example_metafile_s2_s3].take k).map some) 0 ⟨[], [], []⟩
          = .ok Rk ∧
        ∀ x, (Rk._meta_snp_name_map.lookup x).isSome = true ↔
          ∃ t ∈ [example_metafile_s1_s2, example_metafile_s2_s3].take k,
            x ∈ (t.drop 1).map fun l => l.getD 0 "") ∧
    (∃ R2, read_mtcojofile_snps exampleText update_mtcojo_snp_kp
        ([example_metafile_s1_s2, example_metafile_s2_s3].map some)
        (some example_metafile_s2_s3) ⟨[], [], []⟩ = .ok R2 ∧
      ∀ x, (R2._meta_snp_name_map.lookup x).isSome = true ↔
        (x ∈ (example_metafile_s2_s3.drop 1).map (fun l => l.getD 0 "") ∧
          ∃ t ∈ [example_metafile_s1_s2, example_metafile_s2_s3],
            x ∈ (t.drop 1).map fun l => l.getD 0 "")) :=
  C25_read_mtcojofile_registry exampleText update_mtcojo_snp_kp
    [example_metafile_s1_s2, example_metafile_s2_s3] example_metafile_s2_s3 ⟨[], [], []⟩
    (by simp) (by decide) (by decide)
    (fun l R x => by
      rw [update_mtcojo_snp_kp_lookup]
      by_cases hx : x ∈ l <;> simp [hx])

/-- C26 (the code at the failing input): the list whose only line is
`t t.ma ABC 0.1` is accepted, and the sample prevalence of the target trait is the
`0` that `atof` returns for the token `ABC`. -/
theorem C26_unparseable_prevalence_accepted :
    exampleText.atof "ABC" = some 0 ∧
    read_metafile_list exampleText (some [["t", "t.ma", "ABC", "0.1"]])
      = .ok { target_pheno := "t"
              target_pheno_file := "t.ma"
              covar_pheno := []
              covar_pheno_file := []
              popu_prev := [some (1/10)]
              smpl_prev := [some 0] } := by
  have h1 : read_metafile_list_prev exampleText "ABC" = .ok (some 0) := by
    simp [read_metafile_list_prev, exampleText, lookup_cons_ite]
  have h2 : read_metafile_list_prev exampleText "0.1" = .ok (some (1/10)) := by
    simp [read_metafile_list_prev, exampleText, lookup_cons_ite]
    norm_num
  refine ⟨by simp [exampleText, lookup_cons_ite], ?_⟩
  simp [read_metafile_list, read_metafile_list_line, h1, h2, read_metafile_list_loop]

/-- A vector whose entries are all equal has `A2v = 0`. -/
theorem HEreg_A2v_const (Aij : List ℚ) (c : ℚ) (h : ∀ a ∈ Aij, a = c) :
    HEreg_A2v Aij = 0 := by
  have hrep : Aij = List.replicate Aij.length c := List.eq_replicate_iff.mpr ⟨rfl, h⟩
  unfold HEreg_A2v HEreg_center
  apply List.sum_eq_zero
  intro x hx
  obtain ⟨y, hy, rfl⟩ := List.mem_map.mp hx
  obtain ⟨a, ha, rfl⟩ := List.mem_map.mp hy
  have hac : a = c := h a ha
  have hpos : (Aij.length : ℚ) ≠ 0 := by
    have : 0 < Aij.length := List.length_pos_of_mem ha
    exact_mod_cast this.ne'
  have hsum : Aij.sum = Aij.length * c := by
    conv_lhs => rw [hrep]
    rw [List.sum_replicate]
    simp
  rw [hsum, hac]
  field_simp

/-- C30 (as stated, refuted): with 20 values `A_ij` all equal to `0.01` and the products
`Z_ij = 0, 1, …, 19`, `HEreg` stops at the test of `A2v` with the failure of the
degenerate regression, which is not the rejection InsufficientRelatedness. -/
theorem C30_equal_grm_error_kind_counterexample :
    HEreg exampleNumerics none ((List.range 20).map fun i => (i : ℚ))
        (List.replicate 20 (1 / 100)) = .error .SingularNormalEquations ∧
    HEreg exampleNumerics none ((List.range 20).map fun i => (i : ℚ))
        (List.replicate 20 (1 / 100)) ≠ .error .InsufficientRelatedness := by
  have hA : HEreg_A2v (List.replicate 20 (1 / 100)) = 0 :=
    HEreg_A2v_const _ (1 / 100) (fun a ha => (List.mem_replicate.mp ha).2)
  have h : HEreg exampleNumerics none ((List.range 20).map fun i => (i : ℚ))
      (List.replicate 20 (1 / 100)) = .error .SingularNormalEquations := by
    unfold HEreg
    rw [hA, if_pos (by norm_num)]
  refine ⟨h, ?_⟩
  rw [h]
  intro e
  cases e

/-- C30 (amended): when all values `A_ij` are equal, whatever the products `Z_ij` and
the numeric routines, `HEreg` returns no VG: `A2v` is `0` and the function stops at the
test `A2v < 1e-6` with the failure of the degenerate regression, before a p-value is
computed. -/
theorem C30_HEreg_equal_grm (nm : Numerics) (p_nonfinite : Option ℚ) (Zij Aij : List ℚ)
    (c : ℚ) (h : ∀ a ∈ Aij, a = c) :
    HEreg_A2v Aij = 0 ∧ HEreg nm p_nonfinite Zij Aij = .error .SingularNormalEquations := by
  have hA := HEreg_A2v_const Aij c h
  refine ⟨hA, ?_⟩
  unfold HEreg
  rw [hA, if_pos (by norm_num)]

/-- Witness for C30: 20 values `A_ij` all equal to `0.01`, with the products `Z_ij`
alternating between `1` and `-1`. -/
theorem C30_HEreg_equal_grm_witness :
    HEreg_A2v (List.replicate 20 (1 / 100)) = 0 ∧
    HEreg exampleNumerics none ((List.range 20).map fun i => if i % 2 = 0 then (1 : ℚ) else -1)
      (List.replicate 20 (1 / 100)) = .error .SingularNormalEquations :=
  C30_HEreg_equal_grm exampleNumerics none _ (List.replicate 20 (1 / 100)) (1 / 100)
    (fun a ha => (List.mem_replicate.mp ha).2)

theorem getD_range_map (n : ℕ) (f : ℕ → ℚ) (i : ℕ) (hi : i < n) :
    ((List.range n).map f).getD i 0 = f i := by
  rw [List.getD_eq_getElem _ _ (by simpa using hi)]
  simp

/-- The pass of `compute_irls` without intercept: when the roots of the weights are
exact and their sum, the mean of `n` and `Σ w x²` are not 0, the new `hsq` is the
weighted slope through the origin `Σ w x y / Σ w x²` times `M / mean(n)`, and the
intercept is unchanged. -/
theorem compute_irls_no_intercept (nm : Numerics) (intercept hsq : ℚ)
    (x0 x1 y wt ref_ld w_ld n : List ℚ) (ttl_mk_num : ℤ) (n_ld_snp : ℕ) (x_flag : Bool)
    (hsqrt : ∀ i, i < n_ld_snp → nm.sqrt (wt.getD i 0) * nm.sqrt (wt.getD i 0) = wt.getD i 0)
    (hsum : ∑ i in Finset.range n_ld_snp, nm.sqrt (wt.getD i 0) ≠ 0)
    (hmean : (∑ i in Finset.range n_ld_snp, n.getD i 0) / (n_ld_snp : ℚ) ≠ 0)
    (hden : ∑ i in Finset.range n_ld_snp, wt.getD i 0 * (x0.getD i 0 * x0.getD i 0) ≠ 0) :
    ∃ w, compute_irls nm intercept hsq x0 x1 y wt ref_ld w_ld n ttl_mk_num n_ld_snp false x_flag
      = some (intercept,
          (∑ i in Finset.range n_ld_snp, wt.getD i 0 * (x0.getD i 0 * y.getD i 0))
            / (∑ i in Finset.range n_ld_snp, wt.getD i 0 * (x0.getD i 0 * x0.getD i 0))
            * (ttl_mk_num : ℚ) / ((∑ i in Finset.range n_ld_snp, n.getD i 0) / (n_ld_snp : ℚ)),
          w) := by
  have hxx : ∑ i in Finset.range n_ld_snp,
      (x0.getD i 0 * (nm.sqrt (wt.getD i 0) / ∑ i in Finset.range n_ld_snp, nm.sqrt (wt.getD i 0)))
        * (x0.getD i 0 * (nm.sqrt (wt.getD i 0)
          / ∑ i in Finset.range n_ld_snp, nm.sqrt (wt.getD i 0)))
      = (∑ i in Finset.range n_ld_snp, wt.getD i 0 * (x0.getD i 0 * x0.getD i 0))
        / ((∑ i in Finset.range n_ld_snp, nm.sqrt (wt.getD i 0))
          * (∑ i in Finset.range n_ld_snp, nm.sqrt (wt.getD i 0))) := by
    rw [Finset.sum_div]
    apply Finset.sum_congr rfl
    intro i hi
    have h := hsqrt i (Finset.mem_range.mp hi)
    generalize nm.sqrt (wt.getD i 0) = s at h ⊢
    generalize wt.getD i 0 = w at h ⊢
    rw [← h]
    field_simp
    ring
  have hxy : ∑ i in Finset.range n_ld_snp,
      (x0.getD i 0 * (nm.sqrt (wt.getD i 0) / ∑ i in Finset.range n_ld_snp, nm.sqrt (wt.getD i 0)))
        * (y.getD i 0 * (nm.sqrt (wt.getD i 0)
          / ∑ i in Finset.range n_ld_snp, nm.sqrt (wt.getD i 0)))
      = (∑ i in Finset.range n_ld_snp, wt.getD i 0 * (x0.getD i 0 * y.getD i 0))
        / ((∑ i in Finset.range n_ld_snp, nm.sqrt (wt.getD i 0))
          * (∑ i in Finset.range n_ld_snp, nm.sqrt (wt.getD i 0))) := by
    rw [Finset.sum_div]
    apply Finset.sum_congr rfl
    intro i hi
    have h := hsqrt i (Finset.mem_range.mp hi)
    generalize nm.sqrt (wt.getD i 0) = s at h ⊢
    generalize wt.getD i 0 = w at h ⊢
    rw [← h]
    field_simp
    ring
  have hxx0 : ∑ i in Finset.range n_ld_snp,
      (x0.getD i 0 * (nm.sqrt (wt.getD i 0) / ∑ i in Finset.range n_ld_snp, nm.sqrt (wt.getD i 0)))
        * (x0.getD i 0 * (nm.sqrt (wt.getD i 0)
          / ∑ i in Finset.range n_ld_snp, nm.sqrt (wt.getD i 0))) ≠ 0 := by
    rw [hxx]
    exact div_ne_zero hden (mul_ne_zero hsum hsum)
  have hr : (∑ i in Finset.range n_ld_snp, wt.getD i 0 * (x0.getD i 0 * y.getD i 0))
        / ((∑ i in Finset.range n_ld_snp, nm.sqrt (wt.getD i 0))
          * (∑ i in Finset.range n_ld_snp, nm.sqrt (wt.getD i 0)))
      / ((∑ i in Finset.range n_ld_snp, wt.getD i 0 * (x0.getD i 0 * x0.getD i 0))
        / ((∑ i in Finset.range n_ld_snp, nm.sqrt (wt.getD i 0))
          * (∑ i in Finset.range n_ld_snp, nm.sqrt (wt.getD i 0))))
      = (∑ i in Finset.range n_ld_snp, wt.getD i 0 * (x0.getD i 0 * y.getD i 0))
        / (∑ i in Finset.range n_ld_snp, wt.getD i 0 * (x0.getD i 0 * x0.getD i 0)) := by
    have hgen : ∀ (N D S : ℚ), S ≠ 0 → D ≠ 0 → N / (S * S) / (D / (S * S)) = N / D := by
      intro N D S hS hD
      field_simp
    exact hgen _ _ _ hsum hden
  refine ⟨update_weights_hsq intercept
    ((∑ i in Finset.range n_ld_snp, wt.getD i 0 * (x0.getD i 0 * y.getD i 0))
      / (∑ i in Finset.range n_ld_snp, wt.getD i 0 * (x0.getD i 0 * x0.getD i 0))
      * (ttl_mk_num : ℚ) / ((∑ i in Finset.range n_ld_snp, n.getD i 0) / (n_ld_snp : ℚ)))
    ttl_mk_num n_ld_snp (if x_flag = true then x0 else ref_ld) w_ld n, ?_⟩
  unfold compute_irls
  simp only [Bool.false_eq_true, if_false]
  rw [if_neg (by rintro (h | h); exact hsum h; exact hmean h), if_neg hxx0]
  simp only
  rw [hxx, hxy, hr]
theorem est_hsq_trait_2_steps_prior_some (chival n ref_ld w_ld : List ℚ) (n_ld_snp : ℕ)
    (ttl_mk_num : ℤ) (h_prior : ℚ) (wt_ttl x0 : List ℚ)
    (h : est_hsq_trait_2_steps_prior chival n ref_ld w_ld n_ld_snp ttl_mk_num
      = some (h_prior, wt_ttl, x0)) :
    (∑ i in Finset.range n_ld_snp, n.getD i 0) / (n_ld_snp : ℚ) ≠ 0 ∧
    x0 = (List.range n_ld_snp).map fun i =>
      ref_ld.getD i 0 * n.getD i 0 / ((∑ i in Finset.range n_ld_snp, n.getD i 0) / (n_ld_snp : ℚ)) := by
  unfold est_hsq_trait_2_steps_prior at h
  simp only at h
  split_ifs at h with h1
  rw [not_or] at h1
  refine ⟨h1.2, ?_⟩
  split at h
  · cases h
  · injection h with h
    injection h with _ h
    injection h with _ h
    exact h.symm

/-- The weights that `update_weights_hsq` returns are positive. -/
theorem update_weights_hsq_pos (intercept h : ℚ) (ttl_mk_num : ℤ) (n_ld_snp : ℕ)
    (ref_ld w_ld n w : List ℚ)
    (hw : update_weights_hsq intercept h ttl_mk_num n_ld_snp ref_ld w_ld n = some w) :
    ∀ i, i < n_ld_snp → 0 < w.getD i 0 := by
  unfold update_weights_hsq at hw
  simp only at hw
  generalize (if (if h < 0 then 0 else h) > 1 then 1 else if h < 0 then 0 else h) = hc at hw
  split at hw
  · cases hw
  · rename_i h1
    injection hw with hw
    intro i hi
    rw [← hw, getD_range_map _ _ i hi]
    rw [not_or] at h1
    have hne := h1.2
    push_neg at hne
    have hnei := hne i (List.mem_range.mpr hi)
    apply one_div_pos.mpr
    have hwld : (0 : ℚ) < if w_ld.getD i 0 < 1 then 1 else w_ld.getD i 0 := by
      split_ifs with hlt
      · norm_num
      · linarith [not_lt.mp hlt]
    have hnn : 0 ≤ 2 * ((if w_ld.getD i 0 < 1 then 1 else w_ld.getD i 0)
        * ((intercept + hc / (ttl_mk_num : ℚ)
            * (n.getD i 0 * if ref_ld.getD i 0 < 1 then 1 else ref_ld.getD i 0))
          * (intercept + hc / (ttl_mk_num : ℚ)
            * (n.getD i 0 * if ref_ld.getD i 0 < 1 then 1 else ref_ld.getD i 0)))) :=
      mul_nonneg (by norm_num) (mul_nonneg hwld.le (mul_self_nonneg _))
    exact lt_of_le_of_ne hnn (Ne.symm hnei)

/-- The weights that `compute_irls` returns are positive. -/
theorem compute_irls_weights_pos (nm : Numerics) (intercept hsq : ℚ)
    (x0 x1 y wt ref_ld w_ld n : List ℚ) (ttl_mk_num : ℤ) (n_ld_snp : ℕ)
    (intercept_flag x_flag : Bool) (a b : ℚ) (w : List ℚ)
    (h : compute_irls nm intercept hsq x0 x1 y wt ref_ld w_ld n ttl_mk_num n_ld_snp
      intercept_flag x_flag = some (a, b, some w)) :
    ∀ i, i < n_ld_snp → 0 < w.getD i 0 := by
  unfold compute_irls at h
  simp only at h
  split at h
  · cases h
  · injection h with h
    injection h with _ h
    injection h with _ h
    exact update_weights_hsq_pos _ _ _ _ _ _ _ _ h
/-- C27: when `est_hsq_trait_2_steps` reaches its last pass with the intercept
`intercept` of step 1 and the weights `wt`, the roots of the weights being exact with a
sum that is not 0 and `Σ w x²` not 0, it returns the intercept of step 1 and
`h² = slope · M / mean(N)`, where `slope = Σ w_i x_i (χ²_i - intercept) / Σ w_i x_i²`
over all SNPs with `x_i = ℓ_i N_i / mean(N)`; the weights `w_i` are positive, and the
division of their roots by their sum cancels. -/
theorem C27_est_hsq_trait_2_steps (nm : Numerics) (chival n ref_ld w_ld : List ℚ)
    (n_ld_snp : ℕ) (ttl_mk_num : ℤ) (intercept h : ℚ) (wt : List ℚ)
    (hpre : est_hsq_trait_2_steps_before_last nm chival n ref_ld w_ld n_ld_snp ttl_mk_num
      = some (intercept, h, wt))
    (hsqrt : ∀ i, i < n_ld_snp → nm.sqrt (wt.getD i 0) * nm.sqrt (wt.getD i 0) = wt.getD i 0)
    (hsum : ∑ i in Finset.range n_ld_snp, nm.sqrt (wt.getD i 0) ≠ 0)
    (hden : ∑ i in Finset.range n_ld_snp, wt.getD i 0
      * ((ref_ld.getD i 0 * n.getD i 0
          / ((∑ j in Finset.range n_ld_snp, n.getD j 0) / (n_ld_snp : ℚ)))
        * (ref_ld.getD i 0 * n.getD i 0
          / ((∑ j in Finset.range n_ld_snp, n.getD j 0) / (n_ld_snp : ℚ)))) ≠ 0) :
    (∃ h1, est_hsq_trait_2_steps_step1 nm chival n ref_ld w_ld n_ld_snp ttl_mk_num
      = some (intercept, h1)) ∧
    (∀ i, i < n_ld_snp → 0 < wt.getD i 0) ∧
    est_hsq_trait_2_steps nm chival n ref_ld w_ld n_ld_snp ttl_mk_num
      = some (intercept,
          (∑ i in Finset.range n_ld_snp, wt.getD i 0
            * ((ref_ld.getD i 0 * n.getD i 0
                / ((∑ j in Finset.range n_ld_snp, n.getD j 0) / (n_ld_snp : ℚ)))
              * (chival.getD i 0 - intercept)))
          / (∑ i in Finset.range n_ld_snp, wt.getD i 0
            * ((ref_ld.getD i 0 * n.getD i 0
                / ((∑ j in Finset.range n_ld_snp, n.getD j 0) / (n_ld_snp : ℚ)))
              * (ref_ld.getD i 0 * n.getD i 0
                / ((∑ j in Finset.range n_ld_snp, n.getD j 0) / (n_ld_snp : ℚ)))))
          * (ttl_mk_num : ℚ) / ((∑ j in Finset.range n_ld_snp, n.getD j 0) / (n_ld_snp : ℚ))) := by
  have hpre0 := hpre
  unfold est_hsq_trait_2_steps_before_last at hpre
  cases hprior : est_hsq_trait_2_steps_prior chival n ref_ld w_ld n_ld_snp ttl_mk_num with
  | none => simp [hprior] at hpre
  | some p =>
    obtain ⟨h_prior, wt_ttl, x0⟩ := p
    obtain ⟨hmean, hx0⟩ := est_hsq_trait_2_steps_prior_some _ _ _ _ _ _ _ _ _ hprior
    cases hstep1 : est_hsq_trait_2_steps_step1 nm chival n ref_ld w_ld n_ld_snp ttl_mk_num with
    | none => simp [hprior, hstep1] at hpre
    | some q =>
      obtain ⟨ic, h1⟩ := q
      simp only [hprior, hstep1] at hpre
      split at hpre
      · rename_i hpass1
        split at hpre
        · rename_i hpass2
          injection hpre with hpre
          injection hpre with hic hpre
          injection hpre with hh hwt
          subst hic
          rw [hwt] at hpass2
          refine ⟨⟨h1, rfl⟩, compute_irls_weights_pos _ _ _ _ _ _ _ _ _ _ _ _ _ _ _ _ _ hpass2, ?_⟩
          have hden2 : ∑ i in Finset.range n_ld_snp, wt.getD i 0
              * (x0.getD i 0 * x0.getD i 0) ≠ 0 := by
            refine ne_of_eq_of_ne (Finset.sum_congr rfl ?_) hden
            intro i hi
            rw [hx0, getD_range_map _ _ i (Finset.mem_range.mp hi)]
          obtain ⟨w, hw⟩ := compute_irls_no_intercept nm ic 0 x0
            ((List.range n_ld_snp).map fun _ => (1 : ℚ))
            ((List.range n_ld_snp).map fun i => chival.getD i 0 - ic)
            wt ref_ld w_ld n ttl_mk_num n_ld_snp false hsqrt hsum hmean hden2
          unfold est_hsq_trait_2_steps
          simp only [hprior, hpre0]
          rw [hw]
          simp only
          congr 2
          congr 2
          congr 1
          · apply Finset.sum_congr rfl
            intro i hi
            rw [hx0, getD_range_map _ _ i (Finset.mem_range.mp hi),
              getD_range_map _ _ i (Finset.mem_range.mp hi)]
          · apply Finset.sum_congr rfl
            intro i hi
            rw [hx0, getD_range_map _ _ i (Finset.mem_range.mp hi)]
        · cases hpre
      · cases hpre
theorem example_update_weights_hsq :
    update_weights_hsq 1 (1 / 2) 1 2 [1, 3] [2, 2] [1, 1] = some [1 / 9, 1 / 25] := by
  norm_num [update_weights_hsq, List.range_succ]

theorem example_compute_irls_intercept (intercept hsq : ℚ) :
    compute_irls exampleNumerics intercept hsq [1, 3] [1, 1] [3 / 2, 5 / 2] [1 / 9, 1 / 25]
      [1, 3] [2, 2] [1, 1] 1 2 true true = some (1, 1 / 2, some [1 / 9, 1 / 25]) := by
  have h : compute_irls exampleNumerics intercept hsq [1, 3] [1, 1] [3 / 2, 5 / 2]
      [1 / 9, 1 / 25] [1, 3] [2, 2] [1, 1] 1 2 true true
      = some (1, 1 / 2, update_weights_hsq 1 (1 / 2) 1 2 [1, 3] [2, 2] [1, 1]) := by
    norm_num [compute_irls, exampleNumerics, qsqrt, Finset.sum_range_succ]
  rw [h, example_update_weights_hsq]

theorem example_compute_irls_slope (hsq : ℚ) :
    compute_irls exampleNumerics 1 hsq [1, 3] [1, 1] [1 / 2, 3 / 2] [1 / 9, 1 / 25]
      [1, 3] [2, 2] [1, 1] 1 2 false false = some (1, 1 / 2, some [1 / 9, 1 / 25]) := by
  have h : compute_irls exampleNumerics 1 hsq [1, 3] [1, 1] [1 / 2, 3 / 2]
      [1 / 9, 1 / 25] [1, 3] [2, 2] [1, 1] 1 2 false false
      = some (1, 1 / 2, update_weights_hsq 1 (1 / 2) 1 2 [1, 3] [2, 2] [1, 1]) := by
    norm_num [compute_irls, exampleNumerics, qsqrt, Finset.sum_range_succ]
  rw [h, example_update_weights_hsq]

theorem example_est_hsq_prior :
    est_hsq_trait_2_steps_prior [3 / 2, 5 / 2] [1, 1] [1, 3] [2, 2] 2 1
      = some (1 / 2, [1 / 9, 1 / 25], [1, 3]) := by
  have h : est_hsq_trait_2_steps_prior [3 / 2, 5 / 2] [1, 1] [1, 3] [2, 2] 2 1
      = match update_weights_hsq 1 (1 / 2) 1 2 [1, 3] [2, 2] [1, 1] with
        | none => none
        | some wt_ttl => some (1 / 2, wt_ttl, [1, 3]) := by
    norm_num [est_hsq_trait_2_steps_prior, Finset.sum_range_succ, List.range_succ]
  rw [h, example_update_weights_hsq]

theorem example_est_hsq_step1 :
    est_hsq_trait_2_steps_step1 exampleNumerics [3 / 2, 5 / 2] [1, 1] [1, 3] [2, 2] 2 1
      = some (1, 1 / 2) := by
  unfold est_hsq_trait_2_steps_step1
  rw [example_est_hsq_prior]
  have hsub : (List.range 2).filter (fun i => decide (([3 / 2, 5 / 2] : List ℚ).getD i 0 < 30))
      = [0, 1] := by
    norm_num [List.range_succ, List.filter_cons]
  simp only [hsub]
  simp only [List.map_cons, List.map_nil, List.length_cons, List.length_nil, List.getD_cons_zero,
    List.getD_cons_succ, Nat.reduceAdd, example_compute_irls_intercept]

theorem example_est_hsq_before_last :
    est_hsq_trait_2_steps_before_last exampleNumerics [3 / 2, 5 / 2] [1, 1] [1, 3] [2, 2] 2 1
      = some (1, 1 / 2, [1 / 9, 1 / 25]) := by
  unfold est_hsq_trait_2_steps_before_last
  rw [example_est_hsq_prior, example_est_hsq_step1]
  have hchi : (List.range 2).map (fun i => ([3 / 2, 5 / 2] : List ℚ).getD i 0 - 1)
      = [1 / 2, 3 / 2] := by
    norm_num [List.range_succ]
  have hone : (List.range 2).map (fun _ => (1 : ℚ)) = [1, 1] := by
    norm_num [List.range_succ]
  simp only [hchi, hone, example_compute_irls_slope]

/-- Witness for C27: two SNPs with `N = (1, 1)`, LD scores `(1, 3)`, regression weights
`(2, 2)`, `M = 1` and the chi-squares `(1.5, 2.5)`, which lie on the line
`1 + 0.5 x`: the weights entering the last pass are `(1/9, 1/25)`, the intercept of
step 1 is `1`, and the result is `h² = 0.5`. -/
theorem C27_est_hsq_trait_2_steps_witness :
    est_hsq_trait_2_steps_before_last exampleNumerics [3 / 2, 5 / 2] [1, 1] [1, 3] [2, 2] 2 1
      = some (1, 1 / 2, [1 / 9, 1 / 25]) ∧
    est_hsq_trait_2_steps exampleNumerics [3 / 2, 5 / 2] [1, 1] [1, 3] [2, 2] 2 1
      = some (1, 1 / 2) := by
  have h := (C27_est_hsq_trait_2_steps exampleNumerics [3 / 2, 5 / 2] [1, 1] [1, 3] [2, 2] 2 1
    1 (1 / 2) [1 / 9, 1 / 25] example_est_hsq_before_last
    (by
      intro i hi
      interval_cases i <;> norm_num [exampleNumerics, qsqrt])
    (by norm_num [exampleNumerics, qsqrt, Finset.sum_range_succ])
    (by norm_num [Finset.sum_range_succ])).2.2
  refine ⟨example_est_hsq_before_last, ?_⟩
  rw [h]
  norm_num [Finset.sum_range_succ]

/-- C28 (as stated, refuted): with two SNPs of weight 1 whose column `x0` is `(0, 0)`,
the pass without intercept has `xt_x = 0` and divides by zero; with the columns
`x0 = x1 = (1, 1)` the pass with intercept has a matrix `xᵀx` of determinant 0 and
still produces an estimate, the one of the LDLT solve. In neither case is an error
reported: `compute_irls` has no error result. -/
theorem C28_singular_normal_equations :
    irls_xt_x exampleNumerics [0, 0] [1, 1] 2 = 0 ∧
    compute_irls exampleNumerics 1 0 [0, 0] [1, 1] [1, 2] [1, 1] [0, 0] [1, 1] [1, 1] 1 2
      false false = none ∧
    irls_det exampleNumerics [1, 1] [1, 1] [1, 1] 2 = 0 ∧
    (compute_irls exampleNumerics 0 0 [1, 1] [1, 1] [1, 2] [1, 1] [1, 1] [1, 1] [1, 1] 1 2
      true false).isSome = true ∧
    (∑ i in Finset.range 2, exampleNumerics.sqrt (([1, 1] : List ℚ).getD i 0) ≠ 0) ∧
    (∑ i in Finset.range 2, ([1, 1] : List ℚ).getD i 0) / ((2 : ℕ) : ℚ) ≠ 0 := by
  refine ⟨?_, ?_, ?_, ?_, ?_, ?_⟩
  · norm_num [irls_xt_x, irls_wt, exampleNumerics, qsqrt, Finset.sum_range_succ]
  · norm_num [compute_irls, exampleNumerics, qsqrt, Finset.sum_range_succ]
  · norm_num [irls_det, irls_wt, exampleNumerics, qsqrt, Finset.sum_range_succ]
  · norm_num [compute_irls, exampleNumerics, qsqrt, Finset.sum_range_succ]
  · norm_num [exampleNumerics, qsqrt, Finset.sum_range_succ]
  · norm_num [Finset.sum_range_succ]

/-- The inner loop of the construction of `r_mat`, `for (j = 1; j < 1 + len; j++)`, for a
fixed `i`: the entries `(i, j)` and `(j, i)` with `j ≠ i` get `ldsc_slope(i+1, j+1)`. -/
theorem r_mat_inner_entry (ldsc_slope : ℕ → ℕ → ℚ) (i len : ℕ) :
    ∀ (r : ℕ → ℕ → ℚ) (a b : ℕ),
      (List.range' 1 len).foldl
        (fun r j => if i = j then r
          else setEntry (setEntry r j i (ldsc_slope (i + 1) (j + 1))) i j
            (ldsc_slope (i + 1) (j + 1))) r a b
        = if a = i ∧ b ≠ i ∧ 1 ≤ b ∧ b < 1 + len then ldsc_slope (i + 1) (b + 1)
          else if b = i ∧ a ≠ i ∧ 1 ≤ a ∧ a < 1 + len then ldsc_slope (i + 1) (a + 1)
          else r a b := by
  induction len with
  | zero =>
    intro r a b
    have h1 : ¬ (a = i ∧ b ≠ i ∧ 1 ≤ b ∧ b < 1 + 0) := by omega
    have h2 : ¬ (b = i ∧ a ≠ i ∧ 1 ≤ a ∧ a < 1 + 0) := by omega
    simp only [List.range'_zero, List.foldl_nil, h1, h2, if_false]
  | succ len ih =>
    intro r a b
    rw [List.range'_1_concat, List.foldl_append]
    simp only [List.foldl_cons, List.foldl_nil]
    by_cases hij : i = 1 + len
    · rw [if_pos hij, ih]
      have e1 : (a = i ∧ b ≠ i ∧ 1 ≤ b ∧ b < 1 + (len + 1))
          ↔ (a = i ∧ b ≠ i ∧ 1 ≤ b ∧ b < 1 + len) := by omega
      have e2 : (b = i ∧ a ≠ i ∧ 1 ≤ a ∧ a < 1 + (len + 1))
          ↔ (b = i ∧ a ≠ i ∧ 1 ≤ a ∧ a < 1 + len) := by omega
      simp only [e1, e2]
    · rw [if_neg hij]
      simp only [setEntry]
      rw [ih]
      by_cases h1 : a = i ∧ b = 1 + len
      · obtain ⟨ha, hb⟩ := h1
        subst ha; subst hb
        have : ¬ (1 + len = a) := fun h => hij h.symm
        simp [this]
      · rw [if_neg h1]
        by_cases h2 : a = 1 + len ∧ b = i
        · obtain ⟨ha, hb⟩ := h2
          subst ha; subst hb
          have h3 : ¬ (1 + len = b ∧ 1 + len ≠ b ∧ 1 ≤ 1 + len ∧ 1 + len < 1 + (len + 1)) := by
            omega
          have h4 : ¬ (1 + len = b) := fun h => hij h.symm
          simp [h4]
        · rw [if_neg h2]
          have e1 : (a = i ∧ b ≠ i ∧ 1 ≤ b ∧ b < 1 + (len + 1))
              ↔ (a = i ∧ b ≠ i ∧ 1 ≤ b ∧ b < 1 + len) := by omega
          have e2 : (b = i ∧ a ≠ i ∧ 1 ≤ a ∧ a < 1 + (len + 1))
              ↔ (b = i ∧ a ≠ i ∧ 1 ≤ a ∧ a < 1 + len) := by omega
          simp only [e1, e2]

theorem mtcojo_r_mat_inner_entry (ldsc_slope : ℕ → ℕ → ℚ) (ncovar i : ℕ) (r : ℕ → ℕ → ℚ)
    (a b : ℕ) :
    mtcojo_r_mat_inner ldsc_slope ncovar i r a b
      = if a = i ∧ b ≠ i ∧ 1 ≤ b ∧ b < 1 + (ncovar - 1) then ldsc_slope (i + 1) (b + 1)
        else if b = i ∧ a ≠ i ∧ 1 ≤ a ∧ a < 1 + (ncovar - 1) then ldsc_slope (i + 1) (a + 1)
        else r a b := by
  unfold mtcojo_r_mat_inner
  exact r_mat_inner_entry ldsc_slope i (ncovar - 1) r a b

/-- The matrix `r_mat` after the first `k` rows of the loop of mtcojo.cpp 1330-1336, for a
symmetric slope matrix. -/
theorem r_mat_rows (ldsc_slope : ℕ → ℕ → ℚ) (ncovar : ℕ)
    (hsym : ∀ a b, a ≤ ncovar → b ≤ ncovar → ldsc_slope a b = ldsc_slope b a) (k : ℕ)
    (hk : k ≤ ncovar) :
    ∀ a b, (List.range k).foldl (fun r i => mtcojo_r_mat_inner ldsc_slope ncovar i r)
        identityMat a b
      = if a ≠ b ∧ a < ncovar ∧ b < ncovar ∧ ((a < k ∧ 1 ≤ b) ∨ (b < k ∧ 1 ≤ a))
        then ldsc_slope (a + 1) (b + 1) else identityMat a b := by
  induction k with
  | zero =>
    intro a b
    have h : ¬ (a ≠ b ∧ a < ncovar ∧ b < ncovar ∧ ((a < 0 ∧ 1 ≤ b) ∨ (b < 0 ∧ 1 ≤ a))) := by
      omega
    simp only [List.range_zero, List.foldl_nil, h, if_false]
  | succ k ih =>
    intro a b
    rw [List.range_succ, List.foldl_append]
    simp only [List.foldl_cons, List.foldl_nil]
    rw [mtcojo_r_mat_inner_entry, ih (by omega)]
    by_cases h1 : a = k ∧ b ≠ k ∧ 1 ≤ b ∧ b < 1 + (ncovar - 1)
    · rw [if_pos h1]
      obtain ⟨ha, hb, hb1, hb2⟩ := h1
      subst ha
      by_cases hc : a < ncovar
      · rw [if_pos ⟨fun h => hb h.symm, hc, by omega, Or.inl ⟨by omega, hb1⟩⟩]
      · have hn : ¬ (a ≠ b ∧ a < ncovar ∧ b < ncovar ∧ ((a < a + 1 ∧ 1 ≤ b) ∨ (b < a + 1 ∧ 1 ≤ a))) := by
          omega
        rw [if_neg hn]
        exfalso
        omega
    · rw [if_neg h1]
      by_cases h2 : b = k ∧ a ≠ k ∧ 1 ≤ a ∧ a < 1 + (ncovar - 1)
      · rw [if_pos h2]
        obtain ⟨hb, ha, ha1, ha2⟩ := h2
        subst hb
        by_cases hc : b < ncovar
        · rw [if_pos ⟨ha, by omega, hc, Or.inr ⟨by omega, ha1⟩⟩]
          exact hsym _ _ (by omega) (by omega)
        · exfalso
          omega
      · rw [if_neg h2]
        have e : (a ≠ b ∧ a < ncovar ∧ b < ncovar ∧ ((a < k + 1 ∧ 1 ≤ b) ∨ (b < k + 1 ∧ 1 ≤ a)))
            ↔ (a ≠ b ∧ a < ncovar ∧ b < ncovar ∧ ((a < k ∧ 1 ≤ b) ∨ (b < k ∧ 1 ≤ a))) := by
          omega
        simp only [e]

/-- C34: for a symmetric slope matrix `S`, the matrix `r_mat` built in
`mtcojo_cond_multiple_covars` has `1` on the diagonal and `S(i+1, j+1)` at every entry
`(i, j)` with `i ≠ j` below `ncovar`, row 0 and column 0 included. -/
theorem C34_r_mat (nm : Numerics) (ldsc_slope : ℕ → ℕ → ℚ) (vp_trait : ℕ → ℚ) (ncovar : ℕ)
    (hsym : ∀ a b, a ≤ ncovar → b ≤ ncovar → ldsc_slope a b = ldsc_slope b a)
    (i j : ℕ) (hi : i < ncovar) (hj : j < ncovar) :
    (mtcojo_d_r_mat nm ldsc_slope vp_trait ncovar).2 i j
      = if i = j then 1 else ldsc_slope (i + 1) (j + 1) := by
  unfold mtcojo_d_r_mat
  rw [foldl_pair (fun d i => setEntry d i i (nm.sqrt (ldsc_slope (i + 1) (i + 1) * vp_trait (i + 1))))
    (fun r i => mtcojo_r_mat_inner ldsc_slope ncovar i r)]
  simp only []
  rw [r_mat_rows ldsc_slope ncovar hsym ncovar le_rfl]
  by_cases hij : i = j
  · subst hij
    simp [identityMat]
  · rw [if_pos ⟨hij, hi, hj, by omega⟩, if_neg hij]

/-- Witness for C34: the symmetric slope matrix of the second example with two
covariates. -/
theorem C34_r_mat_witness :
    (mtcojo_d_r_mat exampleNumerics example2_slope example2_vp 2).2 0 1
      = if 0 = 1 then 1 else example2_slope (0 + 1) (1 + 1) :=
  C34_r_mat exampleNumerics example2_slope example2_vp 2
    (by
      intro a b ha hb
      interval_cases a <;> interval_cases b <;> simp [example2_slope, matOf])
    0 1 (by decide) (by decide)

/-- On the identity vector `0, …, n - 1` the double read `snp_remain[snp_remain[i]]` is
the single read `snp_remain[i]`. -/
theorem remain_read_range (n : ℕ) (remain_oob : ℕ → ℕ) (i : ℕ) (hi : i < n) :
    remain_read (List.range n) remain_oob ((List.range n).getD i 0) = (List.range n).getD i 0 := by
  have h : (List.range n).getD i 0 = i := by
    rw [List.getD_eq_getElem _ _ (by simpa using hi)]
    simp
  rw [h]
  unfold remain_read
  rw [if_pos (by simpa using hi), h]

theorem foldl_congr_mem {α β : Type} (f g : α → β → α) (l : List β)
    (h : ∀ a, ∀ x ∈ l, f a x = g a x) : ∀ a, l.foldl f a = l.foldl g a := by
  induction l with
  | nil => intro a; rfl
  | cons x xs ih =>
    intro a
    rw [List.foldl_cons, List.foldl_cons, h a x (List.mem_cons_self _ _)]
    exact ih (fun a y hy => h a y (List.mem_cons_of_mem _ hy)) _

/-- C36: `update_meta_snp` leaves the identity vector `0, …, m - 1` as the remain
vector, and on an identity remain vector `remove_bad_snps`, which tests the effect at
the row `snp_remain[snp_remain[i]]`, returns the same arrays and the same list of bad
SNPs as the intended variant that tests it at the row `snp_remain[i]`. -/
theorem C36_remove_bad_snps_identity_remain (R : MetaRegistry) (n : ℕ)
    (snp_name : ℕ → String) (remain_oob : ℕ → ℕ)
    (snp_flag : ℕ → ℕ → Bool) (A : MetaArrays) (snp_se snp_pval snp_n : ℕ → ℕ → Option ℚ)
    (plink_snp_name_map : List (String × ℕ)) (snp_ref_a1 snp_ref_a2 : ℕ → String)
    (ntarget ncovar : ℕ) :
    (update_meta_snp R)._meta_remain_snp = List.range R._meta_remain_snp.length ∧
    remove_bad_snps snp_name (List.range n) remain_oob snp_flag A snp_se snp_pval snp_n
        plink_snp_name_map snp_ref_a1 snp_ref_a2 ntarget ncovar
      = remove_bad_snps_intended snp_name (List.range n) snp_flag A snp_se snp_pval snp_n
        plink_snp_name_map snp_ref_a1 snp_ref_a2 ntarget ncovar := by
  refine ⟨rfl, ?_⟩
  have hfold : (List.range (List.range n).length).foldl
        (remove_bad_snps_step snp_name (List.range n) remain_oob snp_flag snp_se snp_pval snp_n
          plink_snp_name_map snp_ref_a1 snp_ref_a2 (ntarget + ncovar)) (A, [])
      = (List.range (List.range n).length).foldl
        (remove_bad_snps_step_intended snp_name (List.range n) snp_flag snp_se snp_pval snp_n
          plink_snp_name_map snp_ref_a1 snp_ref_a2 (ntarget + ncovar)) (A, []) := by
    apply foldl_congr_mem
    intro st i hi
    have hi2 : i < n := by simpa using hi
    unfold remove_bad_snps_step remove_bad_snps_step_intended
    rw [remain_read_range n remain_oob i hi2]
  unfold remove_bad_snps remove_bad_snps_intended
  rw [hfold]

theorem redundant_snp_sn : gsmr_snp_sn redundantPanel ["s1", "s2", "s3"] = [0, 1, 2] := by
  simp [gsmr_snp_sn, redundantPanel, lookup_cons_ite, List.indexOf_cons]

theorem redundant_ld_r_mat :
    gsmr_ld_r_mat redundantPanel (gsmr_snp_sn redundantPanel ["s1", "s2", "s3"]) 3 1 0 = 9/10 ∧
    gsmr_ld_r_mat redundantPanel (gsmr_snp_sn redundantPanel ["s1", "s2", "s3"]) 3 0 1 = 9/10 ∧
    gsmr_ld_r_mat redundantPanel (gsmr_snp_sn redundantPanel ["s1", "s2", "s3"]) 3 2 0 = 1/10 ∧
    gsmr_ld_r_mat redundantPanel (gsmr_snp_sn redundantPanel ["s1", "s2", "s3"]) 3 0 2 = 1/10 ∧
    gsmr_ld_r_mat redundantPanel (gsmr_snp_sn redundantPanel ["s1", "s2", "s3"]) 3 2 1 = 1/10 := by
  simp only [gsmr_ld_r_mat_entry, redundant_snp_sn]
  simp [redundantPanel, matOf]

theorem redundant_pairs :
    rm_cor_pairs (gsmr_ld_r_mat redundantPanel (gsmr_snp_sn redundantPanel ["s1", "s2", "s3"]) 3)
      (exampleNumerics.sqrt (1/4)) 3 = [(1, 0)] := by
  have h9 : |(9 : ℚ) / 10| = 9 / 10 := abs_of_pos (by norm_num)
  have h1 : |(1 : ℚ) / 10| = 1 / 10 := abs_of_pos (by norm_num)
  obtain ⟨e10, _, e20, _, e21⟩ := redundant_ld_r_mat
  simp only [rm_cor_pairs, List.range_succ, List.range_zero, List.nil_append, List.cons_append,
    List.foldl_cons, List.foldl_nil, e10, e20, e21, h9, h1]
  norm_num [exampleNumerics, qsqrt]

theorem redundant_kept_ID :
    gsmr_kept_ID exampleNumerics redundantPanel ["s1", "s2", "s3"] (1/4) = [0, 2] := by
  unfold gsmr_kept_ID rm_cor_elements
  simp only [if_true, List.length_cons, List.length_nil]
  rw [redundant_pairs]
  decide

theorem redundant_ld_pval :
    gsmr_ld_pval exampleNumerics
      (gsmr_ld_r_mat redundantPanel (gsmr_snp_sn redundantPanel ["s1", "s2", "s3"]) 3)
      [0, 2] 2 100 = [(1/2, 1)] := by
  obtain ⟨_, _, _, e02, _⟩ := redundant_ld_r_mat
  simp only [gsmr_ld_pval, List.range_succ, List.range_zero, List.nil_append, List.foldl_cons,
    List.foldl_nil, List.range', List.getD_cons_zero, List.getD_cons_succ, e02]
  norm_num [exampleNumerics, List.insertionSort]

/-- C35 (the code at the failing input): on `redundantPanel` the redundancy pruning
keeps `s1` and `s3`, the positions `0` and `2`. The pair of the kept SNPs has the index
`0 · 2 + 1` in `ld_pval` and a p-value above the FDR threshold, so `adjust_ld_r_fdr`
zeroes the entry `(0, 1)` of the LD matrix, which is the correlation `0.9` of `s1` with
the removed `s2`; the entry `(0, 2)` that `cov_bxy(0, 1)` reads keeps the value `0.1`. -/
theorem C35_fdr_zeroes_other_entry :
    gsmr_kept_ID exampleNumerics redundantPanel ["s1", "s2", "s3"] (1/4) = [0, 2] ∧
    gsmr_ld_r_mat redundantPanel (gsmr_snp_sn redundantPanel ["s1", "s2", "s3"]) 3 0 1 = 9/10 ∧
    gsmr_ld_r_adj exampleNumerics redundantPanel ["s1", "s2", "s3"] (1/4) (1/20) 0 1 = 0 ∧
    gsmr_ld_r_adj exampleNumerics redundantPanel ["s1", "s2", "s3"] (1/4) (1/20) 0 2 = 1/10 ∧
    gsmr_index_cov_bxy exampleNumerics redundantPanel example_bzx example_bzx_se example_bzy
      example_bzy_se ["s1", "s2", "s3"] (1/4) (1/20) 0 1 = 3/200000 := by
  obtain ⟨_, e01, _, e02, _⟩ := redundant_ld_r_mat
  have hadj : ∀ a b,
      gsmr_ld_r_adj exampleNumerics redundantPanel ["s1", "s2", "s3"] (1/4) (1/20) a b
        = setEntry (setEntry
            (gsmr_ld_r_mat redundantPanel (gsmr_snp_sn redundantPanel ["s1", "s2", "s3"]) 3)
            1 0 0) 0 1 0 a b := by
    intro a b
    unfold gsmr_ld_r_adj adjust_ld_r_fdr
    simp only [List.length_cons, List.length_nil, Nat.reduceAdd, redundant_kept_ID]
    have hk : redundantPanel._keep.length = 100 := by simp [redundantPanel]
    rw [hk, redundant_ld_pval]
    simp only [adjust_ld_r_fdr_loop, exampleNumerics, List.map_cons, List.map_nil,
      List.getD_cons_zero]
    rw [if_neg (by norm_num)]
  have h01 : gsmr_ld_r_adj exampleNumerics redundantPanel ["s1", "s2", "s3"] (1/4) (1/20) 0 1
      = 0 := by
    rw [hadj]
    simp [setEntry]
  have h02 : gsmr_ld_r_adj exampleNumerics redundantPanel ["s1", "s2", "s3"] (1/4) (1/20) 0 2
      = 1/10 := by
    rw [hadj]
    simp [setEntry, e02]
  refine ⟨redundant_kept_ID, e01, h01, h02, ?_⟩
  have hnames : gsmr_indices_snp exampleNumerics redundantPanel ["s1", "s2", "s3"] (1/4)
      = ["s1", "s3", "s3"] := by
    unfold gsmr_indices_snp
    rw [redundant_kept_ID]
    simp [gsmr_kept_names, List.range_succ]
  unfold gsmr_index_cov_bxy gsmr_index_bxy
  rw [gsmr_cov_bxy_entry, redundant_kept_ID, hnames]
  simp only [List.length_cons, List.length_nil, Nat.reduceAdd, List.getD_cons_zero,
    List.getD_cons_succ]
  rw [h02, gsmr_bxy_entry _ _ _ _ _ _ (by decide), gsmr_bxy_entry _ _ _ _ _ _ (by decide),
    gsmr_zscore_inv_entry _ _ _ _ _ _ (by decide), gsmr_zscore_inv_entry _ _ _ _ _ _ (by decide),
    gsmr_zscore_inv_entry _ _ _ _ _ _ (by decide), gsmr_zscore_inv_entry _ _ _ _ _ _ (by decide)]
  simp [indexVal, metaIndex, redundantPanel, example_bzx, example_bzx_se, example_bzy,
    example_bzy_se, vecOf, lookup_cons_ite]
  norm_num

/-- C38 (the code at the failing input): for the 3 × 3 matrix with the single pair
`(1, 0)` above the threshold, the sorted list of removed indices is `[1]`; the scan has
`j = 1`, the size of that list, after the rounds `i = 0, 1`, so the round `i = 2` reads
the list at its end. The result follows the value read there: `[0, 0]`, with one entry
written, when the value is `2`, and `[0, 2]` when it is `-1`. -/
theorem C38_scan_reads_past_end :
    rm_cor_pairs pair3_r_mat (exampleNumerics.sqrt (1/4)) 3 = [(1, 0)] ∧
    (rm_cor_scan (fun j => if j < [1].length then ((([1] : List ℕ).getD j 0 : ℕ) : ℤ) else -1)
      2 [0, 0]).1 = [1].length ∧
    rm_cor_elements (fun _ => 2) pair3_r_mat 3 exampleNumerics (1/4) true = [0, 0] ∧
    rm_cor_elements (fun _ => -1) pair3_r_mat 3 exampleNumerics (1/4) true = [0, 2] := by
  refine ⟨pair3_pairs, by decide, ?_, ?_⟩
  · unfold rm_cor_elements
    simp only [if_true]
    rw [pair3_pairs]
    decide
  · unfold rm_cor_elements
    simp only [if_true]
    rw [pair3_pairs]
    decide

theorem floor_fifths (c m : ℕ) :
    Int.floor (((c : ℚ) / 5) * (m : ℚ)) = ((c * m / 5 : ℕ) : ℤ) := by
  rw [Int.floor_eq_iff]
  have h := Nat.div_add_mod (c * m) 5
  have hlt := Nat.mod_lt (c * m) (show 5 > 0 by norm_num)
  generalize c * m / 5 = q at h ⊢
  generalize c * m % 5 = r at h hlt
  have hq : (c : ℚ) * (m : ℚ) = 5 * (q : ℚ) + (r : ℚ) := by exact_mod_cast h.symm
  have hr : (r : ℚ) < 5 := by exact_mod_cast hlt
  have hr0 : (0 : ℚ) ≤ (r : ℚ) := by positivity
  rw [Int.cast_natCast]
  constructor
  · linarith
  · linarith

/-- The linear interpolation at `c/5` on a list of `m + 1` values, with the position
`c · m / 5` split into its integer part `q` and the remainder `r / 5`. -/
theorem linearInterpolation_fifths (s : List ℚ) (c m : ℕ) (hlen : s.length = m + 1) :
    linearInterpolation s ((c : ℚ) / 5)
      = s.getD (c * m / 5) 0
        + ((c * m % 5 : ℕ) : ℚ) / 5 * (s.getD (c * m / 5 + 1) 0 - s.getD (c * m / 5) 0) := by
  unfold linearInterpolation
  have hm : ((s.length : ℚ) - 1) = (m : ℚ) := by
    rw [hlen]; push_cast; ring
  rw [hm, floor_fifths, Int.toNat_ofNat]
  have h := Nat.div_add_mod (c * m) 5
  have hfrac : (c : ℚ) / 5 * (m : ℚ) - (((c * m / 5 : ℕ) : ℤ) : ℚ)
      = ((c * m % 5 : ℕ) : ℚ) / 5 := by
    generalize c * m / 5 = q at h ⊢
    generalize c * m % 5 = r at h ⊢
    have hq : (c : ℚ) * (m : ℚ) = 5 * (q : ℚ) + (r : ℚ) := by exact_mod_cast h.symm
    rw [Int.cast_natCast]
    linarith
  rw [hfrac]

theorem sorted_getD_le (s : List ℚ) (hs : s.Sorted (· ≤ ·)) (a b : ℕ) (hab : a ≤ b)
    (hb : b < s.length) : s.getD a 0 ≤ s.getD b 0 := by
  rw [List.getD_eq_getElem _ _ (by omega), List.getD_eq_getElem _ _ hb]
  rcases Nat.lt_or_eq_of_le hab with h | h
  · exact (List.pairwise_iff_getElem.mp hs) a b (by omega) hb h
  · subst h; exact le_refl _

/-- On a sorted list of `m + 1` values with `m` other than 1 and 3, the value at
position `⌈2m/5⌉` lies between the quantiles at 0.4 and 0.6. -/
theorem band_holds_sorted_value (s : List ℚ) (hs : s.Sorted (· ≤ ·)) (m : ℕ)
    (hlen : s.length = m + 1) (hm : m ≠ 1 ∧ m ≠ 3) :
    (2 * m + 4) / 5 < s.length ∧
    linearInterpolation s (2/5) ≤ s.getD ((2 * m + 4) / 5) 0 ∧
    s.getD ((2 * m + 4) / 5) 0 ≤ linearInterpolation s (3/5) := by
  have e2 : ((2 : ℚ) / 5) = (((2 : ℕ) : ℚ) / 5) := by norm_num
  have e3 : ((3 : ℚ) / 5) = (((3 : ℕ) : ℚ) / 5) := by norm_num
  rw [e2, e3, linearInterpolation_fifths s 2 m hlen, linearInterpolation_fifths s 3 m hlen]
  have hk1 : (2 * m + 4) / 5 ≤ m := by omega
  have hk2 : (2 * m + 4) / 5 ≤ 3 * m / 5 := by omega
  refine ⟨by omega, ?_, ?_⟩
  · by_cases hr : 2 * m % 5 = 0
    · have hk : (2 * m + 4) / 5 = 2 * m / 5 := by omega
      rw [hr, hk]
      simp
    · have hk : (2 * m + 4) / 5 = 2 * m / 5 + 1 := by omega
      rw [hk]
      have hle := sorted_getD_le s hs (2 * m / 5) (2 * m / 5 + 1) (by omega) (by omega)
      have hr1 : ((2 * m % 5 : ℕ) : ℚ) / 5 ≤ 1 := by
        have : 2 * m % 5 < 5 := Nat.mod_lt _ (by norm_num)
        have h5 : ((2 * m % 5 : ℕ) : ℚ) ≤ 5 := by exact_mod_cast this.le
        linarith
      nlinarith
  · have hle := sorted_getD_le s hs ((2 * m + 4) / 5) (3 * m / 5) hk2 (by omega)
    by_cases hr : 3 * m % 5 = 0
    · rw [hr]
      simpa using hle
    · have hq : 3 * m / 5 + 1 < s.length := by omega
      have hle2 := sorted_getD_le s hs (3 * m / 5) (3 * m / 5 + 1) (by omega) hq
      have hr0 : (0 : ℚ) ≤ ((3 * m % 5 : ℕ) : ℚ) / 5 := by positivity
      nlinarith
/-- Every name of the first `k` index SNPs is a key of the map `indices_snp_map` after
`k` insertions. -/
theorem indices_snp_map_isSome (indices_snp : List String) (k p : ℕ) (hp : p < k) :
    ((heidi_indices_snp_map indices_snp k).lookup (indices_snp.getD p "")).isSome = true := by
  induction k with
  | zero => omega
  | succ k ih =>
    unfold heidi_indices_snp_map
    rw [List.range_succ, List.foldl_append]
    simp only [List.foldl_cons, List.foldl_nil]
    have hcase : ∀ x : String,
        ((((List.range k).foldl (fun m i => mapInsert m (indices_snp.getD i "") i)
          ([] : List (String × ℕ))).lookup x).isSome = true ∨ x = indices_snp.getD k "") →
        ((mapInsert ((List.range k).foldl (fun m i => mapInsert m (indices_snp.getD i "") i)
          ([] : List (String × ℕ))) (indices_snp.getD k "") k).lookup x).isSome = true := by
      intro x hx
      cases hl : ((List.range k).foldl (fun m i => mapInsert m (indices_snp.getD i "") i)
          ([] : List (String × ℕ))).lookup x with
      | some w =>
        rw [lookup_mapInsert_of_some _ _ _ _ _ hl]
        rfl
      | none =>
        rw [lookup_mapInsert_of_none _ _ _ _ hl]
        rcases hx with hx | hx
        · rw [hl] at hx
          simp at hx
        · rw [if_pos hx]
          rfl
    apply hcase
    by_cases hpk : p < k
    · left
      have := ih hpk
      unfold heidi_indices_snp_map at this
      exact this
    · right
      have : p = k := by omega
      rw [this]

/-- C37 (the code at the failing input): for the two values `bxy = (0, 1)` the band is
`[0.4, 0.6]` and holds neither value; the pivot name stays empty, the lookup in
`indices_snp_map` returns the end iterator and the code dereferences it. For the four
values `(0, 1, 2, 3)` the band `[1.2, 1.8]` holds none of them either. -/
theorem C37_two_values_counterexample :
    quantile exampleNumerics (bxy_sort (vecOf [0, 1]) 2) (2/5) = .ok (some (2/5)) ∧
    quantile exampleNumerics (bxy_sort (vecOf [0, 1]) 2) (3/5) = .ok (some (3/5)) ∧
    (∀ i, i < 2 → ¬ ((2 : ℚ)/5 ≤ vecOf [0, 1] i ∧ vecOf [0, 1] i ≤ 3/5)) ∧
    gsmr_heidi exampleNumerics examplePanel example_bzx_pval (vecOf [0, 1]) zeroMat
      ["s1", "s2"] 2 (1/100) = .error .UndefinedBehaviour ∧
    quantile exampleNumerics (bxy_sort (vecOf [0, 1, 2, 3]) 4) (2/5) = .ok (some (6/5)) ∧
    quantile exampleNumerics (bxy_sort (vecOf [0, 1, 2, 3]) 4) (3/5) = .ok (some (9/5)) ∧
    (∀ i, i < 4 → ¬ ((6 : ℚ)/5 ≤ vecOf [0, 1, 2, 3] i ∧ vecOf [0, 1, 2, 3] i ≤ 9/5)) := by
  have hs : bxy_sort (vecOf [0, 1]) 2 = [0, 1] := by
    simp [bxy_sort, List.range_succ, List.insertionSort, List.orderedInsert, vecOf]
  have e2 : ((2 : ℚ) / 5) = (((2 : ℕ) : ℚ) / 5) := by norm_num
  have e3 : ((3 : ℚ) / 5) = (((3 : ℕ) : ℚ) / 5) := by norm_num
  have hq1 : quantile exampleNumerics (bxy_sort (vecOf [0, 1]) 2) (2/5) = .ok (some (2/5)) := by
    rw [quantile_eq_linearInterpolation _ _ _ (fun _ => rfl) (by rw [hs]; simp) (by norm_num)
      (by norm_num), hs]
    conv_lhs => rw [e2, linearInterpolation_fifths [0, 1] 2 1 rfl]
    norm_num
  have hq2 : quantile exampleNumerics (bxy_sort (vecOf [0, 1]) 2) (3/5) = .ok (some (3/5)) := by
    rw [quantile_eq_linearInterpolation _ _ _ (fun _ => rfl) (by rw [hs]; simp) (by norm_num)
      (by norm_num), hs]
    conv_lhs => rw [e3, linearInterpolation_fifths [0, 1] 3 1 rfl]
    norm_num
  have hs4 : bxy_sort (vecOf [0, 1, 2, 3]) 4 = [0, 1, 2, 3] := by
    simp [bxy_sort, List.range_succ, List.insertionSort, List.orderedInsert, vecOf]
  have hq3 : quantile exampleNumerics (bxy_sort (vecOf [0, 1, 2, 3]) 4) (2/5) = .ok (some (6/5)) := by
    rw [quantile_eq_linearInterpolation _ _ _ (fun _ => rfl) (by rw [hs4]; simp) (by norm_num)
      (by norm_num), hs4]
    conv_lhs => rw [e2, linearInterpolation_fifths [0, 1, 2, 3] 2 3 rfl]
    norm_num
  have hq4 : quantile exampleNumerics (bxy_sort (vecOf [0, 1, 2, 3]) 4) (3/5) = .ok (some (9/5)) := by
    rw [quantile_eq_linearInterpolation _ _ _ (fun _ => rfl) (by rw [hs4]; simp) (by norm_num)
      (by norm_num), hs4]
    conv_lhs => rw [e3, linearInterpolation_fifths [0, 1, 2, 3] 3 3 rfl]
    norm_num
  refine ⟨hq1, hq2, ?_, ?_, hq3, hq4, ?_⟩
  · intro i hi
    interval_cases i <;> norm_num [vecOf]
  rotate_left
  · intro i hi
    interval_cases i <;> norm_num [vecOf]
  · unfold gsmr_heidi
    rw [hq1, hq2]
    have hloop : heidi_pivot_loop examplePanel example_bzx_pval (vecOf [0, 1]) ["s1", "s2"] 2
        (some (2/5)) (some (3/5)) = (1, "", []) := by
      simp [heidi_pivot_loop, List.range_succ, heidi_in_band, vecOf]
      norm_num
    simp only [hloop]
    simp [heidi_indices_snp_map, List.range_succ, mapInsert, lookup_cons_ite]

/-- The band with exact arithmetic: for `n = 1`, `n = 3` or `n ≥ 5` index SNPs with
exposure p-values below 1, at least one value of `bxy` lies in the closed band
`[quantile(sorted, 0.4), quantile(sorted, 0.6)]`, so the pivot search of `gsmr_meta`
elects a SNP, its lookup in `indices_snp_map` succeeds and the HEIDI test is run around
the position found. -/
theorem heidi_pivot_found_exact (nm : Numerics) (g : GctaState) (bzx_pval bxy : ℕ → ℚ)
    (cov_bxy : ℕ → ℕ → ℚ) (indices_snp : List String) (n : ℕ) (heidi_thresh : ℚ)
    (hround : ∀ q, nm.round q = q)
    (hn : n = 1 ∨ n = 3 ∨ 5 ≤ n)
    (hpval : ∀ i, i < n → indexVal g bzx_pval indices_snp i < 1) :
    ∃ lo hi, quantile nm (bxy_sort bxy n) (2/5) = .ok (some lo) ∧
      quantile nm (bxy_sort bxy n) (3/5) = .ok (some hi) ∧
      (∃ i, i < n ∧ lo ≤ bxy i ∧ bxy i ≤ hi) ∧
      ∃ indxbuf, (heidi_indices_snp_map indices_snp n).lookup
          (heidi_pivot_loop g bzx_pval bxy indices_snp n (some lo) (some hi)).2.1
            = some indxbuf ∧
        gsmr_heidi nm g bzx_pval bxy cov_bxy indices_snp n heidi_thresh
          = .ok (heidi_test nm bxy cov_bxy n indxbuf heidi_thresh) := by
  have hlen0 : (bxy_sort bxy n).length = n := bxy_sort_length bxy n
  have hlen : (bxy_sort bxy n).length ≠ 0 := by rw [hlen0]; omega
  have hq1 := quantile_eq_linearInterpolation nm (bxy_sort bxy n) (2/5) hround hlen
    (by norm_num) (by norm_num)
  have hq2 := quantile_eq_linearInterpolation nm (bxy_sort bxy n) (3/5) hround hlen
    (by norm_num) (by norm_num)
  refine ⟨_, _, hq1, hq2, ?_⟩
  have hsorted : (bxy_sort bxy n).Sorted (· ≤ ·) := List.sorted_insertionSort _ _
  obtain ⟨hk, hlo, hhi⟩ := band_holds_sorted_value (bxy_sort bxy n) hsorted (n - 1)
    (by rw [hlen0]; omega) (by omega)
  have hmem : (bxy_sort bxy n).getD ((2 * (n - 1) + 4) / 5) 0 ∈ (List.range n).map bxy := by
    rw [List.getD_eq_getElem _ _ hk]
    exact (List.perm_insertionSort _ _).mem_iff.mp (List.getElem_mem _)
  obtain ⟨i0, hi0, hval⟩ := List.mem_map.mp hmem
  have hi0n : i0 < n := List.mem_range.mp hi0
  rw [← hval] at hlo hhi
  refine ⟨⟨i0, hi0n, hlo, hhi⟩, ?_⟩
  obtain ⟨inv1, inv2⟩ := heidi_pivot_loop_inv g bzx_pval bxy indices_snp
    (some (linearInterpolation (bxy_sort bxy n) (2/5)))
    (some (linearInterpolation (bxy_sort bxy n) (3/5))) n
  have hb0 := (heidi_in_band_iff _ _ _).mpr ⟨hlo, hhi⟩
  rcases inv2 with ⟨_, hone⟩ | ⟨p, hp, _, hpn, _⟩
  · exfalso
    have h1 := inv1 i0 hi0n hb0
    have h2 := hpval i0 hi0n
    rw [hone] at h1
    linarith
  · have hsome := indices_snp_map_isSome indices_snp n p hp
    cases hl : (heidi_indices_snp_map indices_snp n).lookup (indices_snp.getD p "") with
    | none => rw [hl] at hsome; simp at hsome
    | some indxbuf =>
      refine ⟨indxbuf, by rw [hpn]; exact hl, ?_⟩
      unfold gsmr_heidi
      rw [hq1, hq2]
      simp only []
      rw [hpn, hl]

/-- A single index SNP, `s1` of the example panel, whose value is the whole band. -/
theorem heidi_pivot_found_exact_witness :
    ∃ lo hi, quantile exampleNumerics (bxy_sort (vecOf [1/10]) 1) (2/5) = .ok (some lo) ∧
      quantile exampleNumerics (bxy_sort (vecOf [1/10]) 1) (3/5) = .ok (some hi) ∧
      (∃ i, i < 1 ∧ lo ≤ vecOf [1/10] i ∧ vecOf [1/10] i ≤ hi) ∧
      ∃ indxbuf, (heidi_indices_snp_map ["s1"] 1).lookup
          (heidi_pivot_loop examplePanel example_bzx_pval (vecOf [1/10]) ["s1"] 1
            (some lo) (some hi)).2.1 = some indxbuf ∧
        gsmr_heidi exampleNumerics examplePanel example_bzx_pval (vecOf [1/10]) zeroMat ["s1"] 1
            (1/100)
          = .ok (heidi_test exampleNumerics (vecOf [1/10]) zeroMat 1 indxbuf (1/100)) :=
  heidi_pivot_found_exact exampleNumerics examplePanel example_bzx_pval (vecOf [1/10]) zeroMat
    ["s1"] 1 (1/100) (fun _ => rfl) (Or.inl rfl)
    (by
      intro i hi
      interval_cases i
      simp [indexVal, metaIndex, examplePanel, example_bzx_pval, vecOf, lookup_cons_ite]
      norm_num)

/-- The positions collected in `pIN` by the loop of `set_keep` over the marks `l`, from
the counter `c` on. -/
theorem set_keep_pIN_mem (sorted : List String) (l : List String) :
    ∀ (acc : List ℕ) (c k : ℕ),
      k ∈ (l.foldl
        (fun (st : List ℕ × ℕ) item_mark =>
          (if binary_search sorted item_mark = true then st.1 ++ [st.2] else st.1, st.2 + 1))
        (acc, c)).1
      ↔ (k ∈ acc ∨ (c ≤ k ∧ k - c < l.length ∧ l.getD (k - c) "" ∈ sorted)) := by
  induction l with
  | nil =>
    intro acc c k
    simp
  | cons x xs ih =>
    intro acc c k
    rw [List.foldl_cons, ih]
    by_cases hx : binary_search sorted x = true
    · rw [if_pos hx]
      have hx2 : x ∈ sorted := by simpa [binary_search] using hx
      constructor
      · rintro (h | ⟨h1, h2, h3⟩)
        · rcases List.mem_append.mp h with h | h
          · exact Or.inl h
          · right
            simp at h
            subst h
            simp [hx2]
        · right
          have e : k - c = (k - (c + 1)) + 1 := by omega
          refine ⟨by omega, by simp; omega, ?_⟩
          rw [e, List.getD_cons_succ]
          exact h3
      · rintro (h | ⟨h1, h2, h3⟩)
        · exact Or.inl (List.mem_append.mpr (Or.inl h))
        · by_cases hkc : k = c
          · left
            subst hkc
            simp
          · right
            have e : k - c = (k - (c + 1)) + 1 := by omega
            rw [e, List.getD_cons_succ] at h3
            simp at h2
            exact ⟨by omega, by omega, h3⟩
    · rw [if_neg hx]
      have hx2 : x ∉ sorted := by simpa [binary_search] using hx
      constructor
      · rintro (h | ⟨h1, h2, h3⟩)
        · exact Or.inl h
        · right
          have e : k - c = (k - (c + 1)) + 1 := by omega
          refine ⟨by omega, by simp; omega, ?_⟩
          rw [e, List.getD_cons_succ]
          exact h3
      · rintro (h | ⟨h1, h2, h3⟩)
        · exact Or.inl h
        · by_cases hkc : k = c
          · subst hkc
            simp at h3
            exact absurd h3 hx2
          · right
            have e : k - c = (k - (c + 1)) + 1 := by omega
            rw [e, List.getD_cons_succ] at h3
            simp at h2
            exact ⟨by omega, by omega, h3⟩

/-- The function `set_keep` as a filter of `keeps`: an entry stays with `isKeep` exactly
when it is the position of a mark of the given list, and without `isKeep` exactly when
it is not. -/
theorem set_keep_eq_filter (indi_marks marks : List String) (keeps : List ℕ) (isKeep : Bool) :
    set_keep indi_marks marks keeps isKeep
      = keeps.filter fun k =>
          if isKeep = true then decide (k < marks.length ∧ marks.getD k "" ∈ indi_marks)
          else decide (¬ (k < marks.length ∧ marks.getD k "" ∈ indi_marks)) := by
  have hmem : ∀ k, k ∈ (marks.foldl
        (fun (st : List ℕ × ℕ) item_mark =>
          (if binary_search (List.insertionSort (fun a b => a ≤ b) indi_marks) item_mark = true
            then st.1 ++ [st.2] else st.1, st.2 + 1))
        (([] : List ℕ), 0)).1
      ↔ (k < marks.length ∧ marks.getD k "" ∈ indi_marks) := by
    intro k
    rw [set_keep_pIN_mem]
    simp only [List.not_mem_nil, false_or, Nat.zero_le, true_and, Nat.sub_zero]
    rw [(List.perm_insertionSort (fun a b : String => a ≤ b) indi_marks).mem_iff]
  unfold set_keep
  cases isKeep with
  | true =>
    simp only [if_true]
    generalize (marks.foldl
        (fun (st : List ℕ × ℕ) item_mark =>
          (if binary_search (List.insertionSort (fun a b => a ≤ b) indi_marks) item_mark = true
            then st.1 ++ [st.2] else st.1, st.2 + 1))
        (([] : List ℕ), 0)).1 = pIN at hmem
    apply List.filter_congr
    intro k _
    by_cases h : k < marks.length ∧ marks.getD k "" ∈ indi_marks
    · have := (hmem k).mpr h
      rw [decide_eq_true h]
      simp [this]
    · have := (hmem k).not.mpr h
      rw [decide_eq_false h]
      simp [this]
  | false =>
    simp only [Bool.false_eq_true, if_false]
    generalize (marks.foldl
        (fun (st : List ℕ × ℕ) item_mark =>
          (if binary_search (List.insertionSort (fun a b => a ≤ b) indi_marks) item_mark = true
            then st.1 ++ [st.2] else st.1, st.2 + 1))
        (([] : List ℕ), 0)).1 = pIN at hmem
    apply List.filter_congr
    intro k _
    by_cases h : k < marks.length ∧ marks.getD k "" ∈ indi_marks
    · have := (hmem k).mpr h
      rw [decide_eq_false (not_not.mpr h)]
      simp [this]
    · have := (hmem k).not.mpr h
      rw [decide_eq_true h]
      simp [this]

/-- C40: `set_keep` returns a sub-list of `keeps`, in the same order: with `isKeep` the
entries whose mark occurs in the given list, without it the entries whose mark does not
occur in it; so after a removal with the list `rm`, whatever calls of `set_keep` came
before and come after, no entry whose mark is in `rm` is left. -/
theorem C40_set_keep (indi_marks marks : List String) (keeps : List ℕ) :
    set_keep indi_marks marks keeps true
      = keeps.filter (fun k => decide (k < marks.length ∧ marks.getD k "" ∈ indi_marks)) ∧
    set_keep indi_marks marks keeps false
      = keeps.filter (fun k => decide (¬ (k < marks.length ∧ marks.getD k "" ∈ indi_marks))) ∧
    (∀ isKeep, (set_keep indi_marks marks keeps isKeep).Sublist keeps) ∧
    (∀ (before after : List (List String × Bool)) (rm : List String) (k : ℕ),
      k < marks.length → marks.getD k "" ∈ rm →
      k ∉ after.foldl (fun ks op => set_keep op.1 marks ks op.2)
        (set_keep rm marks (before.foldl (fun ks op => set_keep op.1 marks ks op.2) keeps)
          false)) := by
  refine ⟨?_, ?_, ?_, ?_⟩
  · rw [set_keep_eq_filter]
    simp
  · rw [set_keep_eq_filter]
    simp
  · intro isKeep
    rw [set_keep_eq_filter]
    exact List.filter_sublist _
  · intro before after rm k hk hrm
    have hsub : ∀ (ops : List (List String × Bool)) (ks : List ℕ),
        (ops.foldl (fun ks op => set_keep op.1 marks ks op.2) ks).Sublist ks := by
      intro ops
      induction ops with
      | nil => intro ks; exact List.Sublist.refl _
      | cons op rest ih =>
        intro ks
        rw [List.foldl_cons]
        refine (ih _).trans ?_
        rw [set_keep_eq_filter]
        exact List.filter_sublist _
    intro hmem
    have h1 := (hsub after _).subset hmem
    rw [set_keep_eq_filter] at h1
    have h2 := (List.mem_filter.mp h1).2
    simp only [Bool.false_eq_true, if_false, decide_eq_true_eq] at h2
    exact h2 ⟨hk, hrm⟩

/-- The lookup in a map whose entry at `k0` was changed by `f`. -/
theorem lookup_map_entry (f : ℕ → ℕ) (k0 : ℕ) (l : List (ℕ × ℕ)) (k : ℕ) :
    (l.map fun kv => if kv.1 = k0 then (kv.1, f kv.2) else kv).lookup k
      = if k = k0 then (l.lookup k).map f else l.lookup k := by
  induction l with
  | nil => simp
  | cons kv rest ih =>
    obtain ⟨a, b⟩ := kv
    rw [List.map_cons]
    by_cases ha : a = k0
    · by_cases hk : k = a
      · subst hk
        subst ha
        simp [List.lookup_cons]
      · have hb : (k == a) = false := by simpa using hk
        simp only [ha, if_true]
        rw [List.lookup_cons, List.lookup_cons]
        rw [← ha, hb]
        simp only []
        rw [ha]
        exact ih
    · by_cases hk : k = a
      · subst hk
        simp [List.lookup_cons, ha]
      · have hb : (k == a) = false := by simpa using hk
        simp only [ha, if_false]
        rw [List.lookup_cons, List.lookup_cons, hb]
        exact ih

/-- The lookup in a map with a new last entry. -/
theorem lookup_append_entry (l : List (ℕ × ℕ)) (k0 v k : ℕ) :
    (l ++ [(k0, v)]).lookup k
      = match l.lookup k with
        | some x => some x
        | none => if k = k0 then some v else none := by
  induction l with
  | nil =>
    by_cases hk : k = k0
    · subst hk
      simp [List.lookup_cons]
    · have hb : (k == k0) = false := by simpa using hk
      simp [List.lookup_cons, hb, hk]
  | cons kv rest ih =>
    obtain ⟨a, b⟩ := kv
    rw [List.cons_append]
    by_cases hk : k = a
    · subst hk
      simp [List.lookup_cons]
    · have hb : (k == a) = false := by simpa using hk
      rw [List.lookup_cons, List.lookup_cons, hb]
      exact ih
/-- The bytes of the example of C39: `00011011` becomes `00010111`, and the byte after
the block is left. On a vector `keeps` that is not ascending `std::set_difference` does
not give the complement. -/
theorem example_mask_geno_keep :
    reinit_rm [0, 2] 3 = [1] ∧
    reinit_rm [2, 0] 3 = [0, 1] ∧
    init_mask_block [1] = ([(0, 243)], [(0, 4)]) ∧
    mask_geno_keep [(0, 243)] [(0, 4)] 1 (fun _ => 27) 1 0 = 23 ∧
    mask_geno_keep [(0, 243)] [(0, 4)] 1 (fun _ => 27) 1 1 = 27 := by
  refine ⟨by simp [reinit_rm, set_difference, List.range_succ],
    by simp [reinit_rm, set_difference, List.range_succ], by decide, by decide, by decide⟩

/-- The markers met by the pool jobs of `calculate_fam` are `0 .. T * part - 1`. -/
theorem pool_jobs_markers (part : ℕ) (T : ℕ) :
    ((List.range T).map (fun index => (index * part, (index + 1) * part))).flatMap
        reg_thread_markers
      = List.range (T * part) := by
  induction T with
  | zero => simp
  | succ T ih =>
    rw [List.range_succ, List.map_append, List.flatMap_append, ih]
    simp only [List.map_cons, List.map_nil, List.flatMap_cons, List.flatMap_nil, List.append_nil,
      reg_thread_markers]
    have e : (T + 1) * part - T * part = part := by
      rw [Nat.succ_mul]
      omega
    rw [e, List.range_eq_range', List.range_eq_range', Nat.succ_mul]
    have := List.range'_append 0 (T * part) part 1
    simp only [Nat.zero_add, Nat.one_mul] at this
    rw [this, Nat.add_comm]

/-- The markers met by one call of `calculate_fam`: every index from `0` up to the larger
of `num_marker` and `T * num_marker_part`, once each and in increasing order. -/
theorem calculate_fam_markers_eq (thread_count num_marker : ℕ) :
    calculate_fam_markers thread_count num_marker
      = List.range (max num_marker
          (thread_count * ((num_marker + (thread_count + 1) - 1) / (thread_count + 1)))) := by
  unfold calculate_fam_markers calculate_fam_ranges
  simp only [Nat.add_sub_cancel]
  rw [List.flatMap_append, pool_jobs_markers]
  simp only [List.flatMap_cons, List.flatMap_nil, List.append_nil, reg_thread_markers]
  generalize thread_count * ((num_marker + (thread_count + 1) - 1) / (thread_count + 1)) = q
  rw [List.range_eq_range', List.range_eq_range']
  have := List.range'_append 0 q (num_marker - q) 1
  simp only [Nat.zero_add, Nat.one_mul] at this
  rw [this]
  congr 1
  omega

/-- The partition of `calculate_fam` is exact when the pool jobs end at or before
`num_marker`. -/
theorem calculate_fam_markers_exact (thread_count num_marker : ℕ)
    (h : thread_count * ((num_marker + (thread_count + 1) - 1) / (thread_count + 1))
      ≤ num_marker) :
    calculate_fam_markers thread_count num_marker = List.range num_marker := by
  rw [calculate_fam_markers_eq, Nat.max_eq_left h]

/-- C32 fails for 5 markers and 3 pool threads: the chunk size is 2, the third pool job
gets the range `[4, 6)` and the driver the empty range `[6, 5)`, so marker 5, which is
not below `num_marker`, is processed, and after the call slot 5 of the result arrays
holds a value although only slots 0 to 4 belong to the 5 markers. -/
theorem C32_pool_job_beyond_num_marker :
    calculate_fam_ranges 3 5 = [(0, 2), (2, 4), (4, 6), (6, 5)] ∧
    calculate_fam_markers 3 5 = [0, 1, 2, 3, 4, 5] ∧
    ((calculate_fam exampleNumerics (fun _ _ => 1) (fun i j => if i = j then 1 else 0)
        (fun _ => 1) 1 3 (emptyFamArrays, 0) 5).1.beta 5 = some 1) ∧
    calculate_fam_markers 0 5 = [0, 1, 2, 3, 4] ∧
    calculate_fam_markers 3 8 = [0, 1, 2, 3, 4, 5, 6, 7] := by
  refine ⟨by decide, by decide, ?_, by decide, by decide⟩
  norm_num [calculate_fam, calculate_fam_ranges, reg_thread, reg_thread_round, reg_temp_beta,
    reg_xMat_V_dot,
    reg_xMat_V, emptyFamArrays, List.range_succ, List.range']

/-- The slots of the result arrays after the rounds of `reg_thread` over distinct
markers: the slot of a marker of the list holds the statistics of that marker, every
other slot is left. -/
theorem reg_thread_rounds (nm : Numerics) (makeMarkerX : ℕ → ℕ → ℚ) (V_inverse : ℕ → ℕ → ℚ)
    (phenoVec : ℕ → ℚ) (num_indi num_finished_marker : ℕ) (m : ℕ) (L : List ℕ) :
    L.Nodup → ∀ st : FamArrays,
      (m ∈ L →
        (L.foldl (reg_thread_round nm makeMarkerX V_inverse phenoVec num_indi
            num_finished_marker) st).beta (num_finished_marker + m)
          = reg_temp_beta V_inverse phenoVec num_indi (makeMarkerX m) ∧
        (L.foldl (reg_thread_round nm makeMarkerX V_inverse phenoVec num_indi
            num_finished_marker) st).se (num_finished_marker + m)
          = reg_temp_se nm V_inverse num_indi (makeMarkerX m) ∧
        (L.foldl (reg_thread_round nm makeMarkerX V_inverse phenoVec num_indi
            num_finished_marker) st).p (num_finished_marker + m)
          = reg_temp_p nm V_inverse phenoVec num_indi (makeMarkerX m)) ∧
      (m ∉ L →
        (L.foldl (reg_thread_round nm makeMarkerX V_inverse phenoVec num_indi
            num_finished_marker) st).beta (num_finished_marker + m)
          = st.beta (num_finished_marker + m) ∧
        (L.foldl (reg_thread_round nm makeMarkerX V_inverse phenoVec num_indi
            num_finished_marker) st).se (num_finished_marker + m)
          = st.se (num_finished_marker + m) ∧
        (L.foldl (reg_thread_round nm makeMarkerX V_inverse phenoVec num_indi
            num_finished_marker) st).p (num_finished_marker + m)
          = st.p (num_finished_marker + m)) := by
  induction L with
  | nil =>
    intro _ st
    exact ⟨fun h => absurd h (List.not_mem_nil m), fun _ => ⟨rfl, rfl, rfl⟩⟩
  | cons c rest ih =>
    intro hnd st
    rw [List.foldl_cons]
    rw [List.nodup_cons] at hnd
    obtain ⟨hin, hout2⟩ := ih hnd.2
      (reg_thread_round nm makeMarkerX V_inverse phenoVec num_indi num_finished_marker st c)
    constructor
    · intro hm
      by_cases hmc : m = c
      · subst hmc
        obtain ⟨h1, h2, h3⟩ := hout2 hnd.1
        rw [h1, h2, h3]
        simp [reg_thread_round]
      · have hmr : m ∈ rest := by
          rcases List.mem_cons.mp hm with h | h
          · exact absurd h hmc
          · exact h
        exact hin hmr
    · intro hm
      have hmc : m ≠ c := fun e => hm (e ▸ List.mem_cons_self _ _)
      have hmr : m ∉ rest := fun e => hm (List.mem_cons_of_mem _ e)
      obtain ⟨h1, h2, h3⟩ := hout2 hmr
      rw [h1, h2, h3]
      have : num_finished_marker + m ≠ num_finished_marker + c := by omega
      simp [reg_thread_round, this]

/-- The products of `reg_thread` when `V_inverse` is the identity on the individuals. -/
theorem reg_xMat_V_dot_identity (V_inverse : ℕ → ℕ → ℚ) (num_indi : ℕ) (xMat v : ℕ → ℚ)
    (hV : ∀ i j, i < num_indi → j < num_indi → V_inverse i j = if i = j then 1 else 0) :
    reg_xMat_V_dot V_inverse num_indi xMat v
      = ∑ j in Finset.range num_indi, xMat j * v j := by
  unfold reg_xMat_V_dot reg_xMat_V
  apply Finset.sum_congr rfl
  intro j hj
  have hj2 := Finset.mem_range.mp hj
  congr 1
  rw [Finset.sum_eq_single j]
  · rw [hV j j hj2 hj2, if_pos rfl, mul_one]
  · intro i hi hij
    rw [hV i j (Finset.mem_range.mp hi) hj2, if_neg hij, mul_zero]
  · intro h
    exact absurd hj h

/-- C31: for a marker of the range whose vector `x` has `xᵀV⁻¹x > 0`, `reg_thread` stores
β = `(xᵀV⁻¹y) / (xᵀV⁻¹x)` and SE = `sqrt(1 / xᵀV⁻¹x)` at the raw index of the marker, and,
the square root being not zero, the p-value of χ² = `β² / SE²`; when `V_inverse` is the
identity, β = `xᵀy / xᵀx` and SE = `sqrt(1 / xᵀx)`, which is `1 / sqrt(xᵀx)` when the
square root routine commutes with the inverse there. -/
theorem C31_reg_thread (nm : Numerics) (makeMarkerX : ℕ → ℕ → ℚ) (V_inverse : ℕ → ℕ → ℚ)
    (phenoVec : ℕ → ℚ) (num_indi num_finished_marker : ℕ) (st : FamArrays)
    (from_marker to_marker cur_marker : ℕ)
    (hfrom : from_marker ≤ cur_marker) (hto : cur_marker < to_marker)
    (hpos : 0 < reg_xMat_V_dot V_inverse num_indi (makeMarkerX cur_marker)
      (makeMarkerX cur_marker)) :
    (reg_thread nm makeMarkerX V_inverse phenoVec num_indi num_finished_marker st
        from_marker to_marker).beta (num_finished_marker + cur_marker)
      = some (reg_xMat_V_dot V_inverse num_indi (makeMarkerX cur_marker) phenoVec
          / reg_xMat_V_dot V_inverse num_indi (makeMarkerX cur_marker)
            (makeMarkerX cur_marker)) ∧
    (reg_thread nm makeMarkerX V_inverse phenoVec num_indi num_finished_marker st
        from_marker to_marker).se (num_finished_marker + cur_marker)
      = some (nm.sqrt (1 / reg_xMat_V_dot V_inverse num_indi (makeMarkerX cur_marker)
          (makeMarkerX cur_marker))) ∧
    (nm.sqrt (1 / reg_xMat_V_dot V_inverse num_indi (makeMarkerX cur_marker)
        (makeMarkerX cur_marker)) ≠ 0 →
      (reg_thread nm makeMarkerX V_inverse phenoVec num_indi num_finished_marker st
          from_marker to_marker).p (num_finished_marker + cur_marker)
        = some (nm.pchisq
            ((reg_xMat_V_dot V_inverse num_indi (makeMarkerX cur_marker) phenoVec
                / reg_xMat_V_dot V_inverse num_indi (makeMarkerX cur_marker)
                  (makeMarkerX cur_marker)) ^ 2
              / nm.sqrt (1 / reg_xMat_V_dot V_inverse num_indi (makeMarkerX cur_marker)
                  (makeMarkerX cur_marker)) ^ 2) 1)) ∧
    ((∀ i j, i < num_indi → j < num_indi → V_inverse i j = if i = j then 1 else 0) →
      (reg_thread nm makeMarkerX V_inverse phenoVec num_indi num_finished_marker st
          from_marker to_marker).beta (num_finished_marker + cur_marker)
        = some ((∑ j in Finset.range num_indi, makeMarkerX cur_marker j * phenoVec j)
            / ∑ j in Finset.range num_indi,
                makeMarkerX cur_marker j * makeMarkerX cur_marker j) ∧
      (reg_thread nm makeMarkerX V_inverse phenoVec num_indi num_finished_marker st
          from_marker to_marker).se (num_finished_marker + cur_marker)
        = some (nm.sqrt (1 / ∑ j in Finset.range num_indi,
            makeMarkerX cur_marker j * makeMarkerX cur_marker j)) ∧
      (nm.sqrt (1 / ∑ j in Finset.range num_indi,
            makeMarkerX cur_marker j * makeMarkerX cur_marker j)
          = 1 / nm.sqrt (∑ j in Finset.range num_indi,
            makeMarkerX cur_marker j * makeMarkerX cur_marker j) →
        (reg_thread nm makeMarkerX V_inverse phenoVec num_indi num_finished_marker st
            from_marker to_marker).se (num_finished_marker + cur_marker)
          = some (1 / nm.sqrt (∑ j in Finset.range num_indi,
              makeMarkerX cur_marker j * makeMarkerX cur_marker j)))) := by
  have hmem : cur_marker ∈ List.range' from_marker (to_marker - from_marker) := by
    rw [List.mem_range'_1]
    omega
  obtain ⟨h1, h2, h3⟩ := (reg_thread_rounds nm makeMarkerX V_inverse phenoVec num_indi
    num_finished_marker cur_marker _ (List.nodup_range' from_marker _) st).1 hmem
  unfold reg_thread
  rw [h1, h2, h3]
  generalize hd : reg_xMat_V_dot V_inverse num_indi (makeMarkerX cur_marker)
    (makeMarkerX cur_marker) = d at hpos
  have hd0 : d ≠ 0 := ne_of_gt hpos
  have hinv : ¬ (1 / d < 0) := not_lt.mpr (le_of_lt (one_div_pos.mpr hpos))
  have hb : reg_temp_beta V_inverse phenoVec num_indi (makeMarkerX cur_marker)
      = some (reg_xMat_V_dot V_inverse num_indi (makeMarkerX cur_marker) phenoVec / d) := by
    unfold reg_temp_beta
    rw [hd, if_neg hd0]
    simp only []
    rw [one_div, inv_mul_eq_div]
  have hs : reg_temp_se nm V_inverse num_indi (makeMarkerX cur_marker)
      = some (nm.sqrt (1 / d)) := by
    unfold reg_temp_se
    rw [hd, if_neg hd0]
    simp only []
    rw [if_neg hinv]
  have hp : nm.sqrt (1 / d) ≠ 0 →
      reg_temp_p nm V_inverse phenoVec num_indi (makeMarkerX cur_marker)
      = some (nm.pchisq
          ((reg_xMat_V_dot V_inverse num_indi (makeMarkerX cur_marker) phenoVec / d) ^ 2
            / nm.sqrt (1 / d) ^ 2) 1) := by
    intro hse
    unfold reg_temp_p
    rw [hb, hs]
    simp only []
    rw [if_neg hse]
    congr 2
    ring
  refine ⟨hb, hs, hp, ?_⟩
  intro hV
  have e1 := reg_xMat_V_dot_identity V_inverse num_indi (makeMarkerX cur_marker) phenoVec hV
  have e2 := reg_xMat_V_dot_identity V_inverse num_indi (makeMarkerX cur_marker)
    (makeMarkerX cur_marker) hV
  rw [hd] at e2
  refine ⟨?_, ?_, ?_⟩
  · rw [hb, e1, e2]
  · rw [hs, e2]
  · intro hcomm
    rw [hs, e2, hcomm]

/-- C31 on two individuals with `V_inverse` the identity, x = (2, 0) and y = (1, 3):
β = 2 / 4, SE = 1 / 2 and the p-value is the tail of χ² = 1. -/
theorem C31_reg_thread_witness :
    (0 ≤ 0 ∧ 0 < 1 ∧
      0 < reg_xMat_V_dot (fun i j => if i = j then 1 else 0) 2 (vecOf [2, 0])
        (vecOf [2, 0])) ∧
    (reg_thread exampleNumerics (fun _ => vecOf [2, 0]) (fun i j => if i = j then 1 else 0)
        (vecOf [1, 3]) 2 0 emptyFamArrays 0 1).beta (0 + 0)
      = some (reg_xMat_V_dot (fun i j => if i = j then 1 else 0) 2 (vecOf [2, 0]) (vecOf [1, 3])
          / reg_xMat_V_dot (fun i j => if i = j then 1 else 0) 2 (vecOf [2, 0])
            (vecOf [2, 0])) :=
  have hd : reg_xMat_V_dot (fun i j => if i = j then 1 else 0) 2 (vecOf [2, 0]) (vecOf [2, 0])
      = 4 := by
    norm_num [reg_xMat_V_dot, reg_xMat_V, vecOf, Finset.sum_range_succ]
  ⟨⟨le_refl 0, by norm_num, by rw [hd]; norm_num⟩,
    (C31_reg_thread exampleNumerics (fun _ => vecOf [2, 0]) (fun i j => if i = j then 1 else 0)
      (vecOf [1, 3]) 2 0 emptyFamArrays 0 1 0 (le_refl 0) (by norm_num)
      (by rw [hd]; norm_num)).1⟩

/-- The three statistics of the example of C31. -/
theorem example_reg_thread :
    (reg_thread exampleNumerics (fun _ => vecOf [2, 0]) (fun i j => if i = j then 1 else 0)
        (vecOf [1, 3]) 2 0 emptyFamArrays 0 1).beta 0 = some (1 / 2) ∧
    (reg_thread exampleNumerics (fun _ => vecOf [2, 0]) (fun i j => if i = j then 1 else 0)
        (vecOf [1, 3]) 2 0 emptyFamArrays 0 1).se 0 = some (1 / 2) ∧
    (reg_thread exampleNumerics (fun _ => vecOf [2, 0]) (fun i j => if i = j then 1 else 0)
        (vecOf [1, 3]) 2 0 emptyFamArrays 0 1).p 0 = some (1 / 2) := by
  have hq : qsqrt (1 / 4) = 1 / 2 := by norm_num [qsqrt]
  refine ⟨?_, ?_, ?_⟩ <;>
    norm_num [reg_thread, reg_thread_round, reg_temp_beta, reg_temp_se, reg_temp_p,
      reg_xMat_V_dot, reg_xMat_V, vecOf, emptyFamArrays, exampleNumerics,
      Finset.sum_range_succ, List.range', hq]

/-- The lookup after an assignment `map_index[k] = v`. -/
theorem lookup_map_index_assign (m : List (ℕ × ℕ)) (k v x : ℕ) :
    (map_index_assign m k v).lookup x = if x = k then some v else m.lookup x := by
  unfold map_index_assign
  cases h : m.lookup k with
  | none =>
    simp only []
    rw [lookup_append_entry]
    by_cases hx : x = k
    · subst hx
      rw [h]
    · rw [if_neg hx]
      cases m.lookup x <;> simp [hx]
  | some w =>
    simp only []
    have := lookup_map_entry (fun _ => v) k m x
    simp only [] at this
    rw [this]
    by_cases hx : x = k
    · subst hx
      rw [if_pos rfl, if_pos rfl, h]
      rfl
    · rw [if_neg hx, if_neg hx]

/-- The map `map_index` of `readFAM`: a key is found exactly when it is an entry of the
ordered vector, and the value found is a position of the key in that vector. -/
theorem readFAM_map_index_lookup (ordered : List ℕ) :
    (∀ g g2, (readFAM_map_index ordered).lookup g = some g2 →
      g2 < ordered.length ∧ ordered.getD g2 0 = g) ∧
    (∀ g, g ∈ ordered → ((readFAM_map_index ordered).lookup g).isSome = true) := by
  have hgen : ∀ n, n ≤ ordered.length →
      (∀ g g2, ((List.range n).foldl
          (fun m index => map_index_assign m (ordered.getD index 0) index) []).lookup g
            = some g2 → g2 < n ∧ ordered.getD g2 0 = g) ∧
      (∀ idx, idx < n → (((List.range n).foldl
          (fun m index => map_index_assign m (ordered.getD index 0) index) []).lookup
            (ordered.getD idx 0)).isSome = true) := by
    intro n
    induction n with
    | zero =>
      intro _
      refine ⟨?_, ?_⟩
      · intro g g2 h
        simp at h
      · intro idx h
        omega
    | succ n ih =>
      intro hn
      obtain ⟨ih1, ih2⟩ := ih (by omega)
      rw [List.range_succ, List.foldl_append, List.foldl_cons, List.foldl_nil]
      refine ⟨?_, ?_⟩
      · intro g g2 h
        rw [lookup_map_index_assign] at h
        by_cases hg : g = ordered.getD n 0
        · rw [if_pos hg] at h
          have : n = g2 := Option.some.inj h
          subst this
          exact ⟨by omega, hg.symm⟩
        · rw [if_neg hg] at h
          have := ih1 g g2 h
          exact ⟨by omega, this.2⟩
      · intro idx hidx
        rw [lookup_map_index_assign]
        by_cases hg : ordered.getD idx 0 = ordered.getD n 0
        · rw [if_pos hg]
          rfl
        · rw [if_neg hg]
          have : idx ≠ n := fun e => hg (e ▸ rfl)
          exact ih2 idx (by omega)
  obtain ⟨h1, h2⟩ := hgen ordered.length le_rfl
  refine ⟨h1, ?_⟩
  intro g hg
  obtain ⟨idx, hidx, e⟩ := List.getElem_of_mem hg
  have e2 : ordered.getD idx 0 = g := by
    rw [List.getD_eq_getElem _ _ hidx, e]
  rw [← e2]
  exact h2 idx hidx

/-- The loop of `readFAM` over the lines appends the entries of each line. -/
theorem readFAM_lines_eq (mi : List (ℕ × ℕ)) (lines : List (ℕ × ℕ × ℚ)) :
    ∀ acc, lines.foldl (readFAM_line mi) acc
      = acc ++ lines.flatMap (fun line => readFAM_line mi [] line) := by
  induction lines with
  | nil =>
    intro acc
    simp
  | cons line rest ih =>
    intro acc
    rw [List.foldl_cons, ih, List.flatMap_cons, ← List.append_assoc]
    congr 1
    unfold readFAM_line
    cases mi.lookup line.1 with
    | none => simp
    | some a =>
      cases mi.lookup line.2.1 with
      | none => simp
      | some b =>
        simp only []
        by_cases hab : a ≠ b
        · rw [if_pos hab, if_pos hab, List.nil_append]
        · rw [if_neg hab, if_neg hab, List.nil_append]

/-- The entries of one line in terms of the ids of the line: a line whose two ids are
equal gives one diagonal entry, a line with two different surviving ids an entry and its
mirror, any other line nothing. -/
theorem readFAM_line_entries (ordered : List ℕ) (line : ℕ × ℕ × ℚ) :
    readFAM_line (readFAM_map_index ordered) [] line
      = match (readFAM_map_index ordered).lookup line.1,
          (readFAM_map_index ordered).lookup line.2.1 with
        | some a, some b =>
          if line.1 = line.2.1 then [(a, a, line.2.2)]
          else [(a, b, line.2.2), (b, a, line.2.2)]
        | _, _ => [] := by
  obtain ⟨hl1, _⟩ := readFAM_map_index_lookup ordered
  unfold readFAM_line
  cases h1 : (readFAM_map_index ordered).lookup line.1 with
  | none => rfl
  | some a =>
    cases h2 : (readFAM_map_index ordered).lookup line.2.1 with
    | none => rfl
    | some b =>
      simp only []
      by_cases hab : a = b
      · subst hab
        have e : line.1 = line.2.1 := by
          rw [← (hl1 _ _ h1).2, ← (hl1 _ _ h2).2]
        rw [if_neg (not_not.mpr rfl), if_pos e, List.nil_append]
      · have e : line.1 ≠ line.2.1 := by
          intro e
          rw [e, h2] at h1
          exact hab (Option.some.inj h1).symm
        rw [if_pos hab, if_neg e, List.nil_append]

/-- Reading a list at the positions `0 .. length - 1` gives the list. -/
theorem map_getD_range {α : Type} (l : List α) (d : α) :
    (List.range l.length).map (fun index => l.getD index d) = l := by
  apply List.ext_getElem
  · simp
  · intro n h1 h2
    simp [List.getElem?_eq_getElem h2]

/-- C33: with `sort_indexes` putting the surviving GRM indices in increasing order and
the two-vector `sort_indexes` returning a permutation of the positions, `readFAM` returns
a matrix whose stored entries are, up to order, those of the lines one by one: a line
with two equal surviving ids gives one diagonal entry, a line with two different
surviving ids gives its value at the remapped `(i, j)` and `(j, i)`, any other line gives
nothing; the remapping is defined exactly on the surviving ids and is strictly
increasing in the GRM index, and the entries are symmetric. -/
theorem C33_readFAM (sort_indexes : List ℕ → List ℕ)
    (sort_indexes2 : List ℕ → List ℕ → List ℕ) (fam_index remain_index : List ℕ)
    (lines : List (ℕ × ℕ × ℚ))
    (hord : ((sort_indexes fam_index).map fun pos => fam_index.getD pos 0).Perm fam_index)
    (hsorted : ((sort_indexes fam_index).map fun pos => fam_index.getD pos 0).Sorted
      (fun a b => a ≤ b))
    (hperm : ∀ a b, (sort_indexes2 a b).Perm (List.range a.length)) :
    ∃ fam remain,
      readFAM sort_indexes sort_indexes2 fam_index remain_index (some lines)
        = .ok (fam, remain) ∧
      (∀ g, g ∈ fam_index ↔
        ((readFAM_map_index ((sort_indexes fam_index).map fun pos =>
          fam_index.getD pos 0)).lookup g).isSome = true) ∧
      (∀ g a, (readFAM_map_index ((sort_indexes fam_index).map fun pos =>
          fam_index.getD pos 0)).lookup g = some a → a < fam_index.length) ∧
      (∀ g1 g2 a b,
        (readFAM_map_index ((sort_indexes fam_index).map fun pos =>
          fam_index.getD pos 0)).lookup g1 = some a →
        (readFAM_map_index ((sort_indexes fam_index).map fun pos =>
          fam_index.getD pos 0)).lookup g2 = some b →
        g1 < g2 → a < b) ∧
      fam.Perm (lines.flatMap fun line =>
        match (readFAM_map_index ((sort_indexes fam_index).map fun pos =>
            fam_index.getD pos 0)).lookup line.1,
          (readFAM_map_index ((sort_indexes fam_index).map fun pos =>
            fam_index.getD pos 0)).lookup line.2.1 with
        | some a, some b =>
          if line.1 = line.2.1 then [(a, a, line.2.2)]
          else [(a, b, line.2.2), (b, a, line.2.2)]
        | _, _ => []) ∧
      (∀ i j v, (i, j, v) ∈ lines → i ∈ fam_index → j ∈ fam_index →
        ∃ a b,
          (readFAM_map_index ((sort_indexes fam_index).map fun pos =>
            fam_index.getD pos 0)).lookup i = some a ∧
          (readFAM_map_index ((sort_indexes fam_index).map fun pos =>
            fam_index.getD pos 0)).lookup j = some b ∧
          (a, b, v) ∈ fam ∧ (b, a, v) ∈ fam) ∧
      (∀ a b v, (a, b, v) ∈ fam → (b, a, v) ∈ fam) := by
  generalize hO : ((sort_indexes fam_index).map fun pos => fam_index.getD pos 0) = ordered
    at hord hsorted
  obtain ⟨hl1, hl2⟩ := readFAM_map_index_lookup ordered
  have hmemO : ∀ g, g ∈ fam_index ↔ ((readFAM_map_index ordered).lookup g).isSome = true := by
    intro g
    constructor
    · intro hg
      exact hl2 g (hord.mem_iff.mpr hg)
    · intro hg
      obtain ⟨a, ha⟩ := Option.isSome_iff_exists.mp hg
      obtain ⟨h1, h2⟩ := hl1 g a ha
      rw [List.getD_eq_getElem _ _ h1] at h2
      rw [← h2]
      exact hord.mem_iff.mp (List.getElem_mem h1)
  have hfam : ((sort_indexes2
        (((lines.foldl (readFAM_line (readFAM_map_index ordered)) []).map fun e => e.2.1))
        (((lines.foldl (readFAM_line (readFAM_map_index ordered)) []).map fun e => e.1))).map
        fun index => (lines.foldl (readFAM_line (readFAM_map_index ordered)) []).getD index
          (0, 0, 0)).Perm
      (lines.flatMap fun line =>
        match (readFAM_map_index ordered).lookup line.1,
          (readFAM_map_index ordered).lookup line.2.1 with
        | some a, some b =>
          if line.1 = line.2.1 then [(a, a, line.2.2)]
          else [(a, b, line.2.2), (b, a, line.2.2)]
        | _, _ => []) := by
    have h1 := (hperm
      (((lines.foldl (readFAM_line (readFAM_map_index ordered)) []).map fun e => e.2.1))
      (((lines.foldl (readFAM_line (readFAM_map_index ordered)) []).map fun e => e.1))).map
        (fun index => (lines.foldl (readFAM_line (readFAM_map_index ordered)) []).getD index
          ((0 : ℕ), (0 : ℕ), (0 : ℚ)))
    rw [List.length_map, map_getD_range] at h1
    refine h1.trans ?_
    rw [readFAM_lines_eq, List.nil_append]
    have e : (fun line => readFAM_line (readFAM_map_index ordered) [] line)
        = fun line : ℕ × ℕ × ℚ =>
          match (readFAM_map_index ordered).lookup line.1,
            (readFAM_map_index ordered).lookup line.2.1 with
          | some a, some b =>
            if line.1 = line.2.1 then [(a, a, line.2.2)]
            else [(a, b, line.2.2), (b, a, line.2.2)]
          | _, _ => [] := funext (readFAM_line_entries ordered)
    rw [e]
  refine ⟨_, (sort_indexes fam_index).map fun pos => remain_index.getD pos 0, ?_, hmemO,
    ?_, ?_, hfam, ?_, ?_⟩
  · unfold readFAM
    simp only []
    rw [hO]
  · intro g a ha
    rw [← hord.length_eq]
    exact (hl1 g a ha).1
  · intro g1 g2 a b ha hb hlt
    obtain ⟨ha1, ha2⟩ := hl1 g1 a ha
    obtain ⟨hb1, hb2⟩ := hl1 g2 b hb
    by_contra hcon
    have hba : b ≤ a := by omega
    have := List.Sorted.rel_get_of_le hsorted (show (⟨b, hb1⟩ : Fin ordered.length)
      ≤ ⟨a, ha1⟩ from hba)
    rw [List.getD_eq_getElem _ _ ha1] at ha2
    rw [List.getD_eq_getElem _ _ hb1] at hb2
    simp only [List.get_eq_getElem] at this
    omega
  · intro i j v hline hi hj
    obtain ⟨a, ha⟩ := Option.isSome_iff_exists.mp ((hmemO i).mp hi)
    obtain ⟨b, hb⟩ := Option.isSome_iff_exists.mp ((hmemO j).mp hj)
    have hin : ∀ x, x ∈ (match (readFAM_map_index ordered).lookup i,
          (readFAM_map_index ordered).lookup j with
        | some a, some b =>
          if i = j then [(a, a, v)]
          else [(a, b, v), (b, a, v)]
        | _, _ => []) → x ∈ (sort_indexes2
        (((lines.foldl (readFAM_line (readFAM_map_index ordered)) []).map fun e => e.2.1))
        (((lines.foldl (readFAM_line (readFAM_map_index ordered)) []).map fun e => e.1))).map
        fun index => (lines.foldl (readFAM_line (readFAM_map_index ordered)) []).getD index
          (0, 0, 0) := by
      intro x hx
      apply hfam.mem_iff.mpr
      exact List.mem_flatMap.mpr ⟨(i, j, v), hline, hx⟩
    rw [ha, hb] at hin
    simp only [] at hin
    refine ⟨a, b, ha, hb, ?_, ?_⟩
    · apply hin
      by_cases hij : i = j
      · subst hij
        rw [ha] at hb
        have := Option.some.inj hb
        subst this
        simp
      · simp [hij]
    · apply hin
      by_cases hij : i = j
      · subst hij
        rw [ha] at hb
        have := Option.some.inj hb
        subst this
        simp
      · simp [hij]
  · intro a b v hmem
    apply hfam.mem_iff.mpr
    obtain ⟨line, hline, hx⟩ := List.mem_flatMap.mp (hfam.mem_iff.mp hmem)
    refine List.mem_flatMap.mpr ⟨line, hline, ?_⟩
    cases h1 : (readFAM_map_index ordered).lookup line.1 with
    | none =>
      rw [h1] at hx
      simp at hx
    | some a2 =>
      cases h2 : (readFAM_map_index ordered).lookup line.2.1 with
      | none =>
        rw [h1, h2] at hx
        simp at hx
      | some b2 =>
        rw [h1, h2] at hx
        simp only [] at hx ⊢
        by_cases hij : line.1 = line.2.1
        · rw [if_pos hij] at hx ⊢
          simp only [List.mem_singleton, Prod.mk.injEq] at hx ⊢
          obtain ⟨e1, e2, e3⟩ := hx
          exact ⟨e2, e1, e3⟩
        · rw [if_neg hij] at hx ⊢
          simp only [List.mem_cons, Prod.mk.injEq, List.mem_singleton, List.not_mem_nil,
            or_false] at hx ⊢
          rcases hx with ⟨e1, e2, e3⟩ | ⟨e1, e2, e3⟩
          · exact Or.inr ⟨e2, e1, e3⟩
          · exact Or.inl ⟨e2, e1, e3⟩

/-- C33 on a GRM of four individuals of which the second and the fourth survive, with the
lines `1 1 1`, `2 1 1/2`, `3 1 1/4` and `3 3 1`: `readFAM` returns, and the entries are
symmetric. -/
theorem C33_readFAM_witness :
    (((example_sort_indexes [3, 1]).map fun pos => ([3, 1] : List ℕ).getD pos 0).Perm [3, 1] ∧
      ((example_sort_indexes [3, 1]).map fun pos => ([3, 1] : List ℕ).getD pos 0).Sorted
        (fun a b => a ≤ b) ∧
      ∀ a b, (example_sort_indexes2 a b).Perm (List.range a.length)) ∧
    ∃ fam remain,
      readFAM example_sort_indexes example_sort_indexes2 [3, 1] [0, 1]
        (some [(1, 1, 1), (2, 1, 1 / 2), (3, 1, 1 / 4), (3, 3, 1)]) = .ok (fam, remain) ∧
      (∀ a b v, (a, b, v) ∈ fam → (b, a, v) ∈ fam) :=
  ⟨⟨by decide, by decide, fun _ _ => List.perm_insertionSort _ _⟩,
    (C33_readFAM example_sort_indexes example_sort_indexes2 [3, 1] [0, 1]
      [(1, 1, 1), (2, 1, 1 / 2), (3, 1, 1 / 4), (3, 3, 1)] (by decide) (by decide)
      (fun _ _ => List.perm_insertionSort _ _)).imp
      fun _ h => h.imp fun _ h2 => ⟨h2.1, h2.2.2.2.2.2.2⟩⟩

/-- The matrix of the example of C33: the remapping sends GRM index 1 to 0 and 3 to 1,
the line with the dropped id 2 gives nothing, the off-diagonal line gives two entries and
each diagonal line one. -/
theorem example_readFAM :
    readFAM_map_index [1, 3] = [(1, 0), (3, 1)] ∧
    readFAM example_sort_indexes example_sort_indexes2 [3, 1] [0, 1]
        (some [(1, 1, 1), (2, 1, 1 / 2), (3, 1, 1 / 4), (3, 3, 1)])
      = .ok ([(0, 0, 1), (1, 0, 1 / 4), (0, 1, 1 / 4), (1, 1, 1)], [1, 0]) ∧
    readFAM example_sort_indexes example_sort_indexes2 [3, 1] [0, 1] none
      = .error .FileNotFound := by
  refine ⟨by decide, ?_, rfl⟩
  have h1 : example_sort_indexes [3, 1] = [1, 0] := by decide
  have h2 : readFAM_map_index [1, 3] = [(1, 0), (3, 1)] := by decide
  have h3 : example_sort_indexes2 [0, 0, 1, 1] [0, 1, 0, 1] = [0, 1, 2, 3] := by decide
  have l1 : List.lookup 1 [(1, 0), (3, 1)] = some 0 := by decide
  have l2 : List.lookup 2 [(1, 0), (3, 1)] = none := by decide
  have l3 : List.lookup 3 [(1, 0), (3, 1)] = some 1 := by decide
  have he : ([(1, 1, 1), (2, 1, 1 / 2), (3, 1, 1 / 4), (3, 3, 1)] :
        List (ℕ × ℕ × ℚ)).foldl (readFAM_line [(1, 0), (3, 1)]) []
      = [(0, 0, 1), (1, 0, 1 / 4), (0, 1, 1 / 4), (1, 1, 1)] := by
    simp only [List.foldl_cons, List.foldl_nil, readFAM_line, l1, l2, l3]
    simp
  unfold readFAM
  simp only [h1, List.map_cons, List.map_nil, List.getD_cons_succ, List.getD_cons_zero, h2,
    he, h3]

/-- C28 (amended): neither `compute_irls` nor `compute_irls_gcov` has an error result.
When the sum of the roots of the weights and the mean sample size are not 0, the solve
without intercept gives no estimate exactly when `xt_x = 0` (it divides by it), and the
solve with intercept always gives an estimate, also when `xᵀx` is singular. -/
theorem C28_irls_singular (nm : Numerics) (intercept hsq : ℚ)
    (x0 x1 y wt ref_ld w_ld n : List ℚ) (intercept1 hsq1 : ℚ) (n1 : List ℚ)
    (intercept2 hsq2 : ℚ) (n2 : List ℚ) (ttl_mk_num : ℤ) (n_ld_snp : ℕ) (x_flag : Bool)
    (hsum : ∑ i in Finset.range n_ld_snp, nm.sqrt (wt.getD i 0) ≠ 0)
    (hmean : (∑ i in Finset.range n_ld_snp, n.getD i 0) / (n_ld_snp : ℚ) ≠ 0) :
    (compute_irls nm intercept hsq x0 x1 y wt ref_ld w_ld n ttl_mk_num n_ld_snp false x_flag
        = none ↔ irls_xt_x nm x0 wt n_ld_snp = 0) ∧
    (compute_irls nm intercept hsq x0 x1 y wt ref_ld w_ld n ttl_mk_num n_ld_snp true
        x_flag).isSome = true ∧
    (compute_irls_gcov nm intercept hsq x0 x1 y wt ref_ld w_ld n intercept1 hsq1 n1
        intercept2 hsq2 n2 ttl_mk_num n_ld_snp false x_flag
        = none ↔ irls_xt_x nm x0 wt n_ld_snp = 0) ∧
    (compute_irls_gcov nm intercept hsq x0 x1 y wt ref_ld w_ld n intercept1 hsq1 n1
        intercept2 hsq2 n2 ttl_mk_num n_ld_snp true x_flag).isSome = true := by
  have hg : ¬ (∑ i in Finset.range n_ld_snp, nm.sqrt (wt.getD i 0) = 0 ∨
      (∑ i in Finset.range n_ld_snp, n.getD i 0) / (n_ld_snp : ℚ) = 0) :=
    not_or.mpr ⟨hsum, hmean⟩
  refine ⟨?_, ?_, ?_, ?_⟩
  · by_cases h : irls_xt_x nm x0 wt n_ld_snp = 0
    · refine ⟨fun _ => h, fun _ => ?_⟩
      unfold irls_xt_x irls_wt at h
      unfold compute_irls
      simp only [if_neg hg, Bool.false_eq_true, if_false]
      rw [if_pos h]
    · refine ⟨fun hc => ?_, fun hz => absurd hz h⟩
      unfold irls_xt_x irls_wt at h
      unfold compute_irls at hc
      simp only [if_neg hg, Bool.false_eq_true, if_false] at hc
      rw [if_neg h] at hc
      exact Option.noConfusion hc
  · unfold compute_irls
    simp only [if_neg hg, if_true]
    split_ifs <;> rfl
  · by_cases h : irls_xt_x nm x0 wt n_ld_snp = 0
    · refine ⟨fun _ => h, fun _ => ?_⟩
      unfold irls_xt_x irls_wt at h
      unfold compute_irls_gcov
      simp only [if_neg hg, Bool.false_eq_true, if_false]
      rw [if_pos h]
    · refine ⟨fun hc => ?_, fun hz => absurd hz h⟩
      unfold irls_xt_x irls_wt at h
      unfold compute_irls_gcov at hc
      simp only [if_neg hg, Bool.false_eq_true, if_false] at hc
      rw [if_neg h] at hc
      exact Option.noConfusion hc
  · unfold compute_irls_gcov
    simp only [if_neg hg, if_true]
    split_ifs <;> rfl

/-- C28 (amended) on two SNPs of weight 1 with `x0 = (0, 0)`, where `xt_x = 0` and the
matrix `xᵀx` is singular: the solve without intercept gives no estimate, the solve with
intercept gives one. -/
theorem C28_irls_singular_witness :
    ((∑ i in Finset.range 2, exampleNumerics.sqrt (([1, 1] : List ℚ).getD i 0) ≠ 0) ∧
      (∑ i in Finset.range 2, ([1, 1] : List ℚ).getD i 0) / ((2 : ℕ) : ℚ) ≠ 0) ∧
    (compute_irls exampleNumerics 1 0 [0, 0] [1, 1] [1, 2] [1, 1] [0, 0] [1, 1] [1, 1] 1 2
        false false = none ↔ irls_xt_x exampleNumerics [0, 0] [1, 1] 2 = 0) ∧
    (compute_irls exampleNumerics 1 0 [0, 0] [1, 1] [1, 2] [1, 1] [0, 0] [1, 1] [1, 1] 1 2
        true false).isSome = true :=
  ⟨⟨by norm_num [exampleNumerics, qsqrt, Finset.sum_range_succ],
      by norm_num [Finset.sum_range_succ]⟩,
    (C28_irls_singular exampleNumerics 1 0 [0, 0] [1, 1] [1, 2] [1, 1] [0, 0]
      [1, 1] [1, 1] 0 0 [] 0 0 [] 1 2 false
      (by norm_num [exampleNumerics, qsqrt, Finset.sum_range_succ])
      (by norm_num [Finset.sum_range_succ])).1,
    (C28_irls_singular exampleNumerics 1 0 [0, 0] [1, 1] [1, 2] [1, 1] [0, 0]
      [1, 1] [1, 1] 0 0 [] 0 0 [] 1 2 false
      (by norm_num [exampleNumerics, qsqrt, Finset.sum_range_succ])
      (by norm_num [Finset.sum_range_succ])).2.1⟩

/-- A prevalence token is accepted by `read_metafile_list_prev` exactly when, in upper
case, it is a missing code, or `atof` gives a NaN or a value in `[0, 1]`. -/
theorem read_metafile_list_prev_ok (tx : TextRoutines) (token : String) :
    (∃ r, read_metafile_list_prev tx token = .ok r) ↔
      (tx.to_upper token = "NA" ∨ tx.to_upper token = "NAN" ∨ tx.to_upper token = "." ∨
        tx.atof (tx.to_upper token) = none ∨
        ∃ d, tx.atof (tx.to_upper token) = some d ∧ 0 ≤ d ∧ d ≤ 1) := by
  unfold read_metafile_list_prev
  simp only []
  by_cases hm : tx.to_upper token ≠ "NA" ∧ tx.to_upper token ≠ "NAN" ∧ tx.to_upper token ≠ "."
  · rw [if_pos hm]
    cases ha : tx.atof (tx.to_upper token) with
    | none =>
      simp only []
      exact ⟨fun _ => Or.inr (Or.inr (Or.inr (Or.inl trivial))), fun _ => ⟨none, rfl⟩⟩
    | some d =>
      simp only []
      by_cases hd : d < 0 ∨ d > 1
      · rw [if_pos hd]
        constructor
        · rintro ⟨r, hr⟩
          exact Except.noConfusion hr
        · rintro (h | h | h | h | ⟨d2, h1, h2, h3⟩)
          · exact absurd h hm.1
          · exact absurd h hm.2.1
          · exact absurd h hm.2.2
          · exact Option.noConfusion h
          · have : d = d2 := Option.some.inj h1
            subst this
            rcases hd with hd | hd
            · exact absurd h2 (not_le.mpr hd)
            · exact absurd h3 (not_le.mpr hd)
      · rw [if_neg hd]
        refine ⟨fun _ => ?_, fun _ => ⟨some d, rfl⟩⟩
        have h1 : 0 ≤ d := not_lt.mp (fun h => hd (Or.inl h))
        have h2 : d ≤ 1 := not_lt.mp (fun h => hd (Or.inr h))
        exact Or.inr (Or.inr (Or.inr (Or.inr ⟨d, rfl, h1, h2⟩)))
  · rw [if_neg hm]
    refine ⟨fun _ => ?_, fun _ => ⟨none, rfl⟩⟩
    by_contra hcon
    apply hm
    refine ⟨fun h => hcon (Or.inl h), fun h => hcon (Or.inr (Or.inl h)),
      fun h => hcon (Or.inr (Or.inr (Or.inl h)))⟩

/-- A line is accepted by `read_metafile_list_line` exactly when it has 2 tokens, or 4
tokens of which the third and the fourth are accepted prevalence tokens. -/
theorem read_metafile_list_line_ok (tx : TextRoutines) (line : List String) :
    (∃ r, read_metafile_list_line tx line = .ok r) ↔
      (line.length = 2 ∨
        (line.length = 4 ∧
          (∃ r, read_metafile_list_prev tx (line.getD 2 "") = .ok r) ∧
          (∃ r, read_metafile_list_prev tx (line.getD 3 "") = .ok r))) := by
  unfold read_metafile_list_line
  by_cases h1 : line.length ≠ 2 ∧ line.length ≠ 4
  · rw [if_pos h1]
    constructor
    · rintro ⟨r, hr⟩
      exact Except.noConfusion hr
    · rintro (h | ⟨h, _⟩)
      · exact absurd h h1.1
      · exact absurd h h1.2
  · rw [if_neg h1]
    by_cases h4 : line.length = 4
    · rw [if_pos h4]
      cases hp1 : read_metafile_list_prev tx (line.getD 2 "") with
      | error e =>
        simp only []
        constructor
        · rintro ⟨r, hr⟩
          exact Except.noConfusion hr
        · rintro (h | ⟨_, ⟨r, hr⟩, _⟩)
          · omega
          · exact Except.noConfusion hr
      | ok d1 =>
        simp only []
        cases hp2 : read_metafile_list_prev tx (line.getD 3 "") with
        | error e =>
          simp only []
          constructor
          · rintro ⟨r, hr⟩
            exact Except.noConfusion hr
          · rintro (h | ⟨_, _, ⟨r, hr⟩⟩)
            · omega
            · exact Except.noConfusion hr
        | ok d2 =>
          simp only []
          exact ⟨fun _ => Or.inr ⟨h4, ⟨d1, rfl⟩, ⟨d2, rfl⟩⟩, fun _ => ⟨_, rfl⟩⟩
    · rw [if_neg h4]
      have h2 : line.length = 2 := by
        by_contra hc
        exact h1 ⟨hc, h4⟩
      exact ⟨fun _ => Or.inl h2, fun _ => ⟨_, rfl⟩⟩

/-- The loop of `read_metafile_list` accepts exactly when every line is accepted. -/
theorem read_metafile_list_loop_ok (tx : TextRoutines) (lines : List (List String)) :
    ∀ ml, (∃ r, read_metafile_list_loop tx lines ml = .ok r) ↔
      ∀ line ∈ lines, ∃ r, read_metafile_list_line tx line = .ok r := by
  induction lines with
  | nil =>
    intro ml
    simp [read_metafile_list_loop]
  | cons line rest ih =>
    intro ml
    unfold read_metafile_list_loop
    cases hl : read_metafile_list_line tx line with
    | error e =>
      simp only []
      constructor
      · rintro ⟨r, hr⟩
        exact Except.noConfusion hr
      · intro h
        obtain ⟨r, hr⟩ := h line (List.mem_cons_self _ _)
        rw [hl] at hr
        exact Except.noConfusion hr
    | ok r0 =>
      simp only []
      rw [ih]
      constructor
      · intro h l hlmem
        rcases List.mem_cons.mp hlmem with e | e
        · rw [e]
          exact ⟨r0, hl⟩
        · exact h l e
      · intro h l hlmem
        exact h l (List.mem_cons_of_mem _ hlmem)

/-- C26 as the code has it: `read_metafile_list` accepts a list exactly when its first
line (no token at all for an empty file) and every further line have 2 or 4 tokens and,
on a line of 4 tokens, each prevalence token in upper case is a missing code (`NA`, `NAN`,
`.`) or is converted by `atof` to NaN or to a value in `[0, 1]`; a missing code gives a
missing prevalence. -/
theorem C26_read_metafile_list_accepts (tx : TextRoutines) (lines : List (List String)) :
    ((∃ ml, read_metafile_list tx (some lines) = .ok ml) ↔
      ∀ line ∈ lines.headD [] :: lines.drop 1,
        line.length = 2 ∨
        (line.length = 4 ∧
          ∀ token ∈ [line.getD 2 "", line.getD 3 ""],
            tx.to_upper token = "NA" ∨ tx.to_upper token = "NAN" ∨ tx.to_upper token = "." ∨
            tx.atof (tx.to_upper token) = none ∨
            ∃ d, tx.atof (tx.to_upper token) = some d ∧ 0 ≤ d ∧ d ≤ 1)) ∧
    (∀ token, (tx.to_upper token = "NA" ∨ tx.to_upper token = "NAN" ∨ tx.to_upper token = ".") →
      read_metafile_list_prev tx token = .ok none) := by
  constructor
  · have hline : ∀ line : List String,
        (∃ r, read_metafile_list_line tx line = .ok r) ↔
        (line.length = 2 ∨
          (line.length = 4 ∧
            ∀ token ∈ [line.getD 2 "", line.getD 3 ""],
              tx.to_upper token = "NA" ∨ tx.to_upper token = "NAN" ∨
              tx.to_upper token = "." ∨
              tx.atof (tx.to_upper token) = none ∨
              ∃ d, tx.atof (tx.to_upper token) = some d ∧ 0 ≤ d ∧ d ≤ 1)) := by
      intro line
      rw [read_metafile_list_line_ok, read_metafile_list_prev_ok, read_metafile_list_prev_ok]
      simp only [List.mem_cons, List.mem_singleton, List.not_mem_nil, or_false,
        forall_eq_or_imp, forall_eq]
    unfold read_metafile_list
    simp only []
    cases hl : read_metafile_list_line tx (lines.headD []) with
    | error e =>
      simp only []
      constructor
      · rintro ⟨r, hr⟩
        exact Except.noConfusion hr
      · intro h
        obtain ⟨r, hr⟩ := (hline _).mpr (h _ (List.mem_cons_self _ _))
        rw [hl] at hr
        exact Except.noConfusion hr
    | ok r0 =>
      simp only []
      rw [read_metafile_list_loop_ok]
      constructor
      · intro h l hlmem
        rcases List.mem_cons.mp hlmem with e | e
        · rw [e]
          exact (hline _).mp ⟨r0, hl⟩
        · exact (hline _).mp (h l e)
      · intro h l hlmem
        exact (hline _).mpr (h l (List.mem_cons_of_mem _ hlmem))
  · intro token h
    unfold read_metafile_list_prev
    simp only []
    have : ¬ (tx.to_upper token ≠ "NA" ∧ tx.to_upper token ≠ "NAN" ∧ tx.to_upper token ≠ ".") := by
      rintro ⟨h1, h2, h3⟩
      rcases h with h | h | h
      · exact h1 h
      · exact h2 h
      · exact h3 h
    rw [if_neg this]

end Gcta
